import Mathlib

/-! # OgmaNeo2: kernel dispatch, receptive-field matrices, sparse coder and predictor

A shallow embedding of `source/ogmaneo/Helpers.cpp`, `Predictor.cpp` and
`SparseCoder.cpp`.

Conventions of the embedding.

* C++ `int` is `Int`; the arithmetic is the mathematical one, so every result
  is about runs in which no `int` operation overflows.  `/` on `int` is
  truncating division, `Int.tdiv`.
* `std::vector<T>` is `List T`.  `v[i]` with `i` outside the vector is undefined
  in C++; here a read gives a default value and a write is dropped.
* `float` is an arbitrary type `F` with a linear order (the comparisons made by
  the code) and a record `FloatOps F` of otherwise unconstrained arithmetic
  operations, so nothing depends on how floating point rounds.
* `std::mt19937` is an arbitrary type `R` with a record `RngOps R` giving the
  seed distribution draw and the construction of a generator from a seed.
* A `for` loop is a left fold over the list of values taken by its counter.
* The thread pool runs the submitted work items one after the other, in
  submission order.
-/

namespace ogmaneo

/-! ## Definitions -/

/-- Two-dimensional integer vector (`Int2`). -/
structure Int2 where
  x : Int
  y : Int
deriving DecidableEq, Repr

/-- Three-dimensional integer vector (`Int3`). -/
structure Int3 where
  x : Int
  y : Int
  z : Int
deriving DecidableEq, Repr

/-- Two-dimensional vector of floats (`Float2`). -/
structure Float2 (F : Type) where
  x : F
  y : F

/-- Buffer of integers (`IntBuffer`, a `std::vector<int>`). -/
abbrev IntBuffer := List Int

/-- Buffer of floats (`FloatBuffer`, a `std::vector<float>`). -/
abbrev FloatBuffer (F : Type) := List F

/-- Values taken by `i` in `for (int i = lo; i < hi; i++)`. -/
def intRange (lo hi : Int) : List Int :=
  (List.range (hi - lo).toNat).map (fun (k : Nat) => lo + (k : Int))

/-- Read `v[i]` for an `int` index (default `d` outside the vector). -/
def getI {α : Type} (v : List α) (i : Int) (d : α) : α :=
  if 0 ≤ i then v.getD i.toNat d else d

/-- Write `v[i] = a` for an `int` index (dropped outside the vector). -/
def setI {α : Type} (v : List α) (i : Int) (a : α) : List α :=
  if 0 ≤ i then v.set i.toNat a else v

/-- Modelled from the spec: `address2` is declared in `Helpers.h`, which is not
among the sources.  The spec makes it the bijection between 2D grid coordinates
and flat indices that goes with `address3` (whose depth axis varies fastest):
the index of the column `(x, y)` in a grid of `dims.x` by `dims.y` columns. -/
def address2 (pos dims : Int2) : Int :=
  pos.y + pos.x * dims.y

/-- Modelled from the spec: `address3` is declared in `Helpers.h`, which is not
among the sources.  The spec makes it the bijection between 3D grid coordinates
and flat indices in which the depth axis `z` varies fastest; the cells of one
column are contiguous and columns are numbered as by `address2`. -/
def address3 (pos dims : Int3) : Int :=
  pos.z + pos.y * dims.z + pos.x * dims.z * dims.y

/-- What the code uses of a `std::mt19937`: a draw of
`std::uniform_int_distribution<int> seedDist(0, 999999)` from a generator,
returning the seed and the advanced generator, and the constructor
`std::mt19937 subRng(seed)`. -/
structure RngOps (R : Type) where
  seedDist : R → Int × R
  mt19937 : Int → R

/-- The generator after `n` draws of `seedDist`. -/
def drawN {R : Type} (M : RngOps R) : Nat → R → R
  | 0, rng => rng
  | n + 1, rng => drawN M n (M.seedDist rng).2

/-- The seed returned by the draw number `k` (counting from 0) from `rng`. -/
def nthSeed {R : Type} (M : RngOps R) (rng : R) (k : Nat) : Int :=
  (M.seedDist (drawN M k rng)).1

/-- Work item of `runKernel1`: the lambda pushed to the pool. -/
def runItem1 {R σ : Type} (M : RngOps R) (func : Int → R → σ → σ × R)
    (seed pos batchSize : Int) (s : σ) : σ :=
  let subRng := M.mt19937 seed
  ((intRange 0 batchSize).foldl
    (fun (st : σ × R) x => func (pos + x) st.2 st.1) (s, subRng)).1

/-- `runKernel1` (Helpers.cpp 15-44): the state after all work items have run and
the parent generator after the seed draws. -/
def runKernel1 {R σ : Type} (M : RngOps R) (func : Int → R → σ → σ × R)
    (size : Int) (rng : R) (batchSize : Int) (s : σ) : σ × R :=
  let batches := (size + batchSize - 1).tdiv batchSize
  (intRange 0 batches).foldl
    (fun (acc : σ × R) x =>
      let itemBatchSize := min (size - x * batchSize) batchSize
      let d := M.seedDist acc.2
      (runItem1 M func d.1 (x * batchSize) itemBatchSize acc.1, d.2))
    (s, rng)

/-- Work item of `runKernel2`: the lambda pushed to the pool. -/
def runItem2 {R σ : Type} (M : RngOps R) (func : Int2 → R → σ → σ × R)
    (seed : Int) (pos batchSize : Int2) (s : σ) : σ :=
  let subRng := M.mt19937 seed
  ((intRange 0 batchSize.x).foldl
    (fun (st : σ × R) x =>
      (intRange 0 batchSize.y).foldl
        (fun (st : σ × R) y => func ⟨pos.x + x, pos.y + y⟩ st.2 st.1) st)
    (s, subRng)).1

/-- `runKernel2` (Helpers.cpp 46-81). -/
def runKernel2 {R σ : Type} (M : RngOps R) (func : Int2 → R → σ → σ × R)
    (size : Int2) (rng : R) (batchSize : Int2) (s : σ) : σ × R :=
  let batches : Int2 :=
    ⟨(size.x + batchSize.x - 1).tdiv batchSize.x, (size.y + batchSize.y - 1).tdiv batchSize.y⟩
  (intRange 0 batches.x).foldl
    (fun (acc : σ × R) x =>
      (intRange 0 batches.y).foldl
        (fun (acc : σ × R) y =>
          let itemBatchSize : Int2 :=
            ⟨min (size.x - x * batchSize.x) batchSize.x, min (size.y - y * batchSize.y) batchSize.y⟩
          let d := M.seedDist acc.2
          (runItem2 M func d.1 ⟨x * batchSize.x, y * batchSize.y⟩ itemBatchSize acc.1, d.2))
        acc)
    (s, rng)

/-- Work item of `runKernel3`: the lambda pushed to the pool. -/
def runItem3 {R σ : Type} (M : RngOps R) (func : Int3 → R → σ → σ × R)
    (seed : Int) (pos batchSize : Int3) (s : σ) : σ :=
  let subRng := M.mt19937 seed
  ((intRange 0 batchSize.x).foldl
    (fun (st : σ × R) x =>
      (intRange 0 batchSize.y).foldl
        (fun (st : σ × R) y =>
          (intRange 0 batchSize.z).foldl
            (fun (st : σ × R) z => func ⟨pos.x + x, pos.y + y, pos.z + z⟩ st.2 st.1) st)
        st)
    (s, subRng)).1

/-- `runKernel3` (Helpers.cpp 83-122). -/
def runKernel3 {R σ : Type} (M : RngOps R) (func : Int3 → R → σ → σ × R)
    (size : Int3) (rng : R) (batchSize : Int3) (s : σ) : σ × R :=
  let batches : Int3 :=
    ⟨(size.x + batchSize.x - 1).tdiv batchSize.x, (size.y + batchSize.y - 1).tdiv batchSize.y,
     (size.z + batchSize.z - 1).tdiv batchSize.z⟩
  (intRange 0 batches.x).foldl
    (fun (acc : σ × R) x =>
      (intRange 0 batches.y).foldl
        (fun (acc : σ × R) y =>
          (intRange 0 batches.z).foldl
            (fun (acc : σ × R) z =>
              let itemBatchSize : Int3 :=
                ⟨min (size.x - x * batchSize.x) batchSize.x,
                 min (size.y - y * batchSize.y) batchSize.y,
                 min (size.z - z * batchSize.z) batchSize.z⟩
              let d := M.seedDist acc.2
              (runItem3 M func d.1 ⟨x * batchSize.x, y * batchSize.y, z * batchSize.z⟩
                itemBatchSize acc.1, d.2))
            acc)
        acc)
    (s, rng)

/-- Ceiling division as the kernels compute it (`// Ceil divide`):
`(size + batchSize - 1) / batchSize`. -/
def ceilDiv (size batchSize : Int) : Int :=
  (size + batchSize - 1).tdiv batchSize

/-- Coordinates visited, in order, by a work item of `runKernel1`. -/
def itemCoords1 (pos batchSize : Int) : List Int :=
  (intRange 0 batchSize).map (fun x => pos + x)

/-- Coordinates visited, in order, by a work item of `runKernel2`. -/
def itemCoords2 (pos batchSize : Int2) : List Int2 :=
  (intRange 0 batchSize.x).flatMap fun x =>
    (intRange 0 batchSize.y).map fun y => (⟨pos.x + x, pos.y + y⟩ : Int2)

/-- Coordinates visited, in order, by a work item of `runKernel3`. -/
def itemCoords3 (pos batchSize : Int3) : List Int3 :=
  (intRange 0 batchSize.x).flatMap fun x =>
    (intRange 0 batchSize.y).flatMap fun y =>
      (intRange 0 batchSize.z).map fun z => (⟨pos.x + x, pos.y + y, pos.z + z⟩ : Int3)

/-- Coordinates in the order in which `runKernel1` submits them. -/
def batchOrder1 (size batchSize : Int) : List Int :=
  (intRange 0 (ceilDiv size batchSize)).flatMap fun x =>
    itemCoords1 (x * batchSize) (min (size - x * batchSize) batchSize)

/-- Coordinates in the order in which `runKernel2` submits them. -/
def batchOrder2 (size batchSize : Int2) : List Int2 :=
  (intRange 0 (ceilDiv size.x batchSize.x)).flatMap fun x =>
    (intRange 0 (ceilDiv size.y batchSize.y)).flatMap fun y =>
      itemCoords2 ⟨x * batchSize.x, y * batchSize.y⟩
        ⟨min (size.x - x * batchSize.x) batchSize.x, min (size.y - y * batchSize.y) batchSize.y⟩

/-- Coordinates in the order in which `runKernel3` submits them. -/
def batchOrder3 (size batchSize : Int3) : List Int3 :=
  (intRange 0 (ceilDiv size.x batchSize.x)).flatMap fun x =>
    (intRange 0 (ceilDiv size.y batchSize.y)).flatMap fun y =>
      (intRange 0 (ceilDiv size.z batchSize.z)).flatMap fun z =>
        itemCoords3 ⟨x * batchSize.x, y * batchSize.y, z * batchSize.z⟩
          ⟨min (size.x - x * batchSize.x) batchSize.x,
           min (size.y - y * batchSize.y) batchSize.y,
           min (size.z - z * batchSize.z) batchSize.z⟩

/-- Coordinates of a 2D domain in the order of the plain nested loops
`for x < size.x, for y < size.y`. -/
def domain2 (size : Int2) : List Int2 :=
  (intRange 0 size.x).flatMap fun x => (intRange 0 size.y).map fun y => (⟨x, y⟩ : Int2)

/-- Coordinates of a 3D domain in the order of the plain nested loops. -/
def domain3 (size : Int3) : List Int3 :=
  (intRange 0 size.x).flatMap fun x =>
    (intRange 0 size.y).flatMap fun y => (intRange 0 size.z).map fun z => (⟨x, y, z⟩ : Int3)

/-- What the code uses of `float` arithmetic.  `ofInt` is the conversion of an
`int` (`static_cast<float>`, and the literals `0.0f`, `1.0f`, `-1.0f`,
`-999999.0f`); the operations are not constrained. -/
structure FloatOps (F : Type) where
  ofInt : Int → F
  add : F → F → F
  sub : F → F → F
  mul : F → F → F
  div : F → F → F
  tanh : F → F

/-- The sparse matrix record (`SparseMatrix`), with the fields in the order in
which `writeSMToStream` emits them. -/
structure SparseMatrix (F : Type) where
  rows : Int
  columns : Int
  nonZeroValues : List F
  nonZeroValueIndices : List Int
  rowRanges : List Int
  columnIndices : List Int
  columnRanges : List Int
  rowIndices : List Int

/-- `v.resize(n)` on a `std::vector<int>`: truncate, or pad with zeros. -/
def resize (v : List Int) (n : Nat) : List Int :=
  v.take n ++ List.replicate (n - v.length) 0

/-- One pass of the body of the innermost loop of `initSMLocalRF` (Helpers.cpp
292-299): push a zero weight and the column index, count the entry. -/
def pushEntry {F : Type} (ops : FloatOps F) (inIndex : Int) (acc : SparseMatrix F × Int) :
    SparseMatrix F × Int :=
  ({ acc.1 with
      nonZeroValues := acc.1.nonZeroValues ++ [ops.ofInt 0]
      columnIndices := acc.1.columnIndices ++ [inIndex] },
   acc.2 + 1)

/-- The three loops over `ix`, `iy`, `iz` of `initSMLocalRF` (Helpers.cpp 287-301),
from `nonZeroInRow = 0`: the matrix with the entries of one row pushed, and
`nonZeroInRow`. -/
def fillRow {F : Type} (ops : FloatOps F) (inSize : Int3) (iterLowerBound iterUpperBound : Int2)
    (mat : SparseMatrix F) : SparseMatrix F × Int :=
  (intRange iterLowerBound.x (iterUpperBound.x + 1)).foldl
    (fun acc ix =>
      (intRange iterLowerBound.y (iterUpperBound.y + 1)).foldl
        (fun acc iy =>
          (intRange 0 inSize.z).foldl
            (fun acc iz => pushEntry ops (address3 ⟨ix, iy, iz⟩ inSize) acc) acc)
        acc)
    (mat, 0)

/-- The projection constant `outToIn` of `initSMLocalRF` (Helpers.cpp 257-258). -/
def outToIn {F : Type} (ops : FloatOps F) (inSize outSize : Int3) : Float2 F :=
  ⟨ops.div (ops.ofInt inSize.x) (ops.ofInt outSize.x),
   ops.div (ops.ofInt inSize.y) (ops.ofInt outSize.y)⟩

/-- `iterLowerBound` of `initSMLocalRF` (Helpers.cpp 278-281) for the window
centre `visiblePositionCenter`. -/
def iterLowerBound (visiblePositionCenter : Int2) (radius : Int) : Int2 :=
  let fieldLowerBound : Int2 :=
    ⟨visiblePositionCenter.x - radius, visiblePositionCenter.y - radius⟩
  ⟨max 0 fieldLowerBound.x, max 0 fieldLowerBound.y⟩

/-- `iterUpperBound` of `initSMLocalRF` (Helpers.cpp 282). -/
def iterUpperBound (inSize : Int3) (visiblePositionCenter : Int2) (radius : Int) : Int2 :=
  ⟨min (inSize.x - 1) (visiblePositionCenter.x + radius),
   min (inSize.y - 1) (visiblePositionCenter.y + radius)⟩

/-- `initSMLocalRF` (Helpers.cpp 248-325).  `project` is the function of that
name declared in `Helpers.h`, which is not among the sources; it is a parameter.
The calls of `reserve` and `shrink_to_fit` change capacities only and are left
out, and with them `diam`, `numWeightsPerOutput` and `weightsSize`. -/
def initSMLocalRF {F : Type} (ops : FloatOps F) (project : Int2 → Float2 F → Int2)
    (inSize outSize : Int3) (radius : Int) (mat : SparseMatrix F) : SparseMatrix F :=
  let numOut := outSize.x * outSize.y * outSize.z
  let mat : SparseMatrix F := { mat with rowRanges := resize mat.rowRanges (numOut + 1).toNat }
  let mat : SparseMatrix F :=
    (intRange 0 outSize.x).foldl
      (fun mat ox =>
        (intRange 0 outSize.y).foldl
          (fun mat oy =>
            let visiblePositionCenter := project ⟨ox, oy⟩ (outToIn ops inSize outSize)
            (intRange 0 outSize.z).foldl
              (fun mat oz =>
                let outPos : Int3 := ⟨ox, oy, oz⟩
                let filled := fillRow ops inSize (iterLowerBound visiblePositionCenter radius)
                  (iterUpperBound inSize visiblePositionCenter radius) mat
                { filled.1 with
                    rowRanges := setI filled.1.rowRanges (address3 outPos outSize) filled.2 })
              mat)
          mat)
      mat
  let summed : SparseMatrix F × Int :=
    (intRange 0 numOut).foldl
      (fun (acc : SparseMatrix F × Int) i =>
        let temp := getI acc.1.rowRanges i 0
        ({ acc.1 with rowRanges := setI acc.1.rowRanges i acc.2 }, acc.2 + temp))
      (mat, 0)
  { summed.1 with
      rowRanges := setI summed.1.rowRanges numOut summed.2
      rows := numOut
      columns := inSize.x * inSize.y * inSize.z }

/-- The flat indices of the input cells `(ix, iy, iz)` with
`lo.x ≤ ix ≤ hi.x`, `lo.y ≤ iy ≤ hi.y` and `0 ≤ iz < inSize.z`, in the order
x, y, z. -/
def windowCells (inSize : Int3) (lo hi : Int2) : List Int :=
  (intRange lo.x (hi.x + 1)).flatMap fun ix =>
    (intRange lo.y (hi.y + 1)).flatMap fun iy =>
      (intRange 0 inSize.z).map fun iz => address3 ⟨ix, iy, iz⟩ inSize

/-- The column indices that `initSMLocalRF` pushes for the output cell `p`. -/
def rowCells {F : Type} (ops : FloatOps F) (project : Int2 → Float2 F → Int2)
    (inSize outSize : Int3) (radius : Int) (p : Int3) : List Int :=
  windowCells inSize
    (iterLowerBound (project ⟨p.x, p.y⟩ (outToIn ops inSize outSize)) radius)
    (iterUpperBound inSize (project ⟨p.x, p.y⟩ (outToIn ops inSize outSize)) radius)

/-- Running sums `[o, o + c0, o + c0 + c1, ...]` of a list of counts. -/
def prefixSums (o : Int) : List Int → List Int
  | [] => [o]
  | c :: cs => o :: prefixSums (o + c) cs

/-- The entries `columnIndices[j]` for `j` from `rowRanges[row]` up to, not
including, `rowRanges[row + 1]`: the column indices stored in a row. -/
def rowSegment {F : Type} (mat : SparseMatrix F) (row : Int) : List Int :=
  (intRange (getI mat.rowRanges row 0) (getI mat.rowRanges (row + 1) 0)).map
    (fun j => getI mat.columnIndices j 0)

/-- The matrix of a default-constructed `SparseMatrix`: every vector empty. -/
def SparseMatrix.empty (F : Type) : SparseMatrix F :=
  ⟨0, 0, [], [], [], [], [], []⟩

/-- Integer arithmetic in the place of `float`, with the identity in the place
of `tanh`; used for concrete evaluation only. -/
def intOps : FloatOps Int where
  ofInt := fun i => i
  add := fun a b => a + b
  sub := fun a b => a - b
  mul := fun a b => a * b
  div := fun a b => a.tdiv b
  tanh := fun a => a

/-- A projection of output columns onto input columns that scales the
coordinates; used for concrete evaluation only. -/
def scaleProject (pos : Int2) (toScalars : Float2 Int) : Int2 :=
  ⟨pos.x * toScalars.x, pos.y * toScalars.y⟩

/-! ### Sparse matrix arithmetic on one-hot vectors -/

/-- Modelled from the spec: `SparseMatrix.cpp` is not among the sources.  The
column `columnIndex` "falls in the active (one-hot) slot" of its input group of
width `oneHotSize`: the group is `columnIndex / oneHotSize` and its active slot is
the entry of the code buffer for that group. -/
def inActiveSlot (columnIndex : Int) (nonZeroIndices : IntBuffer) (oneHotSize : Int) : Bool :=
  columnIndex
    == columnIndex.tdiv oneHotSize * oneHotSize
        + getI nonZeroIndices (columnIndex.tdiv oneHotSize) 0

/-- Modelled from the spec: `SparseMatrix.cpp` is not among the sources.  The
positions, in the value array, of "the nonzero entries in `row`'s row whose
column falls in the active (one-hot) slot of each input group". -/
def SparseMatrix.selected {F : Type} (m : SparseMatrix F) (nonZeroIndices : IntBuffer)
    (row oneHotSize : Int) : List Int :=
  (intRange (getI m.rowRanges row 0) (getI m.rowRanges (row + 1) 0)).filter
    (fun jj => inActiveSlot (getI m.columnIndices jj 0) nonZeroIndices oneHotSize)

/-- Modelled from the spec: `SparseMatrix.cpp` is not among the sources.  The
positions, in the value array, of the entries of `column` in the transpose view
(which "indexes the same value array" through `nonZeroValueIndices`) whose row
falls in the active slot of its group, "selecting by output-coordinate one-hot
membership". -/
def SparseMatrix.selectedT {F : Type} (m : SparseMatrix F) (nonZeroIndices : IntBuffer)
    (column oneHotSize : Int) : List Int :=
  ((intRange (getI m.columnRanges column 0) (getI m.columnRanges (column + 1) 0)).filter
    (fun jj => inActiveSlot (getI m.rowIndices jj 0) nonZeroIndices oneHotSize)).map
    (fun jj => getI m.nonZeroValueIndices jj 0)

/-- The sum, from `0.0f` and in list order, of the values at the positions `js`. -/
def sumAt {F : Type} (ops : FloatOps F) (values : List F) (js : List Int) : F :=
  js.foldl (fun sum j => ops.add sum (getI values j (ops.ofInt 0))) (ops.ofInt 0)

/-- The values with `delta` added at each of the positions `js`. -/
def bumpAt {F : Type} (ops : FloatOps F) (values : List F) (js : List Int) (delta : F) : List F :=
  js.foldl (fun v j => setI v j (ops.add (getI v j (ops.ofInt 0)) delta)) values

/-- Modelled from the spec: `SparseMatrix.cpp` is not among the sources.
`multiplyOHVs(nonZeroIndices, row, oneHotSize)` "sums the weights of the nonzero
entries in `row`'s row whose column falls in the active (one-hot) slot of each
input group of width `oneHotSize`". -/
def SparseMatrix.multiplyOHVs {F : Type} (ops : FloatOps F) (m : SparseMatrix F)
    (nonZeroIndices : IntBuffer) (row oneHotSize : Int) : F :=
  sumAt ops m.nonZeroValues (m.selected nonZeroIndices row oneHotSize)

/-- Modelled from the spec: `SparseMatrix.cpp` is not among the sources.  The
weighted `multiplyOHVs(nonZeroIndices, nonZeroScalars, row, oneHotSize)`: "as
above but each selected weight is additionally scaled by a per-input-column
scalar". -/
def SparseMatrix.multiplyOHVsScaled {F : Type} (ops : FloatOps F) (m : SparseMatrix F)
    (nonZeroIndices : IntBuffer) (nonZeroScalars : FloatBuffer F) (row oneHotSize : Int) : F :=
  (m.selected nonZeroIndices row oneHotSize).foldl
    (fun sum j =>
      ops.add sum
        (ops.mul (getI m.nonZeroValues j (ops.ofInt 0))
          (getI nonZeroScalars ((getI m.columnIndices j 0).tdiv oneHotSize) (ops.ofInt 0))))
    (ops.ofInt 0)

/-- Modelled from the spec: `SparseMatrix.cpp` is not among the sources.
`deltaOHVs(nonZeroIndices, delta, row, oneHotSize)` "adds `delta` to each weight
selected the same way multiply would select it". -/
def SparseMatrix.deltaOHVs {F : Type} (ops : FloatOps F) (m : SparseMatrix F)
    (nonZeroIndices : IntBuffer) (delta : F) (row oneHotSize : Int) : SparseMatrix F :=
  { m with
      nonZeroValues := bumpAt ops m.nonZeroValues (m.selected nonZeroIndices row oneHotSize) delta }

/-- Modelled from the spec: `SparseMatrix.cpp` is not among the sources.
`multiplyOHVsT`, the transpose variant of `multiplyOHVs`, "against the
column-major view". -/
def SparseMatrix.multiplyOHVsT {F : Type} (ops : FloatOps F) (m : SparseMatrix F)
    (nonZeroIndices : IntBuffer) (column oneHotSize : Int) : F :=
  sumAt ops m.nonZeroValues (m.selectedT nonZeroIndices column oneHotSize)

/-- Modelled from the spec: `SparseMatrix.cpp` is not among the sources.
`deltaOHVsT`, the transpose variant of `deltaOHVs`. -/
def SparseMatrix.deltaOHVsT {F : Type} (ops : FloatOps F) (m : SparseMatrix F)
    (nonZeroIndices : IntBuffer) (delta : F) (column oneHotSize : Int) : SparseMatrix F :=
  { m with
      nonZeroValues :=
        bumpAt ops m.nonZeroValues (m.selectedT nonZeroIndices column oneHotSize) delta }

/-- Modelled from the spec: `SparseMatrix.cpp` is not among the sources.
`count(row)`: the "number of nonzero entries touching a row". -/
def SparseMatrix.count {F : Type} (m : SparseMatrix F) (row : Int) : Int :=
  getI m.rowRanges (row + 1) 0 - getI m.rowRanges row 0

/-- Modelled from the spec: `SparseMatrix.cpp` is not among the sources.
`countT(column)`: the "number of nonzero entries touching a column". -/
def SparseMatrix.countT {F : Type} (m : SparseMatrix F) (column : Int) : Int :=
  getI m.columnRanges (column + 1) 0 - getI m.columnRanges column 0

/-! ### Compute system and kernel launches -/

/-- The members of `ComputeSystem` that the sources use (`ComputeSystem.h` is not
among them): the parent generator and the batch sizes.  The thread pool is the
sequential execution of the submitted items. -/
structure ComputeSystem (R : Type) where
  rng : R
  batchSize1 : Int
  batchSize2 : Int2

/-- A launch of a kernel over a 1D domain as the sources write it: with
`KERNEL_NO_THREAD` (`noThread = true`) the plain loop handing `cs.rng` to every
invocation, otherwise `runKernel1` with `cs.rng` and `cs.batchSize1`.  The
kernels of the sources do not touch their generator, so a kernel returns the
state only. -/
def launch1 {R σ : Type} (M : RngOps R) (noThread : Bool) (kernel : Int → R → σ → σ)
    (size : Int) (cs : ComputeSystem R) (s : σ) : σ × ComputeSystem R :=
  if noThread then
    ((intRange 0 size).foldl (fun s x => kernel x cs.rng s) s, cs)
  else
    let r := runKernel1 M (fun pos rng s => (kernel pos rng s, rng)) size cs.rng cs.batchSize1 s
    (r.1, { cs with rng := r.2 })

/-- A launch of a kernel over a 2D domain as the sources write it: with
`KERNEL_NO_THREAD` the plain nested loops over `x` and `y` handing `cs.rng` to
every invocation, otherwise `runKernel2` with `cs.rng` and `cs.batchSize2`. -/
def launch2 {R σ : Type} (M : RngOps R) (noThread : Bool) (kernel : Int2 → R → σ → σ)
    (size : Int2) (cs : ComputeSystem R) (s : σ) : σ × ComputeSystem R :=
  if noThread then
    ((intRange 0 size.x).foldl
      (fun s x => (intRange 0 size.y).foldl (fun s y => kernel ⟨x, y⟩ cs.rng s) s) s, cs)
  else
    let r := runKernel2 M (fun pos rng s => (kernel pos rng s, rng)) size cs.rng cs.batchSize2 s
    (r.1, { cs with rng := r.2 })

/-- `copyInt` (Helpers.cpp 142-149) on the destination buffer. -/
def copyInt {R : Type} (pos : Int) (_rng : R) (src : IntBuffer) (dst : IntBuffer) : IntBuffer :=
  setI dst pos (getI src pos 0)

/-- Visible layer descriptor (`VisibleLayerDesc`): size and radius. -/
structure VisibleLayerDesc where
  size : Int3
  radius : Int

/-- The descriptor read at an index outside `visibleLayerDescs`. -/
def VisibleLayerDesc.none : VisibleLayerDesc := ⟨⟨0, 0, 0⟩, 0⟩

/-- One pass of the winner loop of the `forward` kernels: `activation` replaces
the running maximum when it is strictly greater. -/
def maxStep {F : Type} [LinearOrder F] (acc : Int × F) (hc : Int) (activation : F) : Int × F :=
  if activation > acc.2 then (hc, activation) else acc

/-! ### Predictor -/

/-- Visible layer of a predictor: its weights and the previous input code. -/
structure Predictor.VisibleLayer (F : Type) where
  weights : SparseMatrix F
  inputCsPrev : IntBuffer

/-- The layer read at an index outside `visibleLayers`. -/
def Predictor.VisibleLayer.none (F : Type) : Predictor.VisibleLayer F :=
  ⟨SparseMatrix.empty F, []⟩

/-- The state of a `Predictor` (the members used by `Predictor.cpp`). -/
structure Predictor (F : Type) where
  hiddenSize : Int3
  hiddenCs : IntBuffer
  visibleLayers : List (Predictor.VisibleLayer F)
  visibleLayerDescs : List VisibleLayerDesc
  alpha : F

/-- The value of `sum` in `Predictor::forward` for the hidden cell
`hiddenIndex` (Predictor.cpp 24-32). -/
def Predictor.activation {F : Type} (ops : FloatOps F) (p : Predictor F) (inputCs : List IntBuffer)
    (hiddenIndex : Int) : F :=
  (List.range p.visibleLayers.length).foldl
    (fun sum vli =>
      let vl := p.visibleLayers.getD vli (Predictor.VisibleLayer.none F)
      let vld := p.visibleLayerDescs.getD vli VisibleLayerDesc.none
      ops.add sum (vl.weights.multiplyOHVs ops (inputCs.getD vli []) hiddenIndex vld.size.z))
    (ops.ofInt 0)

/-- The loop of `Predictor::forward` (Predictor.cpp 18-38): `maxIndex` and
`maxActivation` at its end. -/
def Predictor.forwardMax {F : Type} [LinearOrder F] (ops : FloatOps F) (pos : Int2)
    (inputCs : List IntBuffer) (p : Predictor F) : Int × F :=
  (intRange 0 p.hiddenSize.z).foldl
    (fun acc hc =>
      let hiddenIndex := address3 ⟨pos.x, pos.y, hc⟩ p.hiddenSize
      maxStep acc hc (p.activation ops inputCs hiddenIndex))
    (0, ops.ofInt (-999999))

/-- `Predictor::forward` (Predictor.cpp 13-41). -/
def Predictor.forward {F R : Type} [LinearOrder F] (ops : FloatOps F) (pos : Int2) (_rng : R)
    (inputCs : List IntBuffer) (p : Predictor F) : Predictor F :=
  { p with
      hiddenCs := setI p.hiddenCs (address2 pos ⟨p.hiddenSize.x, p.hiddenSize.y⟩)
        (Predictor.forwardMax ops pos inputCs p).1 }

/-- The first loop over the visible layers in the kernel `Predictor::learn`
(Predictor.cpp 55-64): `sum` and `count` at its end. -/
def Predictor.learnSum {F : Type} (ops : FloatOps F) (p : Predictor F) (hiddenIndex : Int) :
    F × Int :=
  (List.range p.visibleLayers.length).foldl
    (fun (acc : F × Int) vli =>
      let vl := p.visibleLayers.getD vli (Predictor.VisibleLayer.none F)
      let vld := p.visibleLayerDescs.getD vli VisibleLayerDesc.none
      (ops.add acc.1 (vl.weights.multiplyOHVs ops vl.inputCsPrev hiddenIndex vld.size.z),
       acc.2 + (vl.weights.count hiddenIndex).tdiv vld.size.z))
    (ops.ofInt 0, 0)

/-- The second loop over the visible layers in the kernel `Predictor::learn`
(Predictor.cpp 70-75). -/
def Predictor.applyDelta {F : Type} (ops : FloatOps F) (p : Predictor F) (delta : F)
    (hiddenIndex : Int) : Predictor F :=
  { p with
      visibleLayers := p.visibleLayers.mapIdx
        (fun vli vl =>
          let vld := p.visibleLayerDescs.getD vli VisibleLayerDesc.none
          { vl with
              weights := vl.weights.deltaOHVs ops vl.inputCsPrev delta hiddenIndex vld.size.z }) }

/-- The value of `delta` in the kernel `Predictor::learn` (Predictor.cpp 66-68)
for the cell `hc` of a column with target `targetC`. -/
def Predictor.learnDelta {F : Type} (ops : FloatOps F) (p : Predictor F) (targetC hc : Int)
    (hiddenIndex : Int) : F :=
  let sc := p.learnSum ops hiddenIndex
  let sum := ops.div sc.1 (ops.ofInt (max 1 sc.2))
  ops.mul p.alpha (ops.sub (if hc = targetC then ops.ofInt 1 else ops.ofInt (-1)) (ops.tanh sum))

/-- The body of the loop over `hc` of the kernel `Predictor::learn`
(Predictor.cpp 53-75). -/
def Predictor.learnCell {F : Type} (ops : FloatOps F) (pos : Int2) (targetC hc : Int)
    (p : Predictor F) : Predictor F :=
  let hiddenIndex := address3 ⟨pos.x, pos.y, hc⟩ p.hiddenSize
  p.applyDelta ops (p.learnDelta ops targetC hc hiddenIndex) hiddenIndex

/-- The kernel `Predictor::learn(pos, rng, hiddenTargetCs)` (Predictor.cpp 43-77). -/
def Predictor.learnKernel {F R : Type} (ops : FloatOps F) (pos : Int2) (_rng : R)
    (hiddenTargetCs : IntBuffer) (p : Predictor F) : Predictor F :=
  let hiddenColumnIndex := address2 pos ⟨p.hiddenSize.x, p.hiddenSize.y⟩
  let targetC := getI hiddenTargetCs hiddenColumnIndex 0
  (intRange 0 p.hiddenSize.z).foldl (fun p hc => Predictor.learnCell ops pos targetC hc p) p

/-- `Predictor::activate` (Predictor.cpp 116-146). -/
def Predictor.activate {F R : Type} [LinearOrder F] (M : RngOps R) (ops : FloatOps F)
    (noThread : Bool) (cs : ComputeSystem R) (inputCs : List IntBuffer) (p : Predictor F) :
    Predictor F × ComputeSystem R :=
  let fwd := launch2 M noThread (fun pos rng p => Predictor.forward ops pos rng inputCs p)
    ⟨p.hiddenSize.x, p.hiddenSize.y⟩ cs p
  (List.range fwd.1.visibleLayers.length).foldl
    (fun (acc : Predictor F × ComputeSystem R) vli =>
      let vl := acc.1.visibleLayers.getD vli (Predictor.VisibleLayer.none F)
      let vld := acc.1.visibleLayerDescs.getD vli VisibleLayerDesc.none
      let numVisibleColumns := vld.size.x * vld.size.y
      let copied := launch1 M noThread (fun pos rng dst => copyInt pos rng (inputCs.getD vli []) dst)
        numVisibleColumns acc.2 vl.inputCsPrev
      ({ acc.1 with
          visibleLayers := acc.1.visibleLayers.set vli { vl with inputCsPrev := copied.1 } },
       copied.2))
    fwd

/-- `Predictor::learn(cs, hiddenTargetCs)` (Predictor.cpp 148-160). -/
def Predictor.learn {F R : Type} (M : RngOps R) (ops : FloatOps F) (noThread : Bool)
    (cs : ComputeSystem R) (hiddenTargetCs : IntBuffer) (p : Predictor F) :
    Predictor F × ComputeSystem R :=
  launch2 M noThread (fun pos rng p => Predictor.learnKernel ops pos rng hiddenTargetCs p)
    ⟨p.hiddenSize.x, p.hiddenSize.y⟩ cs p

/-! ### Sparse coder -/

/-- Visible layer of a sparse coder: its weights and the reconstruction errors. -/
structure SparseCoder.VisibleLayer (F : Type) where
  weights : SparseMatrix F
  inputErrors : FloatBuffer F

/-- The layer read at an index outside `visibleLayers`. -/
def SparseCoder.VisibleLayer.none (F : Type) : SparseCoder.VisibleLayer F :=
  ⟨SparseMatrix.empty F, []⟩

/-- The state of a `SparseCoder` (the members used by `SparseCoder.cpp`). -/
structure SparseCoder (F : Type) where
  hiddenSize : Int3
  hiddenCs : IntBuffer
  hiddenActivations : FloatBuffer F
  visibleLayers : List (SparseCoder.VisibleLayer F)
  visibleLayerDescs : List VisibleLayerDesc
  explainIters : Int
  alpha : F

/-- The value of `sum` in `SparseCoder::forward` for the hidden cell
`hiddenIndex` (SparseCoder.cpp 27-38). -/
def SparseCoder.forwardSum {F : Type} (ops : FloatOps F) (s : SparseCoder F)
    (inputCs : List IntBuffer) (it hiddenIndex : Int) : F :=
  (List.range s.visibleLayers.length).foldl
    (fun sum vli =>
      let vl := s.visibleLayers.getD vli (SparseCoder.VisibleLayer.none F)
      let vld := s.visibleLayerDescs.getD vli VisibleLayerDesc.none
      if it = 0 then
        ops.add sum (vl.weights.multiplyOHVs ops (inputCs.getD vli []) hiddenIndex vld.size.z)
      else
        ops.add sum
          (vl.weights.multiplyOHVsScaled ops (inputCs.getD vli []) vl.inputErrors hiddenIndex
            vld.size.z))
    (ops.ofInt 0)

/-- The loop of `SparseCoder::forward` (SparseCoder.cpp 21-49): the activations,
`maxIndex` and `maxActivation` at its end. -/
def SparseCoder.forwardLoop {F : Type} [LinearOrder F] (ops : FloatOps F) (pos : Int2)
    (inputCs : List IntBuffer) (it : Int) (s : SparseCoder F) : FloatBuffer F × (Int × F) :=
  (intRange 0 s.hiddenSize.z).foldl
    (fun (acc : FloatBuffer F × (Int × F)) hc =>
      let hiddenIndex := address3 ⟨pos.x, pos.y, hc⟩ s.hiddenSize
      let sum := s.forwardSum ops inputCs it hiddenIndex
      let hiddenActivations :=
        if it = 0 then setI acc.1 hiddenIndex sum
        else setI acc.1 hiddenIndex (ops.add (getI acc.1 hiddenIndex (ops.ofInt 0)) sum)
      (hiddenActivations, maxStep acc.2 hc (getI hiddenActivations hiddenIndex (ops.ofInt 0))))
    (s.hiddenActivations, (0, ops.ofInt (-999999)))

/-- `SparseCoder::forward` (SparseCoder.cpp 13-52). -/
def SparseCoder.forward {F R : Type} [LinearOrder F] (ops : FloatOps F) (pos : Int2) (_rng : R)
    (inputCs : List IntBuffer) (it : Int) (s : SparseCoder F) : SparseCoder F :=
  let hiddenColumnIndex := address2 pos ⟨s.hiddenSize.x, s.hiddenSize.y⟩
  { s with
      hiddenActivations := (SparseCoder.forwardLoop ops pos inputCs it s).1
      hiddenCs := setI s.hiddenCs hiddenColumnIndex (SparseCoder.forwardLoop ops pos inputCs it s).2.1 }

/-- The normalised transpose sum of `SparseCoder::backward` and
`SparseCoder::learn` (SparseCoder.cpp 69 and 94) for the visible cell
`visibleIndex`. -/
def SparseCoder.reconstruct {F : Type} (ops : FloatOps F) (weights : SparseMatrix F)
    (hiddenCs : IntBuffer) (hiddenSize : Int3) (visibleIndex : Int) : F :=
  ops.div (weights.multiplyOHVsT ops hiddenCs visibleIndex hiddenSize.z)
    (ops.ofInt (max 1 ((weights.countT visibleIndex).tdiv hiddenSize.z)))

/-- `SparseCoder::backward` (SparseCoder.cpp 54-72). -/
def SparseCoder.backward {F R : Type} [LinearOrder F] (ops : FloatOps F) (pos : Int2) (_rng : R)
    (inputCs : IntBuffer) (vli : Nat) (s : SparseCoder F) : SparseCoder F :=
  let vl := s.visibleLayers.getD vli (SparseCoder.VisibleLayer.none F)
  let vld := s.visibleLayerDescs.getD vli VisibleLayerDesc.none
  let visibleColumnIndex := address2 pos ⟨vld.size.x, vld.size.y⟩
  let targetC := getI inputCs visibleColumnIndex 0
  let visibleIndex := address3 ⟨pos.x, pos.y, targetC⟩ vld.size
  let activation := SparseCoder.reconstruct ops vl.weights s.hiddenCs s.hiddenSize visibleIndex
  { s with
      visibleLayers := s.visibleLayers.set vli
        { vl with
            inputErrors := setI vl.inputErrors visibleColumnIndex
              (max (ops.ofInt 0) (ops.sub (ops.ofInt 1) (ops.tanh activation))) } }

/-- The first loop of `SparseCoder::learn` (SparseCoder.cpp 87-103): the vector
`activations`, `maxIndex` and `maxActivation` at its end. -/
def SparseCoder.learnLoop {F : Type} [LinearOrder F] (ops : FloatOps F) (pos : Int2)
    (size : Int3) (weights : SparseMatrix F) (hiddenCs : IntBuffer) (hiddenSize : Int3) :
    List F × (Int × F) :=
  (intRange 0 size.z).foldl
    (fun (acc : List F × (Int × F)) vc =>
      let visibleIndex := address3 ⟨pos.x, pos.y, vc⟩ size
      let sum := SparseCoder.reconstruct ops weights hiddenCs hiddenSize visibleIndex
      (setI acc.1 vc sum, maxStep acc.2 vc sum))
    (List.replicate size.z.toNat (ops.ofInt 0), (0, ops.ofInt (-999999)))

/-- The second loop of `SparseCoder::learn` (SparseCoder.cpp 106-112), on the
weights of the layer. -/
def SparseCoder.learnUpdate {F : Type} (ops : FloatOps F) (pos : Int2) (size : Int3)
    (alpha : F) (targetC : Int) (activations : List F) (hiddenCs : IntBuffer) (hiddenSize : Int3)
    (weights : SparseMatrix F) : SparseMatrix F :=
  (intRange 0 size.z).foldl
    (fun weights vc =>
      let visibleIndex := address3 ⟨pos.x, pos.y, vc⟩ size
      let delta :=
        ops.mul alpha
          (ops.sub (if vc = targetC then ops.ofInt 1 else ops.ofInt (-1))
            (ops.tanh (getI activations vc (ops.ofInt 0))))
      weights.deltaOHVsT ops hiddenCs delta visibleIndex hiddenSize.z)
    weights

/-- The weights of the layer after the two loops of `SparseCoder::learn`
(SparseCoder.cpp 87-113): updated when the reconstructed cell is not the target,
left as they are otherwise. -/
def SparseCoder.learnWeights {F : Type} [LinearOrder F] (ops : FloatOps F) (pos : Int2)
    (size : Int3) (alpha : F) (targetC : Int) (hiddenCs : IntBuffer) (hiddenSize : Int3)
    (weights : SparseMatrix F) : SparseMatrix F :=
  let scan := SparseCoder.learnLoop ops pos size weights hiddenCs hiddenSize
  if scan.2.1 ≠ targetC then
    SparseCoder.learnUpdate ops pos size alpha targetC scan.1 hiddenCs hiddenSize weights
  else weights

/-- `SparseCoder::learn` (SparseCoder.cpp 74-114). -/
def SparseCoder.learn {F R : Type} [LinearOrder F] (ops : FloatOps F) (pos : Int2) (_rng : R)
    (inputCs : IntBuffer) (vli : Nat) (s : SparseCoder F) : SparseCoder F :=
  let vl := s.visibleLayers.getD vli (SparseCoder.VisibleLayer.none F)
  let vld := s.visibleLayerDescs.getD vli VisibleLayerDesc.none
  let visibleColumnIndex := address2 pos ⟨vld.size.x, vld.size.y⟩
  let targetC := getI inputCs visibleColumnIndex 0
  let scan := SparseCoder.learnLoop ops pos vld.size vl.weights s.hiddenCs s.hiddenSize
  if scan.2.1 ≠ targetC then
    { s with
        visibleLayers := s.visibleLayers.set vli
          { vl with
              weights := SparseCoder.learnUpdate ops pos vld.size s.alpha targetC scan.1
                s.hiddenCs s.hiddenSize vl.weights } }
  else s

/-- `SparseCoder::step` (SparseCoder.cpp 159-206). -/
def SparseCoder.step {F R : Type} [LinearOrder F] (M : RngOps R) (ops : FloatOps F)
    (noThread : Bool) (cs : ComputeSystem R) (inputCs : List IntBuffer) (learnEnabled : Bool)
    (s : SparseCoder F) : SparseCoder F × ComputeSystem R :=
  let explained : SparseCoder F × ComputeSystem R :=
    (intRange 0 s.explainIters).foldl
      (fun (acc : SparseCoder F × ComputeSystem R) it =>
        let fwd := launch2 M noThread
          (fun pos rng s => SparseCoder.forward ops pos rng inputCs it s)
          ⟨acc.1.hiddenSize.x, acc.1.hiddenSize.y⟩ acc.2 acc.1
        if it < acc.1.explainIters - 1 then
          (List.range fwd.1.visibleLayers.length).foldl
            (fun (acc : SparseCoder F × ComputeSystem R) vli =>
              let vld := acc.1.visibleLayerDescs.getD vli VisibleLayerDesc.none
              launch2 M noThread
                (fun pos rng s => SparseCoder.backward ops pos rng (inputCs.getD vli []) vli s)
                ⟨vld.size.x, vld.size.y⟩ acc.2 acc.1)
            fwd
        else fwd)
      (s, cs)
  if learnEnabled then
    (List.range explained.1.visibleLayers.length).foldl
      (fun (acc : SparseCoder F × ComputeSystem R) vli =>
        let vld := acc.1.visibleLayerDescs.getD vli VisibleLayerDesc.none
        launch2 M noThread
          (fun pos rng s => SparseCoder.learn ops pos rng (inputCs.getD vli []) vli s)
          ⟨vld.size.x, vld.size.y⟩ acc.2 acc.1)
      explained
  else explained

/-! ### Numbers of seed draws -/

/-- Number of batches, hence of seed draws, of a 1D launch. -/
def batches1 (size batchSize : Int) : Nat :=
  (ceilDiv size batchSize).toNat

/-- Number of batches, hence of seed draws, of a 2D launch. -/
def batches2 (size batchSize : Int2) : Nat :=
  (ceilDiv size.x batchSize.x).toNat * (ceilDiv size.y batchSize.y).toNat

/-- Number of seeds that a 1D launch draws from `cs.rng`: none with
`KERNEL_NO_THREAD`, one per batch otherwise. -/
def launchDraws1 (noThread : Bool) (size batchSize : Int) : Nat :=
  if noThread then 0 else batches1 size batchSize

/-- Number of seeds that a 2D launch draws from `cs.rng`: none with
`KERNEL_NO_THREAD`, one per batch otherwise. -/
def launchDraws2 (noThread : Bool) (size batchSize : Int2) : Nat :=
  if noThread then 0 else batches2 size batchSize

/-- Number of seed draws of `Predictor::activate`: those of the forward launch
and of the copy launch of every visible layer. -/
def Predictor.activateDraws {F R : Type} (noThread : Bool) (cs : ComputeSystem R)
    (p : Predictor F) : Nat :=
  launchDraws2 noThread ⟨p.hiddenSize.x, p.hiddenSize.y⟩ cs.batchSize2
    + ((List.range p.visibleLayers.length).map
        (fun vli =>
          launchDraws1 noThread
            ((p.visibleLayerDescs.getD vli VisibleLayerDesc.none).size.x
              * (p.visibleLayerDescs.getD vli VisibleLayerDesc.none).size.y)
            cs.batchSize1)).sum

/-- Number of seed draws of one launch per visible layer of a sparse coder. -/
def SparseCoder.layerDraws {F R : Type} (noThread : Bool) (cs : ComputeSystem R)
    (s : SparseCoder F) : Nat :=
  ((List.range s.visibleLayers.length).map
    (fun vli =>
      launchDraws2 noThread
        ⟨(s.visibleLayerDescs.getD vli VisibleLayerDesc.none).size.x,
         (s.visibleLayerDescs.getD vli VisibleLayerDesc.none).size.y⟩
        cs.batchSize2)).sum

/-- Number of seed draws of `SparseCoder::step`: a forward launch per iteration,
a backward launch per visible layer after every iteration but the last, and a
learn launch per visible layer when learning is enabled. -/
def SparseCoder.stepDraws {F R : Type} (noThread : Bool) (cs : ComputeSystem R)
    (learnEnabled : Bool) (s : SparseCoder F) : Nat :=
  ((intRange 0 s.explainIters).map
    (fun it =>
      launchDraws2 noThread ⟨s.hiddenSize.x, s.hiddenSize.y⟩ cs.batchSize2
        + (if it < s.explainIters - 1 then SparseCoder.layerDraws noThread cs s else 0))).sum
    + (if learnEnabled then SparseCoder.layerDraws noThread cs s else 0)

/-- The members of a predictor that no kernel changes are the same in `p'` as
in `p`: sizes, descriptors, learning rate and number of visible layers. -/
def Predictor.SameFrame {F : Type} (p p' : Predictor F) : Prop :=
  p'.hiddenSize = p.hiddenSize ∧ p'.visibleLayerDescs = p.visibleLayerDescs ∧ p'.alpha = p.alpha
    ∧ p'.visibleLayers.length = p.visibleLayers.length

/-- The members of a sparse coder that no kernel changes are the same in `s'`
as in `s`. -/
def SparseCoder.SameFrame {F : Type} (s s' : SparseCoder F) : Prop :=
  s'.hiddenSize = s.hiddenSize ∧ s'.visibleLayerDescs = s.visibleLayerDescs
    ∧ s'.explainIters = s.explainIters ∧ s'.alpha = s.alpha
    ∧ s'.visibleLayers.length = s.visibleLayers.length

/-- Predictor `p'` has the sizes, descriptors, codes and weights of `p`; the
previous input codes `inputCsPrev` of the layers may differ. -/
def Predictor.SameButPrev {F : Type} (p p' : Predictor F) : Prop :=
  p'.hiddenSize = p.hiddenSize ∧ p'.hiddenCs = p.hiddenCs
    ∧ p'.visibleLayerDescs = p.visibleLayerDescs
    ∧ p'.visibleLayers.map (fun vl => vl.weights) = p.visibleLayers.map (fun vl => vl.weights)

/-- The row ranges of the matrix are non-decreasing and non-negative, as in
every matrix built by `initSMLocalRF`. -/
def SparseMatrix.RowsOrdered {F : Type} (m : SparseMatrix F) : Prop :=
  m.rowRanges.Sorted (· ≤ ·) ∧ ∀ x ∈ m.rowRanges, 0 ≤ x

/-- The transpose view of the matrix is in order: the column ranges are
non-decreasing positions of `nonZeroValueIndices`, and no value index occurs
twice in `nonZeroValueIndices`. -/
def SparseMatrix.ColumnsOrdered {F : Type} (m : SparseMatrix F) : Prop :=
  m.columnRanges.Sorted (· ≤ ·)
    ∧ (∀ x ∈ m.columnRanges, 0 ≤ x ∧ x ≤ (m.nonZeroValueIndices.length : Int))
    ∧ m.nonZeroValueIndices.Nodup

/-- The states of the two execution modes in the course of an operation of the
sparse coder: the coder is the same in both, the batch sizes of the batched mode
are at least one, and the transpose views of the weights are ordered. -/
def SparseCoder.Agree {F R : Type} (a b : SparseCoder F × ComputeSystem R) : Prop :=
  a.1 = b.1 ∧ (1 ≤ b.2.batchSize2.x ∧ 1 ≤ b.2.batchSize2.y)
    ∧ ∀ vl ∈ b.1.visibleLayers, vl.weights.ColumnsOrdered

/-- The matrix without its values: shape, index and range arrays. -/
def SparseMatrix.pattern {F : Type} (m : SparseMatrix F) : SparseMatrix F :=
  { m with nonZeroValues := [] }

/-- Layer `vli` of a predictor (`visibleLayers[vli]`). -/
def Predictor.layer {F : Type} (p : Predictor F) (vli : Nat) : Predictor.VisibleLayer F :=
  p.visibleLayers.getD vli (Predictor.VisibleLayer.none F)

/-- Descriptor `vli` of a predictor (`visibleLayerDescs[vli]`). -/
def Predictor.desc {F : Type} (p : Predictor F) (vli : Nat) : VisibleLayerDesc :=
  p.visibleLayerDescs.getD vli VisibleLayerDesc.none

/-- Predictor `q` is predictor `p` up to the values of the weights: sizes,
descriptors, learning rate, codes, previous input codes and the patterns and
numbers of values of the weight matrices are the same. -/
def Predictor.SameButValues {F : Type} (p q : Predictor F) : Prop :=
  q.hiddenSize = p.hiddenSize ∧ q.visibleLayerDescs = p.visibleLayerDescs ∧ q.alpha = p.alpha
    ∧ q.hiddenCs = p.hiddenCs
    ∧ q.visibleLayers.map
        (fun vl => (vl.weights.pattern, vl.inputCsPrev, vl.weights.nonZeroValues.length))
      = p.visibleLayers.map
        (fun vl => (vl.weights.pattern, vl.inputCsPrev, vl.weights.nonZeroValues.length))

/-- The hidden cells of a predictor in the order in which the nested loops over
the columns `l` and over `hc` reach them. -/
def Predictor.cells {F : Type} (p : Predictor F) (l : List Int2) : List (Int2 × Int) :=
  l.flatMap fun pos => (intRange 0 p.hiddenSize.z).map fun hc => (pos, hc)

/-- Layer `vli` of a sparse coder (`visibleLayers[vli]`). -/
def SparseCoder.layer {F : Type} (s : SparseCoder F) (vli : Nat) : SparseCoder.VisibleLayer F :=
  s.visibleLayers.getD vli (SparseCoder.VisibleLayer.none F)

/-- Descriptor `vli` of a sparse coder (`visibleLayerDescs[vli]`). -/
def SparseCoder.desc {F : Type} (s : SparseCoder F) (vli : Nat) : VisibleLayerDesc :=
  s.visibleLayerDescs.getD vli VisibleLayerDesc.none

/-- Coordinates in the order in which a 2D launch reaches them: the order of the
plain nested loops with `KERNEL_NO_THREAD`, the order of `runKernel2` otherwise. -/
def launchOrder2 (noThread : Bool) (size batchSize : Int2) : List Int2 :=
  if noThread then domain2 size else batchOrder2 size batchSize

/-- Buffers `a` and `b` have the same size and the same elements at the indices
outside `pending`. -/
def AgreeOff {α : Type} (d : α) (pending : List Int) (a b : List α) : Prop :=
  a.length = b.length ∧ ∀ k, k ∉ pending → getI a k d = getI b k d

/-- The reconstruction error that `SparseCoder::backward` writes for the visible
column `pos` of layer `vli` (SparseCoder.cpp 63-71). -/
def SparseCoder.backwardError {F : Type} [LinearOrder F] (ops : FloatOps F) (pos : Int2)
    (inputCs : IntBuffer) (vli : Nat) (s : SparseCoder F) : F :=
  max (ops.ofInt 0)
    (ops.sub (ops.ofInt 1)
      (ops.tanh
        (SparseCoder.reconstruct ops (s.layer vli).weights s.hiddenCs s.hiddenSize
          (address3
            ⟨pos.x, pos.y,
              getI inputCs (address2 pos ⟨(s.desc vli).size.x, (s.desc vli).size.y⟩) 0⟩
            (s.desc vli).size))))

/-- One explain iteration of `SparseCoder::step` (SparseCoder.cpp 168-189), with
the order in which a launch over a domain of a given size reaches its
coordinates as a parameter. -/
def SparseCoder.encodeIter {F : Type} [LinearOrder F] (ops : FloatOps F)
    (order : Int2 → List Int2) (inputCs : List IntBuffer) (it : Int) (s : SparseCoder F) :
    SparseCoder F :=
  let fwd := (order ⟨s.hiddenSize.x, s.hiddenSize.y⟩).foldl
    (fun s pos => SparseCoder.forward ops pos () inputCs it s) s
  if it < s.explainIters - 1 then
    (List.range fwd.visibleLayers.length).foldl
      (fun (s : SparseCoder F) vli =>
        (order ⟨(s.desc vli).size.x, (s.desc vli).size.y⟩).foldl
          (fun s pos => SparseCoder.backward ops pos () (inputCs.getD vli []) vli s) s)
      fwd
  else fwd

/-- The coder after the explain iterations of `SparseCoder::step`
(SparseCoder.cpp 167-190), with the order of the launches as a parameter. -/
def SparseCoder.encodeOn {F : Type} [LinearOrder F] (ops : FloatOps F)
    (order : Int2 → List Int2) (inputCs : List IntBuffer) (s : SparseCoder F) : SparseCoder F :=
  (intRange 0 s.explainIters).foldl
    (fun (s : SparseCoder F) it => SparseCoder.encodeIter ops order inputCs it s) s

/-- Indices of `hiddenCs` that the forward kernels write at the columns `l`. -/
def SparseCoder.pendingCs {F : Type} (s : SparseCoder F) (l : List Int2) : List Int :=
  l.map fun pos => address2 pos ⟨s.hiddenSize.x, s.hiddenSize.y⟩

/-- Indices of `hiddenActivations` that the forward kernels write at the columns
`l`. -/
def SparseCoder.pendingActs {F : Type} (s : SparseCoder F) (l : List Int2) : List Int :=
  l.flatMap fun pos =>
    (intRange 0 s.hiddenSize.z).map fun hc => address3 ⟨pos.x, pos.y, hc⟩ s.hiddenSize

/-- Indices of `inputErrors` of layer `vli` that the backward kernels write at
the visible columns `l`. -/
def SparseCoder.pendingErrors {F : Type} (s : SparseCoder F) (vli : Nat) (l : List Int2) :
    List Int :=
  l.map fun pos => address2 pos ⟨(s.desc vli).size.x, (s.desc vli).size.y⟩

/-- Coder `t` is coder `s` up to the entries of the buffers at pending indices:
same sizes, descriptors, parameters and weights, and codes, activations and
reconstruction errors that agree outside `pc`, `pa` and `pe vli`. -/
def SparseCoder.Replays {F : Type} (ops : FloatOps F) (pc pa : List Int) (pe : Nat → List Int)
    (s t : SparseCoder F) : Prop :=
  SparseCoder.SameFrame s t
    ∧ AgreeOff 0 pc s.hiddenCs t.hiddenCs
    ∧ AgreeOff (ops.ofInt 0) pa s.hiddenActivations t.hiddenActivations
    ∧ ∀ vli, (t.layer vli).weights = (s.layer vli).weights
      ∧ AgreeOff (ops.ofInt 0) (pe vli) (s.layer vli).inputErrors (t.layer vli).inputErrors

/-! ### Binary streams -/

/-- A fixed-size record of a binary stream: the bytes of an `int` or of a
`float`. -/
inductive Record (F : Type) where
  | int (v : Int)
  | float (v : F)

/-- A binary stream: the records written so far for a `std::ostream`, the
records still to read for a `std::istream`. -/
abbrev RecordStream (F : Type) := List (Record F)

/-- `os.write(reinterpret_cast<const char*>(&v), sizeof(int))`. -/
def writeInt {F : Type} (os : RecordStream F) (v : Int) : RecordStream F :=
  os ++ [Record.int v]

/-- `os.write(reinterpret_cast<const char*>(&v), sizeof(float))`. -/
def writeFloat {F : Type} (os : RecordStream F) (v : F) : RecordStream F :=
  os ++ [Record.float v]

/-- `os.write(reinterpret_cast<const char*>(&v), sizeof(Int3))`: the three
`int` members in the order of their declaration. -/
def writeInt3 {F : Type} (os : RecordStream F) (v : Int3) : RecordStream F :=
  writeInt (writeInt (writeInt os v.x) v.y) v.z

/-- `os.write(reinterpret_cast<const char*>(&vld), sizeof(VisibleLayerDesc))`:
the size and the radius. -/
def writeDesc {F : Type} (os : RecordStream F) (vld : VisibleLayerDesc) : RecordStream F :=
  writeInt (writeInt3 os vld.size) vld.radius

/-- Modelled from the spec: `writeBufferToStream` is declared in `Helpers.h`,
which is not among the sources.  An array is written as
"`[count:int][count * element]`". -/
def writeIntBuffer {F : Type} (os : RecordStream F) (buffer : IntBuffer) : RecordStream F :=
  buffer.foldl writeInt (writeInt os buffer.length)

/-- Modelled from the spec: `writeBufferToStream` on a buffer of floats, written
as "`[count:int][count * element]`". -/
def writeFloatBuffer {F : Type} (os : RecordStream F) (buffer : FloatBuffer F) :
    RecordStream F :=
  buffer.foldl writeFloat (writeInt os buffer.length)

/-- `is.read(reinterpret_cast<char*>(&v), sizeof(int))`: the value and the rest
of the stream; nothing when the next record is not an `int`. -/
def readInt {F : Type} (is : RecordStream F) : Option (Int × RecordStream F) :=
  match is with
  | Record.int v :: rest => some (v, rest)
  | _ => none

/-- `is.read(reinterpret_cast<char*>(&v), sizeof(float))`. -/
def readFloat {F : Type} (is : RecordStream F) : Option (F × RecordStream F) :=
  match is with
  | Record.float v :: rest => some (v, rest)
  | _ => none

/-- `is.read(reinterpret_cast<char*>(&v), sizeof(Int3))`. -/
def readInt3 {F : Type} (is : RecordStream F) : Option (Int3 × RecordStream F) :=
  (readInt is).bind fun x =>
    (readInt x.2).bind fun y =>
      (readInt y.2).bind fun z => some (⟨x.1, y.1, z.1⟩, z.2)

/-- `is.read(reinterpret_cast<char*>(&vld), sizeof(VisibleLayerDesc))`. -/
def readDesc {F : Type} (is : RecordStream F) : Option (VisibleLayerDesc × RecordStream F) :=
  (readInt3 is).bind fun size =>
    (readInt size.2).bind fun radius => some (⟨size.1, radius.1⟩, radius.2)

/-- The next `n` `int` records of a stream. -/
def readInts {F : Type} : Nat → RecordStream F → Option (List Int × RecordStream F)
  | 0, is => some ([], is)
  | n + 1, is =>
    (readInt is).bind fun v =>
      (readInts n v.2).bind fun vs => some (v.1 :: vs.1, vs.2)

/-- The next `n` `float` records of a stream. -/
def readFloats {F : Type} : Nat → RecordStream F → Option (List F × RecordStream F)
  | 0, is => some ([], is)
  | n + 1, is =>
    (readFloat is).bind fun v =>
      (readFloats n v.2).bind fun vs => some (v.1 :: vs.1, vs.2)

/-- Modelled from the spec: `readBufferFromStream` is declared in `Helpers.h`,
which is not among the sources.  It reads an array written as
"`[count:int][count * element]`". -/
def readIntBuffer {F : Type} (is : RecordStream F) : Option (IntBuffer × RecordStream F) :=
  (readInt is).bind fun count => readInts count.1.toNat count.2

/-- Modelled from the spec: `readBufferFromStream` on a buffer of floats. -/
def readFloatBuffer {F : Type} (is : RecordStream F) :
    Option (FloatBuffer F × RecordStream F) :=
  (readInt is).bind fun count => readFloats count.1.toNat count.2

/-- `writeSMToStream` (Helpers.cpp 327-340). -/
def writeSMToStream {F : Type} (os : RecordStream F) (mat : SparseMatrix F) : RecordStream F :=
  let os := writeInt os mat.rows
  let os := writeInt os mat.columns
  let os := writeFloatBuffer os mat.nonZeroValues
  let os := writeIntBuffer os mat.nonZeroValueIndices
  let os := writeIntBuffer os mat.rowRanges
  let os := writeIntBuffer os mat.columnIndices
  let os := writeIntBuffer os mat.columnRanges
  writeIntBuffer os mat.rowIndices

/-- `readSMFromStream` (Helpers.cpp 342-355): the matrix `mat` with the members
read from the stream, and the rest of the stream. -/
def readSMFromStream {F : Type} (is : RecordStream F) (mat : SparseMatrix F) :
    Option (SparseMatrix F × RecordStream F) :=
  (readInt is).bind fun rows =>
    (readInt rows.2).bind fun columns =>
      (readFloatBuffer columns.2).bind fun nonZeroValues =>
        (readIntBuffer nonZeroValues.2).bind fun nonZeroValueIndices =>
          (readIntBuffer nonZeroValueIndices.2).bind fun rowRanges =>
            (readIntBuffer rowRanges.2).bind fun columnIndices =>
              (readIntBuffer columnIndices.2).bind fun columnRanges =>
                (readIntBuffer columnRanges.2).bind fun rowIndices =>
                  some
                    ({ mat with
                        rows := rows.1
                        columns := columns.1
                        nonZeroValues := nonZeroValues.1
                        nonZeroValueIndices := nonZeroValueIndices.1
                        rowRanges := rowRanges.1
                        columnIndices := columnIndices.1
                        columnRanges := columnRanges.1
                        rowIndices := rowIndices.1 },
                      rowIndices.2)

/-- `v.resize(n)` on a `std::vector` of objects: truncate, or pad with
default-constructed elements `d`. -/
def resizeWith {α : Type} (v : List α) (n : Nat) (d : α) : List α :=
  v.take n ++ List.replicate (n - v.length) d

/-- `Predictor::writeToStream` (Predictor.cpp 162-188). -/
def Predictor.writeToStream {F : Type} (os : RecordStream F) (p : Predictor F) :
    RecordStream F :=
  let os := writeInt3 os p.hiddenSize
  let os := writeFloat os p.alpha
  let os := writeIntBuffer os p.hiddenCs
  let os := writeInt os p.visibleLayers.length
  (List.range p.visibleLayers.length).foldl
    (fun os vli =>
      let os := writeDesc os (p.desc vli)
      let os := writeSMToStream os (p.layer vli).weights
      writeIntBuffer os (p.layer vli).inputCsPrev)
    os

/-- The body of the loop of `Predictor::readFromStream` (Predictor.cpp 209-218)
for layer `vli`. -/
def Predictor.readLayer {F : Type} (vli : Nat) (st : Predictor F × RecordStream F) :
    Option (Predictor F × RecordStream F) :=
  (readDesc st.2).bind fun vld =>
    (readSMFromStream vld.2 (st.1.layer vli).weights).bind fun weights =>
      (readIntBuffer weights.2).bind fun inputCsPrev =>
        some
          ({ st.1 with
              visibleLayerDescs := st.1.visibleLayerDescs.set vli vld.1
              visibleLayers := st.1.visibleLayers.set vli ⟨weights.1, inputCsPrev.1⟩ },
            inputCsPrev.2)

/-- `Predictor::readFromStream` (Predictor.cpp 190-219): the predictor `p` with
the members read from the stream, and the rest of the stream. -/
def Predictor.readFromStream {F : Type} (is : RecordStream F) (p : Predictor F) :
    Option (Predictor F × RecordStream F) :=
  (readInt3 is).bind fun hiddenSize =>
    (readFloat hiddenSize.2).bind fun alpha =>
      (readIntBuffer alpha.2).bind fun hiddenCs =>
        (readInt hiddenCs.2).bind fun numVisibleLayers =>
          (List.range numVisibleLayers.1.toNat).foldl
            (fun st vli => st.bind (Predictor.readLayer vli))
            (some
              ({ p with
                  hiddenSize := hiddenSize.1
                  alpha := alpha.1
                  hiddenCs := hiddenCs.1
                  visibleLayers := resizeWith p.visibleLayers numVisibleLayers.1.toNat
                    (Predictor.VisibleLayer.none F)
                  visibleLayerDescs := resizeWith p.visibleLayerDescs numVisibleLayers.1.toNat
                    VisibleLayerDesc.none },
                numVisibleLayers.2))

/-- `SparseCoder::writeToStream` (SparseCoder.cpp 208-233). -/
def SparseCoder.writeToStream {F : Type} (os : RecordStream F) (s : SparseCoder F) :
    RecordStream F :=
  let os := writeInt3 os s.hiddenSize
  let os := writeInt os s.explainIters
  let os := writeFloat os s.alpha
  let os := writeIntBuffer os s.hiddenCs
  let os := writeInt os s.visibleLayers.length
  (List.range s.visibleLayers.length).foldl
    (fun os vli =>
      let os := writeDesc os (s.desc vli)
      writeSMToStream os (s.layer vli).weights)
    os

/-- The body of the loop of `SparseCoder::readFromStream` (SparseCoder.cpp
257-269) for layer `vli`. -/
def SparseCoder.readLayer {F : Type} (ops : FloatOps F) (vli : Nat)
    (st : SparseCoder F × RecordStream F) : Option (SparseCoder F × RecordStream F) :=
  (readDesc st.2).bind fun vld =>
    let numVisibleColumns := vld.1.size.x * vld.1.size.y
    (readSMFromStream vld.2 (st.1.layer vli).weights).bind fun weights =>
      some
        ({ st.1 with
            visibleLayerDescs := st.1.visibleLayerDescs.set vli vld.1
            visibleLayers := st.1.visibleLayers.set vli
              ⟨weights.1, List.replicate numVisibleColumns.toNat (ops.ofInt 0)⟩ },
          weights.2)

/-- `SparseCoder::readFromStream` (SparseCoder.cpp 235-270): the coder `s` with
the members read from the stream, and the rest of the stream. -/
def SparseCoder.readFromStream {F : Type} (ops : FloatOps F) (is : RecordStream F)
    (s : SparseCoder F) : Option (SparseCoder F × RecordStream F) :=
  (readInt3 is).bind fun hiddenSize =>
    let numHiddenColumns := hiddenSize.1.x * hiddenSize.1.y
    let numHidden := numHiddenColumns * hiddenSize.1.z
    (readInt hiddenSize.2).bind fun explainIters =>
      (readFloat explainIters.2).bind fun alpha =>
        (readIntBuffer alpha.2).bind fun hiddenCs =>
          (readInt hiddenCs.2).bind fun numVisibleLayers =>
            (List.range numVisibleLayers.1.toNat).foldl
              (fun st vli => st.bind (SparseCoder.readLayer ops vli))
              (some
                ({ s with
                    hiddenSize := hiddenSize.1
                    explainIters := explainIters.1
                    alpha := alpha.1
                    hiddenCs := hiddenCs.1
                    hiddenActivations := List.replicate numHidden.toNat (ops.ofInt 0)
                    visibleLayers := resizeWith s.visibleLayers numVisibleLayers.1.toNat
                      (SparseCoder.VisibleLayer.none F)
                    visibleLayerDescs := resizeWith s.visibleLayerDescs
                      numVisibleLayers.1.toNat VisibleLayerDesc.none },
                  numVisibleLayers.2))

/-! ### The persistence format of the spec -/

/-- The records of an array in the format of the spec,
"`[count:int][count * element]`", for an array of `int`. -/
def intBufferRecords {F : Type} (buffer : IntBuffer) : RecordStream F :=
  Record.int buffer.length :: buffer.map Record.int

/-- The records of an array of `float` in the format of the spec. -/
def floatBufferRecords {F : Type} (buffer : FloatBuffer F) : RecordStream F :=
  Record.int buffer.length :: buffer.map Record.float

/-- The records of a sparse matrix in the format of the spec:
"`[rows:int][columns:int][nonZeroValues][nonZeroValueIndices][rowRanges][columnIndices][columnRanges][rowIndices]`". -/
def smRecords {F : Type} (mat : SparseMatrix F) : RecordStream F :=
  [Record.int mat.rows, Record.int mat.columns] ++ floatBufferRecords mat.nonZeroValues
    ++ intBufferRecords mat.nonZeroValueIndices ++ intBufferRecords mat.rowRanges
    ++ intBufferRecords mat.columnIndices ++ intBufferRecords mat.columnRanges
    ++ intBufferRecords mat.rowIndices

/-- The records of a three-dimensional size, "`3×int`". -/
def int3Records {F : Type} (v : Int3) : RecordStream F :=
  [Record.int v.x, Record.int v.y, Record.int v.z]

/-- The records of a visible layer descriptor, its "raw bytes": the size and
the radius. -/
def descRecords {F : Type} (vld : VisibleLayerDesc) : RecordStream F :=
  int3Records vld.size ++ [Record.int vld.radius]

/-- The records of a predictor in the format of the spec:
"`[hiddenSize][alpha][hiddenCs][numVisibleLayers]` then per visible layer
`[descriptor][sparse matrix][inputCsPrev buffer]`". -/
def predictorRecords {F : Type} (p : Predictor F) : RecordStream F :=
  int3Records p.hiddenSize ++ [Record.float p.alpha] ++ intBufferRecords p.hiddenCs
    ++ [Record.int p.visibleLayers.length]
    ++ (List.range p.visibleLayers.length).flatMap fun vli =>
      descRecords (p.desc vli) ++ smRecords (p.layer vli).weights
        ++ intBufferRecords (p.layer vli).inputCsPrev

/-- The records of a sparse coder in the format of the spec:
"`[hiddenSize:3×int][explainIters:int][alpha:float][hiddenCs buffer][numVisibleLayers:int]`
then per visible layer `[descriptor raw bytes][sparse matrix][nothing else]`". -/
def sparseCoderRecords {F : Type} (s : SparseCoder F) : RecordStream F :=
  int3Records s.hiddenSize ++ [Record.int s.explainIters] ++ [Record.float s.alpha]
    ++ intBufferRecords s.hiddenCs ++ [Record.int s.visibleLayers.length]
    ++ (List.range s.visibleLayers.length).flatMap fun vli =>
      descRecords (s.desc vli) ++ smRecords (s.layer vli).weights

/-! ### Construction -/

/-- Modelled from the spec: `SparseMatrix.cpp` is not among the sources.  The
entries of the forward view of the rows `0` to `rows - 1`, row by row: each
position of the value array with the row that holds it. -/
def SparseMatrix.entries {F : Type} (m : SparseMatrix F) : List (Int × Int) :=
  (intRange 0 m.rows).flatMap fun i =>
    (intRange (getI m.rowRanges i 0) (getI m.rowRanges (i + 1) 0)).map fun j => (i, j)

/-- Modelled from the spec: `SparseMatrix.cpp` is not among the sources.  The
entries of the forward view that lie in `column`, in row order. -/
def SparseMatrix.columnEntries {F : Type} (m : SparseMatrix F) (column : Int) :
    List (Int × Int) :=
  m.entries.filter fun e => getI m.columnIndices e.2 0 == column

/-- Modelled from the spec: `SparseMatrix.cpp` is not among the sources.
`initT` builds the "column-major (transpose) view", which "indexes the same
value array as the forward view": column by column, the entries of the column
with their rows (`rowIndices`) and their positions in the value array
(`nonZeroValueIndices`); `columnRanges` holds the running sums of the numbers of
entries of the columns, as `rowRanges` does for the rows. -/
def SparseMatrix.initT {F : Type} (m : SparseMatrix F) : SparseMatrix F :=
  { m with
      columnRanges :=
        prefixSums 0 ((intRange 0 m.columns).map fun c => ((m.columnEntries c).length : Int))
      rowIndices := (intRange 0 m.columns).flatMap fun c => (m.columnEntries c).map Prod.fst
      nonZeroValueIndices :=
        (intRange 0 m.columns).flatMap fun c => (m.columnEntries c).map Prod.snd }

/-- The loop `for (i ...) vl.weights.nonZeroValues[i] = weightDist(cs.rng)` of
`initRandom` (Predictor.cpp 106-107, SparseCoder.cpp 144-145): every value is
replaced, in index order, by a draw of `weightDist`, the
`std::uniform_real_distribution` of the caller, from the generator. -/
def drawWeights {F R : Type} (weightDist : R → F × R) (values : List F) (rng : R) :
    List F × R :=
  (List.range values.length).foldl
    (fun (acc : List F × R) i =>
      let drawn := weightDist acc.2
      (acc.1.set i drawn.1, drawn.2))
    (values, rng)

/-- `Predictor::initRandom` (Predictor.cpp 79-114).  `weightDist` is the draw of
`std::uniform_real_distribution<float>(-0.01f, 0.01f)`; `IntBuffer(n, 0)` is
`n` zeros (none for a negative `n`); `numHidden` is not used. -/
def Predictor.initRandom {F R : Type} (ops : FloatOps F) (project : Int2 → Float2 F → Int2)
    (weightDist : R → F × R) (cs : ComputeSystem R) (hiddenSize : Int3)
    (visibleLayerDescs : List VisibleLayerDesc) (p : Predictor F) :
    Predictor F × ComputeSystem R :=
  let p : Predictor F := { p with visibleLayerDescs := visibleLayerDescs }
  let p : Predictor F := { p with hiddenSize := hiddenSize }
  let p : Predictor F :=
    { p with
        visibleLayers :=
          resizeWith p.visibleLayers visibleLayerDescs.length (Predictor.VisibleLayer.none F) }
  let numHiddenColumns := hiddenSize.x * hiddenSize.y
  let created : Predictor F × ComputeSystem R :=
    (List.range p.visibleLayers.length).foldl
      (fun (acc : Predictor F × ComputeSystem R) vli =>
        let vl := acc.1.layer vli
        let vld := acc.1.desc vli
        let numVisibleColumns := vld.size.x * vld.size.y
        let weights := initSMLocalRF ops project vld.size hiddenSize vld.radius vl.weights
        let drawn := drawWeights weightDist weights.nonZeroValues acc.2.rng
        let vl : Predictor.VisibleLayer F :=
          ⟨{ weights with nonZeroValues := drawn.1 }, List.replicate numVisibleColumns.toNat 0⟩
        ({ acc.1 with visibleLayers := acc.1.visibleLayers.set vli vl },
          { acc.2 with rng := drawn.2 }))
      (p, cs)
  ({ created.1 with hiddenCs := List.replicate numHiddenColumns.toNat 0 }, created.2)

/-- `SparseCoder::initRandom` (SparseCoder.cpp 116-157).  `weightDist` is the
draw of `std::uniform_real_distribution<float>(0.0f, 1.0f)`; `IntBuffer(n, 0)`
and `FloatBuffer(n, 0.0f)` are `n` zeros (none for a negative `n`);
`numVisible` is not used. -/
def SparseCoder.initRandom {F R : Type} (ops : FloatOps F) (project : Int2 → Float2 F → Int2)
    (weightDist : R → F × R) (cs : ComputeSystem R) (hiddenSize : Int3)
    (visibleLayerDescs : List VisibleLayerDesc) (s : SparseCoder F) :
    SparseCoder F × ComputeSystem R :=
  let s : SparseCoder F := { s with visibleLayerDescs := visibleLayerDescs }
  let s : SparseCoder F := { s with hiddenSize := hiddenSize }
  let s : SparseCoder F :=
    { s with
        visibleLayers :=
          resizeWith s.visibleLayers visibleLayerDescs.length (SparseCoder.VisibleLayer.none F) }
  let numHiddenColumns := hiddenSize.x * hiddenSize.y
  let numHidden := numHiddenColumns * hiddenSize.z
  let created : SparseCoder F × ComputeSystem R :=
    (List.range s.visibleLayers.length).foldl
      (fun (acc : SparseCoder F × ComputeSystem R) vli =>
        let vl := acc.1.layer vli
        let vld := acc.1.desc vli
        let numVisibleColumns := vld.size.x * vld.size.y
        let weights := initSMLocalRF ops project vld.size hiddenSize vld.radius vl.weights
        let drawn := drawWeights weightDist weights.nonZeroValues acc.2.rng
        let weights : SparseMatrix F := { weights with nonZeroValues := drawn.1 }
        let weights := weights.initT
        let vl : SparseCoder.VisibleLayer F :=
          ⟨weights, List.replicate numVisibleColumns.toNat (ops.ofInt 0)⟩
        ({ acc.1 with visibleLayers := acc.1.visibleLayers.set vli vl },
          { acc.2 with rng := drawn.2 }))
      (s, cs)
  ({ created.1 with
      hiddenCs := List.replicate numHiddenColumns.toNat 0
      hiddenActivations := List.replicate numHidden.toNat (ops.ofInt 0) }, created.2)

/-! ### Divisions with the divisor checked -/

/-- The quotient `a / b` of two `int` with the divisor checked: no value when
the divisor is zero. -/
def checkedDiv (a b : Int) : Option Int :=
  if b = 0 then none else some (a.tdiv b)

/-- The quotient `a / b` of a `float` by an `int` with the divisor checked: no
value when the divisor is zero. -/
def checkedDivFloat {F : Type} (ops : FloatOps F) (a : F) (b : Int) : Option F :=
  if b = 0 then none else some (ops.div a (ops.ofInt b))

/-- The first loop over the visible layers in the kernel `Predictor::learn`
(Predictor.cpp 55-64) with the divisor `vld.size.z` checked. -/
def Predictor.learnSumChecked {F : Type} (ops : FloatOps F) (p : Predictor F)
    (hiddenIndex : Int) : Option (F × Int) :=
  (List.range p.visibleLayers.length).foldl
    (fun (acc : Option (F × Int)) vli =>
      acc.bind fun acc =>
        let vl := p.visibleLayers.getD vli (Predictor.VisibleLayer.none F)
        let vld := p.visibleLayerDescs.getD vli VisibleLayerDesc.none
        (checkedDiv (vl.weights.count hiddenIndex) vld.size.z).map fun q =>
          (ops.add acc.1 (vl.weights.multiplyOHVs ops vl.inputCsPrev hiddenIndex vld.size.z),
            acc.2 + q))
    (some (ops.ofInt 0, 0))

/-- The value of `delta` in the kernel `Predictor::learn` (Predictor.cpp 55-68)
with the divisors `vld.size.z` and `std::max(1, count)` checked. -/
def Predictor.learnDeltaChecked {F : Type} (ops : FloatOps F) (p : Predictor F)
    (targetC hc : Int) (hiddenIndex : Int) : Option F :=
  (p.learnSumChecked ops hiddenIndex).bind fun sc =>
    (checkedDivFloat ops sc.1 (max 1 sc.2)).map fun sum =>
      ops.mul p.alpha
        (ops.sub (if hc = targetC then ops.ofInt 1 else ops.ofInt (-1)) (ops.tanh sum))

/-- The normalised transpose sum of `SparseCoder::backward` and
`SparseCoder::learn` (SparseCoder.cpp 69 and 94) with the divisors
`hiddenSize.z` and `std::max(1, countT / hiddenSize.z)` checked. -/
def SparseCoder.reconstructChecked {F : Type} (ops : FloatOps F) (weights : SparseMatrix F)
    (hiddenCs : IntBuffer) (hiddenSize : Int3) (visibleIndex : Int) : Option F :=
  (checkedDiv (weights.countT visibleIndex) hiddenSize.z).bind fun q =>
    checkedDivFloat ops (weights.multiplyOHVsT ops hiddenCs visibleIndex hiddenSize.z) (max 1 q)

/-! ### The dense reference of the one-hot product -/

/-- The reference of the spec for the weight at the position `(row, column)`:
the value of the entry of the row stored with that column index when the
position "belongs to the row's nonzero set", and `0.0f` otherwise. -/
def SparseMatrix.denseWeight {F : Type} (ops : FloatOps F) (m : SparseMatrix F)
    (row column : Int) : F :=
  match (intRange (getI m.rowRanges row 0) (getI m.rowRanges (row + 1) 0)).find?
      (fun j => getI m.columnIndices j 0 == column) with
  | some j => getI m.nonZeroValues j (ops.ofInt 0)
  | none => ops.ofInt 0

/-- The reference of the spec for `multiplyOHVs`: the "brute-force dense sum"
over all input columns `c`, from `0` to `numColumns - 1`, of the weight at
`(row, c * oneHotSize + code[c])`. -/
def SparseMatrix.denseMultiplyOHVs {F : Type} (ops : FloatOps F) (m : SparseMatrix F)
    (code : IntBuffer) (row oneHotSize numColumns : Int) : F :=
  (intRange 0 numColumns).foldl
    (fun sum c => ops.add sum (m.denseWeight ops row (c * oneHotSize + getI code c 0)))
    (ops.ofInt 0)

/-! ### Single positions through the two views -/

/-- Modelled from the spec: `SparseMatrix.cpp` is not among the sources.  The
position in the value array of the weight at `(row, column)` through the forward
view: the first entry of the row that is stored with that column index. -/
def SparseMatrix.slot {F : Type} (m : SparseMatrix F) (row column : Int) : Option Int :=
  (intRange (getI m.rowRanges row 0) (getI m.rowRanges (row + 1) 0)).find?
    (fun j => getI m.columnIndices j 0 == column)

/-- Modelled from the spec: `SparseMatrix.cpp` is not among the sources.  The
position in the value array of the weight at `(column, row)` through the
transpose view, which "indexes the same value array" through
`nonZeroValueIndices`: the first entry of the column that is stored with that
row index. -/
def SparseMatrix.slotT {F : Type} (m : SparseMatrix F) (column row : Int) : Option Int :=
  ((intRange (getI m.columnRanges column 0) (getI m.columnRanges (column + 1) 0)).find?
    (fun k => getI m.rowIndices k 0 == row)).map (fun k => getI m.nonZeroValueIndices k 0)

/-- The value at a position of the value array; `0.0f` for no position. -/
def SparseMatrix.valueAt {F : Type} (ops : FloatOps F) (m : SparseMatrix F) (slot : Option Int) :
    F :=
  match slot with
  | some j => getI m.nonZeroValues j (ops.ofInt 0)
  | none => ops.ofInt 0

/-- The matrix with `delta` added at a position of the value array. -/
def SparseMatrix.addAt {F : Type} (ops : FloatOps F) (m : SparseMatrix F) (slot : Option Int)
    (delta : F) : SparseMatrix F :=
  match slot with
  | some j => { m with nonZeroValues := bumpAt ops m.nonZeroValues [j] delta }
  | none => m

/-- The weight at `(row, column)` read through the forward view. -/
def SparseMatrix.weight {F : Type} (ops : FloatOps F) (m : SparseMatrix F) (row column : Int) :
    F :=
  m.valueAt ops (m.slot row column)

/-- The weight at `(column, row)` read through the transpose view. -/
def SparseMatrix.weightT {F : Type} (ops : FloatOps F) (m : SparseMatrix F)
    (column row : Int) : F :=
  m.valueAt ops (m.slotT column row)

/-- The matrix with `delta` added to the weight at `(row, column)` through the
forward view. -/
def SparseMatrix.addWeight {F : Type} (ops : FloatOps F) (m : SparseMatrix F)
    (row column : Int) (delta : F) : SparseMatrix F :=
  m.addAt ops (m.slot row column) delta

/-- The matrix with `delta` added to the weight at `(column, row)` through the
transpose view. -/
def SparseMatrix.addWeightT {F : Type} (ops : FloatOps F) (m : SparseMatrix F)
    (column row : Int) (delta : F) : SparseMatrix F :=
  m.addAt ops (m.slotT column row) delta

/-! ### The input columns of a receptive field -/

/-- The flat indices of the input columns `(ix, iy)` with `lo.x ≤ ix ≤ hi.x` and
`lo.y ≤ iy ≤ hi.y`, in the order x, y. -/
def windowColumns (inSize : Int3) (lo hi : Int2) : List Int :=
  (intRange lo.x (hi.x + 1)).flatMap fun ix =>
    (intRange lo.y (hi.y + 1)).map fun iy => address2 ⟨ix, iy⟩ ⟨inSize.x, inSize.y⟩

/-- The input columns of the clamped window of `initSMLocalRF` for the output
cell `p`. -/
def rowColumns {F : Type} (ops : FloatOps F) (project : Int2 → Float2 F → Int2)
    (inSize outSize : Int3) (radius : Int) (p : Int3) : List Int :=
  windowColumns inSize
    (iterLowerBound (project ⟨p.x, p.y⟩ (outToIn ops inSize outSize)) radius)
    (iterUpperBound inSize (project ⟨p.x, p.y⟩ (outToIn ops inSize outSize)) radius)

/-! ### The passes of an encoding -/

/-- A launch of the explain loop of `SparseCoder::step` over a whole domain: the
forward launch of iteration `it`, or the backward launch of visible layer
`vli`. -/
inductive SparseCoder.Pass where
  | forward (it : Int)
  | backward (vli : Nat)
  deriving DecidableEq

/-- The passes that the spec gives for `explainIters` iterations over `layers`
visible layers, in order: for each iteration its forward pass, followed, "only
if more iterations remain", by the backward pass of every visible layer. -/
def SparseCoder.schedule (explainIters : Int) (layers : Nat) : List SparseCoder.Pass :=
  (intRange 0 explainIters).flatMap fun it =>
    SparseCoder.Pass.forward it
      :: (if it < explainIters - 1 then (List.range layers).map SparseCoder.Pass.backward
          else [])

/-- One pass of the explain loop of `SparseCoder::step` as the sources launch it
(SparseCoder.cpp 168-174 for a forward pass, 177-189 for a backward pass). -/
def SparseCoder.runPass {F R : Type} [LinearOrder F] (M : RngOps R) (ops : FloatOps F)
    (noThread : Bool) (inputCs : List IntBuffer) (acc : SparseCoder F × ComputeSystem R) :
    SparseCoder.Pass → SparseCoder F × ComputeSystem R
  | SparseCoder.Pass.forward it =>
    launch2 M noThread (fun pos rng s => SparseCoder.forward ops pos rng inputCs it s)
      ⟨acc.1.hiddenSize.x, acc.1.hiddenSize.y⟩ acc.2 acc.1
  | SparseCoder.Pass.backward vli =>
    launch2 M noThread
      (fun pos rng s => SparseCoder.backward ops pos rng (inputCs.getD vli []) vli s)
      ⟨(acc.1.visibleLayerDescs.getD vli VisibleLayerDesc.none).size.x,
        (acc.1.visibleLayerDescs.getD vli VisibleLayerDesc.none).size.y⟩ acc.2 acc.1

/-- The winner loop of `SparseCoder::forward` applied to the unweighted one-hot
sums of the cells of the hidden column `pos`: the index and the value it
keeps. -/
def SparseCoder.winner {F : Type} [LinearOrder F] (ops : FloatOps F) (pos : Int2)
    (inputCs : List IntBuffer) (s : SparseCoder F) : Int × F :=
  (intRange 0 s.hiddenSize.z).foldl
    (fun acc hc =>
      maxStep acc hc (s.forwardSum ops inputCs 0 (address3 ⟨pos.x, pos.y, hc⟩ s.hiddenSize)))
    (0, ops.ofInt (-999999))

/-- The operations of `ops` are those of the ring `F`: literals, addition,
subtraction and multiplication without rounding.  The division and `tanh` are
left as they are. -/
def FloatOps.Exact {F : Type} [Ring F] (ops : FloatOps F) : Prop :=
  (∀ i : Int, ops.ofInt i = (i : F)) ∧ (∀ a b, ops.add a b = a + b)
    ∧ (∀ a b, ops.sub a b = a - b) ∧ (∀ a b, ops.mul a b = a * b)

/-- Integer arithmetic with a `tanh` that saturates: 1 from the argument 1 on
and -1 from the argument -1 down, as `std::tanh` on `float` is exactly 1.0f and
-1.0f at arguments of large magnitude; used for concrete evaluation only. -/
def clampOps : FloatOps Int where
  ofInt := fun i => i
  add := fun a b => a + b
  sub := fun a b => a - b
  mul := fun a b => a * b
  div := fun a b => a.tdiv b
  tanh := fun a => max (-1) (min 1 a)

/-- The number of weights that the row of the hidden cell `hiddenIndex` selects
under `inputCsPrev`, over all visible layers: the weights that the two loops
over the layers of the kernel `Predictor::learn` (Predictor.cpp 55-64 and 70-75)
visit for the cell. -/
def Predictor.selectedCount {F : Type} (p : Predictor F) (hiddenIndex : Int) : Nat :=
  ((List.range p.visibleLayers.length).map fun vli =>
    ((p.layer vli).weights.selected (p.layer vli).inputCsPrev hiddenIndex
      (p.desc vli).size.z).length).sum

/-- Coder `t` is coder `s` up to the activations and the reconstruction errors:
sizes, descriptors, parameters, codes and weights are the same; the buffers
`hiddenActivations` and `inputErrors` may differ. -/
def SparseCoder.SameButBuffers {F : Type} (s t : SparseCoder F) : Prop :=
  SparseCoder.SameFrame s t ∧ t.hiddenCs = s.hiddenCs
    ∧ t.visibleLayers.map (fun vl => vl.weights) = s.visibleLayers.map (fun vl => vl.weights)

/-- The natural number `a` rounded to the nearest multiple of the power of two
`u` that leaves it at most 24 significant bits, a tie going to the even
multiple; `u` doubles until `a < 2 ^ 24 * u`, at most `fuel` times. -/
def roundAt : Nat → Nat → Nat → Nat
  | 0, a, _ => a
  | fuel + 1, a, u =>
    if a < 16777216 * u then
      (if 2 * (a % u) < u then a / u
        else if u < 2 * (a % u) then a / u + 1
        else if (a / u) % 2 = 0 then a / u
        else a / u + 1) * u
    else roundAt fuel a (2 * u)

/-- The integer `n` rounded to 24 significant bits, ties to even: the `float`
nearest to `n`, for `n` below the overflow threshold of `float`. -/
def roundF32 (n : Int) : Int :=
  if n < 0 then -((roundAt 104 n.natAbs 1 : Nat) : Int) else ((roundAt 104 n.natAbs 1 : Nat) : Int)

/-- Integer arithmetic with the rounding of `float`: the result of an addition,
a subtraction and a multiplication is rounded to 24 significant bits, and `tanh`
saturates as in `clampOps`; used for concrete evaluation only. -/
def roundOps : FloatOps Int where
  ofInt := fun i => roundF32 i
  add := fun a b => roundF32 (a + b)
  sub := fun a b => roundF32 (a - b)
  mul := fun a b => roundF32 (a * b)
  div := fun a b => a.tdiv b
  tanh := fun a => max (-1) (min 1 a)

/-- A fully connected 4 by 4 matrix with its transpose view; used for concrete
evaluation only. -/
def exampleMatrix : SparseMatrix Int :=
  { rows := 4
    columns := 4
    nonZeroValues := [3, 5, 2, 4, 1, 6, 7, 8, 2, 2, 9, 1, 4, 3, 5, 6]
    nonZeroValueIndices := [0, 4, 8, 12, 1, 5, 9, 13, 2, 6, 10, 14, 3, 7, 11, 15]
    rowRanges := [0, 4, 8, 12, 16]
    columnIndices := [0, 1, 2, 3, 0, 1, 2, 3, 0, 1, 2, 3, 0, 1, 2, 3]
    columnRanges := [0, 4, 8, 12, 16]
    rowIndices := [0, 1, 2, 3, 0, 1, 2, 3, 0, 1, 2, 3, 0, 1, 2, 3] }

/-- A predictor of 2 by 2 hidden columns over one visible layer of 2 by 2
columns; used for concrete evaluation only. -/
def examplePredictor : Predictor Int :=
  { hiddenSize := ⟨2, 2, 1⟩
    hiddenCs := [0, 0, 0, 0]
    visibleLayers := [⟨exampleMatrix, [0, 0, 0, 0]⟩]
    visibleLayerDescs := [⟨⟨2, 2, 1⟩, 1⟩]
    alpha := 1 }

/-- A sparse coder of 2 by 2 hidden columns over one visible layer of 2 by 2
columns; used for concrete evaluation only. -/
def exampleSparseCoder : SparseCoder Int :=
  { hiddenSize := ⟨2, 2, 1⟩
    hiddenCs := [0, 0, 0, 0]
    hiddenActivations := [0, 0, 0, 0]
    visibleLayers := [⟨exampleMatrix, [0, 0, 0, 0]⟩]
    visibleLayerDescs := [⟨⟨2, 2, 1⟩, 1⟩]
    explainIters := 2
    alpha := 1 }

/-- A per-coordinate function that records the coordinate it is invoked at and
leaves the generator alone: running a kernel with it from the empty list gives
the list of all invocations. -/
def recordCall {P R : Type} (p : P) (r : R) (log : List P) : List P × R :=
  (log ++ [p], r)

/-- A per-coordinate function that records the coordinate and the generator it is
invoked with. -/
def recordCallRng {P R : Type} (p : P) (r : R) (log : List (P × R)) : List (P × R) × R :=
  (log ++ [(p, r)], r)

/-- A generator that is a counter of the draws made so far; used for concrete
evaluation only. -/
def counterRng : RngOps Nat where
  seedDist := fun r => (((r % 1000000 : Nat) : Int), r + 1)
  mt19937 := fun seed => seed.toNat

/-! ## Theorems -/

/-! ### Loop ranges -/

theorem mem_intRange {lo hi i : Int} : i ∈ intRange lo hi ↔ lo ≤ i ∧ i < hi := by
  unfold intRange
  simp only [List.mem_map, List.mem_range]
  constructor
  · rintro ⟨k, hk, rfl⟩
    omega
  · rintro ⟨h1, h2⟩
    exact ⟨(i - lo).toNat, by omega, by omega⟩

theorem nodup_intRange (lo hi : Int) : (intRange lo hi).Nodup := by
  unfold intRange
  refine List.Nodup.map ?_ (List.nodup_range _)
  intro a b h
  simpa using h

theorem length_intRange (lo hi : Int) : (intRange lo hi).length = (hi - lo).toNat := by
  simp [intRange]

theorem intRange_eq_nil {lo hi : Int} (h : hi ≤ lo) : intRange lo hi = [] := by
  unfold intRange
  have : (hi - lo).toNat = 0 := by omega
  simp [this]

theorem intRange_succ_right {lo hi : Int} (h : lo ≤ hi) :
    intRange lo (hi + 1) = intRange lo hi ++ [hi] := by
  unfold intRange
  have : (hi + 1 - lo).toNat = (hi - lo).toNat + 1 := by omega
  rw [this, List.range_succ, List.map_append]
  simp only [List.map_cons, List.map_nil, List.append_cancel_left_eq, List.cons.injEq, and_true]
  omega

theorem intRange_append {lo mid hi : Int} (h1 : lo ≤ mid) (h2 : mid ≤ hi) :
    intRange lo mid ++ intRange mid hi = intRange lo hi := by
  unfold intRange
  have : (hi - lo).toNat = (mid - lo).toNat + (hi - mid).toNat := by omega
  rw [this, List.range_add, List.map_append, List.map_map]
  congr 1
  apply List.map_congr_left
  intro k _
  simp only [Function.comp, Nat.cast_add]
  omega

theorem map_add_intRange (a lo hi : Int) :
    (intRange lo hi).map (fun i => a + i) = intRange (a + lo) (a + hi) := by
  unfold intRange
  have : (a + hi - (a + lo)).toNat = (hi - lo).toNat := by omega
  rw [this, List.map_map]
  apply List.map_congr_left
  intro k _
  simp only [Function.comp]
  omega

theorem intRange_zero_eq (n : Int) :
    intRange 0 n = (List.range n.toNat).map (fun (k : Nat) => (k : Int)) := by
  unfold intRange
  simp

/-! ### Folds -/

theorem flatMap_swap_perm {α β γ : Type} (l1 : List α) (l2 : List β) (f : α → β → List γ) :
    (l1.flatMap fun a => l2.flatMap fun b => f a b).Perm
      (l2.flatMap fun b => l1.flatMap fun a => f a b) := by
  induction l1 with
  | nil => simp
  | cons a t ih =>
    simp only [List.flatMap_cons]
    refine (List.Perm.append_left _ ih).trans ?_
    clear ih
    induction l2 with
    | nil => simp
    | cons b u ih2 =>
      simp only [List.flatMap_cons, List.append_assoc]
      refine List.Perm.append_left _ ?_
      refine List.Perm.trans ?_ (List.Perm.append_left _ ih2)
      simp only [← List.append_assoc]
      exact List.Perm.append_right _ List.perm_append_comm

theorem foldl_flatMap_eq {α β γ : Type} (f : β → γ → β) (g : α → List γ) (l : List α) (b : β) :
    (l.flatMap g).foldl f b = l.foldl (fun b a => (g a).foldl f b) b := by
  induction l generalizing b with
  | nil => rfl
  | cons a t ih => simp [List.flatMap_cons, List.foldl_append, ih]

theorem foldl_pair_right {α σ R : Type} (f : α → σ → σ) (l : List α) (s : σ) (r : R) :
    l.foldl (fun (st : σ × R) a => (f a st.1, st.2)) (s, r) = (l.foldl (fun s a => f a s) s, r) := by
  induction l generalizing s with
  | nil => rfl
  | cons a t ih => simp [List.foldl_cons, ih]

theorem foldl_pair_fst {α σ R : Type} (f : α → σ → σ) (g : α → R → R) (l : List α) (s : σ)
    (r : R) :
    (l.foldl (fun (st : σ × R) a => (f a st.1, g a st.2)) (s, r)).1
      = l.foldl (fun s a => f a s) s := by
  induction l generalizing s r with
  | nil => rfl
  | cons a t ih => simp [List.foldl_cons, ih]

theorem drawN_succ_last {R : Type} (M : RngOps R) (n : Nat) (rng : R) :
    drawN M (n + 1) rng = (M.seedDist (drawN M n rng)).2 := by
  induction n generalizing rng with
  | zero => rfl
  | succ n ih =>
    show drawN M (n + 1) (M.seedDist rng).2 = _
    rw [ih]
    rfl

theorem drawN_add {R : Type} (M : RngOps R) (a b : Nat) (rng : R) :
    drawN M (a + b) rng = drawN M b (drawN M a rng) := by
  induction a generalizing rng with
  | zero => simp [drawN]
  | succ a ih =>
    have : a + 1 + b = (a + b) + 1 := by omega
    rw [this]
    show drawN M (a + b) (M.seedDist rng).2 = drawN M b (drawN M a (M.seedDist rng).2)
    exact ih _

theorem foldl_seed_range {R σ : Type} (M : RngOps R) (step : Nat → Int → σ → σ) (n : Nat)
    (s : σ) (rng : R) :
    (List.range n).foldl
        (fun (acc : σ × R) k => (step k (M.seedDist acc.2).1 acc.1, (M.seedDist acc.2).2)) (s, rng)
      = ((List.range n).foldl (fun s k => step k (nthSeed M rng k) s) s, drawN M n rng) := by
  induction n with
  | zero => rfl
  | succ n ih =>
    rw [List.range_succ, List.foldl_append, List.foldl_append, ih]
    simp [nthSeed, drawN_succ_last]

/-! ### Kernel dispatch -/

theorem runItem1_lift {R σ : Type} (M : RngOps R) (k : Int → σ → σ) (seed pos batchSize : Int)
    (s : σ) :
    runItem1 M (fun p r s => (k p s, r)) seed pos batchSize s
      = (itemCoords1 pos batchSize).foldl (fun s p => k p s) s := by
  unfold runItem1 itemCoords1
  simp only []
  rw [foldl_pair_right (fun x s => k (pos + x) s), List.foldl_map]

theorem runItem2_lift {R σ : Type} (M : RngOps R) (k : Int2 → σ → σ) (seed : Int)
    (pos batchSize : Int2) (s : σ) :
    runItem2 M (fun p r s => (k p s, r)) seed pos batchSize s
      = (itemCoords2 pos batchSize).foldl (fun s p => k p s) s := by
  unfold runItem2 itemCoords2
  simp only []
  rw [foldl_flatMap_eq]
  have h : ∀ (x : Int) (st : σ × R),
      (intRange 0 batchSize.y).foldl
          (fun (st : σ × R) y => (k ⟨pos.x + x, pos.y + y⟩ st.1, st.2)) st
        = ((List.map (fun y => (⟨pos.x + x, pos.y + y⟩ : Int2)) (intRange 0 batchSize.y)).foldl
            (fun s p => k p s) st.1, st.2) := by
    intro x st
    rw [foldl_pair_right (fun y s => k ⟨pos.x + x, pos.y + y⟩ s), List.foldl_map]
  simp only [h]
  rw [foldl_pair_right
    (fun x s => (List.map (fun y => (⟨pos.x + x, pos.y + y⟩ : Int2)) (intRange 0 batchSize.y)).foldl
      (fun s p => k p s) s)]

theorem runItem3_lift {R σ : Type} (M : RngOps R) (k : Int3 → σ → σ) (seed : Int)
    (pos batchSize : Int3) (s : σ) :
    runItem3 M (fun p r s => (k p s, r)) seed pos batchSize s
      = (itemCoords3 pos batchSize).foldl (fun s p => k p s) s := by
  unfold runItem3 itemCoords3
  simp only []
  rw [foldl_flatMap_eq]
  have h : ∀ (x y : Int) (st : σ × R),
      (intRange 0 batchSize.z).foldl
          (fun (st : σ × R) z => (k ⟨pos.x + x, pos.y + y, pos.z + z⟩ st.1, st.2)) st
        = ((List.map (fun z => (⟨pos.x + x, pos.y + y, pos.z + z⟩ : Int3))
            (intRange 0 batchSize.z)).foldl (fun s p => k p s) st.1, st.2) := by
    intro x y st
    rw [foldl_pair_right (fun z s => k ⟨pos.x + x, pos.y + y, pos.z + z⟩ s), List.foldl_map]
  simp only [h, foldl_flatMap_eq]
  have h2 : ∀ (x : Int) (st : σ × R),
      (intRange 0 batchSize.y).foldl
          (fun (st : σ × R) y =>
            ((List.map (fun z => (⟨pos.x + x, pos.y + y, pos.z + z⟩ : Int3))
              (intRange 0 batchSize.z)).foldl (fun s p => k p s) st.1, st.2)) st
        = ((intRange 0 batchSize.y).foldl
            (fun s y => (List.map (fun z => (⟨pos.x + x, pos.y + y, pos.z + z⟩ : Int3))
              (intRange 0 batchSize.z)).foldl (fun s p => k p s) s) st.1, st.2) := by
    intro x st
    rw [foldl_pair_right
      (fun y s => (List.map (fun z => (⟨pos.x + x, pos.y + y, pos.z + z⟩ : Int3))
        (intRange 0 batchSize.z)).foldl (fun s p => k p s) s)]
  simp only [h2]
  rw [foldl_pair_right
    (fun x s => (intRange 0 batchSize.y).foldl
      (fun s y => (List.map (fun z => (⟨pos.x + x, pos.y + y, pos.z + z⟩ : Int3))
        (intRange 0 batchSize.z)).foldl (fun s p => k p s) s) s)]

/-- For a per-coordinate function that does not touch its generator, `runKernel1`
is the fold of that function over `batchOrder1`. -/
theorem runKernel1_lift {R σ : Type} (M : RngOps R) (k : Int → σ → σ) (size : Int) (rng : R)
    (batchSize : Int) (s : σ) :
    (runKernel1 M (fun p r s => (k p s, r)) size rng batchSize s).1
      = (batchOrder1 size batchSize).foldl (fun s p => k p s) s := by
  unfold runKernel1 batchOrder1 ceilDiv
  simp only [runItem1_lift]
  rw [foldl_flatMap_eq]
  exact foldl_pair_fst
    (fun x s => (itemCoords1 (x * batchSize) (min (size - x * batchSize) batchSize)).foldl
      (fun s p => k p s) s) (fun _ r => (M.seedDist r).2) _ s rng

theorem foldl_pair_fst_nested {α β σ R : Type} (f : α → β → σ → σ) (g : R → R) (l1 : List α)
    (l2 : List β) (s : σ) (r : R) :
    (l1.foldl (fun (acc : σ × R) a =>
        l2.foldl (fun (acc : σ × R) b => (f a b acc.1, g acc.2)) acc) (s, r)).1
      = l1.foldl (fun s a => l2.foldl (fun s b => f a b s) s) s := by
  have h := foldl_pair_fst (fun (p : α × β) s => f p.1 p.2 s) (fun _ r => g r)
    (l1.flatMap fun a => l2.map fun b => (a, b)) s r
  rw [foldl_flatMap_eq, foldl_flatMap_eq] at h
  simp only [List.foldl_map] at h
  exact h

/-- For a per-coordinate function that does not touch its generator, `runKernel2`
is the fold of that function over `batchOrder2`. -/
theorem runKernel2_lift {R σ : Type} (M : RngOps R) (k : Int2 → σ → σ) (size : Int2) (rng : R)
    (batchSize : Int2) (s : σ) :
    (runKernel2 M (fun p r s => (k p s, r)) size rng batchSize s).1
      = (batchOrder2 size batchSize).foldl (fun s p => k p s) s := by
  unfold runKernel2 batchOrder2 ceilDiv
  simp only [runItem2_lift]
  rw [foldl_flatMap_eq]
  simp only [foldl_flatMap_eq]
  exact foldl_pair_fst_nested
    (fun x y s => (itemCoords2 ⟨x * batchSize.x, y * batchSize.y⟩
      ⟨min (size.x - x * batchSize.x) batchSize.x,
        min (size.y - y * batchSize.y) batchSize.y⟩).foldl (fun s p => k p s) s)
    (fun r => (M.seedDist r).2) _ _ s rng

theorem foldl_pair_fst_nested3 {α β γ σ R : Type} (f : α → β → γ → σ → σ) (g : R → R)
    (l1 : List α) (l2 : List β) (l3 : List γ) (s : σ) (r : R) :
    (l1.foldl (fun (acc : σ × R) a =>
        l2.foldl (fun (acc : σ × R) b =>
          l3.foldl (fun (acc : σ × R) c => (f a b c acc.1, g acc.2)) acc) acc) (s, r)).1
      = l1.foldl (fun s a => l2.foldl (fun s b => l3.foldl (fun s c => f a b c s) s) s) s := by
  have h := foldl_pair_fst (fun (p : α × β × γ) s => f p.1 p.2.1 p.2.2 s) (fun _ r => g r)
    (l1.flatMap fun a => l2.flatMap fun b => l3.map fun c => (a, b, c)) s r
  rw [foldl_flatMap_eq, foldl_flatMap_eq] at h
  simp only [List.foldl_map, foldl_flatMap_eq] at h
  exact h

/-- For a per-coordinate function that does not touch its generator, `runKernel3`
is the fold of that function over `batchOrder3`. -/
theorem runKernel3_lift {R σ : Type} (M : RngOps R) (k : Int3 → σ → σ) (size : Int3) (rng : R)
    (batchSize : Int3) (s : σ) :
    (runKernel3 M (fun p r s => (k p s, r)) size rng batchSize s).1
      = (batchOrder3 size batchSize).foldl (fun s p => k p s) s := by
  unfold runKernel3 batchOrder3 ceilDiv
  simp only [runItem3_lift]
  rw [foldl_flatMap_eq]
  simp only [foldl_flatMap_eq]
  exact foldl_pair_fst_nested3
    (fun x y z s => (itemCoords3 ⟨x * batchSize.x, y * batchSize.y, z * batchSize.z⟩
      ⟨min (size.x - x * batchSize.x) batchSize.x,
        min (size.y - y * batchSize.y) batchSize.y,
        min (size.z - z * batchSize.z) batchSize.z⟩).foldl (fun s p => k p s) s)
    (fun r => (M.seedDist r).2) _ _ _ s rng

theorem foldl_snoc_log {α : Type} (l : List α) (log : List α) :
    l.foldl (fun log p => log ++ [p]) log = log ++ l := by
  induction l generalizing log with
  | nil => simp
  | cons a t ih => simp [List.foldl_cons, ih]

theorem runKernel1_record {R : Type} (M : RngOps R) (size : Int) (rng : R) (batchSize : Int) :
    (runKernel1 M recordCall size rng batchSize []).1 = batchOrder1 size batchSize := by
  have h := runKernel1_lift M (fun p (log : List Int) => log ++ [p]) size rng batchSize []
  rw [foldl_snoc_log] at h
  simpa using h

theorem runKernel2_record {R : Type} (M : RngOps R) (size : Int2) (rng : R) (batchSize : Int2) :
    (runKernel2 M recordCall size rng batchSize []).1 = batchOrder2 size batchSize := by
  have h := runKernel2_lift M (fun p (log : List Int2) => log ++ [p]) size rng batchSize []
  rw [foldl_snoc_log] at h
  simpa using h

theorem runKernel3_record {R : Type} (M : RngOps R) (size : Int3) (rng : R) (batchSize : Int3) :
    (runKernel3 M recordCall size rng batchSize []).1 = batchOrder3 size batchSize := by
  have h := runKernel3_lift M (fun p (log : List Int3) => log ++ [p]) size rng batchSize []
  rw [foldl_snoc_log] at h
  simpa using h

/-! ### Ceiling division and the batch decomposition of a range -/

theorem ceilDiv_eq_ediv {size batchSize : Int} (hs : 0 ≤ size) (hb : 1 ≤ batchSize) :
    ceilDiv size batchSize = (size + batchSize - 1) / batchSize := by
  unfold ceilDiv
  exact Int.tdiv_eq_ediv (by omega) (by omega)

theorem ceilDiv_nonneg {size batchSize : Int} (hs : 0 ≤ size) (hb : 1 ≤ batchSize) :
    0 ≤ ceilDiv size batchSize := by
  rw [ceilDiv_eq_ediv hs hb]
  exact Int.ediv_nonneg (by omega) (by omega)

theorem ceilDiv_mul_ge {size batchSize : Int} (hs : 0 ≤ size) (hb : 1 ≤ batchSize) :
    size ≤ ceilDiv size batchSize * batchSize := by
  rw [ceilDiv_eq_ediv hs hb]
  have h := Int.lt_ediv_add_one_mul_self (size + batchSize - 1) (show 0 < batchSize by omega)
  linarith

theorem ceilDiv_pred_mul_lt {size batchSize : Int} (hs : 0 ≤ size) (hb : 1 ≤ batchSize) :
    (ceilDiv size batchSize - 1) * batchSize < size := by
  rw [ceilDiv_eq_ediv hs hb]
  have h := Int.ediv_mul_le (size + batchSize - 1) (show batchSize ≠ 0 by omega)
  linarith

theorem lt_ceilDiv_mul_lt {size batchSize k : Int} (hs : 0 ≤ size) (hb : 1 ≤ batchSize)
    (hk : k < ceilDiv size batchSize) : k * batchSize < size := by
  have h := ceilDiv_pred_mul_lt hs hb
  have h2 : k ≤ ceilDiv size batchSize - 1 := by omega
  have h3 : k * batchSize ≤ (ceilDiv size batchSize - 1) * batchSize :=
    Int.mul_le_mul_of_nonneg_right h2 (by omega)
  omega

theorem itemCoords1_eq (pos batchSize : Int) :
    itemCoords1 pos batchSize = intRange pos (pos + batchSize) := by
  unfold itemCoords1
  rw [map_add_intRange]
  simp

theorem batchOrder1_prefix {size batchSize : Int} (hs : 0 ≤ size) (hb : 1 ≤ batchSize) (n : Nat)
    (hn : (n : Int) ≤ ceilDiv size batchSize) :
    ((intRange 0 (n : Int)).flatMap fun x =>
        itemCoords1 (x * batchSize) (min (size - x * batchSize) batchSize))
      = intRange 0 (min ((n : Int) * batchSize) size) := by
  induction n with
  | zero =>
    have : min ((0 : Nat) * batchSize : Int) size = 0 := by simp [hs]
    simp [this, intRange_eq_nil]
  | succ n ih =>
    have hn' : (n : Int) < ceilDiv size batchSize := by push_cast at hn; omega
    have hlt := lt_ceilDiv_mul_lt hs hb hn'
    have hnn : (0 : Int) ≤ (n : Int) * batchSize := by positivity
    push_cast
    rw [intRange_succ_right (by omega), List.flatMap_append, ih (by omega)]
    simp only [List.flatMap_cons, List.flatMap_nil, List.append_nil]
    rw [itemCoords1_eq]
    have e1 : min ((n : Int) * batchSize) size = (n : Int) * batchSize := by omega
    have e2 : (n : Int) * batchSize + min (size - (n : Int) * batchSize) batchSize
        = min (((n : Int) + 1) * batchSize) size := by
      have : ((n : Int) + 1) * batchSize = (n : Int) * batchSize + batchSize := by ring
      omega
    rw [e1, e2]
    apply intRange_append hnn
    have : ((n : Int) + 1) * batchSize = (n : Int) * batchSize + batchSize := by ring
    omega

/-- In one dimension the batches are visited in increasing order, so the
submission order is the plain loop order. -/
theorem batchOrder1_eq {size batchSize : Int} (hs : 0 ≤ size) (hb : 1 ≤ batchSize) :
    batchOrder1 size batchSize = intRange 0 size := by
  unfold batchOrder1
  have h0 := ceilDiv_nonneg hs hb
  have h := batchOrder1_prefix hs hb (ceilDiv size batchSize).toNat (by omega)
  have e : ((ceilDiv size batchSize).toNat : Int) = ceilDiv size batchSize := by omega
  rw [e] at h
  rw [h]
  have := ceilDiv_mul_ge hs hb
  congr 1
  omega

/-! ### Batched order against loop order -/

theorem flatMap_regroup_perm {α β ξ υ : Type} (X : List ξ) (Y : List υ) (A : ξ → List α)
    (g : α → υ → List β) :
    (X.flatMap fun x => Y.flatMap fun y => (A x).flatMap fun a => g a y).Perm
      ((X.flatMap A).flatMap fun a => Y.flatMap fun y => g a y) := by
  rw [List.flatMap_assoc]
  apply List.Perm.flatMap_left
  intro x _
  exact flatMap_swap_perm Y (A x) (fun y a => g a y)

theorem flatMap_regroup2_perm {α β γ ξ υ : Type} (X : List ξ) (Y : List υ) (A : ξ → List α)
    (B : υ → List β) (f : α → β → List γ) :
    (X.flatMap fun x => Y.flatMap fun y => (A x).flatMap fun a => (B y).flatMap fun b => f a b).Perm
      ((X.flatMap A).flatMap fun a => (Y.flatMap B).flatMap fun b => f a b) := by
  refine (flatMap_regroup_perm X Y A (fun a y => (B y).flatMap fun b => f a b)).trans ?_
  simp only [List.flatMap_assoc]
  exact List.Perm.refl _

theorem flatMap_regroup3_perm {α β γ δ ξ υ ζ : Type} (X : List ξ) (Y : List υ) (Z : List ζ)
    (A : ξ → List α) (B : υ → List β) (C : ζ → List γ) (f : α → β → γ → List δ) :
    (X.flatMap fun x => Y.flatMap fun y => Z.flatMap fun z =>
        (A x).flatMap fun a => (B y).flatMap fun b => (C z).flatMap fun c => f a b c).Perm
      ((X.flatMap A).flatMap fun a => (Y.flatMap B).flatMap fun b =>
        (Z.flatMap C).flatMap fun c => f a b c) := by
  have h1 : ∀ x, (Y.flatMap fun y => Z.flatMap fun z =>
        (A x).flatMap fun a => (B y).flatMap fun b => (C z).flatMap fun c => f a b c).Perm
      ((A x).flatMap fun a => Y.flatMap fun y => Z.flatMap fun z =>
        (B y).flatMap fun b => (C z).flatMap fun c => f a b c) := by
    intro x
    refine List.Perm.trans ?_ (flatMap_swap_perm Y (A x) _)
    apply List.Perm.flatMap_left
    intro y _
    exact flatMap_swap_perm Z (A x) _
  refine (List.Perm.flatMap_left X (fun x _ => h1 x)).trans ?_
  rw [List.flatMap_assoc]
  apply List.Perm.flatMap_left
  intro x _
  apply List.Perm.flatMap_left
  intro a _
  exact flatMap_regroup2_perm Y Z B C (f a)

theorem map_eq_flatMap_singleton {α β : Type} (f : α → β) (l : List α) :
    l.map f = l.flatMap fun a => [f a] := by
  induction l with
  | nil => rfl
  | cons a t ih => simp [List.flatMap_cons, ih]

theorem itemCoords2_eq (pos batchSize : Int2) :
    itemCoords2 pos batchSize
      = (itemCoords1 pos.x batchSize.x).flatMap fun a =>
          (itemCoords1 pos.y batchSize.y).flatMap fun b => [(⟨a, b⟩ : Int2)] := by
  unfold itemCoords2 itemCoords1
  simp only [List.flatMap_map, ← map_eq_flatMap_singleton, List.map_map]
  rfl

theorem itemCoords3_eq (pos batchSize : Int3) :
    itemCoords3 pos batchSize
      = (itemCoords1 pos.x batchSize.x).flatMap fun a =>
          (itemCoords1 pos.y batchSize.y).flatMap fun b =>
            (itemCoords1 pos.z batchSize.z).flatMap fun c => [(⟨a, b, c⟩ : Int3)] := by
  unfold itemCoords3 itemCoords1
  simp only [List.flatMap_map, ← map_eq_flatMap_singleton, List.map_map]
  rfl

/-- The coordinates submitted by `runKernel2` are a rearrangement of the
coordinates of the plain nested loops. -/
theorem batchOrder2_perm {size batchSize : Int2} (hs : 0 ≤ size.x ∧ 0 ≤ size.y)
    (hb : 1 ≤ batchSize.x ∧ 1 ≤ batchSize.y) :
    (batchOrder2 size batchSize).Perm (domain2 size) := by
  unfold batchOrder2 domain2
  simp only [itemCoords2_eq]
  refine (flatMap_regroup2_perm _ _
    (fun x => itemCoords1 (x * batchSize.x) (min (size.x - x * batchSize.x) batchSize.x))
    (fun y => itemCoords1 (y * batchSize.y) (min (size.y - y * batchSize.y) batchSize.y))
    (fun a b => [(⟨a, b⟩ : Int2)])).trans ?_
  have ex := batchOrder1_eq hs.1 hb.1
  have ey := batchOrder1_eq hs.2 hb.2
  unfold batchOrder1 at ex ey
  rw [ex, ey]
  simp only [← map_eq_flatMap_singleton]
  exact List.Perm.refl _

/-- The coordinates submitted by `runKernel3` are a rearrangement of the
coordinates of the plain nested loops. -/
theorem batchOrder3_perm {size batchSize : Int3} (hs : 0 ≤ size.x ∧ 0 ≤ size.y ∧ 0 ≤ size.z)
    (hb : 1 ≤ batchSize.x ∧ 1 ≤ batchSize.y ∧ 1 ≤ batchSize.z) :
    (batchOrder3 size batchSize).Perm (domain3 size) := by
  unfold batchOrder3 domain3
  simp only [itemCoords3_eq]
  refine (flatMap_regroup3_perm _ _ _
    (fun x => itemCoords1 (x * batchSize.x) (min (size.x - x * batchSize.x) batchSize.x))
    (fun y => itemCoords1 (y * batchSize.y) (min (size.y - y * batchSize.y) batchSize.y))
    (fun z => itemCoords1 (z * batchSize.z) (min (size.z - z * batchSize.z) batchSize.z))
    (fun a b c => [(⟨a, b, c⟩ : Int3)])).trans ?_
  have ex := batchOrder1_eq hs.1 hb.1
  have ey := batchOrder1_eq hs.2.1 hb.2.1
  have ez := batchOrder1_eq hs.2.2 hb.2.2
  unfold batchOrder1 at ex ey ez
  rw [ex, ey, ez]
  simp only [← map_eq_flatMap_singleton]
  exact List.Perm.refl _

theorem mem_domain2 {size p : Int2} :
    p ∈ domain2 size ↔ (0 ≤ p.x ∧ p.x < size.x) ∧ (0 ≤ p.y ∧ p.y < size.y) := by
  unfold domain2
  simp only [List.mem_flatMap, List.mem_map, mem_intRange]
  constructor
  · rintro ⟨x, hx, y, hy, rfl⟩
    exact ⟨hx, hy⟩
  · rintro ⟨hx, hy⟩
    exact ⟨p.x, hx, p.y, hy, rfl⟩

theorem mem_domain3 {size p : Int3} :
    p ∈ domain3 size
      ↔ (0 ≤ p.x ∧ p.x < size.x) ∧ (0 ≤ p.y ∧ p.y < size.y) ∧ (0 ≤ p.z ∧ p.z < size.z) := by
  unfold domain3
  simp only [List.mem_flatMap, List.mem_map, mem_intRange]
  constructor
  · rintro ⟨x, hx, y, hy, z, hz, rfl⟩
    exact ⟨hx, hy, hz⟩
  · rintro ⟨hx, hy, hz⟩
    exact ⟨p.x, hx, p.y, hy, p.z, hz, rfl⟩

theorem nodup_domain2 (size : Int2) : (domain2 size).Nodup := by
  unfold domain2
  rw [List.nodup_flatMap]
  constructor
  · intro x _
    refine List.Nodup.map ?_ (nodup_intRange _ _)
    intro a b h
    simpa using h
  · refine List.Pairwise.imp ?_ (nodup_intRange 0 size.x)
    intro a b hab
    simp only [Function.onFun, List.disjoint_left, List.mem_map]
    rintro p ⟨y, _, rfl⟩ ⟨y', _, h⟩
    apply hab
    have := congrArg Int2.x h
    simpa using this.symm

theorem nodup_domain3 (size : Int3) : (domain3 size).Nodup := by
  unfold domain3
  rw [List.nodup_flatMap]
  constructor
  · intro x _
    rw [List.nodup_flatMap]
    constructor
    · intro y _
      refine List.Nodup.map ?_ (nodup_intRange _ _)
      intro a b h
      simpa using h
    · refine List.Pairwise.imp ?_ (nodup_intRange 0 size.y)
      intro a b hab
      simp only [Function.onFun, List.disjoint_left, List.mem_map]
      rintro p ⟨z, _, rfl⟩ ⟨z', _, h⟩
      apply hab
      have := congrArg Int3.y h
      simpa using this.symm
  · refine List.Pairwise.imp ?_ (nodup_intRange 0 size.x)
    intro a b hab
    simp only [Function.onFun, List.disjoint_left, List.mem_flatMap, List.mem_map]
    rintro p ⟨y, _, z, _, rfl⟩ ⟨y', _, z', _, h⟩
    apply hab
    have := congrArg Int3.x h
    simpa using this.symm

/-! ### Seeds drawn by the kernels -/

theorem foldl_nested_range {β : Type} (f : Nat → Nat → β → β) (a b : Nat) (s : β) :
    (List.range a).foldl (fun s x => (List.range b).foldl (fun s y => f x y s) s) s
      = (List.range (a * b)).foldl (fun s k => f (k / b) (k % b) s) s := by
  induction a with
  | zero => simp
  | succ a ih =>
    have e : (a + 1) * b = a * b + b := by ring
    rw [List.range_succ, List.foldl_append, ih, e, List.range_add, List.foldl_append,
      List.foldl_map]
    simp only [List.foldl_cons, List.foldl_nil]
    apply List.foldl_ext
    intro s y hy
    have hy' : y < b := List.mem_range.mp hy
    have hb : 0 < b := by omega
    have h1 : (a * b + y) / b = a := by
      rw [Nat.add_comm, Nat.add_mul_div_right _ _ hb, Nat.div_eq_of_lt hy']
      simp
    have h2 : (a * b + y) % b = y := by
      rw [Nat.add_comm, Nat.add_mul_mod_self_right, Nat.mod_eq_of_lt hy']
    rw [h1, h2]

theorem foldl_nested_range3 {β : Type} (f : Nat → Nat → Nat → β → β) (a b c : Nat) (s : β) :
    (List.range a).foldl (fun s x => (List.range b).foldl (fun s y =>
        (List.range c).foldl (fun s z => f x y z s) s) s) s
      = (List.range (a * b * c)).foldl
          (fun s k => f (k / (b * c)) (k % (b * c) / c) (k % (b * c) % c) s) s := by
  have h : ∀ x s, (List.range b).foldl (fun s y =>
        (List.range c).foldl (fun s z => f x y z s) s) s
      = (List.range (b * c)).foldl (fun s j => f x (j / c) (j % c) s) s := by
    intro x s
    exact foldl_nested_range (fun y z s => f x y z s) b c s
  simp only [h]
  rw [foldl_nested_range (fun x j s => f x (j / c) (j % c) s) a (b * c) s, Nat.mul_assoc]

theorem runKernel1_seeds {R σ : Type} (M : RngOps R) (func : Int → R → σ → σ × R) (size : Int)
    (rng : R) (batchSize : Int) (s : σ) :
    runKernel1 M func size rng batchSize s
      = ((List.range (ceilDiv size batchSize).toNat).foldl
          (fun s k => runItem1 M func (nthSeed M rng k) ((k : Int) * batchSize)
            (min (size - (k : Int) * batchSize) batchSize) s) s,
         drawN M (ceilDiv size batchSize).toNat rng) := by
  unfold runKernel1
  simp only []
  rw [show (size + batchSize - 1).tdiv batchSize = ceilDiv size batchSize from rfl,
    intRange_zero_eq, List.foldl_map]
  exact foldl_seed_range M
    (fun k seed s => runItem1 M func seed ((k : Int) * batchSize)
      (min (size - (k : Int) * batchSize) batchSize) s) _ s rng

theorem runKernel2_seeds {R σ : Type} (M : RngOps R) (func : Int2 → R → σ → σ × R) (size : Int2)
    (rng : R) (batchSize : Int2) (s : σ) :
    runKernel2 M func size rng batchSize s
      = ((List.range ((ceilDiv size.x batchSize.x).toNat * (ceilDiv size.y batchSize.y).toNat)).foldl
          (fun s k => runItem2 M func (nthSeed M rng k)
            ⟨((k / (ceilDiv size.y batchSize.y).toNat : Nat) : Int) * batchSize.x,
             ((k % (ceilDiv size.y batchSize.y).toNat : Nat) : Int) * batchSize.y⟩
            ⟨min (size.x - ((k / (ceilDiv size.y batchSize.y).toNat : Nat) : Int) * batchSize.x)
               batchSize.x,
             min (size.y - ((k % (ceilDiv size.y batchSize.y).toNat : Nat) : Int) * batchSize.y)
               batchSize.y⟩ s) s,
         drawN M ((ceilDiv size.x batchSize.x).toNat * (ceilDiv size.y batchSize.y).toNat) rng) := by
  unfold runKernel2
  simp only []
  rw [show (size.x + batchSize.x - 1).tdiv batchSize.x = ceilDiv size.x batchSize.x from rfl,
    show (size.y + batchSize.y - 1).tdiv batchSize.y = ceilDiv size.y batchSize.y from rfl,
    intRange_zero_eq, intRange_zero_eq, List.foldl_map]
  simp only [List.foldl_map]
  rw [foldl_nested_range
    (fun x y (acc : σ × R) =>
      (runItem2 M func (M.seedDist acc.2).1 ⟨(x : Int) * batchSize.x, (y : Int) * batchSize.y⟩
        ⟨min (size.x - (x : Int) * batchSize.x) batchSize.x,
         min (size.y - (y : Int) * batchSize.y) batchSize.y⟩ acc.1, (M.seedDist acc.2).2))]
  exact foldl_seed_range M
    (fun k seed s => runItem2 M func seed
      ⟨((k / (ceilDiv size.y batchSize.y).toNat : Nat) : Int) * batchSize.x,
       ((k % (ceilDiv size.y batchSize.y).toNat : Nat) : Int) * batchSize.y⟩
      ⟨min (size.x - ((k / (ceilDiv size.y batchSize.y).toNat : Nat) : Int) * batchSize.x)
         batchSize.x,
       min (size.y - ((k % (ceilDiv size.y batchSize.y).toNat : Nat) : Int) * batchSize.y)
         batchSize.y⟩ s) _ s rng

theorem runKernel3_seeds {R σ : Type} (M : RngOps R) (func : Int3 → R → σ → σ × R) (size : Int3)
    (rng : R) (batchSize : Int3) (s : σ) :
    runKernel3 M func size rng batchSize s
      = ((List.range ((ceilDiv size.x batchSize.x).toNat * (ceilDiv size.y batchSize.y).toNat
            * (ceilDiv size.z batchSize.z).toNat)).foldl
          (fun s k => runItem3 M func (nthSeed M rng k)
            ⟨((k / ((ceilDiv size.y batchSize.y).toNat * (ceilDiv size.z batchSize.z).toNat)
                : Nat) : Int) * batchSize.x,
             ((k % ((ceilDiv size.y batchSize.y).toNat * (ceilDiv size.z batchSize.z).toNat)
                / (ceilDiv size.z batchSize.z).toNat : Nat) : Int) * batchSize.y,
             ((k % ((ceilDiv size.y batchSize.y).toNat * (ceilDiv size.z batchSize.z).toNat)
                % (ceilDiv size.z batchSize.z).toNat : Nat) : Int) * batchSize.z⟩
            ⟨min (size.x - ((k / ((ceilDiv size.y batchSize.y).toNat
                * (ceilDiv size.z batchSize.z).toNat) : Nat) : Int) * batchSize.x) batchSize.x,
             min (size.y - ((k % ((ceilDiv size.y batchSize.y).toNat
                * (ceilDiv size.z batchSize.z).toNat) / (ceilDiv size.z batchSize.z).toNat
                : Nat) : Int) * batchSize.y) batchSize.y,
             min (size.z - ((k % ((ceilDiv size.y batchSize.y).toNat
                * (ceilDiv size.z batchSize.z).toNat) % (ceilDiv size.z batchSize.z).toNat
                : Nat) : Int) * batchSize.z) batchSize.z⟩ s) s,
         drawN M ((ceilDiv size.x batchSize.x).toNat * (ceilDiv size.y batchSize.y).toNat
            * (ceilDiv size.z batchSize.z).toNat) rng) := by
  unfold runKernel3
  simp only []
  rw [show (size.x + batchSize.x - 1).tdiv batchSize.x = ceilDiv size.x batchSize.x from rfl,
    show (size.y + batchSize.y - 1).tdiv batchSize.y = ceilDiv size.y batchSize.y from rfl,
    show (size.z + batchSize.z - 1).tdiv batchSize.z = ceilDiv size.z batchSize.z from rfl,
    intRange_zero_eq, intRange_zero_eq, intRange_zero_eq, List.foldl_map]
  simp only [List.foldl_map]
  rw [foldl_nested_range3
    (fun x y z (acc : σ × R) =>
      (runItem3 M func (M.seedDist acc.2).1
        ⟨(x : Int) * batchSize.x, (y : Int) * batchSize.y, (z : Int) * batchSize.z⟩
        ⟨min (size.x - (x : Int) * batchSize.x) batchSize.x,
         min (size.y - (y : Int) * batchSize.y) batchSize.y,
         min (size.z - (z : Int) * batchSize.z) batchSize.z⟩ acc.1, (M.seedDist acc.2).2))]
  exact foldl_seed_range M
    (fun k seed s => runItem3 M func seed
      ⟨((k / ((ceilDiv size.y batchSize.y).toNat * (ceilDiv size.z batchSize.z).toNat)
          : Nat) : Int) * batchSize.x,
       ((k % ((ceilDiv size.y batchSize.y).toNat * (ceilDiv size.z batchSize.z).toNat)
          / (ceilDiv size.z batchSize.z).toNat : Nat) : Int) * batchSize.y,
       ((k % ((ceilDiv size.y batchSize.y).toNat * (ceilDiv size.z batchSize.z).toNat)
          % (ceilDiv size.z batchSize.z).toNat : Nat) : Int) * batchSize.z⟩
      ⟨min (size.x - ((k / ((ceilDiv size.y batchSize.y).toNat
          * (ceilDiv size.z batchSize.z).toNat) : Nat) : Int) * batchSize.x) batchSize.x,
       min (size.y - ((k % ((ceilDiv size.y batchSize.y).toNat
          * (ceilDiv size.z batchSize.z).toNat) / (ceilDiv size.z batchSize.z).toNat
          : Nat) : Int) * batchSize.y) batchSize.y,
       min (size.z - ((k % ((ceilDiv size.y batchSize.y).toNat
          * (ceilDiv size.z batchSize.z).toNat) % (ceilDiv size.z batchSize.z).toNat
          : Nat) : Int) * batchSize.z) batchSize.z⟩ s) _ s rng

theorem ceilDiv_eq_ceil {size batchSize : Int} (hs : 0 ≤ size) (hb : 1 ≤ batchSize) :
    ceilDiv size batchSize = ⌈(size : ℚ) / (batchSize : ℚ)⌉ := by
  symm
  rw [Int.ceil_eq_iff]
  have hbq : (0 : ℚ) < (batchSize : ℚ) := by exact_mod_cast (show (0 : Int) < batchSize by omega)
  have h1 := ceilDiv_pred_mul_lt hs hb
  have h2 := ceilDiv_mul_ge hs hb
  constructor
  · rw [lt_div_iff₀ hbq]
    exact_mod_cast h1
  · rw [div_le_iff₀ hbq]
    exact_mod_cast h2

theorem clamped_extent_bounds {size batchSize k : Int} (hs : 0 ≤ size) (hb : 1 ≤ batchSize)
    (hk : k < ceilDiv size batchSize) :
    1 ≤ min (size - k * batchSize) batchSize ∧ min (size - k * batchSize) batchSize ≤ batchSize := by
  have := lt_ceilDiv_mul_lt hs hb hk
  omega

/-! ### Claims on kernel dispatch -/

/-- C1: for a domain with non-negative extents and batch extents at least 1,
`runKernel1`, `runKernel2` and `runKernel3` invoke the per-coordinate function
exactly once at every coordinate of the domain and at no other coordinate (the
list of recorded invocations has no duplicate and its members are the domain
coordinates), and the clamped extent `min (size - k * batchSize) batchSize` of
every batch `k` is between 1 and `batchSize`. -/
theorem runKernel_invokes_each_coordinate_once {R : Type} (M : RngOps R) (rng : R)
    (size1 batchSize1 : Int) (size2 batchSize2 : Int2) (size3 batchSize3 : Int3)
    (hs1 : 0 ≤ size1) (hb1 : 1 ≤ batchSize1)
    (hs2 : 0 ≤ size2.x ∧ 0 ≤ size2.y) (hb2 : 1 ≤ batchSize2.x ∧ 1 ≤ batchSize2.y)
    (hs3 : 0 ≤ size3.x ∧ 0 ≤ size3.y ∧ 0 ≤ size3.z)
    (hb3 : 1 ≤ batchSize3.x ∧ 1 ≤ batchSize3.y ∧ 1 ≤ batchSize3.z) :
    ((runKernel1 M recordCall size1 rng batchSize1 []).1.Nodup ∧
      ∀ x, x ∈ (runKernel1 M recordCall size1 rng batchSize1 []).1 ↔ 0 ≤ x ∧ x < size1) ∧
    ((runKernel2 M recordCall size2 rng batchSize2 []).1.Nodup ∧
      ∀ p, p ∈ (runKernel2 M recordCall size2 rng batchSize2 []).1
        ↔ (0 ≤ p.x ∧ p.x < size2.x) ∧ (0 ≤ p.y ∧ p.y < size2.y)) ∧
    ((runKernel3 M recordCall size3 rng batchSize3 []).1.Nodup ∧
      ∀ p, p ∈ (runKernel3 M recordCall size3 rng batchSize3 []).1
        ↔ (0 ≤ p.x ∧ p.x < size3.x) ∧ (0 ≤ p.y ∧ p.y < size3.y) ∧ (0 ≤ p.z ∧ p.z < size3.z)) ∧
    (∀ size batchSize k : Int, 0 ≤ size → 1 ≤ batchSize → 0 ≤ k → k < ceilDiv size batchSize →
      1 ≤ min (size - k * batchSize) batchSize ∧
        min (size - k * batchSize) batchSize ≤ batchSize) := by
  refine ⟨⟨?_, ?_⟩, ⟨?_, ?_⟩, ⟨?_, ?_⟩, ?_⟩
  · rw [runKernel1_record, batchOrder1_eq hs1 hb1]
    exact nodup_intRange _ _
  · intro x
    rw [runKernel1_record, batchOrder1_eq hs1 hb1]
    exact mem_intRange
  · rw [runKernel2_record]
    exact (batchOrder2_perm hs2 hb2).nodup_iff.mpr (nodup_domain2 _)
  · intro p
    rw [runKernel2_record, (batchOrder2_perm hs2 hb2).mem_iff]
    exact mem_domain2
  · rw [runKernel3_record]
    exact (batchOrder3_perm hs3 hb3).nodup_iff.mpr (nodup_domain3 _)
  · intro p
    rw [runKernel3_record, (batchOrder3_perm hs3 hb3).mem_iff]
    exact mem_domain3
  · intro size batchSize k hs hb _ hk
    exact clamped_extent_bounds hs hb hk

/-- Witness of C1 on a 7-element range in batches of 3, a 3 by 5 grid in
batches of 2 by 2 and a 2 by 2 by 3 grid in batches of 2 by 1 by 2. -/
theorem runKernel_invokes_each_coordinate_once_witness :
    ((0 : Int) ≤ 7 ∧ (1 : Int) ≤ 3) ∧
    (∀ p, p ∈ (runKernel2 counterRng recordCall (⟨3, 5⟩ : Int2) 0 ⟨2, 2⟩ []).1
        ↔ (0 ≤ p.x ∧ p.x < 3) ∧ (0 ≤ p.y ∧ p.y < 5)) :=
  ⟨⟨by decide, by decide⟩,
    (runKernel_invokes_each_coordinate_once counterRng 0 7 3 ⟨3, 5⟩ ⟨2, 2⟩ ⟨2, 2, 3⟩ ⟨2, 1, 2⟩
      (by decide) (by decide) ⟨by decide, by decide⟩ ⟨by decide, by decide⟩
      ⟨by decide, by decide, by decide⟩ ⟨by decide, by decide, by decide⟩).2.1.2⟩

/-- C9: `runKernel1`, `runKernel2` and `runKernel3` draw one seed from the
parent generator per batch; the number of batches along an axis is
`ceil (size / batchSize)` and the number of draws is the product over the axes;
the draw number `k` (from 0) seeds the batch number `k` of the enumeration with
x outermost and the last axis innermost (in 2D the batch
`(k / batches.y, k % batches.y)`).  The seed of a batch is `nthSeed M rng k`,
which depends neither on the per-coordinate function nor on the state. -/
theorem runKernel_one_seed_per_batch {R σ : Type} (M : RngOps R)
    (f1 : Int → R → σ → σ × R) (f2 : Int2 → R → σ → σ × R) (f3 : Int3 → R → σ → σ × R)
    (rng : R) (s : σ)
    (size1 batchSize1 : Int) (size2 batchSize2 : Int2) (size3 batchSize3 : Int3)
    (hs1 : 0 ≤ size1) (hb1 : 1 ≤ batchSize1)
    (hs2 : 0 ≤ size2.x ∧ 0 ≤ size2.y) (hb2 : 1 ≤ batchSize2.x ∧ 1 ≤ batchSize2.y)
    (hs3 : 0 ≤ size3.x ∧ 0 ≤ size3.y ∧ 0 ≤ size3.z)
    (hb3 : 1 ≤ batchSize3.x ∧ 1 ≤ batchSize3.y ∧ 1 ≤ batchSize3.z) :
    (ceilDiv size1 batchSize1 = ⌈(size1 : ℚ) / (batchSize1 : ℚ)⌉ ∧
      ceilDiv size2.x batchSize2.x = ⌈(size2.x : ℚ) / (batchSize2.x : ℚ)⌉ ∧
      ceilDiv size2.y batchSize2.y = ⌈(size2.y : ℚ) / (batchSize2.y : ℚ)⌉ ∧
      ceilDiv size3.x batchSize3.x = ⌈(size3.x : ℚ) / (batchSize3.x : ℚ)⌉ ∧
      ceilDiv size3.y batchSize3.y = ⌈(size3.y : ℚ) / (batchSize3.y : ℚ)⌉ ∧
      ceilDiv size3.z batchSize3.z = ⌈(size3.z : ℚ) / (batchSize3.z : ℚ)⌉) ∧
    runKernel1 M f1 size1 rng batchSize1 s
      = ((List.range (ceilDiv size1 batchSize1).toNat).foldl
          (fun s k => runItem1 M f1 (nthSeed M rng k) ((k : Int) * batchSize1)
            (min (size1 - (k : Int) * batchSize1) batchSize1) s) s,
         drawN M (ceilDiv size1 batchSize1).toNat rng) ∧
    runKernel2 M f2 size2 rng batchSize2 s
      = ((List.range ((ceilDiv size2.x batchSize2.x).toNat
            * (ceilDiv size2.y batchSize2.y).toNat)).foldl
          (fun s k => runItem2 M f2 (nthSeed M rng k)
            ⟨((k / (ceilDiv size2.y batchSize2.y).toNat : Nat) : Int) * batchSize2.x,
             ((k % (ceilDiv size2.y batchSize2.y).toNat : Nat) : Int) * batchSize2.y⟩
            ⟨min (size2.x - ((k / (ceilDiv size2.y batchSize2.y).toNat : Nat) : Int)
                * batchSize2.x) batchSize2.x,
             min (size2.y - ((k % (ceilDiv size2.y batchSize2.y).toNat : Nat) : Int)
                * batchSize2.y) batchSize2.y⟩ s) s,
         drawN M ((ceilDiv size2.x batchSize2.x).toNat
            * (ceilDiv size2.y batchSize2.y).toNat) rng) ∧
    runKernel3 M f3 size3 rng batchSize3 s
      = ((List.range ((ceilDiv size3.x batchSize3.x).toNat * (ceilDiv size3.y batchSize3.y).toNat
            * (ceilDiv size3.z batchSize3.z).toNat)).foldl
          (fun s k => runItem3 M f3 (nthSeed M rng k)
            ⟨((k / ((ceilDiv size3.y batchSize3.y).toNat * (ceilDiv size3.z batchSize3.z).toNat)
                : Nat) : Int) * batchSize3.x,
             ((k % ((ceilDiv size3.y batchSize3.y).toNat * (ceilDiv size3.z batchSize3.z).toNat)
                / (ceilDiv size3.z batchSize3.z).toNat : Nat) : Int) * batchSize3.y,
             ((k % ((ceilDiv size3.y batchSize3.y).toNat * (ceilDiv size3.z batchSize3.z).toNat)
                % (ceilDiv size3.z batchSize3.z).toNat : Nat) : Int) * batchSize3.z⟩
            ⟨min (size3.x - ((k / ((ceilDiv size3.y batchSize3.y).toNat
                * (ceilDiv size3.z batchSize3.z).toNat) : Nat) : Int) * batchSize3.x)
                batchSize3.x,
             min (size3.y - ((k % ((ceilDiv size3.y batchSize3.y).toNat
                * (ceilDiv size3.z batchSize3.z).toNat) / (ceilDiv size3.z batchSize3.z).toNat
                : Nat) : Int) * batchSize3.y) batchSize3.y,
             min (size3.z - ((k % ((ceilDiv size3.y batchSize3.y).toNat
                * (ceilDiv size3.z batchSize3.z).toNat) % (ceilDiv size3.z batchSize3.z).toNat
                : Nat) : Int) * batchSize3.z) batchSize3.z⟩ s) s,
         drawN M ((ceilDiv size3.x batchSize3.x).toNat * (ceilDiv size3.y batchSize3.y).toNat
            * (ceilDiv size3.z batchSize3.z).toNat) rng) :=
  ⟨⟨ceilDiv_eq_ceil hs1 hb1, ceilDiv_eq_ceil hs2.1 hb2.1, ceilDiv_eq_ceil hs2.2 hb2.2,
      ceilDiv_eq_ceil hs3.1 hb3.1, ceilDiv_eq_ceil hs3.2.1 hb3.2.1,
      ceilDiv_eq_ceil hs3.2.2 hb3.2.2⟩,
    runKernel1_seeds M f1 size1 rng batchSize1 s,
    runKernel2_seeds M f2 size2 rng batchSize2 s,
    runKernel3_seeds M f3 size3 rng batchSize3 s⟩

/-- Witness of C9: on a 3 by 5 grid in batches of 2 by 2 the dispatch makes
`2 * 3 = 6` draws from the parent generator. -/
theorem runKernel_one_seed_per_batch_witness :
    ((0 : Int) ≤ 3 ∧ (0 : Int) ≤ 5 ∧ (1 : Int) ≤ 2) ∧
    (runKernel2 counterRng (recordCallRng : Int2 → Nat → _) ⟨3, 5⟩ 7 ⟨2, 2⟩ []).2
      = drawN counterRng ((ceilDiv 3 2).toNat * (ceilDiv 5 2).toNat) 7 :=
  ⟨⟨by decide, by decide, by decide⟩,
    congrArg Prod.snd
      (runKernel_one_seed_per_batch counterRng (fun _ r s => (s, r)) recordCallRng
        (fun _ r s => (s, r)) 7 []
        7 3 ⟨3, 5⟩ ⟨2, 2⟩ ⟨2, 2, 3⟩ ⟨2, 1, 2⟩
        (by decide) (by decide) ⟨by decide, by decide⟩ ⟨by decide, by decide⟩
        ⟨by decide, by decide, by decide⟩ ⟨by decide, by decide, by decide⟩).2.2.1⟩

/-! ### Receptive-field matrices -/

theorem foldl_pushEntry {F : Type} (ops : FloatOps F) (l : List Int) (acc : SparseMatrix F × Int) :
    l.foldl (fun acc i => pushEntry ops i acc) acc
      = ({ acc.1 with
            nonZeroValues := acc.1.nonZeroValues ++ List.replicate l.length (ops.ofInt 0)
            columnIndices := acc.1.columnIndices ++ l },
         acc.2 + (l.length : Int)) := by
  induction l generalizing acc with
  | nil => simp
  | cons a t ih =>
    rw [List.foldl_cons, ih]
    simp only [pushEntry, List.length_cons, List.replicate_succ, List.append_assoc,
      List.singleton_append, Nat.cast_add, Nat.cast_one]
    refine Prod.ext ?_ ?_
    · simp only
    · simp only
      omega

theorem fillRow_eq {F : Type} (ops : FloatOps F) (inSize : Int3) (lo hi : Int2)
    (mat : SparseMatrix F) :
    fillRow ops inSize lo hi mat
      = ({ mat with
            nonZeroValues := mat.nonZeroValues
              ++ List.replicate (windowCells inSize lo hi).length (ops.ofInt 0)
            columnIndices := mat.columnIndices ++ windowCells inSize lo hi },
         ((windowCells inSize lo hi).length : Int)) := by
  have h : fillRow ops inSize lo hi mat
      = (windowCells inSize lo hi).foldl (fun acc i => pushEntry ops i acc) (mat, 0) := by
    unfold fillRow windowCells
    rw [foldl_flatMap_eq]
    simp only [foldl_flatMap_eq, List.foldl_map]
  rw [h, foldl_pushEntry]
  simp

theorem intRange_cons {lo hi : Int} (h : lo < hi) : intRange lo hi = lo :: intRange (lo + 1) hi := by
  have h1 := @intRange_append lo (lo + 1) hi (by omega) (by omega)
  have h2 : intRange lo (lo + 1) = [lo] := by
    rw [intRange_succ_right (le_refl lo), intRange_eq_nil (le_refl lo)]
    rfl
  rw [← h1, h2]
  rfl

theorem intRange_blocks (b w : Int) (hw : 0 ≤ w) (n : Nat) :
    ((intRange 0 (n : Int)).flatMap fun k => intRange (b + k * w) (b + k * w + w))
      = intRange b (b + (n : Int) * w) := by
  induction n with
  | zero => simp [intRange_eq_nil]
  | succ n ih =>
    push_cast
    rw [intRange_succ_right (by omega), List.flatMap_append, ih]
    simp only [List.flatMap_cons, List.flatMap_nil, List.append_nil]
    have e : b + ((n : Int) + 1) * w = b + (n : Int) * w + w := by ring
    rw [e]
    apply intRange_append
    · have : (0 : Int) ≤ (n : Int) * w := by positivity
      omega
    · omega

/-- `address3` numbers the cells of a grid consecutively in the order of the
nested loops over x, y, z. -/
theorem map_address3_domain3 {size : Int3} (hx : 0 ≤ size.x) (hy : 0 ≤ size.y) (hz : 0 ≤ size.z) :
    (domain3 size).map (fun p => address3 p size) = intRange 0 (size.x * size.y * size.z) := by
  unfold domain3
  simp only [List.map_flatMap, List.map_map]
  have hin : ∀ x y : Int, List.map ((fun p => address3 p size) ∘ fun z => (⟨x, y, z⟩ : Int3))
      (intRange 0 size.z)
        = intRange (x * (size.y * size.z) + y * size.z) (x * (size.y * size.z) + y * size.z + size.z) := by
    intro x y
    have := map_add_intRange (x * (size.y * size.z) + y * size.z) 0 size.z
    simp only [add_zero] at this
    rw [← this]
    apply List.map_congr_left
    intro z _
    simp only [Function.comp, address3]
    ring
  simp only [hin]
  have hmid : ∀ x : Int, ((intRange 0 size.y).flatMap fun y =>
      intRange (x * (size.y * size.z) + y * size.z) (x * (size.y * size.z) + y * size.z + size.z))
        = intRange (0 + x * (size.y * size.z)) (0 + x * (size.y * size.z) + size.y * size.z) := by
    intro x
    have h := intRange_blocks (x * (size.y * size.z)) size.z hz size.y.toNat
    have e : ((size.y.toNat : Nat) : Int) = size.y := by omega
    rw [e] at h
    rw [h]
    congr 1 <;> ring
  simp only [hmid]
  have h := intRange_blocks 0 (size.y * size.z) (by positivity) size.x.toNat
  have e : ((size.x.toNat : Nat) : Int) = size.x := by omega
  rw [e] at h
  rw [h]
  congr 1
  ring

theorem setI_natCast {α : Type} (v : List α) (k : Nat) (a : α) : setI v (k : Int) a = v.set k a := by
  unfold setI
  simp

theorem getI_natCast {α : Type} (v : List α) (k : Nat) (d : α) : getI v (k : Int) d = v.getD k d := by
  unfold getI
  simp

theorem set_append_cons {α : Type} (l1 : List α) (a b : α) (l2 : List α) :
    (l1 ++ a :: l2).set l1.length b = l1 ++ b :: l2 := by
  induction l1 with
  | nil => rfl
  | cons x t ih => simp [ih]

theorem getD_append_cons {α : Type} (l1 : List α) (a d : α) (l2 : List α) :
    (l1 ++ a :: l2).getD l1.length d = a := by
  induction l1 with
  | nil => rfl
  | cons x t ih => simpa using ih

/-- Writing the counts `cs` at consecutive addresses from `done.length` on. -/
theorem foldl_setI_consecutive (cs : List Int) (done old tail : List Int)
    (h : old.length = cs.length) :
    ((intRange done.length (done.length + cs.length)).zip cs).foldl
        (fun rr (ac : Int × Int) => setI rr ac.1 ac.2) (done ++ old ++ tail)
      = done ++ cs ++ tail := by
  induction cs generalizing done old with
  | nil =>
    have : old = [] := List.length_eq_zero.mp h
    simp [this]
  | cons c cs ih =>
    match old, h with
    | o :: old, h =>
      have hlen : old.length = cs.length := by simpa using h
      rw [intRange_cons (by simp)]
      simp only [List.zip_cons_cons, List.foldl_cons]
      rw [setI_natCast]
      have e1 : (done ++ (o :: old) ++ tail).set done.length c = (done ++ [c]) ++ old ++ tail := by
        rw [List.append_assoc, List.cons_append, set_append_cons]
        simp
      rw [e1]
      have e2 : ((done.length : Int) + 1) = ((done ++ [c]).length : Int) := by simp
      have e3 : ((done.length : Int) + ((c :: cs).length : Int))
          = ((done ++ [c]).length : Int) + (cs.length : Int) := by
        simp only [List.length_cons, List.length_append, List.length_nil]
        push_cast
        ring
      rw [e2, e3, ih (done ++ [c]) old hlen]
      simp

/-- The running-sum loop of `initSMLocalRF` (Helpers.cpp 311-321) on the vector
`done ++ rest ++ [x]`, started at index `done.length` with offset `offset`. -/
theorem foldl_cumulative (rest done : List Int) (x offset : Int) :
    setI
        ((intRange done.length (done.length + rest.length)).foldl
          (fun (acc : List Int × Int) i => (setI acc.1 i acc.2, acc.2 + getI acc.1 i 0))
          (done ++ rest ++ [x], offset)).1
        ((done.length : Int) + (rest.length : Int))
        ((intRange done.length (done.length + rest.length)).foldl
          (fun (acc : List Int × Int) i => (setI acc.1 i acc.2, acc.2 + getI acc.1 i 0))
          (done ++ rest ++ [x], offset)).2
      = done ++ prefixSums offset rest := by
  induction rest generalizing done offset with
  | nil =>
    simp only [List.length_nil, Nat.cast_zero, add_zero, intRange_eq_nil (le_refl _),
      List.foldl_nil, List.append_nil, prefixSums]
    rw [setI_natCast, set_append_cons]
  | cons c rest ih =>
    rw [intRange_cons (by simp)]
    simp only [List.foldl_cons]
    rw [setI_natCast, getI_natCast]
    have e1 : (done ++ c :: rest ++ [x]).set done.length offset
        = (done ++ [offset]) ++ rest ++ [x] := by
      rw [List.append_assoc, List.cons_append, set_append_cons]
      simp
    have e0 : (done ++ c :: rest ++ [x]).getD done.length 0 = c := by
      rw [List.append_assoc, List.cons_append, getD_append_cons]
    rw [e1, e0]
    have e2 : ((done.length : Int) + 1) = ((done ++ [offset]).length : Int) := by simp
    have e3 : ((done.length : Int) + ((c :: rest).length : Int))
        = ((done ++ [offset]).length : Int) + (rest.length : Int) := by
      simp only [List.length_cons, List.length_append, List.length_nil]
      push_cast
      ring
    rw [e2, e3, ih (done ++ [offset]) (offset + c)]
    simp [prefixSums]

theorem foldl_cumulative_mat {F : Type} (l : List Int) (mat : SparseMatrix F) (offset : Int) :
    l.foldl
        (fun (acc : SparseMatrix F × Int) i =>
          ({ acc.1 with rowRanges := setI acc.1.rowRanges i acc.2 }, acc.2 + getI acc.1.rowRanges i 0))
        (mat, offset)
      = ({ mat with rowRanges :=
            (l.foldl (fun (acc : List Int × Int) i => (setI acc.1 i acc.2, acc.2 + getI acc.1 i 0))
              (mat.rowRanges, offset)).1 },
         (l.foldl (fun (acc : List Int × Int) i => (setI acc.1 i acc.2, acc.2 + getI acc.1 i 0))
              (mat.rowRanges, offset)).2) := by
  induction l generalizing mat offset with
  | nil => rfl
  | cons a t ih =>
    simp only [List.foldl_cons]
    rw [ih]

/-- The effect of the body of the loop over `oz` of `initSMLocalRF` for the
output cell `p`. -/
theorem fill_loops_eq {F : Type} (ops : FloatOps F) (project : Int2 → Float2 F → Int2)
    (inSize outSize : Int3) (radius : Int) (ps : List Int3) (mat : SparseMatrix F) :
    ps.foldl
        (fun mat p =>
          { (fillRow ops inSize
                (iterLowerBound (project ⟨p.x, p.y⟩ (outToIn ops inSize outSize)) radius)
                (iterUpperBound inSize (project ⟨p.x, p.y⟩ (outToIn ops inSize outSize)) radius)
                mat).1 with
              rowRanges := setI (fillRow ops inSize
                (iterLowerBound (project ⟨p.x, p.y⟩ (outToIn ops inSize outSize)) radius)
                (iterUpperBound inSize (project ⟨p.x, p.y⟩ (outToIn ops inSize outSize)) radius)
                mat).1.rowRanges (address3 p outSize)
                (fillRow ops inSize
                (iterLowerBound (project ⟨p.x, p.y⟩ (outToIn ops inSize outSize)) radius)
                (iterUpperBound inSize (project ⟨p.x, p.y⟩ (outToIn ops inSize outSize)) radius)
                mat).2 })
        mat
      = { mat with
            nonZeroValues := mat.nonZeroValues
              ++ List.replicate (ps.flatMap (rowCells ops project inSize outSize radius)).length
                  (ops.ofInt 0)
            columnIndices := mat.columnIndices
              ++ ps.flatMap (rowCells ops project inSize outSize radius)
            rowRanges := ps.foldl
              (fun rr p => setI rr (address3 p outSize)
                ((rowCells ops project inSize outSize radius p).length : Int))
              mat.rowRanges } := by
  induction ps generalizing mat with
  | nil => simp
  | cons p ps ih =>
    rw [List.foldl_cons, ih]
    simp only [fillRow_eq, rowCells, List.flatMap_cons, List.length_append, List.foldl_cons,
      List.append_assoc, List.replicate_add]

theorem initSMLocalRF_loops {F : Type} (ops : FloatOps F) (project : Int2 → Float2 F → Int2)
    (inSize outSize : Int3) (radius : Int) (mat : SparseMatrix F) :
    (intRange 0 outSize.x).foldl
      (fun mat ox =>
        (intRange 0 outSize.y).foldl
          (fun mat oy =>
            (intRange 0 outSize.z).foldl
              (fun mat oz =>
                { (fillRow ops inSize
                    (iterLowerBound (project ⟨ox, oy⟩ (outToIn ops inSize outSize)) radius)
                    (iterUpperBound inSize (project ⟨ox, oy⟩ (outToIn ops inSize outSize)) radius)
                    mat).1 with
                    rowRanges := setI (fillRow ops inSize
                      (iterLowerBound (project ⟨ox, oy⟩ (outToIn ops inSize outSize)) radius)
                      (iterUpperBound inSize (project ⟨ox, oy⟩ (outToIn ops inSize outSize)) radius)
                      mat).1.rowRanges (address3 ⟨ox, oy, oz⟩ outSize)
                      (fillRow ops inSize
                      (iterLowerBound (project ⟨ox, oy⟩ (outToIn ops inSize outSize)) radius)
                      (iterUpperBound inSize (project ⟨ox, oy⟩ (outToIn ops inSize outSize)) radius)
                      mat).2 })
              mat)
          mat)
      mat
    = (domain3 outSize).foldl
        (fun mat p =>
          { (fillRow ops inSize
                (iterLowerBound (project ⟨p.x, p.y⟩ (outToIn ops inSize outSize)) radius)
                (iterUpperBound inSize (project ⟨p.x, p.y⟩ (outToIn ops inSize outSize)) radius)
                mat).1 with
              rowRanges := setI (fillRow ops inSize
                (iterLowerBound (project ⟨p.x, p.y⟩ (outToIn ops inSize outSize)) radius)
                (iterUpperBound inSize (project ⟨p.x, p.y⟩ (outToIn ops inSize outSize)) radius)
                mat).1.rowRanges (address3 p outSize)
                (fillRow ops inSize
                (iterLowerBound (project ⟨p.x, p.y⟩ (outToIn ops inSize outSize)) radius)
                (iterUpperBound inSize (project ⟨p.x, p.y⟩ (outToIn ops inSize outSize)) radius)
                mat).2 })
        mat := by
  unfold domain3
  rw [foldl_flatMap_eq]
  simp only [foldl_flatMap_eq, List.foldl_map]

theorem length_resize (v : List Int) (n : Nat) : (resize v n).length = n := by
  unfold resize
  simp only [List.length_append, List.length_take, List.length_replicate]
  omega

theorem foldl_setI_map {α : Type} (ps : List α) (addr cnt : α → Int) (rr : List Int) :
    ps.foldl (fun rr p => setI rr (addr p) (cnt p)) rr
      = ((ps.map addr).zip (ps.map cnt)).foldl (fun rr (ac : Int × Int) => setI rr ac.1 ac.2) rr := by
  induction ps generalizing rr with
  | nil => rfl
  | cons p ps ih => simp [List.foldl_cons, ih]

theorem length_domain3 {size : Int3} (hx : 0 ≤ size.x) (hy : 0 ≤ size.y) (hz : 0 ≤ size.z) :
    ((domain3 size).length : Int) = size.x * size.y * size.z := by
  have h := congrArg List.length (map_address3_domain3 hx hy hz)
  rw [List.length_map, length_intRange] at h
  rw [h]
  have : 0 ≤ size.x * size.y * size.z := by positivity
  omega

/-- The counts written by the fill loops, for a vector of `numOut + 1` entries. -/
theorem fill_rowRanges {size : Int3} (hx : 0 ≤ size.x) (hy : 0 ≤ size.y) (hz : 0 ≤ size.z)
    (cnt : Int3 → Int) (rr : List Int) (hrr : rr.length = (domain3 size).length + 1) :
    ∃ x, (domain3 size).foldl (fun rr p => setI rr (address3 p size) (cnt p)) rr
      = (domain3 size).map cnt ++ [x] := by
  have hd : rr.drop (domain3 size).length ≠ [] := by
    intro h
    have := congrArg List.length h
    simp only [List.length_drop, List.length_nil] at this
    omega
  obtain ⟨x, t, hx'⟩ := List.exists_cons_of_ne_nil hd
  have ht : t = [] := by
    have := congrArg List.length hx'
    simp only [List.length_drop, List.length_cons] at this
    apply List.length_eq_zero.mp
    omega
  subst ht
  refine ⟨x, ?_⟩
  rw [foldl_setI_map, map_address3_domain3 hx hy hz]
  have hsplit : rr = [] ++ rr.take (domain3 size).length ++ [x] := by
    rw [← hx']
    simp
  have hlen : (rr.take (domain3 size).length).length = ((domain3 size).map cnt).length := by
    simp only [List.length_take, List.length_map]
    omega
  have h := foldl_setI_consecutive ((domain3 size).map cnt) [] (rr.take (domain3 size).length) [x] hlen
  simp only [List.length_nil, Nat.cast_zero, zero_add, List.length_map, List.nil_append] at h
  rw [length_domain3 hx hy hz] at h
  rw [hsplit]
  simpa using h

/-- What `initSMLocalRF` computes, for non-negative output extents: the entries
of the rows in the order of the output cells are appended to the column indices
and as many zeros to the values, and the row ranges are the running sums of the
row lengths. -/
theorem initSMLocalRF_eq {F : Type} (ops : FloatOps F) (project : Int2 → Float2 F → Int2)
    (inSize outSize : Int3) (radius : Int) (mat : SparseMatrix F)
    (hx : 0 ≤ outSize.x) (hy : 0 ≤ outSize.y) (hz : 0 ≤ outSize.z) :
    initSMLocalRF ops project inSize outSize radius mat
      = { rows := outSize.x * outSize.y * outSize.z
          columns := inSize.x * inSize.y * inSize.z
          nonZeroValues := mat.nonZeroValues
            ++ List.replicate
                ((domain3 outSize).flatMap (rowCells ops project inSize outSize radius)).length
                (ops.ofInt 0)
          nonZeroValueIndices := mat.nonZeroValueIndices
          rowRanges := prefixSums 0
            ((domain3 outSize).map
              (fun p => ((rowCells ops project inSize outSize radius p).length : Int)))
          columnIndices := mat.columnIndices
            ++ (domain3 outSize).flatMap (rowCells ops project inSize outSize radius)
          columnRanges := mat.columnRanges
          rowIndices := mat.rowIndices } := by
  unfold initSMLocalRF
  simp only []
  rw [initSMLocalRF_loops, fill_loops_eq, foldl_cumulative_mat]
  simp only []
  have hn : 0 ≤ outSize.x * outSize.y * outSize.z := by positivity
  have hlen := length_domain3 hx hy hz
  have hrr : (resize mat.rowRanges (outSize.x * outSize.y * outSize.z + 1).toNat).length
      = (domain3 outSize).length + 1 := by
    rw [length_resize]
    omega
  obtain ⟨x, hfill⟩ := fill_rowRanges hx hy hz
    (fun p => ((rowCells ops project inSize outSize radius p).length : Int)) _ hrr
  rw [hfill]
  have hcum := foldl_cumulative
    ((domain3 outSize).map
      (fun p => ((rowCells ops project inSize outSize radius p).length : Int))) [] x 0
  simp only [List.length_nil, Nat.cast_zero, zero_add, List.length_map, List.nil_append] at hcum
  rw [hlen] at hcum
  rw [hcum]

theorem length_prefixSums (o : Int) (cs : List Int) : (prefixSums o cs).length = cs.length + 1 := by
  induction cs generalizing o with
  | nil => rfl
  | cons c cs ih => simp [prefixSums, ih]

theorem getD_prefixSums (o : Int) (cs : List Int) (k : Nat) (hk : k ≤ cs.length) :
    (prefixSums o cs).getD k 0 = o + (cs.take k).sum := by
  induction cs generalizing o k with
  | nil =>
    have : k = 0 := by simpa using hk
    subst this
    simp [prefixSums]
  | cons c cs ih =>
    cases k with
    | zero => simp [prefixSums]
    | succ k =>
      have hk' : k ≤ cs.length := by simpa using hk
      simp only [prefixSums, List.getD_cons_succ, List.take_succ_cons, List.sum_cons]
      rw [ih (o + c) k hk']
      ring

theorem le_of_mem_prefixSums (o : Int) (cs : List Int) (hcs : ∀ c ∈ cs, 0 ≤ c) :
    ∀ y ∈ prefixSums o cs, o ≤ y := by
  induction cs generalizing o with
  | nil =>
    intro y hy
    simp only [prefixSums, List.mem_singleton] at hy
    omega
  | cons c cs ih =>
    intro y hy
    simp only [prefixSums, List.mem_cons] at hy
    rcases hy with rfl | hy
    · exact le_refl _
    · have h1 := ih (o + c) (fun d hd => hcs d (List.mem_cons_of_mem _ hd)) y hy
      have h2 := hcs c (List.mem_cons_self _ _)
      omega

theorem sorted_prefixSums (o : Int) (cs : List Int) (hcs : ∀ c ∈ cs, 0 ≤ c) :
    (prefixSums o cs).Sorted (· ≤ ·) := by
  induction cs generalizing o with
  | nil => simp [prefixSums]
  | cons c cs ih =>
    simp only [prefixSums, List.sorted_cons]
    refine ⟨?_, ih (o + c) (fun d hd => hcs d (List.mem_cons_of_mem _ hd))⟩
    intro y hy
    have h1 := le_of_mem_prefixSums (o + c) cs (fun d hd => hcs d (List.mem_cons_of_mem _ hd)) y hy
    have h2 := hcs c (List.mem_cons_self _ _)
    omega

theorem sum_map_length_flatMap {α β : Type} (l : List α) (f : α → List β) :
    (l.map (fun a => ((f a).length : Int))).sum = ((l.flatMap f).length : Int) := by
  induction l with
  | nil => rfl
  | cons a t ih => simp [List.flatMap_cons, ih]

theorem getD_intRange (lo hi : Int) (k : Nat) (d : Int) (hk : k < (hi - lo).toNat) :
    (intRange lo hi).getD k d = lo + (k : Int) := by
  unfold intRange
  rw [List.getD_eq_getElem _ _ (by simpa using hk)]
  simp

theorem map_getI_segment (A E T : List Int) (d : Int) :
    (intRange A.length ((A.length : Int) + (E.length : Int))).map (fun j => getI (A ++ E ++ T) j d)
      = E := by
  induction E generalizing A with
  | nil => simp [intRange_eq_nil]
  | cons e E ih =>
    rw [intRange_cons (by simp)]
    simp only [List.map_cons]
    have h0 : getI (A ++ e :: E ++ T) (A.length : Int) d = e := by
      rw [getI_natCast, List.append_assoc, List.cons_append, getD_append_cons]
    rw [h0]
    have h1 := ih (A ++ [e])
    have e2 : ((A.length : Int) + 1) = ((A ++ [e]).length : Int) := by simp
    have e3 : ((A.length : Int) + ((e :: E).length : Int))
        = ((A ++ [e]).length : Int) + (E.length : Int) := by
      simp only [List.length_cons, List.length_append, List.length_nil]
      push_cast
      ring
    rw [e2, e3]
    have e4 : A ++ e :: E ++ T = A ++ [e] ++ E ++ T := by simp
    rw [e4, h1]

/-- The output cell `p` has the row number `address3 p size`, which is the
number of cells before it in loop order. -/
theorem address3_of_split {size : Int3} (hx : 0 ≤ size.x) (hy : 0 ≤ size.y) (hz : 0 ≤ size.z)
    {L T : List Int3} {p : Int3} (h : domain3 size = L ++ p :: T) :
    address3 p size = (L.length : Int) := by
  have hm := map_address3_domain3 hx hy hz
  have hlen := length_domain3 hx hy hz
  rw [h] at hm hlen
  have h1 : (List.map (fun p => address3 p size) (L ++ p :: T)).getD L.length 0
      = address3 p size := by
    rw [List.map_append, List.map_cons]
    have := getD_append_cons (L.map (fun p => address3 p size)) (address3 p size) 0
      (T.map (fun p => address3 p size))
    simpa using this
  rw [hm, getD_intRange] at h1
  · omega
  · simp only [List.length_append, List.length_cons] at hlen
    omega

/-- The stored segment of the row of an output cell, for a matrix that starts
with no column index: exactly the entries pushed for that cell. -/
theorem rowSegment_initSMLocalRF {F : Type} (ops : FloatOps F)
    (project : Int2 → Float2 F → Int2) (inSize outSize : Int3) (radius : Int)
    (mat : SparseMatrix F) (hci : mat.columnIndices = []) (p : Int3) (hp : p ∈ domain3 outSize) :
    rowSegment (initSMLocalRF ops project inSize outSize radius mat) (address3 p outSize)
      = rowCells ops project inSize outSize radius p := by
  have hp' := mem_domain3.mp hp
  have hx : 0 ≤ outSize.x := by omega
  have hy : 0 ≤ outSize.y := by omega
  have hz : 0 ≤ outSize.z := by omega
  rw [initSMLocalRF_eq ops project inSize outSize radius mat hx hy hz]
  obtain ⟨L, T, hsplit⟩ := List.append_of_mem hp
  have haddr := address3_of_split hx hy hz hsplit
  unfold rowSegment
  simp only [hci, List.nil_append]
  rw [haddr, hsplit]
  have e1 : ((L.length : Int) + 1) = ((L.length + 1 : Nat) : Int) := by push_cast; rfl
  rw [e1, getI_natCast, getI_natCast, getD_prefixSums _ _ _ (by simp), getD_prefixSums _ _ _ (by simp)]
  have t1 : (List.map (fun p => ((rowCells ops project inSize outSize radius p).length : Int))
      (L ++ p :: T)).take L.length
        = L.map (fun p => ((rowCells ops project inSize outSize radius p).length : Int)) := by
    rw [List.map_append]
    exact List.take_left' (by simp)
  have t2 : (List.map (fun p => ((rowCells ops project inSize outSize radius p).length : Int))
      (L ++ p :: T)).take (L.length + 1)
        = (L ++ [p]).map (fun p => ((rowCells ops project inSize outSize radius p).length : Int)) := by
    have : L ++ p :: T = (L ++ [p]) ++ T := by simp
    rw [this, List.map_append]
    exact List.take_left' (by simp)
  rw [t1, t2, sum_map_length_flatMap, sum_map_length_flatMap]
  simp only [zero_add, List.flatMap_append, List.flatMap_cons, List.flatMap_nil, List.append_nil,
    List.length_append, Nat.cast_add]
  have := map_getI_segment (L.flatMap (rowCells ops project inSize outSize radius))
    (rowCells ops project inSize outSize radius p)
    (T.flatMap (rowCells ops project inSize outSize radius)) 0
  simpa using this

theorem mem_windowCells {inSize : Int3} {lo hi : Int2} {idx : Int} :
    idx ∈ windowCells inSize lo hi
      ↔ ∃ ix iy iz, idx = address3 ⟨ix, iy, iz⟩ inSize ∧ (lo.x ≤ ix ∧ ix ≤ hi.x)
          ∧ (lo.y ≤ iy ∧ iy ≤ hi.y) ∧ (0 ≤ iz ∧ iz < inSize.z) := by
  unfold windowCells
  simp only [List.mem_flatMap, List.mem_map, mem_intRange]
  constructor
  · rintro ⟨ix, hix, iy, hiy, iz, hiz, rfl⟩
    exact ⟨ix, iy, iz, rfl, ⟨hix.1, by omega⟩, ⟨hiy.1, by omega⟩, hiz⟩
  · rintro ⟨ix, iy, iz, rfl, hix, hiy, hiz⟩
    exact ⟨ix, ⟨hix.1, by omega⟩, iy, ⟨hiy.1, by omega⟩, iz, hiz, rfl⟩

theorem length_flatMap_const {α β : Type} (l : List α) (f : α → List β) (n : Nat)
    (h : ∀ a ∈ l, (f a).length = n) : (l.flatMap f).length = l.length * n := by
  induction l with
  | nil => simp
  | cons a t ih =>
    rw [List.flatMap_cons, List.length_append, h a (List.mem_cons_self _ _),
      ih (fun b hb => h b (List.mem_cons_of_mem _ hb)), List.length_cons]
    ring

theorem length_windowCells (inSize : Int3) (lo hi : Int2) :
    (windowCells inSize lo hi).length
      = (hi.x + 1 - lo.x).toNat * ((hi.y + 1 - lo.y).toNat * inSize.z.toNat) := by
  unfold windowCells
  rw [length_flatMap_const _ _ ((hi.y + 1 - lo.y).toNat * inSize.z.toNat), length_intRange]
  intro ix _
  rw [length_flatMap_const _ _ inSize.z.toNat, length_intRange]
  intro iy _
  rw [List.length_map, length_intRange]
  simp

theorem block_decomp {Z a a' b b' : Int} (ha : 0 ≤ a) (haZ : a < Z) (ha' : 0 ≤ a') (ha'Z : a' < Z)
    (h : a + b * Z = a' + b' * Z) : a = a' ∧ b = b' := by
  have hb : b = b' := by
    rcases lt_trichotomy b b' with hlt | heq | hgt
    · have h1 : (b + 1) * Z ≤ b' * Z := Int.mul_le_mul_of_nonneg_right (by omega) (by omega)
      have h2 : (b + 1) * Z = b * Z + Z := by ring
      omega
    · exact heq
    · have h1 : (b' + 1) * Z ≤ b * Z := Int.mul_le_mul_of_nonneg_right (by omega) (by omega)
      have h2 : (b' + 1) * Z = b' * Z + Z := by ring
      omega
  subst hb
  exact ⟨by omega, rfl⟩

/-- On cells with `0 ≤ y < dims.y` and `0 ≤ z < dims.z`, `address3` is injective. -/
theorem address3_injective {dims p q : Int3} (hpy : 0 ≤ p.y ∧ p.y < dims.y)
    (hpz : 0 ≤ p.z ∧ p.z < dims.z) (hqy : 0 ≤ q.y ∧ q.y < dims.y) (hqz : 0 ≤ q.z ∧ q.z < dims.z)
    (h : address3 p dims = address3 q dims) : p = q := by
  unfold address3 at h
  have hp1 : 0 ≤ p.z + p.y * dims.z := by
    have : 0 ≤ p.y * dims.z := Int.mul_nonneg hpy.1 (by omega)
    omega
  have hq1 : 0 ≤ q.z + q.y * dims.z := by
    have : 0 ≤ q.y * dims.z := Int.mul_nonneg hqy.1 (by omega)
    omega
  have hp2 : p.z + p.y * dims.z < dims.y * dims.z := by
    have h1 : (p.y + 1) * dims.z ≤ dims.y * dims.z :=
      Int.mul_le_mul_of_nonneg_right (by omega) (by omega)
    have h2 : (p.y + 1) * dims.z = p.y * dims.z + dims.z := by ring
    omega
  have hq2 : q.z + q.y * dims.z < dims.y * dims.z := by
    have h1 : (q.y + 1) * dims.z ≤ dims.y * dims.z :=
      Int.mul_le_mul_of_nonneg_right (by omega) (by omega)
    have h2 : (q.y + 1) * dims.z = q.y * dims.z + dims.z := by ring
    omega
  have h' : (p.z + p.y * dims.z) + p.x * (dims.y * dims.z)
      = (q.z + q.y * dims.z) + q.x * (dims.y * dims.z) := by
    have e1 : p.x * (dims.y * dims.z) = p.x * dims.z * dims.y := by ring
    have e2 : q.x * (dims.y * dims.z) = q.x * dims.z * dims.y := by ring
    rw [e1, e2]
    exact h
  obtain ⟨hin, hx⟩ := block_decomp hp1 hp2 hq1 hq2 h'
  obtain ⟨hz, hy⟩ := block_decomp hpz.1 hpz.2 hqz.1 hqz.2 hin
  cases p
  cases q
  simp only [Int3.mk.injEq]
  exact ⟨hx, hy, hz⟩

theorem nodup_windowCells {inSize : Int3} {lo hi : Int2} (hlo : 0 ≤ lo.y)
    (hhi : hi.y ≤ inSize.y - 1) : (windowCells inSize lo hi).Nodup := by
  have key : ∀ ix iy iz ix' iy' iz' : Int, (lo.y ≤ iy ∧ iy < hi.y + 1) → (0 ≤ iz ∧ iz < inSize.z) →
      (lo.y ≤ iy' ∧ iy' < hi.y + 1) → (0 ≤ iz' ∧ iz' < inSize.z) →
      address3 ⟨ix, iy, iz⟩ inSize = address3 ⟨ix', iy', iz'⟩ inSize →
      ix = ix' ∧ iy = iy' ∧ iz = iz' := by
    intro ix iy iz ix' iy' iz' hy hz hy' hz' h
    have := @address3_injective inSize ⟨ix, iy, iz⟩ ⟨ix', iy', iz'⟩
      ⟨by simp only; omega, by simp only; omega⟩ hz ⟨by simp only; omega, by simp only; omega⟩ hz' h
    simpa using this
  unfold windowCells
  rw [List.nodup_flatMap]
  constructor
  · intro ix _
    rw [List.nodup_flatMap]
    constructor
    · intro iy hiy
      refine List.Nodup.map_on ?_ (nodup_intRange _ _)
      intro iz hiz iz' hiz' h
      exact (key ix iy iz ix iy iz' (mem_intRange.mp hiy) (mem_intRange.mp hiz)
        (mem_intRange.mp hiy) (mem_intRange.mp hiz') h).2.2
    · have hpw : List.Pairwise (fun a b => a ∈ intRange lo.y (hi.y + 1)
          ∧ b ∈ intRange lo.y (hi.y + 1) ∧ a ≠ b) (intRange lo.y (hi.y + 1)) :=
        List.Pairwise.and_mem.mp (nodup_intRange lo.y (hi.y + 1))
      refine hpw.imp ?_
      rintro a b ⟨ha, hb, hab⟩
      simp only [Function.onFun, List.disjoint_left, List.mem_map]
      rintro idx ⟨iz, hiz, rfl⟩ ⟨iz', hiz', h⟩
      exact hab (key ix b iz' ix a iz (mem_intRange.mp hb) (mem_intRange.mp hiz')
        (mem_intRange.mp ha) (mem_intRange.mp hiz) h).2.1.symm
  · refine List.Pairwise.imp ?_ (nodup_intRange lo.x (hi.x + 1))
    intro a b hab
    simp only [Function.onFun, List.disjoint_left, List.mem_flatMap, List.mem_map]
    rintro idx ⟨iy, hiy, iz, hiz, rfl⟩ ⟨iy', hiy', iz', hiz', h⟩
    exact hab (key b iy' iz' a iy iz (mem_intRange.mp hiy') (mem_intRange.mp hiz')
      (mem_intRange.mp hiy) (mem_intRange.mp hiz) h).1.symm

/-! ### Claims on `initSMLocalRF` -/

/-- C2: in a matrix built by `initSMLocalRF` from a matrix without column
indices, every column index stored in the row of an output cell `(ox, oy, oz)`
is the `address3` index of an input cell `(ix, iy, iz)` within `radius` of the
projection `(cx, cy)` of `(ox, oy)` along x and y, and inside the input grid. -/
theorem initSMLocalRF_row_within_radius {F : Type} (ops : FloatOps F)
    (project : Int2 → Float2 F → Int2) (inSize outSize : Int3) (radius : Int)
    (mat : SparseMatrix F) (hci : mat.columnIndices = []) (ox oy oz : Int)
    (hox : 0 ≤ ox ∧ ox < outSize.x) (hoy : 0 ≤ oy ∧ oy < outSize.y)
    (hoz : 0 ≤ oz ∧ oz < outSize.z) :
    ∀ idx ∈ rowSegment (initSMLocalRF ops project inSize outSize radius mat)
        (address3 ⟨ox, oy, oz⟩ outSize),
      ∃ ix iy iz, idx = address3 ⟨ix, iy, iz⟩ inSize
        ∧ |ix - (project ⟨ox, oy⟩ (outToIn ops inSize outSize)).x| ≤ radius
        ∧ |iy - (project ⟨ox, oy⟩ (outToIn ops inSize outSize)).y| ≤ radius
        ∧ (0 ≤ ix ∧ ix < inSize.x) ∧ (0 ≤ iy ∧ iy < inSize.y) ∧ (0 ≤ iz ∧ iz < inSize.z) := by
  intro idx hidx
  rw [rowSegment_initSMLocalRF ops project inSize outSize radius mat hci ⟨ox, oy, oz⟩
    (mem_domain3.mpr ⟨hox, hoy, hoz⟩)] at hidx
  unfold rowCells at hidx
  obtain ⟨ix, iy, iz, rfl, hix, hiy, hiz⟩ := mem_windowCells.mp hidx
  simp only [iterLowerBound, iterUpperBound] at hix hiy
  refine ⟨ix, iy, iz, rfl, ?_, ?_, ⟨by omega, by omega⟩, ⟨by omega, by omega⟩, hiz⟩
  · rw [abs_le]
    omega
  · rw [abs_le]
    omega

/-- Witness of C2: a 3 by 3 by 2 input, a 2 by 2 by 2 output, radius 1, the
output cell `(1, 1, 1)`. -/
theorem initSMLocalRF_row_within_radius_witness :
    ((SparseMatrix.empty Int).columnIndices = [] ∧ ((0 : Int) ≤ 1 ∧ (1 : Int) < 2)) ∧
    ∀ idx ∈ rowSegment (initSMLocalRF intOps scaleProject ⟨3, 3, 2⟩ ⟨2, 2, 2⟩ 1
        (SparseMatrix.empty Int)) (address3 ⟨1, 1, 1⟩ ⟨2, 2, 2⟩),
      ∃ ix iy iz, idx = address3 ⟨ix, iy, iz⟩ ⟨3, 3, 2⟩
        ∧ |ix - (scaleProject ⟨1, 1⟩ (outToIn intOps ⟨3, 3, 2⟩ ⟨2, 2, 2⟩)).x| ≤ 1
        ∧ |iy - (scaleProject ⟨1, 1⟩ (outToIn intOps ⟨3, 3, 2⟩ ⟨2, 2, 2⟩)).y| ≤ 1
        ∧ (0 ≤ ix ∧ ix < (3 : Int)) ∧ (0 ≤ iy ∧ iy < (3 : Int)) ∧ (0 ≤ iz ∧ iz < (2 : Int)) :=
  ⟨⟨rfl, by decide⟩,
    initSMLocalRF_row_within_radius intOps scaleProject ⟨3, 3, 2⟩ ⟨2, 2, 2⟩ 1
      (SparseMatrix.empty Int) rfl 1 1 1 (by decide) (by decide) (by decide)⟩

/-- C3: in a matrix built by `initSMLocalRF` from a matrix without column
indices, the segment `[rowRanges[r], rowRanges[r + 1])` of `columnIndices` of
the row `r = address3 (ox, oy, oz) outSize` holds the indices of exactly the
input cells of the clamped square window around the projection of `(ox, oy)`,
over the whole input depth, each once; its length is window width times window
height times input depth. -/
theorem initSMLocalRF_row_is_window {F : Type} (ops : FloatOps F)
    (project : Int2 → Float2 F → Int2) (inSize outSize : Int3) (radius : Int)
    (mat : SparseMatrix F) (hci : mat.columnIndices = []) (ox oy oz : Int)
    (hox : 0 ≤ ox ∧ ox < outSize.x) (hoy : 0 ≤ oy ∧ oy < outSize.y)
    (hoz : 0 ≤ oz ∧ oz < outSize.z) :
    (∀ idx, idx ∈ rowSegment (initSMLocalRF ops project inSize outSize radius mat)
          (address3 ⟨ox, oy, oz⟩ outSize)
        ↔ ∃ ix iy iz, idx = address3 ⟨ix, iy, iz⟩ inSize
          ∧ (max 0 ((project ⟨ox, oy⟩ (outToIn ops inSize outSize)).x - radius) ≤ ix
            ∧ ix ≤ min (inSize.x - 1) ((project ⟨ox, oy⟩ (outToIn ops inSize outSize)).x + radius))
          ∧ (max 0 ((project ⟨ox, oy⟩ (outToIn ops inSize outSize)).y - radius) ≤ iy
            ∧ iy ≤ min (inSize.y - 1) ((project ⟨ox, oy⟩ (outToIn ops inSize outSize)).y + radius))
          ∧ (0 ≤ iz ∧ iz < inSize.z)) ∧
    (rowSegment (initSMLocalRF ops project inSize outSize radius mat)
        (address3 ⟨ox, oy, oz⟩ outSize)).Nodup ∧
    (rowSegment (initSMLocalRF ops project inSize outSize radius mat)
        (address3 ⟨ox, oy, oz⟩ outSize)).length
      = (min (inSize.x - 1) ((project ⟨ox, oy⟩ (outToIn ops inSize outSize)).x + radius) + 1
            - max 0 ((project ⟨ox, oy⟩ (outToIn ops inSize outSize)).x - radius)).toNat
          * ((min (inSize.y - 1) ((project ⟨ox, oy⟩ (outToIn ops inSize outSize)).y + radius) + 1
            - max 0 ((project ⟨ox, oy⟩ (outToIn ops inSize outSize)).y - radius)).toNat
          * inSize.z.toNat) := by
  rw [rowSegment_initSMLocalRF ops project inSize outSize radius mat hci ⟨ox, oy, oz⟩
    (mem_domain3.mpr ⟨hox, hoy, hoz⟩)]
  unfold rowCells
  refine ⟨?_, ?_, ?_⟩
  · intro idx
    rw [mem_windowCells]
    rfl
  · apply nodup_windowCells
    · simp only [iterLowerBound]
      omega
    · simp only [iterUpperBound]
      omega
  · rw [length_windowCells]
    rfl

/-- Witness of C3: a 3 by 3 by 2 input, a 2 by 2 by 2 output, radius 1, the
output cell `(1, 1, 1)`, whose row has `2 * 2 * 2` entries. -/
theorem initSMLocalRF_row_is_window_witness :
    ((SparseMatrix.empty Int).columnIndices = [] ∧ ((0 : Int) ≤ 1 ∧ (1 : Int) < 2)) ∧
    (rowSegment (initSMLocalRF intOps scaleProject ⟨3, 3, 2⟩ ⟨2, 2, 2⟩ 1
        (SparseMatrix.empty Int)) (address3 ⟨1, 1, 1⟩ ⟨2, 2, 2⟩)).Nodup :=
  ⟨⟨rfl, by decide⟩,
    (initSMLocalRF_row_is_window intOps scaleProject ⟨3, 3, 2⟩ ⟨2, 2, 2⟩ 1
      (SparseMatrix.empty Int) rfl 1 1 1 (by decide) (by decide) (by decide)).2.1⟩

/-- Counterexample to C4: `initSMLocalRF` for one input cell and two output cells
on a matrix argument that already holds one value and one column index.  The
call appends one entry per output cell and leaves `rowRanges = [0, 1, 2]`, whose
last entry 2 is the number of appended entries, while `nonZeroValues` and
`columnIndices` hold 3 entries each. -/
theorem initSMLocalRF_last_range_on_used_matrix :
    (initSMLocalRF intOps scaleProject ⟨1, 1, 1⟩ ⟨1, 1, 2⟩ 0
        ⟨0, 0, [5], [], [], [0], [], []⟩).rowRanges = [0, 1, 2]
    ∧ getI (initSMLocalRF intOps scaleProject ⟨1, 1, 1⟩ ⟨1, 1, 2⟩ 0
        ⟨0, 0, [5], [], [], [0], [], []⟩).rowRanges (1 * 1 * 2) 0 = 2
    ∧ (initSMLocalRF intOps scaleProject ⟨1, 1, 1⟩ ⟨1, 1, 2⟩ 0
        ⟨0, 0, [5], [], [], [0], [], []⟩).nonZeroValues = [5, 0, 0]
    ∧ (initSMLocalRF intOps scaleProject ⟨1, 1, 1⟩ ⟨1, 1, 2⟩ 0
        ⟨0, 0, [5], [], [], [0], [], []⟩).columnIndices = [0, 0, 0]
    ∧ (initSMLocalRF intOps scaleProject ⟨1, 1, 1⟩ ⟨1, 1, 2⟩ 0
        ⟨0, 0, [5], [], [], [0], [], []⟩).nonZeroValues.length = 3 := by
  refine ⟨by decide, by decide, by decide, by decide, by decide⟩

/-- C4 as amended: for every matrix built by `initSMLocalRF`, whatever the
matrix argument held (for non-negative output extents), `rowRanges` has
`outSize.x * outSize.y * outSize.z + 1` entries, starts with 0 and is
non-decreasing, and its last entry is the number of entries that the call
appended: the number of values, and of column indices, after the call minus
their number before it, so the number of values and of column indices when the
argument starts without them; `rows` is the number of output cells and `columns`
the number of input cells. -/
theorem initSMLocalRF_rowRanges {F : Type} (ops : FloatOps F)
    (project : Int2 → Float2 F → Int2) (inSize outSize : Int3) (radius : Int)
    (mat : SparseMatrix F)
    (hx : 0 ≤ outSize.x) (hy : 0 ≤ outSize.y) (hz : 0 ≤ outSize.z) :
    ((initSMLocalRF ops project inSize outSize radius mat).rowRanges.length : Int)
        = outSize.x * outSize.y * outSize.z + 1 ∧
    getI (initSMLocalRF ops project inSize outSize radius mat).rowRanges 0 0 = 0 ∧
    (initSMLocalRF ops project inSize outSize radius mat).rowRanges.Sorted (· ≤ ·) ∧
    getI (initSMLocalRF ops project inSize outSize radius mat).rowRanges
        (outSize.x * outSize.y * outSize.z) 0
      = ((initSMLocalRF ops project inSize outSize radius mat).nonZeroValues.length : Int)
        - (mat.nonZeroValues.length : Int) ∧
    getI (initSMLocalRF ops project inSize outSize radius mat).rowRanges
        (outSize.x * outSize.y * outSize.z) 0
      = ((initSMLocalRF ops project inSize outSize radius mat).columnIndices.length : Int)
        - (mat.columnIndices.length : Int) ∧
    (mat.nonZeroValues = [] →
      getI (initSMLocalRF ops project inSize outSize radius mat).rowRanges
          (outSize.x * outSize.y * outSize.z) 0
        = ((initSMLocalRF ops project inSize outSize radius mat).nonZeroValues.length : Int)) ∧
    (mat.columnIndices = [] →
      getI (initSMLocalRF ops project inSize outSize radius mat).rowRanges
          (outSize.x * outSize.y * outSize.z) 0
        = ((initSMLocalRF ops project inSize outSize radius mat).columnIndices.length : Int)) ∧
    (initSMLocalRF ops project inSize outSize radius mat).rows
      = outSize.x * outSize.y * outSize.z ∧
    (initSMLocalRF ops project inSize outSize radius mat).columns
      = inSize.x * inSize.y * inSize.z := by
  rw [initSMLocalRF_eq ops project inSize outSize radius mat hx hy hz]
  simp only [List.length_append, List.length_replicate, Nat.cast_add]
  have hlen := length_domain3 hx hy hz
  have hlast : getI (prefixSums 0 ((domain3 outSize).map
      (fun p => ((rowCells ops project inSize outSize radius p).length : Int))))
      (outSize.x * outSize.y * outSize.z) 0
        = (((domain3 outSize).flatMap (rowCells ops project inSize outSize radius)).length : Int) := by
    rw [← hlen, getI_natCast, getD_prefixSums _ _ _ (by simp)]
    rw [List.take_of_length_le (by simp), sum_map_length_flatMap]
    simp
  have hlength : ((prefixSums 0 ((domain3 outSize).map
      (fun p => ((rowCells ops project inSize outSize radius p).length : Int)))).length : Int)
        = outSize.x * outSize.y * outSize.z + 1 := by
    rw [length_prefixSums, List.length_map]
    push_cast
    omega
  have hzero : getI (prefixSums 0 ((domain3 outSize).map
      (fun p => ((rowCells ops project inSize outSize radius p).length : Int)))) 0 0 = 0 := by
    have := getD_prefixSums 0 ((domain3 outSize).map
      (fun p => ((rowCells ops project inSize outSize radius p).length : Int))) 0 (by simp)
    have e : getI (prefixSums 0 ((domain3 outSize).map
        (fun p => ((rowCells ops project inSize outSize radius p).length : Int)))) 0 0
          = (prefixSums 0 ((domain3 outSize).map
        (fun p => ((rowCells ops project inSize outSize radius p).length : Int)))).getD 0 0 :=
      getI_natCast _ 0 0
    rw [e, this]
    simp
  have hsorted : (prefixSums 0 ((domain3 outSize).map
      (fun p => ((rowCells ops project inSize outSize radius p).length : Int)))).Sorted (· ≤ ·) := by
    apply sorted_prefixSums
    intro c hc
    obtain ⟨p, _, rfl⟩ := List.mem_map.mp hc
    exact Int.natCast_nonneg _
  refine ⟨hlength, hzero, hsorted, ?_, ?_, ?_, ?_, trivial, trivial⟩
  · rw [hlast]
    omega
  · rw [hlast]
    omega
  · intro h
    rw [hlast, h]
    simp
  · intro h
    rw [hlast, h]
    simp

/-- Witness of C4: a 3 by 3 by 2 input, a 2 by 2 by 2 output, radius 1, on a
matrix argument that holds one value and one column index. -/
theorem initSMLocalRF_rowRanges_witness :
    ((0 : Int) ≤ 2 ∧ (0 : Int) ≤ 2 ∧ (0 : Int) ≤ 2) ∧
    (initSMLocalRF intOps scaleProject ⟨3, 3, 2⟩ ⟨2, 2, 2⟩ 1
        ⟨0, 0, [5], [], [], [0], [], []⟩).rowRanges.Sorted (· ≤ ·)
    ∧ getI (initSMLocalRF intOps scaleProject ⟨3, 3, 2⟩ ⟨2, 2, 2⟩ 1
        ⟨0, 0, [5], [], [], [0], [], []⟩).rowRanges (2 * 2 * 2) 0
      = ((initSMLocalRF intOps scaleProject ⟨3, 3, 2⟩ ⟨2, 2, 2⟩ 1
          ⟨0, 0, [5], [], [], [0], [], []⟩).nonZeroValues.length : Int)
        - (([5] : List Int).length : Int) :=
  ⟨⟨by decide, by decide, by decide⟩,
    (initSMLocalRF_rowRanges intOps scaleProject ⟨3, 3, 2⟩ ⟨2, 2, 2⟩ 1
      ⟨0, 0, [5], [], [], [0], [], []⟩ (by decide) (by decide) (by decide)).2.2.1,
    (initSMLocalRF_rowRanges intOps scaleProject ⟨3, 3, 2⟩ ⟨2, 2, 2⟩ 1
      ⟨0, 0, [5], [], [], [0], [], []⟩ (by decide) (by decide) (by decide)).2.2.2.1⟩

/-- Counterexample to C5: on the same `(inSize, outSize, radius)`, the matrix
built from an empty matrix and the matrix built from a matrix that already holds
one value and one column index differ in `columnIndices`: the entries are
appended to what the argument held. -/
theorem initSMLocalRF_keeps_initial_entries :
    (initSMLocalRF intOps scaleProject ⟨1, 1, 1⟩ ⟨1, 1, 1⟩ 0
        (SparseMatrix.empty Int)).columnIndices = [0] ∧
    (initSMLocalRF intOps scaleProject ⟨1, 1, 1⟩ ⟨1, 1, 1⟩ 0
        ⟨0, 0, [7], [], [], [3], [], []⟩).columnIndices = [3, 0] ∧
    (initSMLocalRF intOps scaleProject ⟨1, 1, 1⟩ ⟨1, 1, 1⟩ 0
        (SparseMatrix.empty Int)).nonZeroValues = [0] ∧
    (initSMLocalRF intOps scaleProject ⟨1, 1, 1⟩ ⟨1, 1, 1⟩ 0
        ⟨0, 0, [7], [], [], [3], [], []⟩).nonZeroValues = [7, 0] ∧
    ¬ (∀ m1 m2 : SparseMatrix Int,
        (initSMLocalRF intOps scaleProject ⟨1, 1, 1⟩ ⟨1, 1, 1⟩ 0 m1).columnIndices
          = (initSMLocalRF intOps scaleProject ⟨1, 1, 1⟩ ⟨1, 1, 1⟩ 0 m2).columnIndices) := by
  refine ⟨by decide, by decide, by decide, by decide, ?_⟩
  intro h
  have := h (SparseMatrix.empty Int) ⟨0, 0, [7], [], [], [3], [], []⟩
  revert this
  decide

/-- C5 as amended: for non-negative output extents, `rows`, `columns` and
`rowRanges` of the result of `initSMLocalRF` are determined by
`(inSize, outSize, radius)` alone, and `columnIndices` and `nonZeroValues` are
what the matrix argument held followed by entries determined by
`(inSize, outSize, radius)` alone; so two runs agree on all five as soon as the
two arguments hold the same values and column indices, in particular when both
are empty. -/
theorem initSMLocalRF_determined {F : Type} (ops : FloatOps F)
    (project : Int2 → Float2 F → Int2) (inSize outSize : Int3) (radius : Int)
    (hx : 0 ≤ outSize.x) (hy : 0 ≤ outSize.y) (hz : 0 ≤ outSize.z) :
    (∃ (rr cs : List Int) (vs : List F), ∀ m : SparseMatrix F,
      (initSMLocalRF ops project inSize outSize radius m).rows
          = outSize.x * outSize.y * outSize.z ∧
        (initSMLocalRF ops project inSize outSize radius m).columns
          = inSize.x * inSize.y * inSize.z ∧
        (initSMLocalRF ops project inSize outSize radius m).rowRanges = rr ∧
        (initSMLocalRF ops project inSize outSize radius m).columnIndices
          = m.columnIndices ++ cs ∧
        (initSMLocalRF ops project inSize outSize radius m).nonZeroValues
          = m.nonZeroValues ++ vs) ∧
    (∀ m1 m2 : SparseMatrix F, m1.nonZeroValues = m2.nonZeroValues →
      m1.columnIndices = m2.columnIndices →
      (initSMLocalRF ops project inSize outSize radius m1).rows
          = (initSMLocalRF ops project inSize outSize radius m2).rows ∧
        (initSMLocalRF ops project inSize outSize radius m1).columns
          = (initSMLocalRF ops project inSize outSize radius m2).columns ∧
        (initSMLocalRF ops project inSize outSize radius m1).rowRanges
          = (initSMLocalRF ops project inSize outSize radius m2).rowRanges ∧
        (initSMLocalRF ops project inSize outSize radius m1).columnIndices
          = (initSMLocalRF ops project inSize outSize radius m2).columnIndices ∧
        (initSMLocalRF ops project inSize outSize radius m1).nonZeroValues
          = (initSMLocalRF ops project inSize outSize radius m2).nonZeroValues) := by
  constructor
  · refine ⟨prefixSums 0 ((domain3 outSize).map
        (fun p => ((rowCells ops project inSize outSize radius p).length : Int))),
      (domain3 outSize).flatMap (rowCells ops project inSize outSize radius),
      List.replicate ((domain3 outSize).flatMap (rowCells ops project inSize outSize radius)).length
        (ops.ofInt 0), fun m => ?_⟩
    rw [initSMLocalRF_eq ops project inSize outSize radius m hx hy hz]
    exact ⟨rfl, rfl, rfl, rfl, rfl⟩
  · intro m1 m2 hnz hci
    rw [initSMLocalRF_eq ops project inSize outSize radius m1 hx hy hz,
      initSMLocalRF_eq ops project inSize outSize radius m2 hx hy hz]
    simp only [hnz, hci, and_self]

/-- Witness of the amended C5 on a 3 by 3 by 2 input and a 2 by 2 by 2 output:
the row ranges do not depend on the matrix argument. -/
theorem initSMLocalRF_determined_witness :
    ((0 : Int) ≤ 2) ∧
    ∃ (rr cs : List Int) (vs : List Int), ∀ m : SparseMatrix Int,
      (initSMLocalRF intOps scaleProject ⟨3, 3, 2⟩ ⟨2, 2, 2⟩ 1 m).rows = 2 * 2 * 2 ∧
        (initSMLocalRF intOps scaleProject ⟨3, 3, 2⟩ ⟨2, 2, 2⟩ 1 m).columns = 3 * 3 * 2 ∧
        (initSMLocalRF intOps scaleProject ⟨3, 3, 2⟩ ⟨2, 2, 2⟩ 1 m).rowRanges = rr ∧
        (initSMLocalRF intOps scaleProject ⟨3, 3, 2⟩ ⟨2, 2, 2⟩ 1 m).columnIndices
          = m.columnIndices ++ cs ∧
        (initSMLocalRF intOps scaleProject ⟨3, 3, 2⟩ ⟨2, 2, 2⟩ 1 m).nonZeroValues
          = m.nonZeroValues ++ vs :=
  ⟨by decide,
    (initSMLocalRF_determined intOps scaleProject ⟨3, 3, 2⟩ ⟨2, 2, 2⟩ 1
      (by decide) (by decide) (by decide)).1⟩

/-! ### Kernel launches -/

theorem domain2_foldl {σ : Type} (k : Int2 → σ → σ) (size : Int2) (s : σ) :
    (intRange 0 size.x).foldl (fun s x => (intRange 0 size.y).foldl (fun s y => k ⟨x, y⟩ s) s) s
      = (domain2 size).foldl (fun s p => k p s) s := by
  unfold domain2
  rw [foldl_flatMap_eq]
  simp only [List.foldl_map]

theorem launch1_noThread {R σ : Type} (M : RngOps R) (k : Int → R → σ → σ) (size : Int)
    (cs : ComputeSystem R) (s : σ) :
    launch1 M true k size cs s = ((intRange 0 size).foldl (fun s x => k x cs.rng s) s, cs) := by
  simp [launch1]

theorem launch2_noThread {R σ : Type} (M : RngOps R) (k : Int2 → R → σ → σ) (size : Int2)
    (cs : ComputeSystem R) (s : σ) :
    launch2 M true k size cs s = ((domain2 size).foldl (fun s p => k p cs.rng s) s, cs) := by
  simp only [launch2, if_true]
  rw [domain2_foldl (fun p s => k p cs.rng s)]

theorem launch1_batched_snd {R σ : Type} (M : RngOps R) (k : Int → R → σ → σ) (size : Int)
    (cs : ComputeSystem R) (s : σ) :
    (launch1 M false k size cs s).2
      = { cs with rng := drawN M (batches1 size cs.batchSize1) cs.rng } := by
  simp only [launch1, Bool.false_eq_true, if_false]
  rw [runKernel1_seeds]
  rfl

theorem launch2_batched_snd {R σ : Type} (M : RngOps R) (k : Int2 → R → σ → σ) (size : Int2)
    (cs : ComputeSystem R) (s : σ) :
    (launch2 M false k size cs s).2
      = { cs with rng := drawN M (batches2 size cs.batchSize2) cs.rng } := by
  simp only [launch2, Bool.false_eq_true, if_false]
  rw [runKernel2_seeds]
  rfl

theorem launch1_batched_fst {R σ : Type} (M : RngOps R) (k : Int → σ → σ) (size : Int)
    (cs : ComputeSystem R) (s : σ) :
    (launch1 M false (fun p _ s => k p s) size cs s).1
      = (batchOrder1 size cs.batchSize1).foldl (fun s p => k p s) s := by
  simp only [launch1, Bool.false_eq_true, if_false]
  exact runKernel1_lift M k size cs.rng cs.batchSize1 s

theorem launch2_batched_fst {R σ : Type} (M : RngOps R) (k : Int2 → σ → σ) (size : Int2)
    (cs : ComputeSystem R) (s : σ) :
    (launch2 M false (fun p _ s => k p s) size cs s).1
      = (batchOrder2 size cs.batchSize2).foldl (fun s p => k p s) s := by
  simp only [launch2, Bool.false_eq_true, if_false]
  exact runKernel2_lift M k size cs.rng cs.batchSize2 s

/-- The generator and the batch sizes after a launch, in either mode. -/
theorem launch2_snd {R σ : Type} (M : RngOps R) (noThread : Bool) (k : Int2 → R → σ → σ)
    (size : Int2) (cs : ComputeSystem R) (s : σ) :
    (launch2 M noThread k size cs s).2
      = { cs with rng := drawN M (launchDraws2 noThread size cs.batchSize2) cs.rng } := by
  cases noThread
  · rw [launch2_batched_snd]
    rfl
  · rw [launch2_noThread]
    rfl

theorem launch1_snd {R σ : Type} (M : RngOps R) (noThread : Bool) (k : Int → R → σ → σ)
    (size : Int) (cs : ComputeSystem R) (s : σ) :
    (launch1 M noThread k size cs s).2
      = { cs with rng := drawN M (launchDraws1 noThread size cs.batchSize1) cs.rng } := by
  cases noThread
  · rw [launch1_batched_snd]
    rfl
  · rw [launch1_noThread]
    rfl

theorem foldl_preserves {α β : Type} (P : β → Prop) (f : β → α → β) (l : List α)
    (h : ∀ b, ∀ a ∈ l, P b → P (f b a)) : ∀ b, P b → P (l.foldl f b) := by
  induction l with
  | nil => intro b hb; exact hb
  | cons a t ih =>
    intro b hb
    rw [List.foldl_cons]
    exact ih (fun b a' ha' => h b a' (List.mem_cons_of_mem _ ha')) _
      (h b a (List.mem_cons_self _ _) hb)

theorem foldl_count {α β : Type} (Q : β → Nat → Prop) (f : β → α → β) (c : α → Nat) (l : List α)
    (h : ∀ b n, ∀ a ∈ l, Q b n → Q (f b a) (n + c a)) :
    ∀ b n, Q b n → Q (l.foldl f b) (n + (l.map c).sum) := by
  induction l with
  | nil => intro b n hb; simpa using hb
  | cons a t ih =>
    intro b n hb
    rw [List.foldl_cons, List.map_cons, List.sum_cons, ← Nat.add_assoc]
    exact ih (fun b n a' ha' => h b n a' (List.mem_cons_of_mem _ ha')) _ _
      (h b n a (List.mem_cons_self _ _) hb)

/-- The state after a launch, for a kernel that does not depend on its
generator: the fold of the kernel over the loop order or the batched order. -/
theorem launch2_fst {R σ : Type} (M : RngOps R) (noThread : Bool) (k : Int2 → R → σ → σ)
    (hk : ∀ p r r' s, k p r s = k p r' s) (size : Int2) (cs : ComputeSystem R) (s : σ) :
    (launch2 M noThread k size cs s).1
      = (if noThread then domain2 size else batchOrder2 size cs.batchSize2).foldl
          (fun s p => k p cs.rng s) s := by
  cases noThread
  · have e : k = fun p _ s => k p cs.rng s := by
      funext p r s
      exact hk p r cs.rng s
    rw [e]
    exact launch2_batched_fst M (fun p s => k p cs.rng s) size cs s
  · rw [launch2_noThread]
    rfl

theorem launch1_fst {R σ : Type} (M : RngOps R) (noThread : Bool) (k : Int → R → σ → σ)
    (hk : ∀ p r r' s, k p r s = k p r' s) (size : Int) (cs : ComputeSystem R) (s : σ) :
    (launch1 M noThread k size cs s).1
      = (if noThread then intRange 0 size else batchOrder1 size cs.batchSize1).foldl
          (fun s p => k p cs.rng s) s := by
  cases noThread
  · have e : k = fun p _ s => k p cs.rng s := by
      funext p r s
      exact hk p r cs.rng s
    rw [e]
    exact launch1_batched_fst M (fun p s => k p cs.rng s) size cs s
  · rw [launch1_noThread]
    rfl

theorem launch2_preserves {R σ : Type} (M : RngOps R) (noThread : Bool) (k : Int2 → R → σ → σ)
    (hk : ∀ p r r' s, k p r s = k p r' s) (size : Int2) (cs : ComputeSystem R) (P : σ → Prop)
    (hP : ∀ p r s, P s → P (k p r s)) (s : σ) (hs : P s) :
    P (launch2 M noThread k size cs s).1 := by
  rw [launch2_fst M noThread k hk]
  exact foldl_preserves P _ _ (fun b a _ hb => hP a cs.rng b hb) s hs

/-! ### Frames of the kernels -/

theorem predictor_sameFrame_refl {F : Type} (p : Predictor F) : Predictor.SameFrame p p :=
  ⟨rfl, rfl, rfl, rfl⟩

theorem predictor_sameFrame_trans {F : Type} {p q r : Predictor F}
    (h1 : Predictor.SameFrame p q) (h2 : Predictor.SameFrame q r) : Predictor.SameFrame p r :=
  ⟨h2.1.trans h1.1, h2.2.1.trans h1.2.1, h2.2.2.1.trans h1.2.2.1, h2.2.2.2.trans h1.2.2.2⟩

theorem sparseCoder_sameFrame_refl {F : Type} (s : SparseCoder F) : SparseCoder.SameFrame s s :=
  ⟨rfl, rfl, rfl, rfl, rfl⟩

theorem sparseCoder_sameFrame_trans {F : Type} {p q r : SparseCoder F}
    (h1 : SparseCoder.SameFrame p q) (h2 : SparseCoder.SameFrame q r) :
    SparseCoder.SameFrame p r :=
  ⟨h2.1.trans h1.1, h2.2.1.trans h1.2.1, h2.2.2.1.trans h1.2.2.1, h2.2.2.2.1.trans h1.2.2.2.1,
    h2.2.2.2.2.trans h1.2.2.2.2⟩

theorem predictor_forward_frame {F R : Type} [LinearOrder F] (ops : FloatOps F) (pos : Int2)
    (rng : R) (inputCs : List IntBuffer) (p : Predictor F) :
    Predictor.SameFrame p (Predictor.forward ops pos rng inputCs p) :=
  ⟨rfl, rfl, rfl, rfl⟩

theorem Predictor.learnCell_frame {F : Type} (ops : FloatOps F) (pos : Int2) (targetC hc : Int)
    (p : Predictor F) : Predictor.SameFrame p (Predictor.learnCell ops pos targetC hc p) :=
  ⟨rfl, rfl, rfl, by simp [Predictor.learnCell, Predictor.applyDelta]⟩

theorem Predictor.learnKernel_frame {F R : Type} (ops : FloatOps F) (pos : Int2) (rng : R)
    (hiddenTargetCs : IntBuffer) (p : Predictor F) :
    Predictor.SameFrame p (Predictor.learnKernel ops pos rng hiddenTargetCs p) := by
  unfold Predictor.learnKernel
  exact foldl_preserves (fun q => Predictor.SameFrame p q) _ _
    (fun b a _ hb => predictor_sameFrame_trans hb (Predictor.learnCell_frame ops pos _ a b)) p
    (predictor_sameFrame_refl p)

theorem sparseCoder_forward_frame {F R : Type} [LinearOrder F] (ops : FloatOps F) (pos : Int2)
    (rng : R) (inputCs : List IntBuffer) (it : Int) (s : SparseCoder F) :
    SparseCoder.SameFrame s (SparseCoder.forward ops pos rng inputCs it s) :=
  ⟨rfl, rfl, rfl, rfl, rfl⟩

theorem SparseCoder.backward_frame {F R : Type} [LinearOrder F] (ops : FloatOps F) (pos : Int2)
    (rng : R) (inputCs : IntBuffer) (vli : Nat) (s : SparseCoder F) :
    SparseCoder.SameFrame s (SparseCoder.backward ops pos rng inputCs vli s) :=
  ⟨rfl, rfl, rfl, rfl, by simp [SparseCoder.backward]⟩

theorem SparseCoder.learn_frame {F R : Type} [LinearOrder F] (ops : FloatOps F) (pos : Int2)
    (rng : R) (inputCs : IntBuffer) (vli : Nat) (s : SparseCoder F) :
    SparseCoder.SameFrame s (SparseCoder.learn ops pos rng inputCs vli s) := by
  unfold SparseCoder.learn
  simp only []
  split
  · exact ⟨rfl, rfl, rfl, rfl, by simp⟩
  · exact sparseCoder_sameFrame_refl s

/-! ### The parent generator after an operation -/

theorem drawN_zero_cs {R : Type} (M : RngOps R) (cs : ComputeSystem R) :
    ({ cs with rng := drawN M 0 cs.rng } : ComputeSystem R) = cs := rfl

theorem Predictor.learn_snd {F R : Type} (M : RngOps R) (ops : FloatOps F) (noThread : Bool)
    (cs : ComputeSystem R) (hiddenTargetCs : IntBuffer) (p : Predictor F) :
    (Predictor.learn M ops noThread cs hiddenTargetCs p).2
      = { cs with
            rng := drawN M
              (launchDraws2 noThread ⟨p.hiddenSize.x, p.hiddenSize.y⟩ cs.batchSize2) cs.rng } := by
  unfold Predictor.learn
  exact launch2_snd M noThread _ _ cs p

theorem Predictor.activate_snd {F R : Type} [LinearOrder F] (M : RngOps R) (ops : FloatOps F)
    (noThread : Bool) (cs : ComputeSystem R) (inputCs : List IntBuffer) (p : Predictor F) :
    (Predictor.activate M ops noThread cs inputCs p).2
      = { cs with rng := drawN M (Predictor.activateDraws noThread cs p) cs.rng } := by
  unfold Predictor.activate Predictor.activateDraws
  simp only []
  have hfr : Predictor.SameFrame p
      (launch2 M noThread (fun pos rng p => Predictor.forward ops pos rng inputCs p)
        ⟨p.hiddenSize.x, p.hiddenSize.y⟩ cs p).1 :=
    launch2_preserves M noThread (fun pos rng p => Predictor.forward ops pos rng inputCs p)
      (fun _ _ _ _ => rfl) _ cs (fun q => Predictor.SameFrame p q)
      (fun pos r q hq => predictor_sameFrame_trans hq (predictor_forward_frame ops pos r inputCs q)) p
      (predictor_sameFrame_refl p)
  have hrng := launch2_snd M noThread (fun pos rng p => Predictor.forward ops pos rng inputCs p)
    ⟨p.hiddenSize.x, p.hiddenSize.y⟩ cs p
  rw [hfr.2.2.2]
  have key := foldl_count
    (fun (acc : Predictor F × ComputeSystem R) n =>
      acc.2 = { cs with rng := drawN M n cs.rng } ∧ Predictor.SameFrame p acc.1)
    (fun (acc : Predictor F × ComputeSystem R) vli =>
      ({ acc.1 with
          visibleLayers := acc.1.visibleLayers.set vli
            { acc.1.visibleLayers.getD vli (Predictor.VisibleLayer.none F) with
                inputCsPrev := (launch1 M noThread
                  (fun pos rng dst => copyInt pos rng (inputCs.getD vli []) dst)
                  ((acc.1.visibleLayerDescs.getD vli VisibleLayerDesc.none).size.x
                    * (acc.1.visibleLayerDescs.getD vli VisibleLayerDesc.none).size.y)
                  acc.2 (acc.1.visibleLayers.getD vli (Predictor.VisibleLayer.none F)).inputCsPrev).1 } },
       (launch1 M noThread
          (fun pos rng dst => copyInt pos rng (inputCs.getD vli []) dst)
          ((acc.1.visibleLayerDescs.getD vli VisibleLayerDesc.none).size.x
            * (acc.1.visibleLayerDescs.getD vli VisibleLayerDesc.none).size.y)
          acc.2 (acc.1.visibleLayers.getD vli (Predictor.VisibleLayer.none F)).inputCsPrev).2))
    (fun vli => launchDraws1 noThread
        ((p.visibleLayerDescs.getD vli VisibleLayerDesc.none).size.x
          * (p.visibleLayerDescs.getD vli VisibleLayerDesc.none).size.y)
        cs.batchSize1)
    (List.range p.visibleLayers.length)
    (by
      rintro ⟨q, c⟩ n vli _ ⟨hc, hq⟩
      simp only at hc hq ⊢
      refine ⟨?_, ⟨hq.1, hq.2.1, hq.2.2.1, by simpa using hq.2.2.2⟩⟩
      rw [launch1_snd, hq.2.1, hc]
      simp only [drawN_add])
    _ _ ⟨hrng, hfr⟩
  exact key.1

theorem sum_map_zero {α : Type} (l : List α) : (l.map (fun _ => (0 : Nat))).sum = 0 := by
  induction l with
  | nil => rfl
  | cons a t ih => simp

/-- The generator and the frame after one launch per visible layer of a sparse
coder. -/
theorem SparseCoder.layers_fold_snd {F R : Type} (M : RngOps R) (noThread : Bool)
    (cs : ComputeSystem R) (s : SparseCoder F)
    (kernel : Nat → Int2 → R → SparseCoder F → SparseCoder F)
    (hk : ∀ vli p r r' q, kernel vli p r q = kernel vli p r' q)
    (hframe : ∀ vli p r q, SparseCoder.SameFrame q (kernel vli p r q))
    (acc : SparseCoder F × ComputeSystem R) (n : Nat)
    (hacc : acc.2 = { cs with rng := drawN M n cs.rng } ∧ SparseCoder.SameFrame s acc.1) :
    ((List.range s.visibleLayers.length).foldl
        (fun (acc : SparseCoder F × ComputeSystem R) vli =>
          launch2 M noThread (kernel vli)
            ⟨(acc.1.visibleLayerDescs.getD vli VisibleLayerDesc.none).size.x,
             (acc.1.visibleLayerDescs.getD vli VisibleLayerDesc.none).size.y⟩ acc.2 acc.1)
        acc).2 = { cs with rng := drawN M (n + SparseCoder.layerDraws noThread cs s) cs.rng }
    ∧ SparseCoder.SameFrame s
        ((List.range s.visibleLayers.length).foldl
          (fun (acc : SparseCoder F × ComputeSystem R) vli =>
            launch2 M noThread (kernel vli)
              ⟨(acc.1.visibleLayerDescs.getD vli VisibleLayerDesc.none).size.x,
               (acc.1.visibleLayerDescs.getD vli VisibleLayerDesc.none).size.y⟩ acc.2 acc.1)
          acc).1 := by
  unfold SparseCoder.layerDraws
  exact foldl_count
    (fun (acc : SparseCoder F × ComputeSystem R) n =>
      acc.2 = { cs with rng := drawN M n cs.rng } ∧ SparseCoder.SameFrame s acc.1)
    _ _ _
    (by
      rintro ⟨q, c⟩ m vli _ ⟨hc, hq⟩
      simp only at hc hq ⊢
      constructor
      · rw [launch2_snd, hq.2.1, hc]
        simp only [drawN_add]
      · exact launch2_preserves M noThread (kernel vli) (hk vli) _ c
          (fun q' => SparseCoder.SameFrame s q')
          (fun p r q' hq' => sparseCoder_sameFrame_trans hq' (hframe vli p r q')) q hq)
    acc n hacc

theorem SparseCoder.step_snd {F R : Type} [LinearOrder F] (M : RngOps R) (ops : FloatOps F)
    (noThread : Bool) (cs : ComputeSystem R) (inputCs : List IntBuffer) (learnEnabled : Bool)
    (s : SparseCoder F) :
    (SparseCoder.step M ops noThread cs inputCs learnEnabled s).2
      = { cs with
            rng := drawN M (SparseCoder.stepDraws noThread cs learnEnabled s) cs.rng } := by
  unfold SparseCoder.step SparseCoder.stepDraws
  simp only []
  have hiter := foldl_count
    (fun (acc : SparseCoder F × ComputeSystem R) n =>
      acc.2 = { cs with rng := drawN M n cs.rng } ∧ SparseCoder.SameFrame s acc.1)
    (fun (acc : SparseCoder F × ComputeSystem R) it =>
      if it < acc.1.explainIters - 1 then
        (List.range (launch2 M noThread
            (fun pos rng s => SparseCoder.forward ops pos rng inputCs it s)
            ⟨acc.1.hiddenSize.x, acc.1.hiddenSize.y⟩ acc.2 acc.1).1.visibleLayers.length).foldl
          (fun (acc : SparseCoder F × ComputeSystem R) vli =>
            launch2 M noThread
              (fun pos rng s => SparseCoder.backward ops pos rng (inputCs.getD vli []) vli s)
              ⟨(acc.1.visibleLayerDescs.getD vli VisibleLayerDesc.none).size.x,
               (acc.1.visibleLayerDescs.getD vli VisibleLayerDesc.none).size.y⟩ acc.2 acc.1)
          (launch2 M noThread
            (fun pos rng s => SparseCoder.forward ops pos rng inputCs it s)
            ⟨acc.1.hiddenSize.x, acc.1.hiddenSize.y⟩ acc.2 acc.1)
      else
        launch2 M noThread
          (fun pos rng s => SparseCoder.forward ops pos rng inputCs it s)
          ⟨acc.1.hiddenSize.x, acc.1.hiddenSize.y⟩ acc.2 acc.1)
    (fun it =>
      launchDraws2 noThread ⟨s.hiddenSize.x, s.hiddenSize.y⟩ cs.batchSize2
        + (if it < s.explainIters - 1 then SparseCoder.layerDraws noThread cs s else 0))
    (intRange 0 s.explainIters)
    (by
      rintro ⟨q, c⟩ m it _ ⟨hc, hq⟩
      simp only at hc hq ⊢
      have hfwd2 : (launch2 M noThread
            (fun pos rng s => SparseCoder.forward ops pos rng inputCs it s)
            ⟨q.hiddenSize.x, q.hiddenSize.y⟩ c q).2
          = { cs with
                rng := drawN M
                  (m + launchDraws2 noThread ⟨s.hiddenSize.x, s.hiddenSize.y⟩ cs.batchSize2)
                  cs.rng } := by
        rw [launch2_snd, hq.1, hc]
        simp only [drawN_add]
      have hfwd1 : SparseCoder.SameFrame s (launch2 M noThread
            (fun pos rng s => SparseCoder.forward ops pos rng inputCs it s)
            ⟨q.hiddenSize.x, q.hiddenSize.y⟩ c q).1 :=
        launch2_preserves M noThread
          (fun pos rng s => SparseCoder.forward ops pos rng inputCs it s)
          (fun _ _ _ _ => rfl) _ c (fun q' => SparseCoder.SameFrame s q')
          (fun p r q' hq' => sparseCoder_sameFrame_trans hq' (sparseCoder_forward_frame ops p r inputCs it q')) q hq
      rw [hq.2.2.1]
      split
      · rw [hfwd1.2.2.2.2, ← Nat.add_assoc]
        exact SparseCoder.layers_fold_snd M noThread cs s
          (fun vli pos rng s => SparseCoder.backward ops pos rng (inputCs.getD vli []) vli s)
          (fun _ _ _ _ _ => rfl)
          (fun vli p r q' => SparseCoder.backward_frame ops p r (inputCs.getD vli []) vli q')
          _ _ ⟨hfwd2, hfwd1⟩
      · exact ⟨by simpa using hfwd2, hfwd1⟩)
    (s, cs) 0 ⟨rfl, sparseCoder_sameFrame_refl s⟩
  simp only [Nat.zero_add] at hiter
  cases learnEnabled
  · simpa using hiter.1
  · simp only [if_true]
    rw [hiter.2.2.2.2.2]
    exact (SparseCoder.layers_fold_snd M noThread cs s
      (fun vli pos rng s => SparseCoder.learn ops pos rng (inputCs.getD vli []) vli s)
      (fun _ _ _ _ _ => rfl)
      (fun vli p r q' => SparseCoder.learn_frame ops p r (inputCs.getD vli []) vli q')
      _ _ hiter).1

theorem launchDraws2_noThread (size batchSize : Int2) : launchDraws2 true size batchSize = 0 := rfl

theorem Predictor.activateDraws_noThread {F R : Type} (cs : ComputeSystem R) (p : Predictor F) :
    Predictor.activateDraws true cs p = 0 := by
  unfold Predictor.activateDraws launchDraws2 launchDraws1
  simp

theorem SparseCoder.layerDraws_noThread {F R : Type} (cs : ComputeSystem R) (s : SparseCoder F) :
    SparseCoder.layerDraws true cs s = 0 := by
  unfold SparseCoder.layerDraws launchDraws2
  simp

theorem SparseCoder.stepDraws_noThread {F R : Type} (cs : ComputeSystem R) (learnEnabled : Bool)
    (s : SparseCoder F) : SparseCoder.stepDraws true cs learnEnabled s = 0 := by
  unfold SparseCoder.stepDraws
  simp only [SparseCoder.layerDraws_noThread, launchDraws2_noThread, ite_self, Nat.add_zero]
  simp

/-! ### Claims on the parent generator in the two execution modes -/

/-- Counterexample to C8: for a predictor and a sparse coder with one hidden
column, batches of one column and a generator that counts its draws from 0,
`Predictor::learn`, `Predictor::activate` and `SparseCoder::step` leave `cs.rng`
at 0 with `KERNEL_NO_THREAD` and at 1 without: the non-parallel mode draws no
seed. -/
theorem noThread_rng_differs :
    (Predictor.learn counterRng intOps true ⟨0, 1, ⟨1, 1⟩⟩ [0]
        (⟨⟨1, 1, 1⟩, [0], [], [], 1⟩ : Predictor Int)).2.rng = 0 ∧
    (Predictor.learn counterRng intOps false ⟨0, 1, ⟨1, 1⟩⟩ [0]
        (⟨⟨1, 1, 1⟩, [0], [], [], 1⟩ : Predictor Int)).2.rng = 1 ∧
    (Predictor.activate counterRng intOps true ⟨0, 1, ⟨1, 1⟩⟩ []
        (⟨⟨1, 1, 1⟩, [0], [], [], 1⟩ : Predictor Int)).2.rng
      ≠ (Predictor.activate counterRng intOps false ⟨0, 1, ⟨1, 1⟩⟩ []
        (⟨⟨1, 1, 1⟩, [0], [], [], 1⟩ : Predictor Int)).2.rng ∧
    (SparseCoder.step counterRng intOps true ⟨0, 1, ⟨1, 1⟩⟩ [] false
        (⟨⟨1, 1, 1⟩, [0], [0], [], [], 1, 1⟩ : SparseCoder Int)).2.rng
      ≠ (SparseCoder.step counterRng intOps false ⟨0, 1, ⟨1, 1⟩⟩ [] false
        (⟨⟨1, 1, 1⟩, [0], [0], [], [], 1, 1⟩ : SparseCoder Int)).2.rng := by
  refine ⟨by decide, by decide, by decide, by decide⟩

/-- C8 as amended: `Predictor::activate`, `Predictor::learn` and
`SparseCoder::step` leave `cs.rng` after as many seed draws as their launches
make, which is none in the non-parallel (`KERNEL_NO_THREAD`) mode, where the
compute system is left as it was, and one per batch of every launch in the
parallel mode; the batch sizes are left unchanged in both. -/
theorem rng_after_operation {F R : Type} [LinearOrder F] (M : RngOps R) (ops : FloatOps F)
    (noThread : Bool) (cs : ComputeSystem R) (inputCs : List IntBuffer)
    (hiddenTargetCs : IntBuffer) (learnEnabled : Bool) (p : Predictor F) (s : SparseCoder F) :
    ((Predictor.activate M ops noThread cs inputCs p).2
        = { cs with rng := drawN M (Predictor.activateDraws noThread cs p) cs.rng } ∧
      (Predictor.learn M ops noThread cs hiddenTargetCs p).2
        = { cs with
              rng := drawN M
                (launchDraws2 noThread ⟨p.hiddenSize.x, p.hiddenSize.y⟩ cs.batchSize2) cs.rng } ∧
      (SparseCoder.step M ops noThread cs inputCs learnEnabled s).2
        = { cs with
              rng := drawN M (SparseCoder.stepDraws noThread cs learnEnabled s) cs.rng }) ∧
    ((Predictor.activate M ops true cs inputCs p).2 = cs ∧
      (Predictor.learn M ops true cs hiddenTargetCs p).2 = cs ∧
      (SparseCoder.step M ops true cs inputCs learnEnabled s).2 = cs) ∧
    (Predictor.activateDraws false cs p
        = batches2 ⟨p.hiddenSize.x, p.hiddenSize.y⟩ cs.batchSize2
          + ((List.range p.visibleLayers.length).map
              (fun vli =>
                batches1
                  ((p.visibleLayerDescs.getD vli VisibleLayerDesc.none).size.x
                    * (p.visibleLayerDescs.getD vli VisibleLayerDesc.none).size.y)
                  cs.batchSize1)).sum ∧
      launchDraws2 false ⟨p.hiddenSize.x, p.hiddenSize.y⟩ cs.batchSize2
        = batches2 ⟨p.hiddenSize.x, p.hiddenSize.y⟩ cs.batchSize2) := by
  refine ⟨⟨Predictor.activate_snd M ops noThread cs inputCs p,
      Predictor.learn_snd M ops noThread cs hiddenTargetCs p,
      SparseCoder.step_snd M ops noThread cs inputCs learnEnabled s⟩, ⟨?_, ?_, ?_⟩, ⟨rfl, rfl⟩⟩
  · rw [Predictor.activate_snd, Predictor.activateDraws_noThread]
    rfl
  · rw [Predictor.learn_snd]
    rfl
  · rw [SparseCoder.step_snd, SparseCoder.stepDraws_noThread]
    rfl

/-! ### The winner loop -/

/-- The running maximum after the winner loop over `0 ≤ hc < n`, started from
index 0 and the value `sent`: it bounds every activation; either nothing
exceeded `sent` and the index is still 0, or the index is the first one at
which the maximum is attained. -/
theorem maxStep_foldl {F : Type} [LinearOrder F] (a : Int → F) (sent : F) (n : Nat) :
    (∀ hc, 0 ≤ hc → hc < (n : Int) →
        a hc ≤ ((intRange 0 n).foldl (fun acc hc => maxStep acc hc (a hc)) (0, sent)).2) ∧
    (((intRange 0 n).foldl (fun acc hc => maxStep acc hc (a hc)) (0, sent)) = (0, sent)
        ∧ (∀ hc, 0 ≤ hc → hc < (n : Int) → a hc ≤ sent)
      ∨ (sent < ((intRange 0 n).foldl (fun acc hc => maxStep acc hc (a hc)) (0, sent)).2
        ∧ 0 ≤ ((intRange 0 n).foldl (fun acc hc => maxStep acc hc (a hc)) (0, sent)).1
        ∧ ((intRange 0 n).foldl (fun acc hc => maxStep acc hc (a hc)) (0, sent)).1 < (n : Int)
        ∧ a ((intRange 0 n).foldl (fun acc hc => maxStep acc hc (a hc)) (0, sent)).1
            = ((intRange 0 n).foldl (fun acc hc => maxStep acc hc (a hc)) (0, sent)).2
        ∧ (∀ hc, 0 ≤ hc →
            hc < ((intRange 0 n).foldl (fun acc hc => maxStep acc hc (a hc)) (0, sent)).1 →
            a hc < ((intRange 0 n).foldl (fun acc hc => maxStep acc hc (a hc)) (0, sent)).2))) := by
  induction n with
  | zero =>
    simp only [Nat.cast_zero, intRange_eq_nil (le_refl (0 : Int)), List.foldl_nil]
    refine ⟨fun hc h0 h1 => absurd h1 (by omega),
      Or.inl ⟨trivial, fun hc h0 h1 => absurd h1 (by omega)⟩⟩
  | succ n ih =>
    obtain ⟨ih1, ih2⟩ := ih
    have e : ((n + 1 : Nat) : Int) = (n : Int) + 1 := by push_cast; rfl
    rw [e, intRange_succ_right (by omega), List.foldl_append]
    simp only [List.foldl_cons, List.foldl_nil]
    generalize (intRange 0 n).foldl (fun acc hc => maxStep acc hc (a hc)) (0, sent) = r at ih1 ih2
    unfold maxStep
    by_cases hgt : a (n : Int) > r.2
    · rw [if_pos hgt]
      simp only
      constructor
      · intro hc h0 h1
        rcases (show hc < (n : Int) ∨ hc = (n : Int) by omega) with h | h
        · exact le_of_lt (lt_of_le_of_lt (ih1 hc h0 h) hgt)
        · rw [h]
      · right
        refine ⟨?_, by omega, by omega, trivial, ?_⟩
        · rcases ih2 with ⟨hr, _⟩ | ⟨hr, _⟩
          · rw [hr] at hgt
            exact hgt
          · exact lt_trans hr hgt
        · intro hc h0 h1
          exact lt_of_le_of_lt (ih1 hc h0 h1) hgt
    · rw [if_neg hgt]
      have hle : a (n : Int) ≤ r.2 := not_lt.mp hgt
      constructor
      · intro hc h0 h1
        rcases (show hc < (n : Int) ∨ hc = (n : Int) by omega) with h | h
        · exact ih1 hc h0 h
        · rw [h]
          exact hle
      · rcases ih2 with ⟨hr, hall⟩ | ⟨hr, h0, hlt, heq, hbefore⟩
        · left
          refine ⟨hr, ?_⟩
          intro hc h0 h1
          rcases (show hc < (n : Int) ∨ hc = (n : Int) by omega) with h | h
          · exact hall hc h0 h
          · rw [h]
            rw [hr] at hle
            exact hle
        · right
          exact ⟨hr, h0, by omega, heq, hbefore⟩

/-- The winner loop picks the lowest index of the maximum when some activation
exceeds the start value, and index 0 otherwise. -/
theorem maxStep_foldl_spec {F : Type} [LinearOrder F] (a : Int → F) (sent : F) (n : Int) :
    ((∃ hc, 0 ≤ hc ∧ hc < n ∧ sent < a hc) →
      0 ≤ ((intRange 0 n).foldl (fun acc hc => maxStep acc hc (a hc)) (0, sent)).1
      ∧ ((intRange 0 n).foldl (fun acc hc => maxStep acc hc (a hc)) (0, sent)).1 < n
      ∧ (∀ hc, 0 ≤ hc → hc < n →
          a hc ≤ a ((intRange 0 n).foldl (fun acc hc => maxStep acc hc (a hc)) (0, sent)).1)
      ∧ (∀ hc, 0 ≤ hc →
          hc < ((intRange 0 n).foldl (fun acc hc => maxStep acc hc (a hc)) (0, sent)).1 →
          a hc < a ((intRange 0 n).foldl (fun acc hc => maxStep acc hc (a hc)) (0, sent)).1)) ∧
    ((∀ hc, 0 ≤ hc → hc < n → a hc ≤ sent) →
      ((intRange 0 n).foldl (fun acc hc => maxStep acc hc (a hc)) (0, sent)).1 = 0) := by
  rcases le_or_lt n 0 with hn | hn
  · rw [intRange_eq_nil (by omega)]
    simp only [List.foldl_nil]
    refine ⟨?_, fun _ => trivial⟩
    rintro ⟨hc, h0, h1, _⟩
    omega
  · obtain ⟨h1, h2⟩ := maxStep_foldl a sent n.toNat
    have e : ((n.toNat : Nat) : Int) = n := by omega
    rw [e] at h1 h2
    constructor
    · rintro ⟨hc, h0, hlt, hs⟩
      rcases h2 with ⟨_, hall⟩ | ⟨_, hw0, hwn, heq, hbefore⟩
      · exact absurd hs (not_lt.mpr (hall hc h0 hlt))
      · refine ⟨hw0, hwn, ?_, ?_⟩
        · intro hc' h0' h1'
          rw [heq]
          exact h1 hc' h0' h1'
        · intro hc' h0' h1'
          rw [heq]
          exact hbefore hc' h0' h1'
    · intro hall
      rcases h2 with ⟨hr, _⟩ | ⟨hr, hw0, hwn, heq, _⟩
      · rw [hr]
      · rw [← heq] at hr
        exact absurd hr (not_lt.mpr (hall _ hw0 hwn))

theorem getI_setI_ne {α : Type} (v : List α) (i j : Int) (a d : α) (h : i ≠ j) :
    getI (setI v i a) j d = getI v j d := by
  unfold getI setI
  by_cases hi : 0 ≤ i
  · by_cases hj : 0 ≤ j
    · simp only [hi, hj, if_true]
      rw [List.getD_eq_getElem?_getD, List.getD_eq_getElem?_getD, List.getElem?_set_ne]
      omega
    · simp [hj]
  · simp [hi]

theorem length_setI {α : Type} (v : List α) (i : Int) (a : α) : (setI v i a).length = v.length := by
  unfold setI
  split <;> simp

theorem SparseCoder.forwardLoop_prefix {F : Type} [LinearOrder F] (ops : FloatOps F) (pos : Int2)
    (inputCs : List IntBuffer) (it : Int) (s : SparseCoder F) (n : Nat) :
    ((intRange 0 n).foldl
        (fun (acc : FloatBuffer F × (Int × F)) hc =>
          (if it = 0 then
              setI acc.1 (address3 ⟨pos.x, pos.y, hc⟩ s.hiddenSize)
                (s.forwardSum ops inputCs it (address3 ⟨pos.x, pos.y, hc⟩ s.hiddenSize))
            else
              setI acc.1 (address3 ⟨pos.x, pos.y, hc⟩ s.hiddenSize)
                (ops.add (getI acc.1 (address3 ⟨pos.x, pos.y, hc⟩ s.hiddenSize) (ops.ofInt 0))
                  (s.forwardSum ops inputCs it (address3 ⟨pos.x, pos.y, hc⟩ s.hiddenSize))),
           maxStep acc.2 hc
            (getI
              (if it = 0 then
                setI acc.1 (address3 ⟨pos.x, pos.y, hc⟩ s.hiddenSize)
                  (s.forwardSum ops inputCs it (address3 ⟨pos.x, pos.y, hc⟩ s.hiddenSize))
              else
                setI acc.1 (address3 ⟨pos.x, pos.y, hc⟩ s.hiddenSize)
                  (ops.add (getI acc.1 (address3 ⟨pos.x, pos.y, hc⟩ s.hiddenSize) (ops.ofInt 0))
                    (s.forwardSum ops inputCs it (address3 ⟨pos.x, pos.y, hc⟩ s.hiddenSize))))
              (address3 ⟨pos.x, pos.y, hc⟩ s.hiddenSize) (ops.ofInt 0))))
        (s.hiddenActivations, (0, ops.ofInt (-999999)))).2
      = (intRange 0 n).foldl
          (fun acc hc => maxStep acc hc
            (getI
              ((intRange 0 n).foldl
                (fun (acc : FloatBuffer F × (Int × F)) hc =>
                  (if it = 0 then
                      setI acc.1 (address3 ⟨pos.x, pos.y, hc⟩ s.hiddenSize)
                        (s.forwardSum ops inputCs it (address3 ⟨pos.x, pos.y, hc⟩ s.hiddenSize))
                    else
                      setI acc.1 (address3 ⟨pos.x, pos.y, hc⟩ s.hiddenSize)
                        (ops.add
                          (getI acc.1 (address3 ⟨pos.x, pos.y, hc⟩ s.hiddenSize) (ops.ofInt 0))
                          (s.forwardSum ops inputCs it
                            (address3 ⟨pos.x, pos.y, hc⟩ s.hiddenSize))),
                   maxStep acc.2 hc
                    (getI
                      (if it = 0 then
                        setI acc.1 (address3 ⟨pos.x, pos.y, hc⟩ s.hiddenSize)
                          (s.forwardSum ops inputCs it (address3 ⟨pos.x, pos.y, hc⟩ s.hiddenSize))
                      else
                        setI acc.1 (address3 ⟨pos.x, pos.y, hc⟩ s.hiddenSize)
                          (ops.add
                            (getI acc.1 (address3 ⟨pos.x, pos.y, hc⟩ s.hiddenSize) (ops.ofInt 0))
                            (s.forwardSum ops inputCs it
                              (address3 ⟨pos.x, pos.y, hc⟩ s.hiddenSize))))
                      (address3 ⟨pos.x, pos.y, hc⟩ s.hiddenSize) (ops.ofInt 0))))
                (s.hiddenActivations, (0, ops.ofInt (-999999)))).1
              (address3 ⟨pos.x, pos.y, hc⟩ s.hiddenSize) (ops.ofInt 0)))
          (0, ops.ofInt (-999999)) := by
  induction n with
  | zero => simp [intRange_eq_nil]
  | succ n ih =>
    have e : ((n + 1 : Nat) : Int) = (n : Int) + 1 := by push_cast; rfl
    rw [e, intRange_succ_right (by omega), List.foldl_append, List.foldl_append]
    simp only [List.foldl_cons, List.foldl_nil]
    generalize (intRange 0 n).foldl
        (fun (acc : FloatBuffer F × (Int × F)) hc =>
          (if it = 0 then
              setI acc.1 (address3 ⟨pos.x, pos.y, hc⟩ s.hiddenSize)
                (s.forwardSum ops inputCs it (address3 ⟨pos.x, pos.y, hc⟩ s.hiddenSize))
            else
              setI acc.1 (address3 ⟨pos.x, pos.y, hc⟩ s.hiddenSize)
                (ops.add (getI acc.1 (address3 ⟨pos.x, pos.y, hc⟩ s.hiddenSize) (ops.ofInt 0))
                  (s.forwardSum ops inputCs it (address3 ⟨pos.x, pos.y, hc⟩ s.hiddenSize))),
           maxStep acc.2 hc
            (getI
              (if it = 0 then
                setI acc.1 (address3 ⟨pos.x, pos.y, hc⟩ s.hiddenSize)
                  (s.forwardSum ops inputCs it (address3 ⟨pos.x, pos.y, hc⟩ s.hiddenSize))
              else
                setI acc.1 (address3 ⟨pos.x, pos.y, hc⟩ s.hiddenSize)
                  (ops.add (getI acc.1 (address3 ⟨pos.x, pos.y, hc⟩ s.hiddenSize) (ops.ofInt 0))
                    (s.forwardSum ops inputCs it (address3 ⟨pos.x, pos.y, hc⟩ s.hiddenSize))))
              (address3 ⟨pos.x, pos.y, hc⟩ s.hiddenSize) (ops.ofInt 0))))
        (s.hiddenActivations, (0, ops.ofInt (-999999))) = r at ih ⊢
    congr 1
    rw [ih]
    apply List.foldl_ext
    intro acc hc hmem
    have hlt := (mem_intRange.mp hmem).2
    have hne : address3 ⟨pos.x, pos.y, (n : Int)⟩ s.hiddenSize
        ≠ address3 ⟨pos.x, pos.y, hc⟩ s.hiddenSize := by
      unfold address3
      simp only
      omega
    split
    · rw [getI_setI_ne _ _ _ _ _ hne]
    · rw [getI_setI_ne _ _ _ _ _ hne]

/-- The maximum kept by the loop of `SparseCoder::forward` is the result of the
winner loop on the activations as they stand when the kernel returns. -/
theorem SparseCoder.forwardLoop_max {F : Type} [LinearOrder F] (ops : FloatOps F) (pos : Int2)
    (inputCs : List IntBuffer) (it : Int) (s : SparseCoder F) :
    (SparseCoder.forwardLoop ops pos inputCs it s).2
      = (intRange 0 s.hiddenSize.z).foldl
          (fun acc hc => maxStep acc hc
            (getI (SparseCoder.forwardLoop ops pos inputCs it s).1
              (address3 ⟨pos.x, pos.y, hc⟩ s.hiddenSize) (ops.ofInt 0)))
          (0, ops.ofInt (-999999)) := by
  unfold SparseCoder.forwardLoop
  simp only []
  rcases le_or_lt s.hiddenSize.z 0 with hn | hn
  · rw [intRange_eq_nil (by omega)]
    rfl
  · have e : ((s.hiddenSize.z.toNat : Nat) : Int) = s.hiddenSize.z := by omega
    have h := SparseCoder.forwardLoop_prefix ops pos inputCs it s s.hiddenSize.z.toNat
    rw [e] at h
    exact h

/-! ### Claim on the column winner -/

/-- Counterexample to C6: a predictor with one hidden column of two cells whose
activations are -2000000 and -1500000, both below the start value -999999 of
the winner loop.  `Predictor::forward` writes index 0, whose activation is
smaller than that of cell 1. -/
theorem forward_below_sentinel_writes_zero :
    (Predictor.forward intOps ⟨0, 0⟩ () [[0]]
        (⟨⟨1, 1, 2⟩, [7],
          [⟨⟨2, 1, [-2000000, -1500000], [], [0, 1, 2], [0, 0], [], []⟩, [0]⟩],
          [⟨⟨1, 1, 1⟩, 0⟩], 1⟩ : Predictor Int)).hiddenCs = [0] ∧
    Predictor.activation intOps
        (⟨⟨1, 1, 2⟩, [7],
          [⟨⟨2, 1, [-2000000, -1500000], [], [0, 1, 2], [0, 0], [], []⟩, [0]⟩],
          [⟨⟨1, 1, 1⟩, 0⟩], 1⟩ : Predictor Int) [[0]] (address3 ⟨0, 0, 0⟩ ⟨1, 1, 2⟩)
      = -2000000 ∧
    Predictor.activation intOps
        (⟨⟨1, 1, 2⟩, [7],
          [⟨⟨2, 1, [-2000000, -1500000], [], [0, 1, 2], [0, 0], [], []⟩, [0]⟩],
          [⟨⟨1, 1, 1⟩, 0⟩], 1⟩ : Predictor Int) [[0]] (address3 ⟨0, 0, 1⟩ ⟨1, 1, 2⟩)
      = -1500000 ∧
    ¬ (Predictor.activation intOps
        (⟨⟨1, 1, 2⟩, [7],
          [⟨⟨2, 1, [-2000000, -1500000], [], [0, 1, 2], [0, 0], [], []⟩, [0]⟩],
          [⟨⟨1, 1, 1⟩, 0⟩], 1⟩ : Predictor Int) [[0]] (address3 ⟨0, 0, 0⟩ ⟨1, 1, 2⟩)
      ≥ Predictor.activation intOps
        (⟨⟨1, 1, 2⟩, [7],
          [⟨⟨2, 1, [-2000000, -1500000], [], [0, 1, 2], [0, 0], [], []⟩, [0]⟩],
          [⟨⟨1, 1, 1⟩, 0⟩], 1⟩ : Predictor Int) [[0]] (address3 ⟨0, 0, 1⟩ ⟨1, 1, 2⟩)) := by
  refine ⟨by decide, by decide, by decide, by decide⟩

/-- C6 as amended: `Predictor::forward` and `SparseCoder::forward` write into
`hiddenCs`, at the index of the column, the index `w` kept by the winner loop.
When some cell of the column has an activation greater than -999999, `w` is a
cell of the column, its activation is at least that of every cell of the
column, and greater than that of every cell of lower index; when no activation
is greater than -999999, `w` is 0.  The activation is the summed one-hot
product for the predictor and the updated `hiddenActivations` entry for the
sparse coder. -/
theorem forward_writes_first_maximum {F R : Type} [LinearOrder F] (ops : FloatOps F) (pos : Int2)
    (rng : R) (inputCs : List IntBuffer) (it : Int) (p : Predictor F) (s : SparseCoder F) :
    ((Predictor.forward ops pos rng inputCs p).hiddenCs
        = setI p.hiddenCs (address2 pos ⟨p.hiddenSize.x, p.hiddenSize.y⟩)
            (Predictor.forwardMax ops pos inputCs p).1 ∧
      ((∃ hc, 0 ≤ hc ∧ hc < p.hiddenSize.z ∧
          ops.ofInt (-999999)
            < p.activation ops inputCs (address3 ⟨pos.x, pos.y, hc⟩ p.hiddenSize)) →
        0 ≤ (Predictor.forwardMax ops pos inputCs p).1
        ∧ (Predictor.forwardMax ops pos inputCs p).1 < p.hiddenSize.z
        ∧ (∀ hc, 0 ≤ hc → hc < p.hiddenSize.z →
            p.activation ops inputCs (address3 ⟨pos.x, pos.y, hc⟩ p.hiddenSize)
              ≤ p.activation ops inputCs
                  (address3 ⟨pos.x, pos.y, (Predictor.forwardMax ops pos inputCs p).1⟩
                    p.hiddenSize))
        ∧ (∀ hc, 0 ≤ hc → hc < (Predictor.forwardMax ops pos inputCs p).1 →
            p.activation ops inputCs (address3 ⟨pos.x, pos.y, hc⟩ p.hiddenSize)
              < p.activation ops inputCs
                  (address3 ⟨pos.x, pos.y, (Predictor.forwardMax ops pos inputCs p).1⟩
                    p.hiddenSize))) ∧
      ((∀ hc, 0 ≤ hc → hc < p.hiddenSize.z →
          p.activation ops inputCs (address3 ⟨pos.x, pos.y, hc⟩ p.hiddenSize)
            ≤ ops.ofInt (-999999)) →
        (Predictor.forwardMax ops pos inputCs p).1 = 0)) ∧
    ((SparseCoder.forward ops pos rng inputCs it s).hiddenCs
        = setI s.hiddenCs (address2 pos ⟨s.hiddenSize.x, s.hiddenSize.y⟩)
            (SparseCoder.forwardLoop ops pos inputCs it s).2.1 ∧
      ((∃ hc, 0 ≤ hc ∧ hc < s.hiddenSize.z ∧
          ops.ofInt (-999999)
            < getI (SparseCoder.forward ops pos rng inputCs it s).hiddenActivations
                (address3 ⟨pos.x, pos.y, hc⟩ s.hiddenSize) (ops.ofInt 0)) →
        0 ≤ (SparseCoder.forwardLoop ops pos inputCs it s).2.1
        ∧ (SparseCoder.forwardLoop ops pos inputCs it s).2.1 < s.hiddenSize.z
        ∧ (∀ hc, 0 ≤ hc → hc < s.hiddenSize.z →
            getI (SparseCoder.forward ops pos rng inputCs it s).hiddenActivations
                (address3 ⟨pos.x, pos.y, hc⟩ s.hiddenSize) (ops.ofInt 0)
              ≤ getI (SparseCoder.forward ops pos rng inputCs it s).hiddenActivations
                  (address3 ⟨pos.x, pos.y, (SparseCoder.forwardLoop ops pos inputCs it s).2.1⟩
                    s.hiddenSize) (ops.ofInt 0))
        ∧ (∀ hc, 0 ≤ hc → hc < (SparseCoder.forwardLoop ops pos inputCs it s).2.1 →
            getI (SparseCoder.forward ops pos rng inputCs it s).hiddenActivations
                (address3 ⟨pos.x, pos.y, hc⟩ s.hiddenSize) (ops.ofInt 0)
              < getI (SparseCoder.forward ops pos rng inputCs it s).hiddenActivations
                  (address3 ⟨pos.x, pos.y, (SparseCoder.forwardLoop ops pos inputCs it s).2.1⟩
                    s.hiddenSize) (ops.ofInt 0))) ∧
      ((∀ hc, 0 ≤ hc → hc < s.hiddenSize.z →
          getI (SparseCoder.forward ops pos rng inputCs it s).hiddenActivations
              (address3 ⟨pos.x, pos.y, hc⟩ s.hiddenSize) (ops.ofInt 0)
            ≤ ops.ofInt (-999999)) →
        (SparseCoder.forwardLoop ops pos inputCs it s).2.1 = 0)) := by
  constructor
  · refine ⟨rfl, ?_⟩
    exact maxStep_foldl_spec
      (fun hc => p.activation ops inputCs (address3 ⟨pos.x, pos.y, hc⟩ p.hiddenSize))
      (ops.ofInt (-999999)) p.hiddenSize.z
  · refine ⟨rfl, ?_⟩
    have hacts : (SparseCoder.forward ops pos rng inputCs it s).hiddenActivations
        = (SparseCoder.forwardLoop ops pos inputCs it s).1 := rfl
    rw [hacts, SparseCoder.forwardLoop_max]
    exact maxStep_foldl_spec
      (fun hc => getI (SparseCoder.forwardLoop ops pos inputCs it s).1
        (address3 ⟨pos.x, pos.y, hc⟩ s.hiddenSize) (ops.ofInt 0))
      (ops.ofInt (-999999)) s.hiddenSize.z

/-! ### The snapshot taken by `Predictor::activate` -/

theorem ceilDiv_nonpos {size batchSize : Int} (hs : size ≤ 0) (hb : 1 ≤ batchSize) :
    ceilDiv size batchSize ≤ 0 := by
  unfold ceilDiv
  rcases le_or_lt 0 (size + batchSize - 1) with h | h
  · rw [Int.tdiv_eq_ediv h (by omega)]
    have : (size + batchSize - 1) / batchSize = 0 := Int.ediv_eq_zero_of_lt h (by omega)
    omega
  · have h1 : (size + batchSize - 1).tdiv batchSize
        = -((-(size + batchSize - 1)).tdiv batchSize) := by
      rw [Int.neg_tdiv, neg_neg]
    rw [h1]
    have h2 : 0 ≤ (-(size + batchSize - 1)).tdiv batchSize :=
      Int.tdiv_nonneg (by omega) (by omega)
    omega

/-- The submission order of `runKernel1` is the loop order for every size. -/
theorem batchOrder1_eq_all (size : Int) {batchSize : Int} (hb : 1 ≤ batchSize) :
    batchOrder1 size batchSize = intRange 0 size := by
  rcases le_or_lt 0 size with hs | hs
  · exact batchOrder1_eq hs hb
  · unfold batchOrder1
    rw [intRange_eq_nil (ceilDiv_nonpos (le_of_lt hs) hb), intRange_eq_nil (le_of_lt hs)]
    rfl

/-- The submission order of `runKernel2` is a rearrangement of the loop order
for every size. -/
theorem batchOrder2_perm_all (size : Int2) {batchSize : Int2}
    (hb : 1 ≤ batchSize.x ∧ 1 ≤ batchSize.y) :
    (batchOrder2 size batchSize).Perm (domain2 size) := by
  unfold batchOrder2 domain2
  simp only [itemCoords2_eq]
  refine (flatMap_regroup2_perm _ _
    (fun x => itemCoords1 (x * batchSize.x) (min (size.x - x * batchSize.x) batchSize.x))
    (fun y => itemCoords1 (y * batchSize.y) (min (size.y - y * batchSize.y) batchSize.y))
    (fun a b => [(⟨a, b⟩ : Int2)])).trans ?_
  have ex := batchOrder1_eq_all size.x hb.1
  have ey := batchOrder1_eq_all size.y hb.2
  unfold batchOrder1 at ex ey
  rw [ex, ey]
  simp only [← map_eq_flatMap_singleton]
  exact List.Perm.refl _

theorem getI_setI_self {α : Type} (v : List α) (i : Int) (a d : α) (h0 : 0 ≤ i)
    (h1 : i < (v.length : Int)) : getI (setI v i a) i d = a := by
  unfold getI setI
  simp only [h0, if_true]
  rw [List.getD_eq_getElem?_getD, List.getElem?_set_self]
  · simp
  · omega

/-- The copy loop over `0 ≤ x < n` leaves `src[i]` in `dst[i]` for every `i`
below `n` inside `dst`. -/
theorem copy_loop {R : Type} (rng : R) (src dst : IntBuffer) (n : Nat) :
    ((intRange 0 n).foldl (fun dst x => copyInt x rng src dst) dst).length = dst.length ∧
    ∀ i : Int, 0 ≤ i → i < (n : Int) → i < (dst.length : Int) →
      getI ((intRange 0 n).foldl (fun dst x => copyInt x rng src dst) dst) i 0 = getI src i 0 := by
  induction n with
  | zero =>
    simp only [Nat.cast_zero, intRange_eq_nil (le_refl (0 : Int)), List.foldl_nil, true_and]
    intro i h0 h1
    omega
  | succ n ih =>
    have e : ((n + 1 : Nat) : Int) = (n : Int) + 1 := by push_cast; rfl
    rw [e, intRange_succ_right (by omega), List.foldl_append]
    simp only [List.foldl_cons, List.foldl_nil]
    obtain ⟨ihl, ihv⟩ := ih
    unfold copyInt at ihl ihv ⊢
    constructor
    · rw [length_setI, ihl]
    · intro i h0 h1 h2
      rcases (show i < (n : Int) ∨ i = (n : Int) by omega) with h | h
      · rw [getI_setI_ne _ _ _ _ _ (by omega)]
        exact ihv i h0 h h2
      · rw [h]
        apply getI_setI_self
        · omega
        · rw [ihl]
          omega

/-- The buffer left by a copy launch, in either mode. -/
theorem copy_launch {R : Type} (M : RngOps R) (noThread : Bool) (cs : ComputeSystem R)
    (hb : noThread = true ∨ 1 ≤ cs.batchSize1) (src dst : IntBuffer) (size : Int) :
    (launch1 M noThread (fun pos rng dst => copyInt pos rng src dst) size cs dst).1.length
      = dst.length ∧
    ∀ i : Int, 0 ≤ i → i < size → i < (dst.length : Int) →
      getI (launch1 M noThread (fun pos rng dst => copyInt pos rng src dst) size cs dst).1 i 0
        = getI src i 0 := by
  have hfold : (launch1 M noThread (fun pos rng dst => copyInt pos rng src dst) size cs dst).1
      = (intRange 0 size).foldl (fun dst x => copyInt x cs.rng src dst) dst := by
    rw [launch1_fst M noThread (fun pos rng dst => copyInt pos rng src dst) (fun _ _ _ _ => rfl)]
    cases noThread
    · rcases hb with h | h
      · exact absurd h (by simp)
      · simp only [Bool.false_eq_true, if_false]
        rw [batchOrder1_eq_all size h]
    · rfl
  rw [hfold]
  rcases le_or_lt size 0 with hs | hs
  · rw [intRange_eq_nil (by omega)]
    simp only [List.foldl_nil, true_and]
    intro i h0 h1
    omega
  · have e : ((size.toNat : Nat) : Int) = size := by omega
    have h := copy_loop cs.rng src dst size.toNat
    rw [e] at h
    exact h

theorem getD_set_ne {α : Type} (l : List α) (i j : Nat) (a d : α) (h : i ≠ j) :
    (l.set i a).getD j d = l.getD j d := by
  rw [List.getD_eq_getElem?_getD, List.getD_eq_getElem?_getD, List.getElem?_set_ne h]

theorem getD_set_self {α : Type} (l : List α) (i : Nat) (a d : α) (h : i < l.length) :
    (l.set i a).getD i d = a := by
  rw [List.getD_eq_getElem?_getD, List.getElem?_set_self (by simpa using h)]
  rfl

theorem map_weights_set {F : Type} (l : List (Predictor.VisibleLayer F)) (vli : Nat)
    (prev : IntBuffer) :
    (l.set vli { l.getD vli (Predictor.VisibleLayer.none F) with inputCsPrev := prev }).map
        (fun vl => vl.weights)
      = l.map (fun vl => vl.weights) := by
  apply List.ext_getElem?
  intro j
  simp only [List.getElem?_map]
  by_cases h : vli = j
  · subst h
    by_cases hl : vli < l.length
    · rw [List.getElem?_set_self (by simpa using hl), List.getElem?_eq_getElem hl]
      simp only [Option.map_some']
      rw [List.getD_eq_getElem _ _ hl]
    · rw [List.set_eq_of_length_le (by omega)]
  · rw [List.getElem?_set_ne h]

/-- The copy loop over the visible layers of `Predictor::activate`, run for the
layers below `k`: the frame, the weights and the layers from `k` on are kept, and
each layer below `k` holds the input code. -/
theorem Predictor.copy_layers {F R : Type} (M : RngOps R) (noThread : Bool)
    (inputCs : List IntBuffer) (q : Predictor F) (c : ComputeSystem R)
    (hb : noThread = true ∨ 1 ≤ c.batchSize1) (k : Nat) :
    Predictor.SameButPrev q
        ((List.range k).foldl
          (fun (acc : Predictor F × ComputeSystem R) vli =>
            ({ acc.1 with
                visibleLayers := acc.1.visibleLayers.set vli
                  { acc.1.visibleLayers.getD vli (Predictor.VisibleLayer.none F) with
                      inputCsPrev := (launch1 M noThread
                        (fun pos rng dst => copyInt pos rng (inputCs.getD vli []) dst)
                        ((acc.1.visibleLayerDescs.getD vli VisibleLayerDesc.none).size.x
                          * (acc.1.visibleLayerDescs.getD vli VisibleLayerDesc.none).size.y)
                        acc.2
                        (acc.1.visibleLayers.getD vli (Predictor.VisibleLayer.none F)).inputCsPrev).1 } },
             (launch1 M noThread
                (fun pos rng dst => copyInt pos rng (inputCs.getD vli []) dst)
                ((acc.1.visibleLayerDescs.getD vli VisibleLayerDesc.none).size.x
                  * (acc.1.visibleLayerDescs.getD vli VisibleLayerDesc.none).size.y)
                acc.2
                (acc.1.visibleLayers.getD vli (Predictor.VisibleLayer.none F)).inputCsPrev).2))
          (q, c)).1
    ∧ ((List.range k).foldl
          (fun (acc : Predictor F × ComputeSystem R) vli =>
            ({ acc.1 with
                visibleLayers := acc.1.visibleLayers.set vli
                  { acc.1.visibleLayers.getD vli (Predictor.VisibleLayer.none F) with
                      inputCsPrev := (launch1 M noThread
                        (fun pos rng dst => copyInt pos rng (inputCs.getD vli []) dst)
                        ((acc.1.visibleLayerDescs.getD vli VisibleLayerDesc.none).size.x
                          * (acc.1.visibleLayerDescs.getD vli VisibleLayerDesc.none).size.y)
                        acc.2
                        (acc.1.visibleLayers.getD vli (Predictor.VisibleLayer.none F)).inputCsPrev).1 } },
             (launch1 M noThread
                (fun pos rng dst => copyInt pos rng (inputCs.getD vli []) dst)
                ((acc.1.visibleLayerDescs.getD vli VisibleLayerDesc.none).size.x
                  * (acc.1.visibleLayerDescs.getD vli VisibleLayerDesc.none).size.y)
                acc.2
                (acc.1.visibleLayers.getD vli (Predictor.VisibleLayer.none F)).inputCsPrev).2))
          (q, c)).2.batchSize1 = c.batchSize1
    ∧ (∀ vli, k ≤ vli →
        ((List.range k).foldl
          (fun (acc : Predictor F × ComputeSystem R) vli =>
            ({ acc.1 with
                visibleLayers := acc.1.visibleLayers.set vli
                  { acc.1.visibleLayers.getD vli (Predictor.VisibleLayer.none F) with
                      inputCsPrev := (launch1 M noThread
                        (fun pos rng dst => copyInt pos rng (inputCs.getD vli []) dst)
                        ((acc.1.visibleLayerDescs.getD vli VisibleLayerDesc.none).size.x
                          * (acc.1.visibleLayerDescs.getD vli VisibleLayerDesc.none).size.y)
                        acc.2
                        (acc.1.visibleLayers.getD vli (Predictor.VisibleLayer.none F)).inputCsPrev).1 } },
             (launch1 M noThread
                (fun pos rng dst => copyInt pos rng (inputCs.getD vli []) dst)
                ((acc.1.visibleLayerDescs.getD vli VisibleLayerDesc.none).size.x
                  * (acc.1.visibleLayerDescs.getD vli VisibleLayerDesc.none).size.y)
                acc.2
                (acc.1.visibleLayers.getD vli (Predictor.VisibleLayer.none F)).inputCsPrev).2))
          (q, c)).1.visibleLayers.getD vli (Predictor.VisibleLayer.none F)
          = q.visibleLayers.getD vli (Predictor.VisibleLayer.none F))
    ∧ (∀ vli, vli < k → vli < q.visibleLayers.length → ∀ i : Int, 0 ≤ i →
        i < (q.visibleLayerDescs.getD vli VisibleLayerDesc.none).size.x
              * (q.visibleLayerDescs.getD vli VisibleLayerDesc.none).size.y →
        i < ((q.visibleLayers.getD vli (Predictor.VisibleLayer.none F)).inputCsPrev.length : Int) →
        getI (((List.range k).foldl
          (fun (acc : Predictor F × ComputeSystem R) vli =>
            ({ acc.1 with
                visibleLayers := acc.1.visibleLayers.set vli
                  { acc.1.visibleLayers.getD vli (Predictor.VisibleLayer.none F) with
                      inputCsPrev := (launch1 M noThread
                        (fun pos rng dst => copyInt pos rng (inputCs.getD vli []) dst)
                        ((acc.1.visibleLayerDescs.getD vli VisibleLayerDesc.none).size.x
                          * (acc.1.visibleLayerDescs.getD vli VisibleLayerDesc.none).size.y)
                        acc.2
                        (acc.1.visibleLayers.getD vli (Predictor.VisibleLayer.none F)).inputCsPrev).1 } },
             (launch1 M noThread
                (fun pos rng dst => copyInt pos rng (inputCs.getD vli []) dst)
                ((acc.1.visibleLayerDescs.getD vli VisibleLayerDesc.none).size.x
                  * (acc.1.visibleLayerDescs.getD vli VisibleLayerDesc.none).size.y)
                acc.2
                (acc.1.visibleLayers.getD vli (Predictor.VisibleLayer.none F)).inputCsPrev).2))
          (q, c)).1.visibleLayers.getD vli (Predictor.VisibleLayer.none F)).inputCsPrev i 0
          = getI (inputCs.getD vli []) i 0) := by
  induction k with
  | zero =>
    simp only [List.range_zero, List.foldl_nil]
    exact ⟨⟨rfl, rfl, rfl, rfl⟩, trivial, fun _ _ => trivial, fun vli h => absurd h (by omega)⟩
  | succ k ih =>
    rw [List.range_succ, List.foldl_append]
    simp only [List.foldl_cons, List.foldl_nil]
    obtain ⟨hsame, hbs, hrest, hdone⟩ := ih
    generalize (List.range k).foldl
          (fun (acc : Predictor F × ComputeSystem R) vli =>
            ({ acc.1 with
                visibleLayers := acc.1.visibleLayers.set vli
                  { acc.1.visibleLayers.getD vli (Predictor.VisibleLayer.none F) with
                      inputCsPrev := (launch1 M noThread
                        (fun pos rng dst => copyInt pos rng (inputCs.getD vli []) dst)
                        ((acc.1.visibleLayerDescs.getD vli VisibleLayerDesc.none).size.x
                          * (acc.1.visibleLayerDescs.getD vli VisibleLayerDesc.none).size.y)
                        acc.2
                        (acc.1.visibleLayers.getD vli (Predictor.VisibleLayer.none F)).inputCsPrev).1 } },
             (launch1 M noThread
                (fun pos rng dst => copyInt pos rng (inputCs.getD vli []) dst)
                ((acc.1.visibleLayerDescs.getD vli VisibleLayerDesc.none).size.x
                  * (acc.1.visibleLayerDescs.getD vli VisibleLayerDesc.none).size.y)
                acc.2
                (acc.1.visibleLayers.getD vli (Predictor.VisibleLayer.none F)).inputCsPrev).2))
          (q, c) = r at hsame hbs hrest hdone ⊢
    have hbr : noThread = true ∨ 1 ≤ r.2.batchSize1 := by
      rw [hbs]
      exact hb
    have hlen : r.1.visibleLayers.length = q.visibleLayers.length := by
      have := congrArg List.length hsame.2.2.2
      simpa using this
    refine ⟨⟨hsame.1, hsame.2.1, hsame.2.2.1, ?_⟩, ?_, ?_, ?_⟩
    · simp only
      rw [map_weights_set]
      exact hsame.2.2.2
    · rw [launch1_snd]
      exact hbs
    · intro vli hvli
      rw [getD_set_ne _ _ _ _ _ (by omega)]
      exact hrest vli (by omega)
    · intro vli hvli hvl i h0 h1 h2
      rcases (show vli < k ∨ vli = k by omega) with h | h
      · rw [getD_set_ne _ _ _ _ _ (by omega)]
        exact hdone vli h hvl i h0 h1 h2
      · subst h
        rw [getD_set_self _ _ _ _ (by omega)]
        simp only
        rw [hrest vli (le_refl _), hsame.2.2.1]
        exact (copy_launch M noThread r.2 hbr (inputCs.getD vli [])
          (q.visibleLayers.getD vli (Predictor.VisibleLayer.none F)).inputCsPrev _).2 i h0 h1 h2

theorem foldl_rel {α β γ : Type} (Rel : β → γ → Prop) (f : β → α → β) (g : γ → α → γ)
    (l : List α) (h : ∀ b c, ∀ a ∈ l, Rel b c → Rel (f b a) (g c a)) :
    ∀ b c, Rel b c → Rel (l.foldl f b) (l.foldl g c) := by
  induction l with
  | nil => intro b c hbc; exact hbc
  | cons a t ih =>
    intro b c hbc
    rw [List.foldl_cons, List.foldl_cons]
    exact ih (fun b c a' ha' => h b c a' (List.mem_cons_of_mem _ ha')) _ _
      (h b c a (List.mem_cons_self _ _) hbc)

theorem sameButPrev_refl {F : Type} (p : Predictor F) : Predictor.SameButPrev p p :=
  ⟨rfl, rfl, rfl, rfl⟩

theorem sameButPrev_trans {F : Type} {p q r : Predictor F}
    (h1 : Predictor.SameButPrev p q) (h2 : Predictor.SameButPrev q r) :
    Predictor.SameButPrev p r :=
  ⟨h2.1.trans h1.1, h2.2.1.trans h1.2.1, h2.2.2.1.trans h1.2.2.1, h2.2.2.2.trans h1.2.2.2⟩

theorem sameButPrev_symm {F : Type} {p q : Predictor F}
    (h : Predictor.SameButPrev p q) : Predictor.SameButPrev q p :=
  ⟨h.1.symm, h.2.1.symm, h.2.2.1.symm, h.2.2.2.symm⟩

theorem Predictor.SameButPrev.weights_getD {F : Type} {p p' : Predictor F}
    (h : Predictor.SameButPrev p p') (vli : Nat) :
    (p'.visibleLayers.getD vli (Predictor.VisibleLayer.none F)).weights
      = (p.visibleLayers.getD vli (Predictor.VisibleLayer.none F)).weights := by
  have h1 : ∀ l : List (Predictor.VisibleLayer F),
      (l.getD vli (Predictor.VisibleLayer.none F)).weights
        = (l.map (fun vl => vl.weights)).getD vli (Predictor.VisibleLayer.none F).weights := by
    intro l
    rw [List.getD_eq_getElem?_getD, List.getD_eq_getElem?_getD, List.getElem?_map]
    cases l[vli]? <;> rfl
  rw [h1, h1, h.2.2.2]

theorem Predictor.SameButPrev.length {F : Type} {p p' : Predictor F}
    (h : Predictor.SameButPrev p p') : p'.visibleLayers.length = p.visibleLayers.length := by
  have := congrArg List.length h.2.2.2
  simpa using this

/-- The activations of `Predictor::forward` do not read `inputCsPrev`. -/
theorem Predictor.activation_sameButPrev {F : Type} (ops : FloatOps F) {p p' : Predictor F}
    (h : Predictor.SameButPrev p p') (inputCs : List IntBuffer) (hiddenIndex : Int) :
    p'.activation ops inputCs hiddenIndex = p.activation ops inputCs hiddenIndex := by
  unfold Predictor.activation
  rw [h.length, h.2.2.1]
  apply List.foldl_ext
  intro sum vli _
  simp only [h.weights_getD vli]

theorem Predictor.forward_sameButPrev {F R : Type} [LinearOrder F] (ops : FloatOps F) (pos : Int2)
    (rng : R) (inputCs : List IntBuffer) {p p' : Predictor F} (h : Predictor.SameButPrev p p') :
    Predictor.SameButPrev (Predictor.forward ops pos rng inputCs p)
      (Predictor.forward ops pos rng inputCs p') := by
  have hmax : Predictor.forwardMax ops pos inputCs p' = Predictor.forwardMax ops pos inputCs p := by
    unfold Predictor.forwardMax
    rw [h.1]
    apply List.foldl_ext
    intro acc hc _
    simp only [Predictor.activation_sameButPrev ops h]
  refine ⟨h.1, ?_, h.2.2.1, h.2.2.2⟩
  unfold Predictor.forward
  simp only [hmax, h.1, h.2.1]

/-- The forward kernel keeps the visible layers and the frame. -/
theorem Predictor.forward_layers {F R : Type} [LinearOrder F] (ops : FloatOps F) (pos : Int2)
    (rng : R) (inputCs : List IntBuffer) (p : Predictor F) :
    (Predictor.forward ops pos rng inputCs p).visibleLayers = p.visibleLayers
      ∧ (Predictor.forward ops pos rng inputCs p).visibleLayerDescs = p.visibleLayerDescs := 
  ⟨rfl, rfl⟩

/-- C10: after `Predictor::activate` (in either execution mode, with a batch
size of at least 1 in the batched mode), for every visible layer `vli` and every
visible column `i` below `size.x * size.y` that lies inside the buffer,
`inputCsPrev[i]` of the layer is `(*inputCs[vli])[i]`; the codes in `hiddenCs`
are those written by the forward launch, and they are the same for any
predictor that differs only in the previous snapshots `inputCsPrev`. -/
theorem activate_snapshots_inputs {F R : Type} [LinearOrder F] (M : RngOps R) (ops : FloatOps F)
    (noThread : Bool) (cs : ComputeSystem R) (inputCs : List IntBuffer) (p : Predictor F)
    (hb : noThread = true ∨ 1 ≤ cs.batchSize1) :
    (∀ vli, vli < p.visibleLayers.length → ∀ i : Int, 0 ≤ i →
      i < (p.visibleLayerDescs.getD vli VisibleLayerDesc.none).size.x
            * (p.visibleLayerDescs.getD vli VisibleLayerDesc.none).size.y →
      i < ((p.visibleLayers.getD vli (Predictor.VisibleLayer.none F)).inputCsPrev.length : Int) →
      getI ((Predictor.activate M ops noThread cs inputCs p).1.visibleLayers.getD vli
          (Predictor.VisibleLayer.none F)).inputCsPrev i 0
        = getI (inputCs.getD vli []) i 0) ∧
    (Predictor.activate M ops noThread cs inputCs p).1.hiddenCs
      = (launch2 M noThread (fun pos rng p => Predictor.forward ops pos rng inputCs p)
          ⟨p.hiddenSize.x, p.hiddenSize.y⟩ cs p).1.hiddenCs ∧
    (∀ p', Predictor.SameButPrev p p' →
      (Predictor.activate M ops noThread cs inputCs p').1.hiddenCs
        = (Predictor.activate M ops noThread cs inputCs p).1.hiddenCs) := by
  have hfwd : ∀ q : Predictor F,
      (launch2 M noThread (fun pos rng p => Predictor.forward ops pos rng inputCs p)
          ⟨q.hiddenSize.x, q.hiddenSize.y⟩ cs q).1.visibleLayers = q.visibleLayers
      ∧ (launch2 M noThread (fun pos rng p => Predictor.forward ops pos rng inputCs p)
          ⟨q.hiddenSize.x, q.hiddenSize.y⟩ cs q).1.visibleLayerDescs = q.visibleLayerDescs := by
    intro q
    exact launch2_preserves M noThread (fun pos rng p => Predictor.forward ops pos rng inputCs p)
      (fun _ _ _ _ => rfl) _ cs
      (fun q' => q'.visibleLayers = q.visibleLayers ∧ q'.visibleLayerDescs = q.visibleLayerDescs)
      (fun pos r q' hq' => hq') q ⟨rfl, rfl⟩
  have hbs : ∀ q : Predictor F, noThread = true ∨
      1 ≤ (launch2 M noThread (fun pos rng p => Predictor.forward ops pos rng inputCs p)
          ⟨q.hiddenSize.x, q.hiddenSize.y⟩ cs q).2.batchSize1 := by
    intro q
    rw [launch2_snd]
    exact hb
  have hcopy : ∀ q : Predictor F, Predictor.SameButPrev
      (launch2 M noThread (fun pos rng p => Predictor.forward ops pos rng inputCs p)
          ⟨q.hiddenSize.x, q.hiddenSize.y⟩ cs q).1
      (Predictor.activate M ops noThread cs inputCs q).1 := by
    intro q
    unfold Predictor.activate
    exact (Predictor.copy_layers M noThread inputCs _ _ (hbs q) _).1
  have hrel : ∀ p', Predictor.SameButPrev p p' → Predictor.SameButPrev
      (launch2 M noThread (fun pos rng p => Predictor.forward ops pos rng inputCs p)
          ⟨p.hiddenSize.x, p.hiddenSize.y⟩ cs p).1
      (launch2 M noThread (fun pos rng p => Predictor.forward ops pos rng inputCs p)
          ⟨p'.hiddenSize.x, p'.hiddenSize.y⟩ cs p').1 := by
    intro p' hp'
    rw [launch2_fst M noThread (fun pos rng p => Predictor.forward ops pos rng inputCs p)
        (fun _ _ _ _ => rfl),
      launch2_fst M noThread (fun pos rng p => Predictor.forward ops pos rng inputCs p)
        (fun _ _ _ _ => rfl), hp'.1]
    exact foldl_rel (fun a b => Predictor.SameButPrev a b) _ _ _
      (fun a b pos _ hab => Predictor.forward_sameButPrev ops pos cs.rng inputCs hab) p p' hp'
  refine ⟨?_, (hcopy p).2.1, ?_⟩
  · intro vli hvli i h0 h1 h2
    have h := (Predictor.copy_layers M noThread inputCs
      (launch2 M noThread (fun pos rng p => Predictor.forward ops pos rng inputCs p)
          ⟨p.hiddenSize.x, p.hiddenSize.y⟩ cs p).1
      (launch2 M noThread (fun pos rng p => Predictor.forward ops pos rng inputCs p)
          ⟨p.hiddenSize.x, p.hiddenSize.y⟩ cs p).2 (hbs p)
      (launch2 M noThread (fun pos rng p => Predictor.forward ops pos rng inputCs p)
          ⟨p.hiddenSize.x, p.hiddenSize.y⟩ cs p).1.visibleLayers.length).2.2.2 vli
    rw [(hfwd p).1, (hfwd p).2] at h
    have h' := h hvli hvli i h0 h1 h2
    unfold Predictor.activate
    simp only []
    rw [(hfwd p).1]
    exact h'
  · intro p' hp'
    rw [(hcopy p').2.1, (hcopy p).2.1]
    exact (hrel p' hp').2.1

/-- Witness of C10: a predictor with one hidden column of two cells and one
visible layer of one column, in the batched mode with batches of one. -/
theorem activate_snapshots_inputs_witness :
    ((false = true ∨ (1 : Int) ≤ 1)) ∧
    getI ((Predictor.activate counterRng intOps false ⟨0, 1, ⟨1, 1⟩⟩ [[1]]
        (⟨⟨1, 1, 2⟩, [0], [⟨⟨2, 2, [3, 5, 2, 4], [], [0, 2, 4], [0, 1, 0, 1], [], []⟩, [0]⟩],
          [⟨⟨1, 1, 2⟩, 0⟩], 1⟩ : Predictor Int)).1.visibleLayers.getD 0
          (Predictor.VisibleLayer.none Int)).inputCsPrev 0 0
      = getI (([[1]] : List IntBuffer).getD 0 []) 0 0 :=
  ⟨Or.inr (by decide),
    (activate_snapshots_inputs counterRng intOps false ⟨0, 1, ⟨1, 1⟩⟩ [[1]]
      (⟨⟨1, 1, 2⟩, [0], [⟨⟨2, 2, [3, 5, 2, 4], [], [0, 2, 4], [0, 1, 0, 1], [], []⟩, [0]⟩],
          [⟨⟨1, 1, 2⟩, 0⟩], 1⟩ : Predictor Int) (Or.inr (by decide))).1 0 (by decide) 0
      (by decide) (by decide) (by decide)⟩

/-! ### Order independence of folds -/

/-- Folding over a rearranged list gives the same state when the steps at
distinct elements commute on the states of an invariant that the steps keep. -/
theorem foldl_perm_inv {α β : Type} (f : β → α → β) (Inv : β → Prop)
    (hInv : ∀ b a, Inv b → Inv (f b a)) {l1 l2 : List α} (hp : l1.Perm l2)
    (hc : ∀ a ∈ l1, ∀ a' ∈ l1, a ≠ a' → ∀ b, Inv b → f (f b a) a' = f (f b a') a) :
    ∀ b, Inv b → l1.foldl f b = l2.foldl f b := by
  induction hp with
  | nil => intro b _; rfl
  | cons x _ ih =>
    intro b hb
    rw [List.foldl_cons, List.foldl_cons]
    exact ih (fun a ha a' ha' => hc a (List.mem_cons_of_mem _ ha) a' (List.mem_cons_of_mem _ ha'))
      _ (hInv b x hb)
  | swap x y l =>
    intro b hb
    simp only [List.foldl_cons]
    by_cases hxy : x = y
    · rw [hxy]
    · rw [hc y (List.mem_cons_self _ _) x (List.mem_cons_of_mem _ (List.mem_cons_self _ _))
        (fun h => hxy h.symm) b hb]
  | trans h1 _ ih1 ih2 =>
    intro b hb
    rw [ih1 hc b hb]
    exact ih2 (fun a ha a' ha' => hc a (h1.mem_iff.mpr ha) a' (h1.mem_iff.mpr ha')) b hb

/-- Two folds commute when each step of the one commutes with each step of the
other on the states of an invariant that the steps keep. -/
theorem foldl_foldl_comm {α β γ : Type} (f : γ → α → γ) (g : γ → β → γ) (Inv : γ → Prop)
    (hf : ∀ s a, Inv s → Inv (f s a)) (hg : ∀ s b, Inv s → Inv (g s b)) (as : List α)
    (bs : List β) (hc : ∀ a ∈ as, ∀ b ∈ bs, ∀ s, Inv s → g (f s a) b = f (g s b) a) :
    ∀ s, Inv s → bs.foldl g (as.foldl f s) = as.foldl f (bs.foldl g s) := by
  induction as with
  | nil => intro s _; rfl
  | cons a as ih =>
    intro s hs
    rw [List.foldl_cons, ih (fun a' ha' => hc a' (List.mem_cons_of_mem _ ha')) _ (hf s a hs),
      List.foldl_cons]
    congr 1
    have hone : ∀ (bs' : List β), (∀ b ∈ bs', b ∈ bs) → ∀ s, Inv s →
        bs'.foldl g (f s a) = f (bs'.foldl g s) a := by
      intro bs'
      induction bs' with
      | nil => intro _ s _; rfl
      | cons b bs' ihb =>
        intro hsub s hs
        rw [List.foldl_cons, List.foldl_cons,
          hc a (List.mem_cons_self _ _) b (hsub b (List.mem_cons_self _ _)) s hs]
        exact ihb (fun b' hb' => hsub b' (List.mem_cons_of_mem _ hb')) _ (hg s b hs)
    exact hone bs (fun b hb => hb) s hs

/-! ### Reads and writes at `int` indices -/

theorem setI_comm {α : Type} (v : List α) (i j : Int) (a b : α) (h : i ≠ j) :
    setI (setI v i a) j b = setI (setI v j b) i a := by
  unfold setI
  by_cases hi : 0 ≤ i
  · by_cases hj : 0 ≤ j
    · have hne : i.toNat ≠ j.toNat := by omega
      simp only [hi, hj, if_true]
      exact List.set_comm a b _ hne
    · simp [hi, hj]
  · by_cases hj : 0 ≤ j
    · simp [hi, hj]
    · simp [hi, hj]

theorem length_bumpAt {F : Type} (ops : FloatOps F) (v : List F) (js : List Int) (delta : F) :
    (bumpAt ops v js delta).length = v.length := by
  unfold bumpAt
  induction js generalizing v with
  | nil => rfl
  | cons j js ih =>
    rw [List.foldl_cons, ih, length_setI]

theorem getI_bumpAt_of_not_mem {F : Type} (ops : FloatOps F) (v : List F) (js : List Int)
    (delta : F) (i : Int) (d : F) (h : i ∉ js) : getI (bumpAt ops v js delta) i d = getI v i d := by
  unfold bumpAt
  induction js generalizing v with
  | nil => rfl
  | cons j js ih =>
    have hji : j ≠ i := by
      intro hji
      apply h
      rw [hji]
      exact List.mem_cons_self _ _
    rw [List.foldl_cons, ih _ (fun hm => h (List.mem_cons_of_mem _ hm)),
      getI_setI_ne _ _ _ _ _ hji]

/-- A sum over positions that a bump does not touch is unchanged by the bump. -/
theorem sumAt_bumpAt {F : Type} (ops : FloatOps F) (v : List F) (is js : List Int) (delta : F)
    (h : ∀ i ∈ is, i ∉ js) : sumAt ops (bumpAt ops v js delta) is = sumAt ops v is := by
  unfold sumAt
  apply List.foldl_ext
  intro sum i hi
  rw [getI_bumpAt_of_not_mem ops v js delta i _ (h i hi)]

theorem bumpAt_cons {F : Type} (ops : FloatOps F) (v : List F) (j : Int) (js : List Int)
    (delta : F) :
    bumpAt ops v (j :: js) delta
      = bumpAt ops (setI v j (ops.add (getI v j (ops.ofInt 0)) delta)) js delta := rfl

theorem bumpAt_setI_comm {F : Type} (ops : FloatOps F) (v : List F) (js : List Int) (delta : F)
    (i : Int) (a : F) (h : i ∉ js) :
    bumpAt ops (setI v i a) js delta = setI (bumpAt ops v js delta) i a := by
  induction js generalizing v with
  | nil => rfl
  | cons j js ih =>
    have hij : i ≠ j := by
      intro hij
      apply h
      rw [hij]
      exact List.mem_cons_self _ _
    rw [bumpAt_cons, bumpAt_cons, getI_setI_ne _ _ _ _ _ hij,
      setI_comm _ _ _ _ _ hij, ih _ (fun hm => h (List.mem_cons_of_mem _ hm))]

/-- Bumps on disjoint sets of positions commute. -/
theorem bumpAt_comm {F : Type} (ops : FloatOps F) (v : List F) (is js : List Int)
    (delta delta' : F) (h : ∀ i ∈ is, i ∉ js) :
    bumpAt ops (bumpAt ops v js delta) is delta' = bumpAt ops (bumpAt ops v is delta') js delta := by
  induction is generalizing v with
  | nil => rfl
  | cons i is ih =>
    have hi : i ∉ js := h i (List.mem_cons_self _ _)
    rw [bumpAt_cons, bumpAt_cons, getI_bumpAt_of_not_mem ops v js delta i _ hi,
      ← bumpAt_setI_comm ops v js delta i _ hi,
      ih _ (fun i' hi' => h i' (List.mem_cons_of_mem _ hi'))]

/-! ### Disjoint rows and columns of an ordered matrix -/

theorem getI_of_lt {α : Type} (v : List α) (k : Int) (d : α) (h0 : 0 ≤ k)
    (h1 : k < (v.length : Int)) : ∃ h : k.toNat < v.length, getI v k d = v[k.toNat] := by
  have h : k.toNat < v.length := by omega
  refine ⟨h, ?_⟩
  unfold getI
  simp only [h0, if_true]
  exact List.getD_eq_getElem _ _ h

theorem getI_of_ge {α : Type} (v : List α) (k : Int) (d : α) (h1 : (v.length : Int) ≤ k) :
    getI v k d = d := by
  unfold getI
  split
  · exact List.getD_eq_default _ _ (by omega)
  · rfl

theorem getI_mem_or_default {α : Type} (v : List α) (k : Int) (d : α) :
    getI v k d ∈ v ∨ getI v k d = d := by
  by_cases h0 : 0 ≤ k
  · by_cases h1 : k < (v.length : Int)
    · obtain ⟨h, e⟩ := getI_of_lt v k d h0 h1
      left
      rw [e]
      exact List.getElem_mem h
    · right
      exact getI_of_ge v k d (by omega)
  · right
    unfold getI
    simp [h0]

theorem getI_sorted_mono {v : List Int} (hs : v.Sorted (· ≤ ·)) {a b : Int} (h0 : 0 ≤ a)
    (hab : a ≤ b) (hb : b < (v.length : Int)) : getI v a 0 ≤ getI v b 0 := by
  obtain ⟨ha', ea⟩ := getI_of_lt v a 0 h0 (by omega)
  obtain ⟨hb', eb⟩ := getI_of_lt v b 0 (by omega) hb
  rw [ea, eb]
  rcases (show a.toNat = b.toNat ∨ a.toNat < b.toNat by omega) with h | h
  · simp only [h]
    exact le_refl _
  · exact List.pairwise_iff_getElem.mp hs a.toNat b.toNat ha' hb' h

/-- In a list of non-decreasing non-negative bounds, the half-open ranges
`[v[r], v[r + 1])` of two distinct non-negative indices share no position. -/
theorem ranges_disjoint {v : List Int} (hs : v.Sorted (· ≤ ·)) (hn : ∀ x ∈ v, 0 ≤ x) {r r' : Int}
    (hr : 0 ≤ r) (hr' : 0 ≤ r') (hne : r ≠ r') {i : Int}
    (hi : getI v r 0 ≤ i ∧ i < getI v (r + 1) 0) :
    ¬ (getI v r' 0 ≤ i ∧ i < getI v (r' + 1) 0) := by
  have hnonneg : ∀ k, 0 ≤ getI v k 0 := by
    intro k
    rcases getI_mem_or_default v k 0 with h | h
    · exact hn _ h
    · omega
  have key : ∀ a b : Int, 0 ≤ a → a < b → ∀ j, getI v a 0 ≤ j ∧ j < getI v (a + 1) 0 →
      ¬ (getI v b 0 ≤ j ∧ j < getI v (b + 1) 0) := by
    intro a b ha hab j hj hj'
    by_cases hlen : b + 1 < (v.length : Int)
    · have := getI_sorted_mono hs (show 0 ≤ a + 1 by omega) (show a + 1 ≤ b by omega) (by omega)
      omega
    · have h0 := getI_of_ge v (b + 1) 0 (by omega)
      have := hnonneg b
      omega
  rcases lt_or_gt_of_ne hne with h | h
  · exact key r r' hr h i hi
  · intro hi'
    exact key r' r hr' h i hi' hi

theorem mem_selected {F : Type} (m : SparseMatrix F) (code : IntBuffer) (row oneHotSize i : Int)
    (h : i ∈ m.selected code row oneHotSize) :
    getI m.rowRanges row 0 ≤ i ∧ i < getI m.rowRanges (row + 1) 0 := by
  unfold SparseMatrix.selected at h
  exact mem_intRange.mp (List.mem_filter.mp h).1

/-- The positions selected in two distinct rows of a matrix with ordered rows are
disjoint. -/
theorem selected_disjoint {F : Type} (m : SparseMatrix F) (hm : m.RowsOrdered)
    (code code' : IntBuffer) {row row' : Int} (oneHotSize oneHotSize' : Int) (hr : 0 ≤ row)
    (hr' : 0 ≤ row') (hne : row ≠ row') :
    ∀ i ∈ m.selected code row oneHotSize, i ∉ m.selected code' row' oneHotSize' := by
  intro i hi hi'
  exact ranges_disjoint hm.1 hm.2 hr hr' hne (mem_selected m code row oneHotSize i hi)
    (mem_selected m code' row' oneHotSize' i hi')

/-- The value positions selected in two distinct columns of a matrix with an
ordered transpose view are disjoint. -/
theorem selectedT_disjoint {F : Type} (m : SparseMatrix F) (hm : m.ColumnsOrdered)
    (code code' : IntBuffer) {column column' : Int} (oneHotSize oneHotSize' : Int)
    (hc : 0 ≤ column) (hc' : 0 ≤ column') (hne : column ≠ column') :
    ∀ i ∈ m.selectedT code column oneHotSize, i ∉ m.selectedT code' column' oneHotSize' := by
  intro i hi hi'
  unfold SparseMatrix.selectedT at hi hi'
  obtain ⟨jj, hjj, rfl⟩ := List.mem_map.mp hi
  obtain ⟨jj', hjj', heq⟩ := List.mem_map.mp hi'
  have h1 := mem_intRange.mp (List.mem_filter.mp hjj).1
  have h2 := mem_intRange.mp (List.mem_filter.mp hjj').1
  have hbound : ∀ k, 0 ≤ getI m.columnRanges k 0
      ∧ getI m.columnRanges k 0 ≤ (m.nonZeroValueIndices.length : Int) := by
    intro k
    rcases getI_mem_or_default m.columnRanges k 0 with h | h
    · exact hm.2.1 _ h
    · rw [h]
      exact ⟨le_refl _, Int.natCast_nonneg _⟩
  have hjne : jj ≠ jj' := by
    intro h
    rw [← h] at h2
    exact ranges_disjoint hm.1 (fun x hx => (hm.2.1 x hx).1) hc hc' hne h1 h2
  have b1 := hbound column
  have b1' := hbound (column + 1)
  have b2 := hbound column'
  have b2' := hbound (column' + 1)
  obtain ⟨l1, e1⟩ := getI_of_lt m.nonZeroValueIndices jj 0 (by omega) (by omega)
  obtain ⟨l2, e2⟩ := getI_of_lt m.nonZeroValueIndices jj' 0 (by omega) (by omega)
  rw [e1, e2] at heq
  have := (List.Nodup.getElem_inj_iff hm.2.2).mp heq
  omega

/-! ### Kernels at distinct columns commute -/

/-- On columns with `0 ≤ y < dims.y`, `address2` is injective. -/
theorem address2_injective {dims p q : Int2} (hpy : 0 ≤ p.y ∧ p.y < dims.y)
    (hqy : 0 ≤ q.y ∧ q.y < dims.y) (h : address2 p dims = address2 q dims) : p = q := by
  unfold address2 at h
  obtain ⟨hy, hx⟩ := block_decomp hpy.1 hpy.2 hqy.1 hqy.2 h
  cases p
  cases q
  simp only [Int2.mk.injEq]
  exact ⟨hx, hy⟩

theorem address2_ne {dims p q : Int2} (hp : p ∈ domain2 dims) (hq : q ∈ domain2 dims)
    (hne : p ≠ q) : address2 p dims ≠ address2 q dims :=
  fun h => hne (address2_injective (mem_domain2.mp hp).2 (mem_domain2.mp hq).2 h)

theorem Predictor.forwardMax_forward {F R : Type} [LinearOrder F] (ops : FloatOps F)
    (pos pos' : Int2) (rng : R) (inputCs : List IntBuffer) (p : Predictor F) :
    Predictor.forwardMax ops pos' inputCs (Predictor.forward ops pos rng inputCs p)
      = Predictor.forwardMax ops pos' inputCs p := rfl

theorem predictor_forward_comm {F R : Type} [LinearOrder F] (ops : FloatOps F) (rng : R)
    (inputCs : List IntBuffer) (p : Predictor F) {pos pos' : Int2}
    (hpos : pos ∈ domain2 ⟨p.hiddenSize.x, p.hiddenSize.y⟩)
    (hpos' : pos' ∈ domain2 ⟨p.hiddenSize.x, p.hiddenSize.y⟩) (hne : pos ≠ pos') :
    Predictor.forward ops pos' rng inputCs (Predictor.forward ops pos rng inputCs p)
      = Predictor.forward ops pos rng inputCs (Predictor.forward ops pos' rng inputCs p) := by
  have h1 : Predictor.forward ops pos' rng inputCs (Predictor.forward ops pos rng inputCs p)
      = { p with
          hiddenCs := setI (setI p.hiddenCs (address2 pos ⟨p.hiddenSize.x, p.hiddenSize.y⟩)
              (Predictor.forwardMax ops pos inputCs p).1)
            (address2 pos' ⟨p.hiddenSize.x, p.hiddenSize.y⟩)
            (Predictor.forwardMax ops pos' inputCs p).1 } := rfl
  have h2 : Predictor.forward ops pos rng inputCs (Predictor.forward ops pos' rng inputCs p)
      = { p with
          hiddenCs := setI (setI p.hiddenCs (address2 pos' ⟨p.hiddenSize.x, p.hiddenSize.y⟩)
              (Predictor.forwardMax ops pos' inputCs p).1)
            (address2 pos ⟨p.hiddenSize.x, p.hiddenSize.y⟩)
            (Predictor.forwardMax ops pos inputCs p).1 } := rfl
  rw [h1, h2, setI_comm _ _ _ _ _ (address2_ne hpos hpos' hne)]

/-- Both execution modes of a 2D launch end in the same state when the kernel
does not depend on its generator and its invocations at distinct columns of the
domain commute on the states of an invariant that the kernel keeps. -/
theorem launch2_modes {R σ : Type} (M : RngOps R) (k : Int2 → R → σ → σ)
    (hk : ∀ p r r' s, k p r s = k p r' s) (size : Int2) (c c' : ComputeSystem R)
    (hb : 1 ≤ c'.batchSize2.x ∧ 1 ≤ c'.batchSize2.y) (Inv : σ → Prop)
    (hInv : ∀ p r s, Inv s → Inv (k p r s))
    (hcomm : ∀ p ∈ domain2 size, ∀ p' ∈ domain2 size, p ≠ p' → ∀ s, Inv s → ∀ r,
      k p' r (k p r s) = k p r (k p' r s))
    (s : σ) (hs : Inv s) :
    (launch2 M true k size c s).1 = (launch2 M false k size c' s).1 := by
  rw [launch2_fst M true k hk, launch2_fst M false k hk]
  simp only [if_true, Bool.false_eq_true, if_false]
  have e : (fun s p => k p c'.rng s) = (fun s p => k p c.rng s) := by
    funext s p
    exact hk p c'.rng c.rng s
  rw [e]
  exact foldl_perm_inv (fun s p => k p c.rng s) Inv (fun b a hb' => hInv a c.rng b hb')
    (batchOrder2_perm_all size hb).symm
    (fun a ha a' ha' hne b hb' => hcomm a ha a' ha' hne b hb' c.rng) s hs

/-- Both execution modes of a 1D launch end in the same state when the kernel
does not depend on its generator. -/
theorem launch1_modes {R σ : Type} (M : RngOps R) (k : Int → R → σ → σ)
    (hk : ∀ p r r' s, k p r s = k p r' s) (size : Int) (c c' : ComputeSystem R)
    (hb : 1 ≤ c'.batchSize1) (s : σ) :
    (launch1 M true k size c s).1 = (launch1 M false k size c' s).1 := by
  rw [launch1_fst M true k hk, launch1_fst M false k hk]
  simp only [if_true, Bool.false_eq_true, if_false]
  rw [batchOrder1_eq_all size hb]
  have e : (fun s p => k p c'.rng s) = (fun s p => k p c.rng s) := by
    funext s p
    exact hk p c'.rng c.rng s
  rw [e]

/-- The forward launch of `Predictor::activate` ends in the same state in both
execution modes. -/
theorem predictor_forward_launch_modes {F R : Type} [LinearOrder F] (M : RngOps R)
    (ops : FloatOps F) (c c' : ComputeSystem R)
    (hb : 1 ≤ c'.batchSize2.x ∧ 1 ≤ c'.batchSize2.y) (inputCs : List IntBuffer)
    (p : Predictor F) :
    (launch2 M true (fun pos rng p => Predictor.forward ops pos rng inputCs p)
        ⟨p.hiddenSize.x, p.hiddenSize.y⟩ c p).1
      = (launch2 M false (fun pos rng p => Predictor.forward ops pos rng inputCs p)
        ⟨p.hiddenSize.x, p.hiddenSize.y⟩ c' p).1 := by
  apply launch2_modes M (fun pos rng p => Predictor.forward ops pos rng inputCs p)
    (fun _ _ _ _ => rfl) _ c c' hb (fun q => q.hiddenSize = p.hiddenSize)
    (fun _ _ _ hq => hq)
  · intro pos hpos pos' hpos' hne q hq r
    rw [← hq] at hpos hpos'
    exact predictor_forward_comm ops r inputCs q hpos hpos' hne
  · rfl

/-! ### The learn kernel of the predictor at distinct columns -/

/-- The cells of two distinct columns of a grid have distinct indices. -/
theorem address3_column_ne {dims : Int3} {pos pos' : Int2} {hc hc' : Int}
    (hpos : pos ∈ domain2 ⟨dims.x, dims.y⟩) (hpos' : pos' ∈ domain2 ⟨dims.x, dims.y⟩)
    (hne : pos ≠ pos') (hhc : hc ∈ intRange 0 dims.z) (hhc' : hc' ∈ intRange 0 dims.z) :
    address3 ⟨pos.x, pos.y, hc⟩ dims ≠ address3 ⟨pos'.x, pos'.y, hc'⟩ dims := by
  intro h
  have e := @address3_injective dims ⟨pos.x, pos.y, hc⟩ ⟨pos'.x, pos'.y, hc'⟩
    (mem_domain2.mp hpos).2 (mem_intRange.mp hhc) (mem_domain2.mp hpos').2
    (mem_intRange.mp hhc') h
  apply hne
  cases pos
  cases pos'
  simp only [Int3.mk.injEq] at e
  simp only [Int2.mk.injEq]
  exact ⟨e.1, e.2.1⟩

/-- The index of a cell of the grid is not negative. -/
theorem address3_nonneg {dims : Int3} {pos : Int2} {hc : Int}
    (hpos : pos ∈ domain2 ⟨dims.x, dims.y⟩) (hhc : hc ∈ intRange 0 dims.z) :
    0 ≤ address3 ⟨pos.x, pos.y, hc⟩ dims := by
  unfold address3
  have hp := mem_domain2.mp hpos
  have hz := mem_intRange.mp hhc
  simp only at hp
  have h1 : 0 ≤ pos.y * dims.z := Int.mul_nonneg hp.2.1 (by omega)
  have h2 : 0 ≤ pos.x * dims.z * dims.y :=
    Int.mul_nonneg (Int.mul_nonneg hp.1.1 (by omega)) (by omega)
  simp only
  omega

theorem getD_mapIdx {α β : Type} (f : Nat → α → β) (l : List α) (i : Nat) (d : α) (d' : β)
    (h : i < l.length) : (l.mapIdx f).getD i d' = f i (l.getD i d) := by
  rw [List.getD_eq_getElem?_getD, List.getD_eq_getElem?_getD, List.getElem?_mapIdx,
    List.getElem?_eq_getElem h]
  rfl

theorem getD_mem {α : Type} (l : List α) (i : Nat) (d : α) (h : i < l.length) :
    l.getD i d ∈ l := by
  rw [List.getD_eq_getElem _ _ h]
  exact List.getElem_mem h

/-- The sums of a row are not changed by an update of another row. -/
theorem Predictor.learnSum_applyDelta {F : Type} (ops : FloatOps F) (p : Predictor F)
    (hp : ∀ vl ∈ p.visibleLayers, vl.weights.RowsOrdered) (delta : F) {row row' : Int}
    (hr : 0 ≤ row) (hr' : 0 ≤ row') (hne : row ≠ row') :
    (p.applyDelta ops delta row).learnSum ops row' = p.learnSum ops row' := by
  unfold Predictor.learnSum
  have hlen : (p.applyDelta ops delta row).visibleLayers.length = p.visibleLayers.length := by
    simp [Predictor.applyDelta]
  rw [hlen]
  apply List.foldl_ext
  intro acc vli hvli
  have hlt : vli < p.visibleLayers.length := List.mem_range.mp hvli
  have hget : (p.applyDelta ops delta row).visibleLayers.getD vli (Predictor.VisibleLayer.none F)
      = { p.visibleLayers.getD vli (Predictor.VisibleLayer.none F) with
          weights := (p.visibleLayers.getD vli (Predictor.VisibleLayer.none F)).weights.deltaOHVs
            ops (p.visibleLayers.getD vli (Predictor.VisibleLayer.none F)).inputCsPrev delta row
            (p.visibleLayerDescs.getD vli VisibleLayerDesc.none).size.z } := by
    unfold Predictor.applyDelta
    exact getD_mapIdx _ _ vli (Predictor.VisibleLayer.none F) _ hlt
  have hdesc : (p.applyDelta ops delta row).visibleLayerDescs = p.visibleLayerDescs := rfl
  simp only [hget, hdesc]
  have hord := hp _ (getD_mem p.visibleLayers vli (Predictor.VisibleLayer.none F) hlt)
  generalize p.visibleLayers.getD vli (Predictor.VisibleLayer.none F) = vl at hord
  generalize (p.visibleLayerDescs.getD vli VisibleLayerDesc.none).size.z = z
  have hsum : (vl.weights.deltaOHVs ops vl.inputCsPrev delta row z).multiplyOHVs ops
      vl.inputCsPrev row' z = vl.weights.multiplyOHVs ops vl.inputCsPrev row' z := by
    unfold SparseMatrix.multiplyOHVs SparseMatrix.deltaOHVs
    exact sumAt_bumpAt ops _ _ _ delta
      (selected_disjoint vl.weights hord _ _ z z hr' hr (fun h => hne h.symm))
  rw [hsum]
  rfl

/-- The updates of two distinct rows commute. -/
theorem Predictor.applyDelta_comm {F : Type} (ops : FloatOps F) (p : Predictor F)
    (hp : ∀ vl ∈ p.visibleLayers, vl.weights.RowsOrdered) (delta delta' : F) {row row' : Int}
    (hr : 0 ≤ row) (hr' : 0 ≤ row') (hne : row ≠ row') :
    (p.applyDelta ops delta row).applyDelta ops delta' row'
      = (p.applyDelta ops delta' row').applyDelta ops delta row := by
  unfold Predictor.applyDelta
  simp only [List.mapIdx_mapIdx, Predictor.mk.injEq, true_and, and_true]
  apply List.ext_getElem?
  intro n
  rw [List.getElem?_mapIdx, List.getElem?_mapIdx]
  cases hn : p.visibleLayers[n]? with
  | none => rfl
  | some vl =>
    have hord : vl.weights.RowsOrdered := hp vl (List.mem_iff_getElem?.mpr ⟨n, hn⟩)
    simp only [Option.map_some', Function.comp, Option.some.injEq,
      Predictor.VisibleLayer.mk.injEq, and_true]
    unfold SparseMatrix.deltaOHVs
    simp only [SparseMatrix.mk.injEq, true_and, and_true]
    exact bumpAt_comm ops _ _ _ delta delta'
      (selected_disjoint vl.weights hord _ _ _ _ hr' hr (fun h => hne h.symm))

theorem Predictor.applyDelta_ordered {F : Type} (ops : FloatOps F) (p : Predictor F)
    (hp : ∀ vl ∈ p.visibleLayers, vl.weights.RowsOrdered) (delta : F) (row : Int) :
    ∀ vl ∈ (p.applyDelta ops delta row).visibleLayers, vl.weights.RowsOrdered := by
  intro vl hvl
  unfold Predictor.applyDelta at hvl
  obtain ⟨i, hi, rfl⟩ := List.mem_mapIdx.mp hvl
  exact hp p.visibleLayers[i] (List.getElem_mem hi)

theorem Predictor.learnDelta_applyDelta {F : Type} (ops : FloatOps F) (p : Predictor F)
    (hp : ∀ vl ∈ p.visibleLayers, vl.weights.RowsOrdered) (delta : F) (targetC hc : Int)
    {row row' : Int} (hr : 0 ≤ row) (hr' : 0 ≤ row') (hne : row ≠ row') :
    (p.applyDelta ops delta row).learnDelta ops targetC hc row'
      = p.learnDelta ops targetC hc row' := by
  unfold Predictor.learnDelta
  rw [Predictor.learnSum_applyDelta ops p hp delta hr hr' hne]
  rfl

/-- The passes of the learn kernel over two cells of distinct columns commute. -/
theorem Predictor.learnCell_comm {F : Type} (ops : FloatOps F) (p : Predictor F)
    (hp : ∀ vl ∈ p.visibleLayers, vl.weights.RowsOrdered) {pos pos' : Int2}
    (hpos : pos ∈ domain2 ⟨p.hiddenSize.x, p.hiddenSize.y⟩)
    (hpos' : pos' ∈ domain2 ⟨p.hiddenSize.x, p.hiddenSize.y⟩) (hne : pos ≠ pos')
    (targetC targetC' : Int) {hc hc' : Int} (hhc : hc ∈ intRange 0 p.hiddenSize.z)
    (hhc' : hc' ∈ intRange 0 p.hiddenSize.z) :
    Predictor.learnCell ops pos' targetC' hc' (Predictor.learnCell ops pos targetC hc p)
      = Predictor.learnCell ops pos targetC hc (Predictor.learnCell ops pos' targetC' hc' p) := by
  have hr := @address3_nonneg p.hiddenSize pos hc hpos hhc
  have hr' := @address3_nonneg p.hiddenSize pos' hc' hpos' hhc'
  have hrr := address3_column_ne hpos hpos' hne hhc hhc'
  generalize hrow : address3 ⟨pos.x, pos.y, hc⟩ p.hiddenSize = row at hr hrr
  generalize hrow' : address3 ⟨pos'.x, pos'.y, hc'⟩ p.hiddenSize = row' at hr' hrr
  have h1 : Predictor.learnCell ops pos' targetC' hc' (Predictor.learnCell ops pos targetC hc p)
      = (p.applyDelta ops (p.learnDelta ops targetC hc row) row).applyDelta ops
          ((p.applyDelta ops (p.learnDelta ops targetC hc row) row).learnDelta ops targetC' hc'
            row') row' := by
    rw [← hrow, ← hrow']
    rfl
  have h2 : Predictor.learnCell ops pos targetC hc (Predictor.learnCell ops pos' targetC' hc' p)
      = (p.applyDelta ops (p.learnDelta ops targetC' hc' row') row').applyDelta ops
          ((p.applyDelta ops (p.learnDelta ops targetC' hc' row') row').learnDelta ops targetC hc
            row) row := by
    rw [← hrow, ← hrow']
    rfl
  rw [h1, h2, Predictor.learnDelta_applyDelta ops p hp _ targetC' hc' hr hr' hrr,
    Predictor.learnDelta_applyDelta ops p hp _ targetC hc hr' hr (fun h => hrr h.symm)]
  exact Predictor.applyDelta_comm ops p hp _ _ hr hr' hrr

theorem Predictor.learnCell_ordered {F : Type} (ops : FloatOps F) (pos : Int2)
    (targetC hc : Int) (p : Predictor F) (hp : ∀ vl ∈ p.visibleLayers, vl.weights.RowsOrdered) :
    ∀ vl ∈ (Predictor.learnCell ops pos targetC hc p).visibleLayers, vl.weights.RowsOrdered :=
  Predictor.applyDelta_ordered ops p hp _ _

theorem Predictor.learnKernel_ordered {F R : Type} (ops : FloatOps F) (pos : Int2) (rng : R)
    (hiddenTargetCs : IntBuffer) (p : Predictor F)
    (hp : ∀ vl ∈ p.visibleLayers, vl.weights.RowsOrdered) :
    ∀ vl ∈ (Predictor.learnKernel ops pos rng hiddenTargetCs p).visibleLayers,
      vl.weights.RowsOrdered := by
  unfold Predictor.learnKernel
  exact foldl_preserves (fun q => ∀ vl ∈ q.visibleLayers, vl.weights.RowsOrdered) _ _
    (fun b a _ hb => Predictor.learnCell_ordered ops pos _ a b hb) p hp

theorem Predictor.learnKernel_eq {F R : Type} (ops : FloatOps F) (pos : Int2) (rng : R)
    (hiddenTargetCs : IntBuffer) (q : Predictor F) (hs : Int3) (h : q.hiddenSize = hs) :
    Predictor.learnKernel ops pos rng hiddenTargetCs q
      = (intRange 0 hs.z).foldl
          (fun q hc => Predictor.learnCell ops pos
            (getI hiddenTargetCs (address2 pos ⟨hs.x, hs.y⟩) 0) hc q) q := by
  subst h
  rfl

/-- The learn kernels of two distinct columns commute. -/
theorem Predictor.learnKernel_comm {F R : Type} (ops : FloatOps F) (rng : R)
    (hiddenTargetCs : IntBuffer) (p : Predictor F)
    (hp : ∀ vl ∈ p.visibleLayers, vl.weights.RowsOrdered) {pos pos' : Int2}
    (hpos : pos ∈ domain2 ⟨p.hiddenSize.x, p.hiddenSize.y⟩)
    (hpos' : pos' ∈ domain2 ⟨p.hiddenSize.x, p.hiddenSize.y⟩) (hne : pos ≠ pos') :
    Predictor.learnKernel ops pos' rng hiddenTargetCs
        (Predictor.learnKernel ops pos rng hiddenTargetCs p)
      = Predictor.learnKernel ops pos rng hiddenTargetCs
        (Predictor.learnKernel ops pos' rng hiddenTargetCs p) := by
  rw [Predictor.learnKernel_eq ops pos' rng hiddenTargetCs _ p.hiddenSize
      (Predictor.learnKernel_frame ops pos rng hiddenTargetCs p).1,
    Predictor.learnKernel_eq ops pos rng hiddenTargetCs
      (Predictor.learnKernel ops pos' rng hiddenTargetCs p) p.hiddenSize
      (Predictor.learnKernel_frame ops pos' rng hiddenTargetCs p).1,
    Predictor.learnKernel_eq ops pos rng hiddenTargetCs p p.hiddenSize rfl,
    Predictor.learnKernel_eq ops pos' rng hiddenTargetCs p p.hiddenSize rfl]
  apply foldl_foldl_comm _ _
    (fun q => q.hiddenSize = p.hiddenSize ∧ ∀ vl ∈ q.visibleLayers, vl.weights.RowsOrdered)
  · intro q hc hq
    exact ⟨hq.1, Predictor.learnCell_ordered ops pos _ hc q hq.2⟩
  · intro q hc hq
    exact ⟨hq.1, Predictor.learnCell_ordered ops pos' _ hc q hq.2⟩
  · intro hc hhc hc' hhc' q hq
    rw [← hq.1] at hpos hpos' hhc hhc'
    exact Predictor.learnCell_comm ops q hq.2 hpos hpos' hne _ _ hhc hhc'
  · exact ⟨rfl, hp⟩

/-! ### The two execution modes of the predictor -/

/-- `Predictor::learn` ends in the same state in both execution modes. -/
theorem Predictor.learn_modes {F R : Type} (M : RngOps R) (ops : FloatOps F)
    (c c' : ComputeSystem R) (hb : 1 ≤ c'.batchSize2.x ∧ 1 ≤ c'.batchSize2.y)
    (hiddenTargetCs : IntBuffer) (p : Predictor F)
    (hp : ∀ vl ∈ p.visibleLayers, vl.weights.RowsOrdered) :
    (Predictor.learn M ops true c hiddenTargetCs p).1
      = (Predictor.learn M ops false c' hiddenTargetCs p).1 := by
  unfold Predictor.learn
  apply launch2_modes M (fun pos rng p => Predictor.learnKernel ops pos rng hiddenTargetCs p)
    (fun _ _ _ _ => rfl) _ c c' hb
    (fun q => q.hiddenSize = p.hiddenSize ∧ ∀ vl ∈ q.visibleLayers, vl.weights.RowsOrdered)
  · intro pos r q hq
    exact ⟨(Predictor.learnKernel_frame ops pos r hiddenTargetCs q).1.trans hq.1,
      Predictor.learnKernel_ordered ops pos r hiddenTargetCs q hq.2⟩
  · intro pos hpos pos' hpos' hne q hq r
    rw [← hq.1] at hpos hpos'
    exact Predictor.learnKernel_comm ops r hiddenTargetCs q hq.2 hpos hpos' hne
  · exact ⟨rfl, hp⟩

/-- `Predictor::activate` ends in the same state in both execution modes. -/
theorem Predictor.activate_modes {F R : Type} [LinearOrder F] (M : RngOps R) (ops : FloatOps F)
    (c c' : ComputeSystem R) (hb1 : 1 ≤ c'.batchSize1)
    (hb2 : 1 ≤ c'.batchSize2.x ∧ 1 ≤ c'.batchSize2.y) (inputCs : List IntBuffer)
    (p : Predictor F) :
    (Predictor.activate M ops true c inputCs p).1
      = (Predictor.activate M ops false c' inputCs p).1 := by
  unfold Predictor.activate
  simp only []
  have h0 := predictor_forward_launch_modes M ops c c' hb2 inputCs p
  have hbs : 1 ≤ (launch2 M false (fun pos rng p => Predictor.forward ops pos rng inputCs p)
      ⟨p.hiddenSize.x, p.hiddenSize.y⟩ c' p).2.batchSize1 := by
    rw [launch2_snd]
    exact hb1
  rw [h0]
  refine (foldl_rel
    (fun (a b : Predictor F × ComputeSystem R) => a.1 = b.1 ∧ 1 ≤ b.2.batchSize1)
    _ _ _ ?_ _ _ ⟨h0, hbs⟩).1
  rintro ⟨a1, a2⟩ ⟨b1, b2⟩ vli _ ⟨h1, h2⟩
  simp only at h1 h2
  subst h1
  constructor
  · simp only
    rw [launch1_modes M (fun pos rng dst => copyInt pos rng (inputCs.getD vli []) dst)
      (fun _ _ _ _ => rfl) _ a2 b2 h2]
  · simp only
    rw [launch1_snd]
    exact h2

/-! ### The kernels of the sparse coder at distinct columns -/

/-- Two successive writes of the element `i`, each computed from the element
read at `i`, amount to one write of the composed value. -/
theorem set_getD_set {α : Type} (l : List α) (i : Nat) (d : α) (f g : α → α) :
    (l.set i (f (l.getD i d))).set i (g ((l.set i (f (l.getD i d))).getD i d))
      = l.set i (g (f (l.getD i d))) := by
  by_cases h : i < l.length
  · rw [getD_set_self _ _ _ _ h, List.set_set]
  · rw [List.set_eq_of_length_le (by simpa using h),
      List.set_eq_of_length_le (by simpa using h),
      List.set_eq_of_length_le (by simpa using h)]

theorem set_getD_self {α : Type} (l : List α) (i : Nat) (d : α) : l.set i (l.getD i d) = l := by
  by_cases h : i < l.length
  · apply List.ext_getElem?
    intro n
    rw [List.getElem?_set]
    by_cases hn : i = n
    · subst hn
      simp only [h, if_true]
      rw [List.getD_eq_getElem _ _ h, List.getElem?_eq_getElem h]
    · simp only [hn, if_false]
  · exact List.set_eq_of_length_le (by simpa using h)

/-- The backward kernels of two distinct columns of a layer commute. -/
theorem SparseCoder.backward_comm {F R : Type} [LinearOrder F] (ops : FloatOps F) (rng : R)
    (inputCs : IntBuffer) (vli : Nat) (s : SparseCoder F) {pos pos' : Int2}
    (hpos : pos ∈ domain2 ⟨(s.visibleLayerDescs.getD vli VisibleLayerDesc.none).size.x,
      (s.visibleLayerDescs.getD vli VisibleLayerDesc.none).size.y⟩)
    (hpos' : pos' ∈ domain2 ⟨(s.visibleLayerDescs.getD vli VisibleLayerDesc.none).size.x,
      (s.visibleLayerDescs.getD vli VisibleLayerDesc.none).size.y⟩) (hne : pos ≠ pos') :
    SparseCoder.backward ops pos' rng inputCs vli (SparseCoder.backward ops pos rng inputCs vli s)
      = SparseCoder.backward ops pos rng inputCs vli
          (SparseCoder.backward ops pos' rng inputCs vli s) := by
  have ha := address2_ne hpos hpos' hne
  by_cases h : vli < s.visibleLayers.length
  · unfold SparseCoder.backward
    simp only [getD_set_self _ _ _ _ h, List.set_set]
    rw [setI_comm _ _ _ _ _ ha]
  · have hs : ∀ q : Int2, SparseCoder.backward ops q rng inputCs vli s = s := by
      intro q
      unfold SparseCoder.backward
      simp only [List.set_eq_of_length_le (show s.visibleLayers.length ≤ vli by omega)]
    rw [hs pos, hs pos', hs pos]

/-- A run of `deltaOHVsT` updates changes the values only: the positions it
bumps are those selected in the matrix it starts from. -/
theorem deltaOHVsT_foldl {F α : Type} (ops : FloatOps F) (code : IntBuffer) (z : Int)
    (col : α → Int) (delta : α → F) (l : List α) (w : SparseMatrix F) :
    l.foldl (fun w a => w.deltaOHVsT ops code (delta a) (col a) z) w
      = { w with
          nonZeroValues := l.foldl
            (fun v a => bumpAt ops v (w.selectedT code (col a) z) (delta a)) w.nonZeroValues } := by
  induction l generalizing w with
  | nil => rfl
  | cons a l ih =>
    rw [List.foldl_cons, ih]
    rfl

/-- A sum over positions that none of a run of bumps touches is unchanged. -/
theorem sumAt_foldl_bumpAt {F α : Type} (ops : FloatOps F) (sel : α → List Int) (delta : α → F)
    (is : List Int) (l : List α) (h : ∀ a ∈ l, ∀ i ∈ is, i ∉ sel a) (v : List F) :
    sumAt ops (l.foldl (fun v a => bumpAt ops v (sel a) (delta a)) v) is = sumAt ops v is := by
  induction l generalizing v with
  | nil => rfl
  | cons a l ih =>
    rw [List.foldl_cons, ih (fun a' ha' => h a' (List.mem_cons_of_mem _ ha')),
      sumAt_bumpAt ops v is (sel a) (delta a) (h a (List.mem_cons_self _ _))]

/-- Two runs of bumps on disjoint positions commute. -/
theorem foldl_bumpAt_comm {F α β : Type} (ops : FloatOps F) (sel : α → List Int)
    (delta : α → F) (sel' : β → List Int) (delta' : β → F) (l : List α) (l' : List β)
    (h : ∀ a ∈ l, ∀ b ∈ l', ∀ i ∈ sel' b, i ∉ sel a) (v : List F) :
    l'.foldl (fun v b => bumpAt ops v (sel' b) (delta' b))
        (l.foldl (fun v a => bumpAt ops v (sel a) (delta a)) v)
      = l.foldl (fun v a => bumpAt ops v (sel a) (delta a))
        (l'.foldl (fun v b => bumpAt ops v (sel' b) (delta' b)) v) :=
  foldl_foldl_comm _ _ (fun _ => True) (fun _ _ _ => trivial) (fun _ _ _ => trivial) l l'
    (fun a ha b hb s _ => bumpAt_comm ops s (sel' b) (sel a) (delta a) (delta' b) (h a ha b hb))
    v trivial

/-- The scan of `SparseCoder::learn` reads the transpose view and the sums of
the cells of its own column only. -/
theorem SparseCoder.learnLoop_congr {F : Type} [LinearOrder F] (ops : FloatOps F) (pos : Int2)
    (size : Int3) (hiddenCs : IntBuffer) (hiddenSize : Int3) (w w' : SparseMatrix F)
    (hcr : w'.columnRanges = w.columnRanges)
    (hsum : ∀ vc ∈ intRange 0 size.z,
      w'.multiplyOHVsT ops hiddenCs (address3 ⟨pos.x, pos.y, vc⟩ size) hiddenSize.z
        = w.multiplyOHVsT ops hiddenCs (address3 ⟨pos.x, pos.y, vc⟩ size) hiddenSize.z) :
    SparseCoder.learnLoop ops pos size w' hiddenCs hiddenSize
      = SparseCoder.learnLoop ops pos size w hiddenCs hiddenSize := by
  unfold SparseCoder.learnLoop
  apply List.foldl_ext
  intro acc vc hvc
  unfold SparseCoder.reconstruct SparseMatrix.countT
  simp only [hsum vc hvc, hcr]

/-- The scan of a column is not changed by the update of another column. -/
theorem SparseCoder.learnLoop_learnUpdate {F : Type} [LinearOrder F] (ops : FloatOps F)
    (size : Int3) (hiddenCs : IntBuffer) (hiddenSize : Int3) (w : SparseMatrix F)
    (hw : w.ColumnsOrdered) {pos pos' : Int2} (hpos : pos ∈ domain2 ⟨size.x, size.y⟩)
    (hpos' : pos' ∈ domain2 ⟨size.x, size.y⟩) (hne : pos ≠ pos') (alpha : F) (targetC : Int)
    (activations : List F) :
    SparseCoder.learnLoop ops pos' size
        (SparseCoder.learnUpdate ops pos size alpha targetC activations hiddenCs hiddenSize w)
        hiddenCs hiddenSize
      = SparseCoder.learnLoop ops pos' size w hiddenCs hiddenSize := by
  unfold SparseCoder.learnUpdate
  simp only []
  rw [deltaOHVsT_foldl ops hiddenCs hiddenSize.z
    (fun vc => address3 ⟨pos.x, pos.y, vc⟩ size)
    (fun vc => ops.mul alpha
      (ops.sub (if vc = targetC then ops.ofInt 1 else ops.ofInt (-1))
        (ops.tanh (getI activations vc (ops.ofInt 0)))))]
  refine SparseCoder.learnLoop_congr ops pos' size hiddenCs hiddenSize w _ ?_ ?_
  · rfl
  intro vc' hvc'
  unfold SparseMatrix.multiplyOHVsT
  exact sumAt_foldl_bumpAt ops _ _ _ _
    (fun vc hvc => selectedT_disjoint w hw _ _ _ _
      (address3_nonneg hpos' hvc') (address3_nonneg hpos hvc)
      (address3_column_ne hpos' hpos (fun h => hne h.symm) hvc' hvc)) _

/-- The updates of two distinct columns commute. -/
theorem SparseCoder.learnUpdate_comm {F : Type} (ops : FloatOps F)
    (size : Int3) (hiddenCs : IntBuffer) (hiddenSize : Int3) (w : SparseMatrix F)
    (hw : w.ColumnsOrdered) {pos pos' : Int2} (hpos : pos ∈ domain2 ⟨size.x, size.y⟩)
    (hpos' : pos' ∈ domain2 ⟨size.x, size.y⟩) (hne : pos ≠ pos') (alpha : F)
    (targetC targetC' : Int) (activations activations' : List F) :
    SparseCoder.learnUpdate ops pos' size alpha targetC' activations' hiddenCs hiddenSize
        (SparseCoder.learnUpdate ops pos size alpha targetC activations hiddenCs hiddenSize w)
      = SparseCoder.learnUpdate ops pos size alpha targetC activations hiddenCs hiddenSize
        (SparseCoder.learnUpdate ops pos' size alpha targetC' activations' hiddenCs hiddenSize
          w) := by
  unfold SparseCoder.learnUpdate
  simp only []
  rw [deltaOHVsT_foldl ops hiddenCs hiddenSize.z
      (fun vc => address3 ⟨pos.x, pos.y, vc⟩ size)
      (fun vc => ops.mul alpha
        (ops.sub (if vc = targetC then ops.ofInt 1 else ops.ofInt (-1))
          (ops.tanh (getI activations vc (ops.ofInt 0))))) _ w,
    deltaOHVsT_foldl ops hiddenCs hiddenSize.z
      (fun vc => address3 ⟨pos'.x, pos'.y, vc⟩ size)
      (fun vc => ops.mul alpha
        (ops.sub (if vc = targetC' then ops.ofInt 1 else ops.ofInt (-1))
          (ops.tanh (getI activations' vc (ops.ofInt 0))))) _ w,
    deltaOHVsT_foldl, deltaOHVsT_foldl]
  simp only [SparseMatrix.mk.injEq, true_and, and_true]
  exact foldl_bumpAt_comm ops _ _ _ _ _ _
    (fun vc hvc vc' hvc' => selectedT_disjoint w hw _ _ _ _
      (address3_nonneg hpos' hvc') (address3_nonneg hpos hvc)
      (address3_column_ne hpos' hpos (fun h => hne h.symm) hvc' hvc)) _

theorem SparseCoder.learnUpdate_ordered {F : Type} (ops : FloatOps F) (pos : Int2)
    (size : Int3) (alpha : F) (targetC : Int) (activations : List F) (hiddenCs : IntBuffer)
    (hiddenSize : Int3) (w : SparseMatrix F) (hw : w.ColumnsOrdered) :
    (SparseCoder.learnUpdate ops pos size alpha targetC activations hiddenCs hiddenSize
      w).ColumnsOrdered := by
  unfold SparseCoder.learnUpdate
  simp only []
  rw [deltaOHVsT_foldl ops hiddenCs hiddenSize.z
    (fun vc => address3 ⟨pos.x, pos.y, vc⟩ size)
    (fun vc => ops.mul alpha
      (ops.sub (if vc = targetC then ops.ofInt 1 else ops.ofInt (-1))
        (ops.tanh (getI activations vc (ops.ofInt 0)))))]
  exact hw

theorem SparseCoder.learnWeights_ordered {F : Type} [LinearOrder F] (ops : FloatOps F)
    (pos : Int2) (size : Int3) (alpha : F) (targetC : Int) (hiddenCs : IntBuffer)
    (hiddenSize : Int3) (w : SparseMatrix F) (hw : w.ColumnsOrdered) :
    (SparseCoder.learnWeights ops pos size alpha targetC hiddenCs hiddenSize w).ColumnsOrdered := by
  unfold SparseCoder.learnWeights
  simp only []
  split
  · exact SparseCoder.learnUpdate_ordered ops pos size alpha targetC _ hiddenCs hiddenSize w hw
  · exact hw

/-- The effects of `SparseCoder::learn` at two distinct columns on the weights
of the layer commute. -/
theorem SparseCoder.learnWeights_comm {F : Type} [LinearOrder F] (ops : FloatOps F)
    (size : Int3) (hiddenCs : IntBuffer) (hiddenSize : Int3) (w : SparseMatrix F)
    (hw : w.ColumnsOrdered) {pos pos' : Int2} (hpos : pos ∈ domain2 ⟨size.x, size.y⟩)
    (hpos' : pos' ∈ domain2 ⟨size.x, size.y⟩) (hne : pos ≠ pos') (alpha : F)
    (targetC targetC' : Int) :
    SparseCoder.learnWeights ops pos' size alpha targetC' hiddenCs hiddenSize
        (SparseCoder.learnWeights ops pos size alpha targetC hiddenCs hiddenSize w)
      = SparseCoder.learnWeights ops pos size alpha targetC hiddenCs hiddenSize
        (SparseCoder.learnWeights ops pos' size alpha targetC' hiddenCs hiddenSize w) := by
  have A := fun acts => SparseCoder.learnLoop_learnUpdate ops size hiddenCs hiddenSize w hw hpos
    hpos' hne alpha targetC acts
  have A' := fun acts => SparseCoder.learnLoop_learnUpdate ops size hiddenCs hiddenSize w hw hpos'
    hpos (fun h => hne h.symm) alpha targetC' acts
  have B := SparseCoder.learnUpdate_comm ops size hiddenCs hiddenSize w hw hpos hpos' hne alpha
    targetC targetC'
  unfold SparseCoder.learnWeights
  simp only []
  by_cases c : (SparseCoder.learnLoop ops pos size w hiddenCs hiddenSize).2.1 = targetC
  · by_cases c' : (SparseCoder.learnLoop ops pos' size w hiddenCs hiddenSize).2.1 = targetC'
    · simp only [c, c', ne_eq, not_true_eq_false, if_false]
    · simp only [c, c', ne_eq, not_true_eq_false, not_false_eq_true, if_false, if_true, A']
  · by_cases c' : (SparseCoder.learnLoop ops pos' size w hiddenCs hiddenSize).2.1 = targetC'
    · simp only [c, c', ne_eq, not_true_eq_false, not_false_eq_true, if_false, if_true, A]
    · simp only [c, c', ne_eq, not_false_eq_true, if_true, A, A']
      exact B _ _

/-- `SparseCoder::learn` rewrites the weights of its layer and nothing else. -/
theorem SparseCoder.learn_eq {F R : Type} [LinearOrder F] (ops : FloatOps F) (pos : Int2)
    (rng : R) (inputCs : IntBuffer) (vli : Nat) (s : SparseCoder F) :
    SparseCoder.learn ops pos rng inputCs vli s
      = { s with
          visibleLayers := s.visibleLayers.set vli
            ((fun (vl : SparseCoder.VisibleLayer F) =>
              { vl with
                weights := SparseCoder.learnWeights ops pos
                  (s.visibleLayerDescs.getD vli VisibleLayerDesc.none).size s.alpha
                  (getI inputCs (address2 pos
                    ⟨(s.visibleLayerDescs.getD vli VisibleLayerDesc.none).size.x,
                      (s.visibleLayerDescs.getD vli VisibleLayerDesc.none).size.y⟩) 0)
                  s.hiddenCs s.hiddenSize vl.weights })
              (s.visibleLayers.getD vli (SparseCoder.VisibleLayer.none F))) } := by
  unfold SparseCoder.learn SparseCoder.learnWeights
  simp only []
  split
  · rfl
  · have e := set_getD_self s.visibleLayers vli (SparseCoder.VisibleLayer.none F)
    conv_lhs => rw [show s = { s with visibleLayers := s.visibleLayers } from rfl, ← e]

/-- The learn kernels of two distinct columns of a layer commute. -/
theorem SparseCoder.learn_comm {F R : Type} [LinearOrder F] (ops : FloatOps F) (rng : R)
    (inputCs : IntBuffer) (vli : Nat) (s : SparseCoder F)
    (hs : ∀ vl ∈ s.visibleLayers, vl.weights.ColumnsOrdered) {pos pos' : Int2}
    (hpos : pos ∈ domain2 ⟨(s.visibleLayerDescs.getD vli VisibleLayerDesc.none).size.x,
      (s.visibleLayerDescs.getD vli VisibleLayerDesc.none).size.y⟩)
    (hpos' : pos' ∈ domain2 ⟨(s.visibleLayerDescs.getD vli VisibleLayerDesc.none).size.x,
      (s.visibleLayerDescs.getD vli VisibleLayerDesc.none).size.y⟩) (hne : pos ≠ pos') :
    SparseCoder.learn ops pos' rng inputCs vli (SparseCoder.learn ops pos rng inputCs vli s)
      = SparseCoder.learn ops pos rng inputCs vli
          (SparseCoder.learn ops pos' rng inputCs vli s) := by
  by_cases h : vli < s.visibleLayers.length
  · have hw := hs _ (getD_mem s.visibleLayers vli (SparseCoder.VisibleLayer.none F) h)
    rw [SparseCoder.learn_eq ops pos' rng inputCs vli (SparseCoder.learn ops pos rng inputCs vli s),
      SparseCoder.learn_eq ops pos rng inputCs vli (SparseCoder.learn ops pos' rng inputCs vli s),
      SparseCoder.learn_eq ops pos rng inputCs vli s,
      SparseCoder.learn_eq ops pos' rng inputCs vli s]
    simp only [getD_set_self _ _ _ _ h, List.set_set]
    rw [SparseCoder.learnWeights_comm ops _ s.hiddenCs s.hiddenSize _ hw hpos hpos' hne]
  · have hq : ∀ q : Int2, SparseCoder.learn ops q rng inputCs vli s = s := by
      intro q
      rw [SparseCoder.learn_eq]
      simp only [List.set_eq_of_length_le (show s.visibleLayers.length ≤ vli by omega)]
    rw [hq pos, hq pos', hq pos]

theorem mem_set_getD {α : Type} (l : List α) (i : Nat) (a b : α) (h : b ∈ l.set i a) :
    b = a ∨ b ∈ l := by
  rcases List.mem_or_eq_of_mem_set h with h' | h'
  · exact Or.inr h'
  · exact Or.inl h'

theorem SparseCoder.learn_ordered {F R : Type} [LinearOrder F] (ops : FloatOps F) (pos : Int2)
    (rng : R) (inputCs : IntBuffer) (vli : Nat) (s : SparseCoder F)
    (hs : ∀ vl ∈ s.visibleLayers, vl.weights.ColumnsOrdered) :
    ∀ vl ∈ (SparseCoder.learn ops pos rng inputCs vli s).visibleLayers,
      vl.weights.ColumnsOrdered := by
  by_cases h : vli < s.visibleLayers.length
  · have hw := hs _ (getD_mem s.visibleLayers vli (SparseCoder.VisibleLayer.none F) h)
    rw [SparseCoder.learn_eq]
    intro vl hvl
    rcases mem_set_getD _ _ _ _ hvl with e | hm
    · rw [e]
      exact SparseCoder.learnWeights_ordered ops pos _ _ _ _ _ _ hw
    · exact hs vl hm
  · have hq : SparseCoder.learn ops pos rng inputCs vli s = s := by
      rw [SparseCoder.learn_eq]
      simp only [List.set_eq_of_length_le (show s.visibleLayers.length ≤ vli by omega)]
    rw [hq]
    exact hs

/-! ### The forward kernel of the sparse coder at distinct columns -/

theorem foldl_fst_dep {α β γ : Type} (f : β → α → β) (g : β → γ → α → γ) (l : List α) (b : β)
    (c : γ) :
    (l.foldl (fun (acc : β × γ) a => (f acc.1 a, g acc.1 acc.2 a)) (b, c)).1 = l.foldl f b := by
  induction l generalizing b c with
  | nil => rfl
  | cons a l ih =>
    rw [List.foldl_cons, List.foldl_cons]
    exact ih _ _

theorem getI_setI_congr {α : Type} (v v' : List α) (i k : Int) (a d : α)
    (hl : v.length = v'.length) (h : getI v k d = getI v' k d) :
    getI (setI v i a) k d = getI (setI v' i a) k d := by
  by_cases hik : i = k
  · subst hik
    by_cases h0 : 0 ≤ i
    · by_cases h1 : i < (v.length : Int)
      · rw [getI_setI_self v i a d h0 h1, getI_setI_self v' i a d h0 (by omega)]
      · have e : setI v i a = v := by
          unfold setI
          simp only [h0, if_true]
          exact List.set_eq_of_length_le (by omega)
        have e' : setI v' i a = v' := by
          unfold setI
          simp only [h0, if_true]
          exact List.set_eq_of_length_le (by omega)
        rw [e, e']
        exact h
    · have e : setI v i a = v := by
        unfold setI
        simp only [h0, if_false]
      have e' : setI v' i a = v' := by
        unfold setI
        simp only [h0, if_false]
      rw [e, e']
      exact h
  · rw [getI_setI_ne _ _ _ _ _ hik, getI_setI_ne _ _ _ _ _ hik]
    exact h

/-- The activations after the loop of `SparseCoder::forward`, started from the
activations `acts`: the fold of the writes of the loop. -/
theorem SparseCoder.forwardLoop_fst {F : Type} [LinearOrder F] (ops : FloatOps F) (pos : Int2)
    (inputCs : List IntBuffer) (it : Int) (s : SparseCoder F) (acts : FloatBuffer F) :
    (SparseCoder.forwardLoop ops pos inputCs it { s with hiddenActivations := acts }).1
      = (intRange 0 s.hiddenSize.z).foldl
          (fun (acts : FloatBuffer F) hc =>
            if it = 0 then
              setI acts (address3 ⟨pos.x, pos.y, hc⟩ s.hiddenSize)
                (s.forwardSum ops inputCs it (address3 ⟨pos.x, pos.y, hc⟩ s.hiddenSize))
            else
              setI acts (address3 ⟨pos.x, pos.y, hc⟩ s.hiddenSize)
                (ops.add (getI acts (address3 ⟨pos.x, pos.y, hc⟩ s.hiddenSize) (ops.ofInt 0))
                  (s.forwardSum ops inputCs it (address3 ⟨pos.x, pos.y, hc⟩ s.hiddenSize))))
          acts :=
  foldl_fst_dep
    (fun (acts : FloatBuffer F) hc =>
      if it = 0 then
        setI acts (address3 ⟨pos.x, pos.y, hc⟩ s.hiddenSize)
          (s.forwardSum ops inputCs it (address3 ⟨pos.x, pos.y, hc⟩ s.hiddenSize))
      else
        setI acts (address3 ⟨pos.x, pos.y, hc⟩ s.hiddenSize)
          (ops.add (getI acts (address3 ⟨pos.x, pos.y, hc⟩ s.hiddenSize) (ops.ofInt 0))
            (s.forwardSum ops inputCs it (address3 ⟨pos.x, pos.y, hc⟩ s.hiddenSize))))
    (fun (acts : FloatBuffer F) (m : Int × F) hc =>
      maxStep m hc
        (getI
          (if it = 0 then
            setI acts (address3 ⟨pos.x, pos.y, hc⟩ s.hiddenSize)
              (s.forwardSum ops inputCs it (address3 ⟨pos.x, pos.y, hc⟩ s.hiddenSize))
          else
            setI acts (address3 ⟨pos.x, pos.y, hc⟩ s.hiddenSize)
              (ops.add (getI acts (address3 ⟨pos.x, pos.y, hc⟩ s.hiddenSize) (ops.ofInt 0))
                (s.forwardSum ops inputCs it (address3 ⟨pos.x, pos.y, hc⟩ s.hiddenSize))))
          (address3 ⟨pos.x, pos.y, hc⟩ s.hiddenSize) (ops.ofInt 0)))
    (intRange 0 s.hiddenSize.z) acts (0, ops.ofInt (-999999))

/-- The winner found by the loop of `SparseCoder::forward` depends on the
activations it starts from only through their number and their values at the
cells of its own column. -/
theorem SparseCoder.forwardLoop_snd_congr {F : Type} [LinearOrder F] (ops : FloatOps F)
    (pos : Int2) (inputCs : List IntBuffer) (it : Int) (s : SparseCoder F)
    (acts acts' : FloatBuffer F) (hl : acts.length = acts'.length)
    (h : ∀ hc ∈ intRange 0 s.hiddenSize.z,
      getI acts (address3 ⟨pos.x, pos.y, hc⟩ s.hiddenSize) (ops.ofInt 0)
        = getI acts' (address3 ⟨pos.x, pos.y, hc⟩ s.hiddenSize) (ops.ofInt 0)) :
    (SparseCoder.forwardLoop ops pos inputCs it { s with hiddenActivations := acts }).2
      = (SparseCoder.forwardLoop ops pos inputCs it { s with hiddenActivations := acts' }).2 := by
  unfold SparseCoder.forwardLoop
  refine (foldl_rel
    (fun (a b : FloatBuffer F × (Int × F)) => a.2 = b.2 ∧ a.1.length = b.1.length
      ∧ ∀ hc ∈ intRange 0 s.hiddenSize.z,
        getI a.1 (address3 ⟨pos.x, pos.y, hc⟩ s.hiddenSize) (ops.ofInt 0)
          = getI b.1 (address3 ⟨pos.x, pos.y, hc⟩ s.hiddenSize) (ops.ofInt 0))
    _ _ _ ?_ (acts, (0, ops.ofInt (-999999))) (acts', (0, ops.ofInt (-999999)))
    ⟨rfl, hl, h⟩).1
  rintro ⟨a1, a2⟩ ⟨b1, b2⟩ hc hhc ⟨h1, h2, h3⟩
  simp only at h1 h2 h3
  subst h1
  have e := h3 hc hhc
  have hS : ∀ (a : FloatBuffer F) (it idx : Int),
      SparseCoder.forwardSum ops { s with hiddenActivations := a } inputCs it idx
        = SparseCoder.forwardSum ops s inputCs it idx := fun _ _ _ => rfl
  simp only [hS]
  by_cases hit : it = 0
  · simp only [hit, if_true]
    refine ⟨?_, ?_, ?_⟩
    · rw [getI_setI_congr a1 b1 _ _ _ _ h2 e]
    · rw [length_setI, length_setI, h2]
    · intro hc' hhc'
      exact getI_setI_congr a1 b1 _ _ _ _ h2 (h3 hc' hhc')
  · simp only [hit, if_false]
    rw [e]
    refine ⟨?_, ?_, ?_⟩
    · rw [getI_setI_congr a1 b1 _ _ _ _ h2 e]
    · rw [length_setI, length_setI, h2]
    · intro hc' hhc'
      exact getI_setI_congr a1 b1 _ _ _ _ h2 (h3 hc' hhc')

theorem writes_length {α β : Type} (idx : α → Int) (val : α → β → β) (d : β) (l : List α)
    (v : List β) :
    (l.foldl (fun v a => setI v (idx a) (val a (getI v (idx a) d))) v).length = v.length := by
  induction l generalizing v with
  | nil => rfl
  | cons a l ih => rw [List.foldl_cons, ih, length_setI]

/-- A run of writes leaves the elements at the other indices as they were. -/
theorem writes_getI_other {α β : Type} (idx : α → Int) (val : α → β → β) (d d' : β)
    (l : List α) (k : Int) (h : ∀ a ∈ l, idx a ≠ k) (v : List β) :
    getI (l.foldl (fun v a => setI v (idx a) (val a (getI v (idx a) d))) v) k d'
      = getI v k d' := by
  induction l generalizing v with
  | nil => rfl
  | cons a l ih =>
    rw [List.foldl_cons, ih (fun a' ha' => h a' (List.mem_cons_of_mem _ ha')),
      getI_setI_ne _ _ _ _ _ (h a (List.mem_cons_self _ _))]

/-- Two runs of read-modify-write steps at disjoint indices commute. -/
theorem writes_comm {α α' β : Type} (idx : α → Int) (val : α → β → β) (idx' : α' → Int)
    (val' : α' → β → β) (d : β) (l : List α) (l' : List α')
    (h : ∀ a ∈ l, ∀ b ∈ l', idx a ≠ idx' b) (v : List β) :
    l'.foldl (fun v b => setI v (idx' b) (val' b (getI v (idx' b) d)))
        (l.foldl (fun v a => setI v (idx a) (val a (getI v (idx a) d))) v)
      = l.foldl (fun v a => setI v (idx a) (val a (getI v (idx a) d)))
        (l'.foldl (fun v b => setI v (idx' b) (val' b (getI v (idx' b) d))) v) := by
  apply foldl_foldl_comm _ _ (fun _ => True) (fun _ _ _ => trivial) (fun _ _ _ => trivial) l l'
    _ v trivial
  intro a ha b hb s _
  have hne := h a ha b hb
  rw [getI_setI_ne _ _ _ _ _ hne, getI_setI_ne _ _ _ _ _ (fun e => hne e.symm),
    setI_comm _ _ _ _ _ hne]

/-- The activations after the loop of `SparseCoder::forward` as a run of
read-modify-write steps on the cells of the column: each cell receives a value
computed from its own previous value. -/
theorem SparseCoder.forwardLoop_writes {F : Type} [LinearOrder F] (ops : FloatOps F) (pos : Int2)
    (inputCs : List IntBuffer) (it : Int) (s : SparseCoder F) :
    ∃ val : Int → F → F, ∀ acts : FloatBuffer F,
      (SparseCoder.forwardLoop ops pos inputCs it { s with hiddenActivations := acts }).1
        = (intRange 0 s.hiddenSize.z).foldl
            (fun (acts : FloatBuffer F) hc =>
              setI acts (address3 ⟨pos.x, pos.y, hc⟩ s.hiddenSize)
                (val hc (getI acts (address3 ⟨pos.x, pos.y, hc⟩ s.hiddenSize) (ops.ofInt 0))))
            acts := by
  refine ⟨fun hc x =>
    if it = 0 then s.forwardSum ops inputCs it (address3 ⟨pos.x, pos.y, hc⟩ s.hiddenSize)
    else ops.add x (s.forwardSum ops inputCs it (address3 ⟨pos.x, pos.y, hc⟩ s.hiddenSize)), ?_⟩
  intro acts
  rw [SparseCoder.forwardLoop_fst]
  congr 1
  funext a hc
  by_cases hit : it = 0
  · simp only [hit, if_true]
  · simp only [hit, if_false]

theorem SparseCoder.forwardLoop_snd_other {F : Type} [LinearOrder F] (ops : FloatOps F)
    (inputCs : List IntBuffer) (it : Int) (s : SparseCoder F) (acts : FloatBuffer F)
    {pos pos' : Int2} (hpos : pos ∈ domain2 ⟨s.hiddenSize.x, s.hiddenSize.y⟩)
    (hpos' : pos' ∈ domain2 ⟨s.hiddenSize.x, s.hiddenSize.y⟩) (hne : pos ≠ pos') :
    (SparseCoder.forwardLoop ops pos' inputCs it
        { s with
          hiddenActivations :=
            (SparseCoder.forwardLoop ops pos inputCs it { s with hiddenActivations := acts }).1 }).2
      = (SparseCoder.forwardLoop ops pos' inputCs it { s with hiddenActivations := acts }).2 := by
  obtain ⟨val, hval⟩ := SparseCoder.forwardLoop_writes ops pos inputCs it s
  apply SparseCoder.forwardLoop_snd_congr
  · rw [hval]
    exact writes_length (fun hc => address3 ⟨pos.x, pos.y, hc⟩ s.hiddenSize) val _ _ _
  · intro hc' hhc'
    rw [hval]
    exact writes_getI_other (fun hc => address3 ⟨pos.x, pos.y, hc⟩ s.hiddenSize) val _ _ _ _
      (fun hc hhc => address3_column_ne hpos hpos' hne hhc hhc') _

theorem SparseCoder.forwardLoop_fst_comm {F : Type} [LinearOrder F] (ops : FloatOps F)
    (inputCs : List IntBuffer) (it : Int) (s : SparseCoder F) (acts : FloatBuffer F)
    {pos pos' : Int2} (hpos : pos ∈ domain2 ⟨s.hiddenSize.x, s.hiddenSize.y⟩)
    (hpos' : pos' ∈ domain2 ⟨s.hiddenSize.x, s.hiddenSize.y⟩) (hne : pos ≠ pos') :
    (SparseCoder.forwardLoop ops pos' inputCs it
        { s with
          hiddenActivations :=
            (SparseCoder.forwardLoop ops pos inputCs it { s with hiddenActivations := acts }).1 }).1
      = (SparseCoder.forwardLoop ops pos inputCs it
        { s with
          hiddenActivations :=
            (SparseCoder.forwardLoop ops pos' inputCs it
              { s with hiddenActivations := acts }).1 }).1 := by
  obtain ⟨val, hval⟩ := SparseCoder.forwardLoop_writes ops pos inputCs it s
  obtain ⟨val', hval'⟩ := SparseCoder.forwardLoop_writes ops pos' inputCs it s
  rw [hval, hval', hval, hval']
  exact writes_comm (fun hc => address3 ⟨pos.x, pos.y, hc⟩ s.hiddenSize) val
    (fun hc => address3 ⟨pos'.x, pos'.y, hc⟩ s.hiddenSize) val' _ _ _
    (fun hc hhc hc' hhc' => address3_column_ne hpos hpos' hne hhc hhc') _

/-- The forward kernels of two distinct hidden columns commute. -/
theorem sparseCoder_forward_comm {F R : Type} [LinearOrder F] (ops : FloatOps F) (rng : R)
    (inputCs : List IntBuffer) (it : Int) (s : SparseCoder F) {pos pos' : Int2}
    (hpos : pos ∈ domain2 ⟨s.hiddenSize.x, s.hiddenSize.y⟩)
    (hpos' : pos' ∈ domain2 ⟨s.hiddenSize.x, s.hiddenSize.y⟩) (hne : pos ≠ pos') :
    SparseCoder.forward ops pos' rng inputCs it (SparseCoder.forward ops pos rng inputCs it s)
      = SparseCoder.forward ops pos rng inputCs it
          (SparseCoder.forward ops pos' rng inputCs it s) := by
  have key : ∀ q q' : Int2,
      SparseCoder.forward ops q' rng inputCs it (SparseCoder.forward ops q rng inputCs it s)
        = { s with
            hiddenActivations :=
              (SparseCoder.forwardLoop ops q' inputCs it
                { s with
                  hiddenActivations :=
                    (SparseCoder.forwardLoop ops q inputCs it
                      { s with hiddenActivations := s.hiddenActivations }).1 }).1
            hiddenCs :=
              setI
                (setI s.hiddenCs (address2 q ⟨s.hiddenSize.x, s.hiddenSize.y⟩)
                  (SparseCoder.forwardLoop ops q inputCs it
                    { s with hiddenActivations := s.hiddenActivations }).2.1)
                (address2 q' ⟨s.hiddenSize.x, s.hiddenSize.y⟩)
                (SparseCoder.forwardLoop ops q' inputCs it
                  { s with
                    hiddenActivations :=
                      (SparseCoder.forwardLoop ops q inputCs it
                        { s with hiddenActivations := s.hiddenActivations }).1 }).2.1 } :=
    fun _ _ => rfl
  rw [key pos pos', key pos' pos,
    SparseCoder.forwardLoop_snd_other ops inputCs it s _ hpos hpos' hne,
    SparseCoder.forwardLoop_snd_other ops inputCs it s _ hpos' hpos (fun h => hne h.symm),
    SparseCoder.forwardLoop_fst_comm ops inputCs it s _ hpos hpos' hne,
    setI_comm _ _ _ _ _ (address2_ne hpos hpos' hne)]

/-! ### The two execution modes of the sparse coder -/

theorem SparseCoder.backward_ordered {F R : Type} [LinearOrder F] (ops : FloatOps F) (pos : Int2)
    (rng : R) (inputCs : IntBuffer) (vli : Nat) (s : SparseCoder F)
    (hs : ∀ vl ∈ s.visibleLayers, vl.weights.ColumnsOrdered) :
    ∀ vl ∈ (SparseCoder.backward ops pos rng inputCs vli s).visibleLayers,
      vl.weights.ColumnsOrdered := by
  by_cases h : vli < s.visibleLayers.length
  · have hw := hs _ (getD_mem s.visibleLayers vli (SparseCoder.VisibleLayer.none F) h)
    unfold SparseCoder.backward
    intro vl hvl
    rcases mem_set_getD _ _ _ _ hvl with e | hm
    · rw [e]
      exact hw
    · exact hs vl hm
  · have hq : SparseCoder.backward ops pos rng inputCs vli s = s := by
      unfold SparseCoder.backward
      simp only [List.set_eq_of_length_le (show s.visibleLayers.length ≤ vli by omega)]
    rw [hq]
    exact hs

/-- A launch in the two modes from the same state: the states after it are the
same, the batch sizes are unchanged and the invariant is kept. -/
theorem launch2_modes_inv {R σ : Type} (M : RngOps R) (k : Int2 → R → σ → σ)
    (hk : ∀ p r r' s, k p r s = k p r' s) (size : Int2) (c c' : ComputeSystem R)
    (hb : 1 ≤ c'.batchSize2.x ∧ 1 ≤ c'.batchSize2.y) (Inv : σ → Prop)
    (hInv : ∀ p r s, Inv s → Inv (k p r s))
    (hcomm : ∀ p ∈ domain2 size, ∀ p' ∈ domain2 size, p ≠ p' → ∀ s, Inv s → ∀ r,
      k p' r (k p r s) = k p r (k p' r s))
    (s : σ) (hs : Inv s) :
    (launch2 M true k size c s).1 = (launch2 M false k size c' s).1
      ∧ (1 ≤ (launch2 M false k size c' s).2.batchSize2.x
        ∧ 1 ≤ (launch2 M false k size c' s).2.batchSize2.y)
      ∧ Inv (launch2 M false k size c' s).1 := by
  refine ⟨launch2_modes M k hk size c c' hb Inv hInv hcomm s hs, ?_,
    launch2_preserves M false k hk size c' Inv hInv s hs⟩
  rw [launch2_snd]
  exact hb

/-- The forward launch of `SparseCoder::step` in the two modes. -/
theorem sparseCoder_forward_launch_modes {F R : Type} [LinearOrder F] (M : RngOps R)
    (ops : FloatOps F) (inputCs : List IntBuffer) (it : Int)
    (a b : SparseCoder F × ComputeSystem R) (hab : SparseCoder.Agree a b) :
    SparseCoder.Agree
      (launch2 M true (fun pos rng s => SparseCoder.forward ops pos rng inputCs it s)
        ⟨a.1.hiddenSize.x, a.1.hiddenSize.y⟩ a.2 a.1)
      (launch2 M false (fun pos rng s => SparseCoder.forward ops pos rng inputCs it s)
        ⟨b.1.hiddenSize.x, b.1.hiddenSize.y⟩ b.2 b.1) := by
  obtain ⟨a1, a2⟩ := a
  obtain ⟨b1, b2⟩ := b
  obtain ⟨h1, h2, h3⟩ := hab
  simp only at h1 h2 h3
  subst h1
  have h := launch2_modes_inv M (fun pos rng s => SparseCoder.forward ops pos rng inputCs it s)
    (fun _ _ _ _ => rfl) ⟨a1.hiddenSize.x, a1.hiddenSize.y⟩ a2 b2 h2
    (fun q => q.hiddenSize = a1.hiddenSize ∧ ∀ vl ∈ q.visibleLayers, vl.weights.ColumnsOrdered)
    (fun _ _ _ hq => hq)
    (fun pos hpos pos' hpos' hne q hq r => by
      rw [← hq.1] at hpos hpos'
      exact sparseCoder_forward_comm ops r inputCs it q hpos hpos' hne)
    a1 ⟨rfl, h3⟩
  exact ⟨h.1, h.2.1, h.2.2.2⟩

/-- A backward launch of `SparseCoder::step` in the two modes. -/
theorem SparseCoder.backward_launch_modes {F R : Type} [LinearOrder F] (M : RngOps R)
    (ops : FloatOps F) (inputCs : IntBuffer) (vli : Nat)
    (a b : SparseCoder F × ComputeSystem R) (hab : SparseCoder.Agree a b) :
    SparseCoder.Agree
      (launch2 M true (fun pos rng s => SparseCoder.backward ops pos rng inputCs vli s)
        ⟨(a.1.visibleLayerDescs.getD vli VisibleLayerDesc.none).size.x,
          (a.1.visibleLayerDescs.getD vli VisibleLayerDesc.none).size.y⟩ a.2 a.1)
      (launch2 M false (fun pos rng s => SparseCoder.backward ops pos rng inputCs vli s)
        ⟨(b.1.visibleLayerDescs.getD vli VisibleLayerDesc.none).size.x,
          (b.1.visibleLayerDescs.getD vli VisibleLayerDesc.none).size.y⟩ b.2 b.1) := by
  obtain ⟨a1, a2⟩ := a
  obtain ⟨b1, b2⟩ := b
  obtain ⟨h1, h2, h3⟩ := hab
  simp only at h1 h2 h3
  subst h1
  have h := launch2_modes_inv M
    (fun pos rng s => SparseCoder.backward ops pos rng inputCs vli s)
    (fun _ _ _ _ => rfl)
    ⟨(a1.visibleLayerDescs.getD vli VisibleLayerDesc.none).size.x,
      (a1.visibleLayerDescs.getD vli VisibleLayerDesc.none).size.y⟩ a2 b2 h2
    (fun q => q.visibleLayerDescs = a1.visibleLayerDescs
      ∧ ∀ vl ∈ q.visibleLayers, vl.weights.ColumnsOrdered)
    (fun pos r q hq => ⟨hq.1, SparseCoder.backward_ordered ops pos r inputCs vli q hq.2⟩)
    (fun pos hpos pos' hpos' hne q hq r => by
      rw [← hq.1] at hpos hpos'
      exact SparseCoder.backward_comm ops r inputCs vli q hpos hpos' hne)
    a1 ⟨rfl, h3⟩
  exact ⟨h.1, h.2.1, h.2.2.2⟩

/-- A learn launch of `SparseCoder::step` in the two modes. -/
theorem SparseCoder.learn_launch_modes {F R : Type} [LinearOrder F] (M : RngOps R)
    (ops : FloatOps F) (inputCs : IntBuffer) (vli : Nat)
    (a b : SparseCoder F × ComputeSystem R) (hab : SparseCoder.Agree a b) :
    SparseCoder.Agree
      (launch2 M true (fun pos rng s => SparseCoder.learn ops pos rng inputCs vli s)
        ⟨(a.1.visibleLayerDescs.getD vli VisibleLayerDesc.none).size.x,
          (a.1.visibleLayerDescs.getD vli VisibleLayerDesc.none).size.y⟩ a.2 a.1)
      (launch2 M false (fun pos rng s => SparseCoder.learn ops pos rng inputCs vli s)
        ⟨(b.1.visibleLayerDescs.getD vli VisibleLayerDesc.none).size.x,
          (b.1.visibleLayerDescs.getD vli VisibleLayerDesc.none).size.y⟩ b.2 b.1) := by
  obtain ⟨a1, a2⟩ := a
  obtain ⟨b1, b2⟩ := b
  obtain ⟨h1, h2, h3⟩ := hab
  simp only at h1 h2 h3
  subst h1
  have h := launch2_modes_inv M
    (fun pos rng s => SparseCoder.learn ops pos rng inputCs vli s)
    (fun _ _ _ _ => rfl)
    ⟨(a1.visibleLayerDescs.getD vli VisibleLayerDesc.none).size.x,
      (a1.visibleLayerDescs.getD vli VisibleLayerDesc.none).size.y⟩ a2 b2 h2
    (fun q => q.visibleLayerDescs = a1.visibleLayerDescs
      ∧ ∀ vl ∈ q.visibleLayers, vl.weights.ColumnsOrdered)
    (fun pos r q hq => ⟨(SparseCoder.learn_frame ops pos r inputCs vli q).2.1.trans hq.1,
      SparseCoder.learn_ordered ops pos r inputCs vli q hq.2⟩)
    (fun pos hpos pos' hpos' hne q hq r => by
      rw [← hq.1] at hpos hpos'
      exact SparseCoder.learn_comm ops r inputCs vli q hq.2 hpos hpos' hne)
    a1 ⟨rfl, h3⟩
  exact ⟨h.1, h.2.1, h.2.2.2⟩

/-- `SparseCoder::step` ends in the same state in both execution modes. -/
theorem SparseCoder.step_modes {F R : Type} [LinearOrder F] (M : RngOps R) (ops : FloatOps F)
    (c c' : ComputeSystem R) (hb : 1 ≤ c'.batchSize2.x ∧ 1 ≤ c'.batchSize2.y)
    (inputCs : List IntBuffer) (learnEnabled : Bool) (s : SparseCoder F)
    (hs : ∀ vl ∈ s.visibleLayers, vl.weights.ColumnsOrdered) :
    (SparseCoder.step M ops true c inputCs learnEnabled s).1
      = (SparseCoder.step M ops false c' inputCs learnEnabled s).1 := by
  have hexp := foldl_rel (@SparseCoder.Agree F R)
    (fun (acc : SparseCoder F × ComputeSystem R) it =>
      if it < acc.1.explainIters - 1 then
        (List.range (launch2 M true
            (fun pos rng s => SparseCoder.forward ops pos rng inputCs it s)
            ⟨acc.1.hiddenSize.x, acc.1.hiddenSize.y⟩ acc.2 acc.1).1.visibleLayers.length).foldl
          (fun (acc : SparseCoder F × ComputeSystem R) vli =>
            launch2 M true
              (fun pos rng s => SparseCoder.backward ops pos rng (inputCs.getD vli []) vli s)
              ⟨(acc.1.visibleLayerDescs.getD vli VisibleLayerDesc.none).size.x,
                (acc.1.visibleLayerDescs.getD vli VisibleLayerDesc.none).size.y⟩ acc.2 acc.1)
          (launch2 M true (fun pos rng s => SparseCoder.forward ops pos rng inputCs it s)
            ⟨acc.1.hiddenSize.x, acc.1.hiddenSize.y⟩ acc.2 acc.1)
      else
        launch2 M true (fun pos rng s => SparseCoder.forward ops pos rng inputCs it s)
          ⟨acc.1.hiddenSize.x, acc.1.hiddenSize.y⟩ acc.2 acc.1)
    (fun (acc : SparseCoder F × ComputeSystem R) it =>
      if it < acc.1.explainIters - 1 then
        (List.range (launch2 M false
            (fun pos rng s => SparseCoder.forward ops pos rng inputCs it s)
            ⟨acc.1.hiddenSize.x, acc.1.hiddenSize.y⟩ acc.2 acc.1).1.visibleLayers.length).foldl
          (fun (acc : SparseCoder F × ComputeSystem R) vli =>
            launch2 M false
              (fun pos rng s => SparseCoder.backward ops pos rng (inputCs.getD vli []) vli s)
              ⟨(acc.1.visibleLayerDescs.getD vli VisibleLayerDesc.none).size.x,
                (acc.1.visibleLayerDescs.getD vli VisibleLayerDesc.none).size.y⟩ acc.2 acc.1)
          (launch2 M false (fun pos rng s => SparseCoder.forward ops pos rng inputCs it s)
            ⟨acc.1.hiddenSize.x, acc.1.hiddenSize.y⟩ acc.2 acc.1)
      else
        launch2 M false (fun pos rng s => SparseCoder.forward ops pos rng inputCs it s)
          ⟨acc.1.hiddenSize.x, acc.1.hiddenSize.y⟩ acc.2 acc.1)
    (intRange 0 s.explainIters)
    (by
      rintro ⟨a1, a2⟩ ⟨b1, b2⟩ it _ hab
      have e1 : a1 = b1 := hab.1
      subst e1
      have hf := sparseCoder_forward_launch_modes M ops inputCs it (a1, a2) (a1, b2) hab
      simp only [] at hf ⊢
      rw [hf.1]
      split
      · exact foldl_rel (@SparseCoder.Agree F R) _ _ _
          (fun a' b' vli _ hab' =>
            SparseCoder.backward_launch_modes M ops (inputCs.getD vli []) vli a' b' hab') _ _ hf
      · exact hf)
    (s, c) (s, c') ⟨rfl, hb, hs⟩
  unfold SparseCoder.step
  simp only []
  cases learnEnabled
  · simp only [Bool.false_eq_true, if_false]
    exact hexp.1
  · simp only [if_true]
    rw [hexp.1]
    exact (foldl_rel (@SparseCoder.Agree F R) _ _ _
      (fun a' b' vli _ hab' =>
        SparseCoder.learn_launch_modes M ops (inputCs.getD vli []) vli a' b' hab') _ _ hexp).1

/-! ### Claims on the execution modes -/

/-- C7: for batch sizes of at least one, a predictor whose weight matrices have
ordered rows and a sparse coder whose weight matrices have an ordered transpose
view, `SparseCoder::step`, `Predictor::activate` and `Predictor::learn` leave
the same state (`hiddenCs`, `hiddenActivations`, `inputErrors`, `inputCsPrev`
and all weights) through the non-parallel (`KERNEL_NO_THREAD`) path as through
the batched `runKernel1`/`runKernel2` path, for every input. -/
theorem noThread_same_state {F R : Type} [LinearOrder F] (M : RngOps R) (ops : FloatOps F)
    (cs : ComputeSystem R) (hb1 : 1 ≤ cs.batchSize1)
    (hb2 : 1 ≤ cs.batchSize2.x ∧ 1 ≤ cs.batchSize2.y) (inputCs : List IntBuffer)
    (hiddenTargetCs : IntBuffer) (learnEnabled : Bool) (p : Predictor F) (s : SparseCoder F)
    (hp : ∀ vl ∈ p.visibleLayers, vl.weights.RowsOrdered)
    (hs : ∀ vl ∈ s.visibleLayers, vl.weights.ColumnsOrdered) :
    (SparseCoder.step M ops true cs inputCs learnEnabled s).1
        = (SparseCoder.step M ops false cs inputCs learnEnabled s).1
      ∧ (Predictor.activate M ops true cs inputCs p).1
        = (Predictor.activate M ops false cs inputCs p).1
      ∧ (Predictor.learn M ops true cs hiddenTargetCs p).1
        = (Predictor.learn M ops false cs hiddenTargetCs p).1 :=
  ⟨SparseCoder.step_modes M ops cs cs hb2 inputCs learnEnabled s hs,
    Predictor.activate_modes M ops cs cs hb1 hb2 inputCs p,
    Predictor.learn_modes M ops cs cs hb2 hiddenTargetCs p hp⟩

theorem noThread_same_state_witness :
    ((1 : Int) ≤ 1 ∧ ((1 : Int) ≤ 2 ∧ (1 : Int) ≤ 1)
      ∧ (∀ vl ∈ examplePredictor.visibleLayers, vl.weights.RowsOrdered)
      ∧ (∀ vl ∈ exampleSparseCoder.visibleLayers, vl.weights.ColumnsOrdered))
    ∧ ((SparseCoder.step counterRng intOps true ⟨0, 1, ⟨2, 1⟩⟩ [[0, 0, 0, 0]] true
          exampleSparseCoder).1
        = (SparseCoder.step counterRng intOps false ⟨0, 1, ⟨2, 1⟩⟩ [[0, 0, 0, 0]] true
          exampleSparseCoder).1
      ∧ (Predictor.activate counterRng intOps true ⟨0, 1, ⟨2, 1⟩⟩ [[0, 0, 0, 0]]
          examplePredictor).1
        = (Predictor.activate counterRng intOps false ⟨0, 1, ⟨2, 1⟩⟩ [[0, 0, 0, 0]]
          examplePredictor).1
      ∧ (Predictor.learn counterRng intOps true ⟨0, 1, ⟨2, 1⟩⟩ [0, 0, 0, 0]
          examplePredictor).1
        = (Predictor.learn counterRng intOps false ⟨0, 1, ⟨2, 1⟩⟩ [0, 0, 0, 0]
          examplePredictor).1) := by
  have hp : ∀ vl ∈ examplePredictor.visibleLayers, vl.weights.RowsOrdered := by
    intro vl hvl
    have e : vl = ⟨exampleMatrix, [0, 0, 0, 0]⟩ := List.mem_singleton.mp hvl
    rw [e]
    exact ⟨by decide, by decide⟩
  have hs : ∀ vl ∈ exampleSparseCoder.visibleLayers, vl.weights.ColumnsOrdered := by
    intro vl hvl
    have e : vl = ⟨exampleMatrix, [0, 0, 0, 0]⟩ := List.mem_singleton.mp hvl
    rw [e]
    exact ⟨by decide, by decide, by decide⟩
  exact ⟨⟨by decide, ⟨by decide, by decide⟩, hp, hs⟩,
    noThread_same_state counterRng intOps ⟨0, 1, ⟨2, 1⟩⟩ (by decide) ⟨by decide, by decide⟩
      [[0, 0, 0, 0]] [0, 0, 0, 0] true examplePredictor exampleSparseCoder hp hs⟩

/-! ### The update rule of the predictor -/

theorem sameButValues_refl {F : Type} (p : Predictor F) : Predictor.SameButValues p p :=
  ⟨rfl, rfl, rfl, rfl, rfl⟩

theorem sameButValues_trans {F : Type} {p q r : Predictor F}
    (h1 : Predictor.SameButValues p q) (h2 : Predictor.SameButValues q r) :
    Predictor.SameButValues p r :=
  ⟨h2.1.trans h1.1, h2.2.1.trans h1.2.1, h2.2.2.1.trans h1.2.2.1, h2.2.2.2.1.trans h1.2.2.2.1,
    h2.2.2.2.2.trans h1.2.2.2.2⟩

theorem getD_of_map_eq {α β : Type} (g : α → β) (l l' : List α) (h : l.map g = l'.map g)
    (i : Nat) (d : α) : g (l.getD i d) = g (l'.getD i d) := by
  have hlen : l.length = l'.length := by
    have := congrArg List.length h
    simpa using this
  by_cases hi : i < l.length
  · have hi' : i < l'.length := by omega
    rw [List.getD_eq_getElem _ _ hi, List.getD_eq_getElem _ _ hi']
    have e : (l.map g)[i]? = (l'.map g)[i]? := by rw [h]
    rw [List.getElem?_map, List.getElem?_map, List.getElem?_eq_getElem hi,
      List.getElem?_eq_getElem hi'] at e
    simpa using e
  · rw [List.getD_eq_default _ _ (by omega), List.getD_eq_default _ _ (by omega)]

theorem Predictor.SameButValues.layer_eq {F : Type} {p q : Predictor F}
    (h : Predictor.SameButValues p q) (vli : Nat) :
    (q.layer vli).weights.pattern = (p.layer vli).weights.pattern
      ∧ (q.layer vli).inputCsPrev = (p.layer vli).inputCsPrev
      ∧ (q.layer vli).weights.nonZeroValues.length
        = (p.layer vli).weights.nonZeroValues.length := by
  have e := getD_of_map_eq
    (fun (vl : Predictor.VisibleLayer F) =>
      (vl.weights.pattern, vl.inputCsPrev, vl.weights.nonZeroValues.length))
    _ _ h.2.2.2.2 vli (Predictor.VisibleLayer.none F)
  simp only [Prod.mk.injEq] at e
  exact e

theorem Predictor.SameButValues.length_eq {F : Type} {p q : Predictor F}
    (h : Predictor.SameButValues p q) : q.visibleLayers.length = p.visibleLayers.length := by
  have := congrArg List.length h.2.2.2.2
  simpa using this

theorem selected_of_pattern {F : Type} {m m' : SparseMatrix F} (h : m'.pattern = m.pattern)
    (code : IntBuffer) (row oneHotSize : Int) :
    m'.selected code row oneHotSize = m.selected code row oneHotSize := by
  have e : ∀ w : SparseMatrix F, w.selected code row oneHotSize
      = w.pattern.selected code row oneHotSize := fun _ => rfl
  rw [e m', e m, h]

theorem count_of_pattern {F : Type} {m m' : SparseMatrix F} (h : m'.pattern = m.pattern)
    (row : Int) : m'.count row = m.count row := by
  have e : ∀ w : SparseMatrix F, w.count row = w.pattern.count row := fun _ => rfl
  rw [e m', e m, h]

theorem rowsOrdered_of_pattern {F : Type} {m m' : SparseMatrix F} (h : m'.pattern = m.pattern)
    (hm : m.RowsOrdered) : m'.RowsOrdered := by
  have e : m'.rowRanges = m.rowRanges := by
    have e1 : ∀ w : SparseMatrix F, w.rowRanges = w.pattern.rowRanges := fun _ => rfl
    rw [e1 m', e1 m, h]
  unfold SparseMatrix.RowsOrdered
  rw [e]
  exact hm

theorem map_mapIdx_of_eq {α β : Type} (g : α → β) (f : Nat → α → α) (l : List α)
    (h : ∀ i a, g (f i a) = g a) : (l.mapIdx f).map g = l.map g := by
  apply List.ext_getElem?
  intro n
  rw [List.getElem?_map, List.getElem?_map, List.getElem?_mapIdx]
  cases l[n]? with
  | none => rfl
  | some a => simp [h]

theorem Predictor.applyDelta_sameButValues {F : Type} (ops : FloatOps F) (p : Predictor F)
    (delta : F) (row : Int) : Predictor.SameButValues p (p.applyDelta ops delta row) :=
  ⟨rfl, rfl, rfl, rfl, map_mapIdx_of_eq _ _ _ (fun _ vl => by
    show (_, _, (bumpAt ops _ _ _).length) = (_, _, _)
    rw [length_bumpAt]
    rfl)⟩

theorem sumAt_congr {F : Type} (ops : FloatOps F) (v v' : List F) (js : List Int)
    (h : ∀ j ∈ js, getI v' j (ops.ofInt 0) = getI v j (ops.ofInt 0)) :
    sumAt ops v' js = sumAt ops v js := by
  unfold sumAt
  apply List.foldl_ext
  intro sum j hj
  rw [h j hj]

/-- The sums of a row read the pattern, the previous input codes and the weights
selected in the row only. -/
theorem Predictor.learnSum_congr {F : Type} (ops : FloatOps F) {p q : Predictor F}
    (h : Predictor.SameButValues p q) (row : Int)
    (hv : ∀ vli, vli < p.visibleLayers.length →
      ∀ j ∈ (p.layer vli).weights.selected (p.layer vli).inputCsPrev row (p.desc vli).size.z,
        getI (q.layer vli).weights.nonZeroValues j (ops.ofInt 0)
          = getI (p.layer vli).weights.nonZeroValues j (ops.ofInt 0)) :
    q.learnSum ops row = p.learnSum ops row := by
  unfold Predictor.learnSum
  rw [h.length_eq]
  apply List.foldl_ext
  intro acc vli hvli
  have hlt : vli < p.visibleLayers.length := List.mem_range.mp hvli
  obtain ⟨hpat, hprev, _⟩ := h.layer_eq vli
  have hsel := selected_of_pattern hpat (p.layer vli).inputCsPrev row (p.desc vli).size.z
  have hcnt := count_of_pattern hpat row
  have hsum : (q.layer vli).weights.multiplyOHVs ops (q.layer vli).inputCsPrev row
        (q.desc vli).size.z
      = (p.layer vli).weights.multiplyOHVs ops (p.layer vli).inputCsPrev row
        (p.desc vli).size.z := by
    unfold SparseMatrix.multiplyOHVs
    have hd : q.desc vli = p.desc vli := by
      unfold Predictor.desc
      rw [h.2.1]
    rw [hprev, hd, hsel]
    exact sumAt_congr ops _ _ _ (hv vli hlt)
  have hd : q.visibleLayerDescs = p.visibleLayerDescs := h.2.1
  show (ops.add acc.1 ((q.layer vli).weights.multiplyOHVs ops (q.layer vli).inputCsPrev row
        (q.desc vli).size.z), acc.2 + ((q.layer vli).weights.count row).tdiv (q.desc vli).size.z)
      = (ops.add acc.1 ((p.layer vli).weights.multiplyOHVs ops (p.layer vli).inputCsPrev row
        (p.desc vli).size.z), acc.2 + ((p.layer vli).weights.count row).tdiv (p.desc vli).size.z)
  have hd' : q.desc vli = p.desc vli := by
    unfold Predictor.desc
    rw [hd]
  rw [hsum, hcnt, hd']

theorem getI_bumpAt_of_mem {F : Type} (ops : FloatOps F) (v : List F) (js : List Int)
    (delta : F) (j : Int) (hn : js.Nodup) (hj : j ∈ js) (h0 : 0 ≤ j)
    (h1 : j < (v.length : Int)) :
    getI (bumpAt ops v js delta) j (ops.ofInt 0) = ops.add (getI v j (ops.ofInt 0)) delta := by
  induction js generalizing v with
  | nil => exact absurd hj (List.not_mem_nil _)
  | cons a t ih =>
    rw [bumpAt_cons]
    have hat : a ∉ t := (List.nodup_cons.mp hn).1
    have hnt : t.Nodup := (List.nodup_cons.mp hn).2
    rcases List.mem_cons.mp hj with e | hjt
    · subst e
      rw [getI_bumpAt_of_not_mem ops _ t delta j _ hat, getI_setI_self _ _ _ _ h0 h1]
    · have hne : a ≠ j := by
        intro e
        rw [e] at hat
        exact hat hjt
      rw [ih _ hnt hjt (by rw [length_setI]; exact h1), getI_setI_ne _ _ _ _ _ hne]

theorem getI_nil {α : Type} (k : Int) (d : α) : getI ([] : List α) k d = d := by
  unfold getI
  split <;> rfl

theorem nodup_selected {F : Type} (m : SparseMatrix F) (code : IntBuffer)
    (row oneHotSize : Int) : (m.selected code row oneHotSize).Nodup := by
  unfold SparseMatrix.selected
  exact (nodup_intRange _ _).filter _

theorem selected_nonneg {F : Type} (m : SparseMatrix F) (hm : m.RowsOrdered) (code : IntBuffer)
    (row oneHotSize j : Int) (hj : j ∈ m.selected code row oneHotSize) : 0 ≤ j := by
  have h := (mem_selected m code row oneHotSize j hj).1
  rcases getI_mem_or_default m.rowRanges row 0 with h' | h'
  · have := hm.2 _ h'
    omega
  · omega

/-- Layer `vli` after an update of a row: its values are bumped at the selected
positions of the row. -/
theorem Predictor.applyDelta_layer {F : Type} (ops : FloatOps F) (p : Predictor F) (delta : F)
    (row : Int) (vli : Nat) :
    ((p.applyDelta ops delta row).layer vli).weights.nonZeroValues
      = bumpAt ops (p.layer vli).weights.nonZeroValues
          ((p.layer vli).weights.selected (p.layer vli).inputCsPrev row (p.desc vli).size.z)
          delta := by
  by_cases hlt : vli < p.visibleLayers.length
  · have hget : (p.applyDelta ops delta row).layer vli
        = { p.layer vli with
            weights := (p.layer vli).weights.deltaOHVs ops (p.layer vli).inputCsPrev delta row
              (p.desc vli).size.z } := by
      unfold Predictor.applyDelta Predictor.layer
      exact getD_mapIdx _ _ vli (Predictor.VisibleLayer.none F) _ hlt
    rw [hget]
    rfl
  · have e1 : (p.applyDelta ops delta row).layer vli = Predictor.VisibleLayer.none F := by
      unfold Predictor.layer
      apply List.getD_eq_default
      simp only [Predictor.applyDelta, List.length_mapIdx]
      omega
    have e2 : p.layer vli = Predictor.VisibleLayer.none F := by
      unfold Predictor.layer
      exact List.getD_eq_default _ _ (by omega)
    have e3 : (Predictor.VisibleLayer.none F).weights.selected
        (Predictor.VisibleLayer.none F).inputCsPrev row (p.desc vli).size.z = [] := by
      unfold SparseMatrix.selected
      have e4 : (Predictor.VisibleLayer.none F).weights.rowRanges = [] := rfl
      rw [e4, getI_nil, getI_nil]
      rfl
    rw [e1, e2, e3]
    rfl

/-- The pass of the learn kernel over a cell leaves the weights outside the
selected positions of the row of the cell as they were. -/
theorem Predictor.learnCell_other {F : Type} (ops : FloatOps F) (pos : Int2)
    (targetC hc : Int) (q : Predictor F) (vli : Nat) (j : Int)
    (hj : j ∉ (q.layer vli).weights.selected (q.layer vli).inputCsPrev
      (address3 ⟨pos.x, pos.y, hc⟩ q.hiddenSize) (q.desc vli).size.z) :
    getI ((Predictor.learnCell ops pos targetC hc q).layer vli).weights.nonZeroValues j
        (ops.ofInt 0)
      = getI (q.layer vli).weights.nonZeroValues j (ops.ofInt 0) := by
  unfold Predictor.learnCell
  simp only []
  rw [Predictor.applyDelta_layer]
  exact getI_bumpAt_of_not_mem ops _ _ _ j _ hj

/-- The pass of the learn kernel over a cell adds its `delta` to the weights at
the selected positions of the row of the cell. -/
theorem Predictor.learnCell_selected {F : Type} (ops : FloatOps F) (pos : Int2)
    (targetC hc : Int) (q : Predictor F) (vli : Nat) (j : Int)
    (hj : j ∈ (q.layer vli).weights.selected (q.layer vli).inputCsPrev
      (address3 ⟨pos.x, pos.y, hc⟩ q.hiddenSize) (q.desc vli).size.z)
    (h0 : 0 ≤ j) (h1 : j < ((q.layer vli).weights.nonZeroValues.length : Int)) :
    getI ((Predictor.learnCell ops pos targetC hc q).layer vli).weights.nonZeroValues j
        (ops.ofInt 0)
      = ops.add (getI (q.layer vli).weights.nonZeroValues j (ops.ofInt 0))
          (q.learnDelta ops targetC hc (address3 ⟨pos.x, pos.y, hc⟩ q.hiddenSize)) := by
  unfold Predictor.learnCell
  simp only []
  rw [Predictor.applyDelta_layer]
  exact getI_bumpAt_of_mem ops _ _ _ j (nodup_selected _ _ _ _) hj h0 h1

theorem Predictor.learnCell_sameButValues {F : Type} (ops : FloatOps F) (pos : Int2)
    (targetC hc : Int) (q : Predictor F) :
    Predictor.SameButValues q (Predictor.learnCell ops pos targetC hc q) :=
  Predictor.applyDelta_sameButValues ops q _ _

theorem Predictor.SameButValues.selected_eq {F : Type} {p q : Predictor F}
    (h : Predictor.SameButValues p q) (vli : Nat) (cell : Int3) :
    (q.layer vli).weights.selected (q.layer vli).inputCsPrev (address3 cell q.hiddenSize)
        (q.desc vli).size.z
      = (p.layer vli).weights.selected (p.layer vli).inputCsPrev (address3 cell p.hiddenSize)
        (p.desc vli).size.z := by
  obtain ⟨hpat, hprev, _⟩ := h.layer_eq vli
  have hd : q.desc vli = p.desc vli := by
    unfold Predictor.desc
    rw [h.2.1]
  rw [hprev, hd, h.1]
  exact selected_of_pattern hpat _ _ _

/-- A run of passes over cells whose rows do not select the position `j` of layer
`vli` leaves the weight at `j` as it was. -/
theorem Predictor.cells_fold_other {F : Type} (ops : FloatOps F) (tgt : IntBuffer)
    (p : Predictor F) (vli : Nat) (j : Int) (cs : List (Int2 × Int))
    (h : ∀ c ∈ cs, j ∉ (p.layer vli).weights.selected (p.layer vli).inputCsPrev
      (address3 ⟨c.1.x, c.1.y, c.2⟩ p.hiddenSize) (p.desc vli).size.z)
    (q : Predictor F) (hq : Predictor.SameButValues p q) :
    Predictor.SameButValues p
        (cs.foldl (fun q (c : Int2 × Int) => Predictor.learnCell ops c.1
          (getI tgt (address2 c.1 ⟨p.hiddenSize.x, p.hiddenSize.y⟩) 0) c.2 q) q)
      ∧ getI ((cs.foldl (fun q (c : Int2 × Int) => Predictor.learnCell ops c.1
          (getI tgt (address2 c.1 ⟨p.hiddenSize.x, p.hiddenSize.y⟩) 0) c.2 q) q).layer
            vli).weights.nonZeroValues j (ops.ofInt 0)
        = getI (q.layer vli).weights.nonZeroValues j (ops.ofInt 0) := by
  refine foldl_preserves
    (fun q' => Predictor.SameButValues p q'
      ∧ getI (q'.layer vli).weights.nonZeroValues j (ops.ofInt 0)
        = getI (q.layer vli).weights.nonZeroValues j (ops.ofInt 0))
    _ cs ?_ q ⟨hq, rfl⟩
  intro b c hc hb
  refine ⟨sameButValues_trans hb.1 (Predictor.learnCell_sameButValues ops _ _ _ b), ?_⟩
  rw [Predictor.learnCell_other ops c.1 _ c.2 b vli j
    (by rw [hb.1.selected_eq vli ⟨c.1.x, c.1.y, c.2⟩]; exact h c hc)]
  exact hb.2

/-- The cells of two distinct positions of the grid have distinct indices. -/
theorem address3_cell_ne {dims : Int3} {c c' : Int2 × Int}
    (hc : c.1 ∈ domain2 ⟨dims.x, dims.y⟩ ∧ c.2 ∈ intRange 0 dims.z)
    (hc' : c'.1 ∈ domain2 ⟨dims.x, dims.y⟩ ∧ c'.2 ∈ intRange 0 dims.z) (hne : c ≠ c') :
    address3 ⟨c.1.x, c.1.y, c.2⟩ dims ≠ address3 ⟨c'.1.x, c'.1.y, c'.2⟩ dims := by
  intro h
  have e := @address3_injective dims ⟨c.1.x, c.1.y, c.2⟩ ⟨c'.1.x, c'.1.y, c'.2⟩
    (mem_domain2.mp hc.1).2 (mem_intRange.mp hc.2) (mem_domain2.mp hc'.1).2
    (mem_intRange.mp hc'.2) h
  apply hne
  obtain ⟨⟨x, y⟩, z⟩ := c
  obtain ⟨⟨x', y'⟩, z'⟩ := c'
  simp only [Int3.mk.injEq] at e
  simp only [Prod.mk.injEq, Int2.mk.injEq]
  exact ⟨⟨e.1, e.2.1⟩, e.2.2⟩

/-- A run of passes over cells other than `c` leaves the weights selected by the
row of `c` as they were, in every layer. -/
theorem Predictor.cells_fold_row {F : Type} (ops : FloatOps F) (tgt : IntBuffer)
    (p : Predictor F) (hp : ∀ vl ∈ p.visibleLayers, vl.weights.RowsOrdered)
    (c : Int2 × Int)
    (hc : c.1 ∈ domain2 ⟨p.hiddenSize.x, p.hiddenSize.y⟩ ∧ c.2 ∈ intRange 0 p.hiddenSize.z)
    (cs : List (Int2 × Int))
    (hcs : ∀ c' ∈ cs, c'.1 ∈ domain2 ⟨p.hiddenSize.x, p.hiddenSize.y⟩
      ∧ c'.2 ∈ intRange 0 p.hiddenSize.z) (hnot : c ∉ cs) (vli : Nat)
    (hvli : vli < p.visibleLayers.length) (j : Int)
    (hj : j ∈ (p.layer vli).weights.selected (p.layer vli).inputCsPrev
      (address3 ⟨c.1.x, c.1.y, c.2⟩ p.hiddenSize) (p.desc vli).size.z)
    (q : Predictor F) (hq : Predictor.SameButValues p q) :
    getI ((cs.foldl (fun q (c : Int2 × Int) => Predictor.learnCell ops c.1
          (getI tgt (address2 c.1 ⟨p.hiddenSize.x, p.hiddenSize.y⟩) 0) c.2 q) q).layer
            vli).weights.nonZeroValues j (ops.ofInt 0)
        = getI (q.layer vli).weights.nonZeroValues j (ops.ofInt 0) := by
  refine (Predictor.cells_fold_other ops tgt p vli j cs ?_ q hq).2
  intro c' hc' hj'
  have hne : c ≠ c' := fun e => hnot (e ▸ hc')
  have hord : (p.layer vli).weights.RowsOrdered :=
    hp _ (getD_mem p.visibleLayers vli (Predictor.VisibleLayer.none F) hvli)
  exact selected_disjoint (p.layer vli).weights hord _ _ _ _
    (@address3_nonneg p.hiddenSize c.1 c.2 hc.1 hc.2)
    (@address3_nonneg p.hiddenSize c'.1 c'.2 (hcs c' hc').1 (hcs c' hc').2)
    (address3_cell_ne hc (hcs c' hc') hne) j hj hj'

theorem Predictor.cells_fold_sameButValues {F : Type} (ops : FloatOps F) (tgt : IntBuffer)
    (p : Predictor F) (cs : List (Int2 × Int)) (q : Predictor F)
    (hq : Predictor.SameButValues p q) :
    Predictor.SameButValues p
      (cs.foldl (fun q (c : Int2 × Int) => Predictor.learnCell ops c.1
        (getI tgt (address2 c.1 ⟨p.hiddenSize.x, p.hiddenSize.y⟩) 0) c.2 q) q) :=
  foldl_preserves (fun q' => Predictor.SameButValues p q') _ cs
    (fun b _ _ hb => sameButValues_trans hb (Predictor.learnCell_sameButValues ops _ _ _ b)) q hq

/-- After a run of passes over distinct cells of the grid, the weights selected
by the row of one of the cells have received the `delta` of that cell, computed
from the weights before the run. -/
theorem Predictor.cells_fold_selected {F : Type} (ops : FloatOps F) (tgt : IntBuffer)
    (p : Predictor F) (hp : ∀ vl ∈ p.visibleLayers, vl.weights.RowsOrdered)
    (cs : List (Int2 × Int)) (hn : cs.Nodup)
    (hcs : ∀ c' ∈ cs, c'.1 ∈ domain2 ⟨p.hiddenSize.x, p.hiddenSize.y⟩
      ∧ c'.2 ∈ intRange 0 p.hiddenSize.z)
    (c : Int2 × Int) (hc : c ∈ cs) (vli : Nat) (hvli : vli < p.visibleLayers.length) (j : Int)
    (hj : j ∈ (p.layer vli).weights.selected (p.layer vli).inputCsPrev
      (address3 ⟨c.1.x, c.1.y, c.2⟩ p.hiddenSize) (p.desc vli).size.z)
    (h1 : j < ((p.layer vli).weights.nonZeroValues.length : Int)) :
    getI ((cs.foldl (fun q (c : Int2 × Int) => Predictor.learnCell ops c.1
          (getI tgt (address2 c.1 ⟨p.hiddenSize.x, p.hiddenSize.y⟩) 0) c.2 q) p).layer
            vli).weights.nonZeroValues j (ops.ofInt 0)
      = ops.add (getI (p.layer vli).weights.nonZeroValues j (ops.ofInt 0))
          (p.learnDelta ops (getI tgt (address2 c.1 ⟨p.hiddenSize.x, p.hiddenSize.y⟩) 0) c.2
            (address3 ⟨c.1.x, c.1.y, c.2⟩ p.hiddenSize)) := by
  obtain ⟨l1, l2, rfl⟩ := List.append_of_mem hc
  have hn' := List.nodup_append.mp hn
  have hc1 : c ∉ l1 := fun h => hn'.2.2 h (List.mem_cons_self _ _)
  have hc2 : c ∉ l2 := (List.nodup_cons.mp hn'.2.1).1
  have hcc := hcs c hc
  have hl1 : ∀ c' ∈ l1, c'.1 ∈ domain2 ⟨p.hiddenSize.x, p.hiddenSize.y⟩
      ∧ c'.2 ∈ intRange 0 p.hiddenSize.z :=
    fun c' h => hcs c' (List.mem_append_left _ h)
  have hl2 : ∀ c' ∈ l2, c'.1 ∈ domain2 ⟨p.hiddenSize.x, p.hiddenSize.y⟩
      ∧ c'.2 ∈ intRange 0 p.hiddenSize.z :=
    fun c' h => hcs c' (List.mem_append_right _ (List.mem_cons_of_mem _ h))
  rw [List.foldl_append, List.foldl_cons]
  have hq1 := Predictor.cells_fold_sameButValues ops tgt p l1 p (sameButValues_refl p)
  have hrow := fun vli' hvli' j' hj' =>
    Predictor.cells_fold_row ops tgt p hp c hcc l1 hl1 hc1 vli' hvli' j' hj' p
      (sameButValues_refl p)
  generalize l1.foldl (fun q (c : Int2 × Int) => Predictor.learnCell ops c.1
    (getI tgt (address2 c.1 ⟨p.hiddenSize.x, p.hiddenSize.y⟩) 0) c.2 q) p = q1 at hq1 hrow
  have hdelta : q1.learnDelta ops (getI tgt (address2 c.1 ⟨p.hiddenSize.x, p.hiddenSize.y⟩) 0)
        c.2 (address3 ⟨c.1.x, c.1.y, c.2⟩ q1.hiddenSize)
      = p.learnDelta ops (getI tgt (address2 c.1 ⟨p.hiddenSize.x, p.hiddenSize.y⟩) 0) c.2
        (address3 ⟨c.1.x, c.1.y, c.2⟩ p.hiddenSize) := by
    unfold Predictor.learnDelta
    rw [hq1.1, Predictor.learnSum_congr ops hq1 _ hrow, hq1.2.2.1]
  have hord : (p.layer vli).weights.RowsOrdered :=
    hp _ (getD_mem p.visibleLayers vli (Predictor.VisibleLayer.none F) hvli)
  have h0 : 0 ≤ j := selected_nonneg _ hord _ _ _ j hj
  rw [Predictor.cells_fold_row ops tgt p hp c hcc l2 hl2 hc2 vli hvli j hj _
      (sameButValues_trans hq1 (Predictor.learnCell_sameButValues ops _ _ _ q1)),
    Predictor.learnCell_selected ops c.1 _ c.2 q1 vli j
      (by rw [hq1.selected_eq vli ⟨c.1.x, c.1.y, c.2⟩]; exact hj) h0
      (by rw [(hq1.layer_eq vli).2.2]; exact h1),
    hdelta, hrow vli hvli j hj]

theorem foldl_congr_inv {α β : Type} (f g : β → α → β) (Inv : β → Prop)
    (hInv : ∀ b a, Inv b → Inv (g b a)) (l : List α)
    (h : ∀ b, Inv b → ∀ a ∈ l, f b a = g b a) : ∀ b, Inv b → l.foldl f b = l.foldl g b := by
  induction l with
  | nil => intro b _; rfl
  | cons a t ih =>
    intro b hb
    rw [List.foldl_cons, List.foldl_cons, h b hb a (List.mem_cons_self _ _)]
    exact ih (fun b' hb' a' ha' => h b' hb' a' (List.mem_cons_of_mem _ ha')) _ (hInv b a hb)

/-- A run of learn kernels over the columns `l` is the run of the passes over
the cells of these columns. -/
theorem Predictor.learnKernel_fold_cells {F R : Type} (ops : FloatOps F) (rng : R)
    (tgt : IntBuffer) (p : Predictor F) (l : List Int2) :
    l.foldl (fun q pos => Predictor.learnKernel ops pos rng tgt q) p
      = (p.cells l).foldl (fun q (c : Int2 × Int) => Predictor.learnCell ops c.1
          (getI tgt (address2 c.1 ⟨p.hiddenSize.x, p.hiddenSize.y⟩) 0) c.2 q) p := by
  unfold Predictor.cells
  rw [foldl_flatMap_eq]
  simp only [List.foldl_map]
  refine foldl_congr_inv _ _ (fun q => q.hiddenSize = p.hiddenSize) ?_ l ?_ p rfl
  · intro b a hb
    exact foldl_preserves (fun q => q.hiddenSize = p.hiddenSize) _ _
      (fun b' hc _ hb' => (Predictor.learnCell_frame ops a _ hc b').1.trans hb') b hb
  · intro b hb a _
    exact Predictor.learnKernel_eq ops a rng tgt b p.hiddenSize hb

theorem Predictor.mem_cells {F : Type} (p : Predictor F) (l : List Int2) (c : Int2 × Int) :
    c ∈ p.cells l ↔ c.1 ∈ l ∧ c.2 ∈ intRange 0 p.hiddenSize.z := by
  unfold Predictor.cells
  simp only [List.mem_flatMap, List.mem_map]
  constructor
  · rintro ⟨pos, hpos, hc, hhc, rfl⟩
    exact ⟨hpos, hhc⟩
  · rintro ⟨h1, h2⟩
    exact ⟨c.1, h1, c.2, h2, rfl⟩

theorem Predictor.nodup_cells {F : Type} (p : Predictor F) (l : List Int2) (hl : l.Nodup) :
    (p.cells l).Nodup := by
  unfold Predictor.cells
  rw [List.nodup_flatMap]
  constructor
  · intro pos _
    refine List.Nodup.map ?_ (nodup_intRange _ _)
    intro a b h
    exact (Prod.mk.inj h).2
  · refine List.Pairwise.imp_of_mem ?_ hl
    intro a b _ _ hab
    simp only [Function.onFun, List.disjoint_left, List.mem_map]
    rintro c ⟨x, _, rfl⟩ ⟨y, _, h⟩
    exact hab (Prod.mk.inj h).1.symm

/-- The state after `Predictor::learn(cs, hiddenTargetCs)`: the run of the passes
over the cells of a rearrangement of the hidden columns. -/
theorem Predictor.learn_eq_cells {F R : Type} (M : RngOps R) (ops : FloatOps F)
    (noThread : Bool) (cs : ComputeSystem R)
    (hb : noThread = true ∨ (1 ≤ cs.batchSize2.x ∧ 1 ≤ cs.batchSize2.y)) (tgt : IntBuffer)
    (p : Predictor F) :
    ∃ l : List Int2, l.Perm (domain2 ⟨p.hiddenSize.x, p.hiddenSize.y⟩)
      ∧ (Predictor.learn M ops noThread cs tgt p).1
        = (p.cells l).foldl (fun q (c : Int2 × Int) => Predictor.learnCell ops c.1
            (getI tgt (address2 c.1 ⟨p.hiddenSize.x, p.hiddenSize.y⟩) 0) c.2 q) p := by
  refine ⟨if noThread then domain2 ⟨p.hiddenSize.x, p.hiddenSize.y⟩
    else batchOrder2 ⟨p.hiddenSize.x, p.hiddenSize.y⟩ cs.batchSize2, ?_, ?_⟩
  · cases noThread
    · rcases hb with h | h
      · exact absurd h (by decide)
      · exact batchOrder2_perm_all _ h
    · exact List.Perm.refl _
  · unfold Predictor.learn
    rw [launch2_fst M noThread (fun pos rng p => Predictor.learnKernel ops pos rng tgt p)
      (fun _ _ _ _ => rfl)]
    exact Predictor.learnKernel_fold_cells ops cs.rng tgt p _

/-! ### Claim on the update rule of the predictor -/

/-- C11: after `Predictor::learn`, in either execution mode (batch sizes of at
least one in the batched one) and for weight matrices with ordered rows, every
weight of every visible layer that the row of a hidden cell `(x, y, hc)` selects
with the snapshot `inputCsPrev` has received
`delta = alpha * ((hc == target[x, y] ? 1 : -1) - tanh(sum / max(1, count)))`,
where `sum` and `count` are the one-hot product of the row with `inputCsPrev`
and the number of contributing groups, over all visible layers, before the
call; a weight that no row selects is unchanged, and so is everything in the
predictor but the values of the weights. -/
theorem learn_adds_delta {F R : Type} (M : RngOps R) (ops : FloatOps F) (noThread : Bool)
    (cs : ComputeSystem R)
    (hb : noThread = true ∨ (1 ≤ cs.batchSize2.x ∧ 1 ≤ cs.batchSize2.y)) (tgt : IntBuffer)
    (p : Predictor F) (hp : ∀ vl ∈ p.visibleLayers, vl.weights.RowsOrdered) :
    Predictor.SameButValues p (Predictor.learn M ops noThread cs tgt p).1
      ∧ ∀ vli, vli < p.visibleLayers.length → ∀ j : Int,
        (∀ pos ∈ domain2 ⟨p.hiddenSize.x, p.hiddenSize.y⟩, ∀ hc ∈ intRange 0 p.hiddenSize.z,
          j ∈ (p.layer vli).weights.selected (p.layer vli).inputCsPrev
              (address3 ⟨pos.x, pos.y, hc⟩ p.hiddenSize) (p.desc vli).size.z →
          j < ((p.layer vli).weights.nonZeroValues.length : Int) →
          getI ((Predictor.learn M ops noThread cs tgt p).1.layer vli).weights.nonZeroValues j
              (ops.ofInt 0)
            = ops.add (getI (p.layer vli).weights.nonZeroValues j (ops.ofInt 0))
                (ops.mul p.alpha
                  (ops.sub
                    (if hc = getI tgt (address2 pos ⟨p.hiddenSize.x, p.hiddenSize.y⟩) 0
                      then ops.ofInt 1 else ops.ofInt (-1))
                    (ops.tanh
                      (ops.div
                        (p.learnSum ops (address3 ⟨pos.x, pos.y, hc⟩ p.hiddenSize)).1
                        (ops.ofInt
                          (max 1
                            (p.learnSum ops
                              (address3 ⟨pos.x, pos.y, hc⟩ p.hiddenSize)).2)))))))
        ∧ ((∀ pos ∈ domain2 ⟨p.hiddenSize.x, p.hiddenSize.y⟩,
              ∀ hc ∈ intRange 0 p.hiddenSize.z,
              j ∉ (p.layer vli).weights.selected (p.layer vli).inputCsPrev
                (address3 ⟨pos.x, pos.y, hc⟩ p.hiddenSize) (p.desc vli).size.z) →
          getI ((Predictor.learn M ops noThread cs tgt p).1.layer vli).weights.nonZeroValues j
              (ops.ofInt 0)
            = getI (p.layer vli).weights.nonZeroValues j (ops.ofInt 0)) := by
  obtain ⟨l, hl, e⟩ := Predictor.learn_eq_cells M ops noThread cs hb tgt p
  rw [e]
  have hnodup : (p.cells l).Nodup := p.nodup_cells l (hl.nodup_iff.mpr (nodup_domain2 _))
  have hdom : ∀ c ∈ p.cells l, c.1 ∈ domain2 ⟨p.hiddenSize.x, p.hiddenSize.y⟩
      ∧ c.2 ∈ intRange 0 p.hiddenSize.z := by
    intro c hc
    have h := (p.mem_cells l c).mp hc
    exact ⟨hl.mem_iff.mp h.1, h.2⟩
  refine ⟨Predictor.cells_fold_sameButValues ops tgt p _ p (sameButValues_refl p), ?_⟩
  intro vli hvli j
  constructor
  · intro pos hpos hc hhc hj h1
    exact Predictor.cells_fold_selected ops tgt p hp _ hnodup hdom (pos, hc)
      ((p.mem_cells l (pos, hc)).mpr ⟨hl.mem_iff.mpr hpos, hhc⟩) vli hvli j hj h1
  · intro hj
    exact (Predictor.cells_fold_other ops tgt p vli j _
      (fun c hc => hj c.1 (hdom c hc).1 c.2 (hdom c hc).2) p (sameButValues_refl p)).2

theorem learn_adds_delta_witness :
    ((true = true ∨ ((1 : Int) ≤ 2 ∧ (1 : Int) ≤ 1))
      ∧ (∀ vl ∈ examplePredictor.visibleLayers, vl.weights.RowsOrdered))
    ∧ getI ((Predictor.learn counterRng intOps true ⟨0, 1, ⟨2, 1⟩⟩ [0, 0, 0, 0]
          examplePredictor).1.layer 0).weights.nonZeroValues 5 (intOps.ofInt 0)
      = intOps.add (getI (examplePredictor.layer 0).weights.nonZeroValues 5 (intOps.ofInt 0))
          (intOps.mul examplePredictor.alpha
            (intOps.sub
              (if (0 : Int) = getI [0, 0, 0, 0] (address2 ⟨0, 1⟩ ⟨2, 2⟩) 0
                then intOps.ofInt 1 else intOps.ofInt (-1))
              (intOps.tanh
                (intOps.div
                  (examplePredictor.learnSum intOps (address3 ⟨0, 1, 0⟩ ⟨2, 2, 1⟩)).1
                  (intOps.ofInt
                    (max 1
                      (examplePredictor.learnSum intOps
                        (address3 ⟨0, 1, 0⟩ ⟨2, 2, 1⟩)).2)))))) := by
  have hp : ∀ vl ∈ examplePredictor.visibleLayers, vl.weights.RowsOrdered := by
    intro vl hvl
    have e : vl = ⟨exampleMatrix, [0, 0, 0, 0]⟩ := List.mem_singleton.mp hvl
    rw [e]
    exact ⟨by decide, by decide⟩
  exact ⟨⟨Or.inl rfl, hp⟩,
    ((learn_adds_delta counterRng intOps true ⟨0, 1, ⟨2, 1⟩⟩ (Or.inl rfl) [0, 0, 0, 0]
      examplePredictor hp).2 0 (by decide) 5).1 ⟨0, 1⟩ (by decide) 0 (by decide) (by decide)
      (by decide)⟩

/-! ### Learning of the sparse coder without a mismatch -/

/-- Every coordinate that `runKernel2` submits is a coordinate of the domain,
whatever the batch size. -/
theorem mem_batchOrder2_domain {size batchSize p : Int2} (h : p ∈ batchOrder2 size batchSize) :
    p ∈ domain2 size := by
  unfold batchOrder2 itemCoords2 at h
  simp only [List.mem_flatMap, List.mem_map, mem_intRange] at h
  obtain ⟨x, hx, y, hy, i, hi, j, hj, rfl⟩ := h
  rw [mem_domain2]
  have hbx : 1 ≤ batchSize.x := by omega
  have hby : 1 ≤ batchSize.y := by omega
  have h1 : 0 ≤ x * batchSize.x := Int.mul_nonneg hx.1 (by omega)
  have h2 : 0 ≤ y * batchSize.y := Int.mul_nonneg hy.1 (by omega)
  simp only
  omega

theorem foldl_fixed {α β : Type} (f : β → α → β) (b : β) (l : List α)
    (h : ∀ a ∈ l, f b a = b) : l.foldl f b = b := by
  induction l with
  | nil => rfl
  | cons a t ih =>
    rw [List.foldl_cons, h a (List.mem_cons_self _ _)]
    exact ih (fun a' ha' => h a' (List.mem_cons_of_mem _ ha'))

/-- A launch whose kernel leaves the state as it is at every coordinate of the
domain leaves the state as it is, in either mode. -/
theorem launch2_fixed {R σ : Type} (M : RngOps R) (noThread : Bool) (k : Int2 → R → σ → σ)
    (hk : ∀ p r r' s, k p r s = k p r' s) (size : Int2) (cs : ComputeSystem R) (s : σ)
    (h : ∀ p ∈ domain2 size, ∀ r, k p r s = s) : (launch2 M noThread k size cs s).1 = s := by
  rw [launch2_fst M noThread k hk]
  apply foldl_fixed
  intro a ha
  cases noThread
  · exact h a (mem_batchOrder2_domain ha) cs.rng
  · exact h a ha cs.rng

/-- `SparseCoder::learn` leaves the coder as it is when the slot kept by its
winner loop is the target. -/
theorem SparseCoder.learn_of_match {F R : Type} [LinearOrder F] (ops : FloatOps F) (pos : Int2)
    (rng : R) (inputCs : IntBuffer) (vli : Nat) (s : SparseCoder F)
    (h : (SparseCoder.learnLoop ops pos (s.desc vli).size (s.layer vli).weights s.hiddenCs
        s.hiddenSize).2.1
      = getI inputCs (address2 pos ⟨(s.desc vli).size.x, (s.desc vli).size.y⟩) 0) :
    SparseCoder.learn ops pos rng inputCs vli s = s := by
  unfold SparseCoder.learn
  unfold SparseCoder.layer SparseCoder.desc at h
  simp only [h, ne_eq, not_true_eq_false, if_false]

theorem foldl_pair_snd {α β γ : Type} (f : β → α → β) (g : γ → α → γ) (l : List α) (b : β)
    (c : γ) :
    (l.foldl (fun (acc : β × γ) a => (f acc.1 a, g acc.2 a)) (b, c)).2 = l.foldl g c := by
  induction l generalizing b c with
  | nil => rfl
  | cons a l ih =>
    rw [List.foldl_cons, List.foldl_cons]
    exact ih _ _

/-- The slot kept by the first loop of `SparseCoder::learn` is the result of the
winner loop on the reconstructions of the slots of the column. -/
theorem SparseCoder.learnLoop_max {F : Type} [LinearOrder F] (ops : FloatOps F) (pos : Int2)
    (size : Int3) (weights : SparseMatrix F) (hiddenCs : IntBuffer) (hiddenSize : Int3) :
    (SparseCoder.learnLoop ops pos size weights hiddenCs hiddenSize).2
      = (intRange 0 size.z).foldl
          (fun acc vc => maxStep acc vc
            (SparseCoder.reconstruct ops weights hiddenCs hiddenSize
              (address3 ⟨pos.x, pos.y, vc⟩ size)))
          (0, ops.ofInt (-999999)) :=
  foldl_pair_snd
    (fun (acts : List F) vc => setI acts vc
      (SparseCoder.reconstruct ops weights hiddenCs hiddenSize
        (address3 ⟨pos.x, pos.y, vc⟩ size)))
    (fun (m : Int × F) vc => maxStep m vc
      (SparseCoder.reconstruct ops weights hiddenCs hiddenSize
        (address3 ⟨pos.x, pos.y, vc⟩ size)))
    (intRange 0 size.z) _ _

theorem sparseCoder_map_weights_set {F : Type} (l : List (SparseCoder.VisibleLayer F))
    (vli : Nat) (errors : FloatBuffer F) :
    (l.set vli { l.getD vli (SparseCoder.VisibleLayer.none F) with inputErrors := errors }).map
        (fun vl => vl.weights)
      = l.map (fun vl => vl.weights) := by
  apply List.ext_getElem?
  intro n
  rw [List.getElem?_map, List.getElem?_map, List.getElem?_set]
  by_cases hn : vli = n
  · subst hn
    by_cases hlt : vli < l.length
    · simp only [hlt, if_true]
      rw [List.getD_eq_getElem _ _ hlt, List.getElem?_eq_getElem hlt]
      rfl
    · simp only [hlt, if_false, if_true]
      rw [List.getElem?_eq_none (by omega)]
  · simp only [hn, if_false]

/-- The explain iterations of `SparseCoder::step` leave every weight matrix as
it is. -/
theorem SparseCoder.step_false_weights {F R : Type} [LinearOrder F] (M : RngOps R)
    (ops : FloatOps F) (noThread : Bool) (cs : ComputeSystem R) (inputCs : List IntBuffer)
    (s : SparseCoder F) :
    (SparseCoder.step M ops noThread cs inputCs false s).1.visibleLayers.map (fun vl => vl.weights)
      = s.visibleLayers.map (fun vl => vl.weights) := by
  unfold SparseCoder.step
  simp only [Bool.false_eq_true, if_false]
  refine foldl_preserves
    (fun (acc : SparseCoder F × ComputeSystem R) =>
      acc.1.visibleLayers.map (fun vl => vl.weights) = s.visibleLayers.map (fun vl => vl.weights))
    _ _ ?_ (s, cs) rfl
  intro acc it _ hacc
  have hf : (launch2 M noThread (fun pos rng s => SparseCoder.forward ops pos rng inputCs it s)
        ⟨acc.1.hiddenSize.x, acc.1.hiddenSize.y⟩ acc.2 acc.1).1.visibleLayers.map
          (fun vl => vl.weights)
      = s.visibleLayers.map (fun vl => vl.weights) :=
    launch2_preserves M noThread
      (fun pos rng s => SparseCoder.forward ops pos rng inputCs it s) (fun _ _ _ _ => rfl) _ _
      (fun q => q.visibleLayers.map (fun vl => vl.weights)
        = s.visibleLayers.map (fun vl => vl.weights))
      (fun _ _ _ hq => hq) acc.1 hacc
  split
  · refine foldl_preserves
      (fun (acc : SparseCoder F × ComputeSystem R) =>
        acc.1.visibleLayers.map (fun vl => vl.weights)
          = s.visibleLayers.map (fun vl => vl.weights))
      _ _ ?_ _ hf
    intro acc' vli _ hacc'
    exact launch2_preserves M noThread
      (fun pos rng s => SparseCoder.backward ops pos rng (inputCs.getD vli []) vli s)
      (fun _ _ _ _ => rfl) _ _
      (fun q => q.visibleLayers.map (fun vl => vl.weights)
        = s.visibleLayers.map (fun vl => vl.weights))
      (fun pos r q hq => by
        unfold SparseCoder.backward
        simp only []
        rw [sparseCoder_map_weights_set]
        exact hq) acc'.1 hacc'
  · exact hf

/-- `SparseCoder::step` with learning is the explain iterations followed by the
learn launches of the visible layers. -/
theorem SparseCoder.step_true_eq {F R : Type} [LinearOrder F] (M : RngOps R) (ops : FloatOps F)
    (noThread : Bool) (cs : ComputeSystem R) (inputCs : List IntBuffer) (s : SparseCoder F) :
    SparseCoder.step M ops noThread cs inputCs true s
      = (List.range
          (SparseCoder.step M ops noThread cs inputCs false s).1.visibleLayers.length).foldl
          (fun (acc : SparseCoder F × ComputeSystem R) vli =>
            launch2 M noThread
              (fun pos rng s => SparseCoder.learn ops pos rng (inputCs.getD vli []) vli s)
              ⟨(acc.1.desc vli).size.x, (acc.1.desc vli).size.y⟩ acc.2 acc.1)
          (SparseCoder.step M ops noThread cs inputCs false s) := rfl

/-- When the slot kept by the winner loop of `SparseCoder::learn` is the target
in every visible column of every layer, the learn launches of
`SparseCoder::step` leave the coder as the explain iterations left it. -/
theorem SparseCoder.step_of_match {F R : Type} [LinearOrder F] (M : RngOps R) (ops : FloatOps F)
    (noThread : Bool) (cs : ComputeSystem R) (inputCs : List IntBuffer) (s : SparseCoder F)
    (h : ∀ vli, vli < (SparseCoder.step M ops noThread cs inputCs false s).1.visibleLayers.length →
      ∀ pos ∈ domain2
        ⟨((SparseCoder.step M ops noThread cs inputCs false s).1.desc vli).size.x,
          ((SparseCoder.step M ops noThread cs inputCs false s).1.desc vli).size.y⟩,
        (SparseCoder.learnLoop ops pos
            ((SparseCoder.step M ops noThread cs inputCs false s).1.desc vli).size
            ((SparseCoder.step M ops noThread cs inputCs false s).1.layer vli).weights
            (SparseCoder.step M ops noThread cs inputCs false s).1.hiddenCs
            (SparseCoder.step M ops noThread cs inputCs false s).1.hiddenSize).2.1
          = getI (inputCs.getD vli [])
              (address2 pos
                ⟨((SparseCoder.step M ops noThread cs inputCs false s).1.desc vli).size.x,
                  ((SparseCoder.step M ops noThread cs inputCs false s).1.desc vli).size.y⟩) 0) :
    (SparseCoder.step M ops noThread cs inputCs true s).1
      = (SparseCoder.step M ops noThread cs inputCs false s).1 := by
  rw [SparseCoder.step_true_eq]
  generalize SparseCoder.step M ops noThread cs inputCs false s = e at h
  refine foldl_preserves (fun (acc : SparseCoder F × ComputeSystem R) => acc.1 = e.1) _ _ ?_ e rfl
  intro acc vli hvli hacc
  have hlt : vli < e.1.visibleLayers.length := List.mem_range.mp hvli
  show (launch2 M noThread
      (fun pos rng s => SparseCoder.learn ops pos rng (inputCs.getD vli []) vli s)
      ⟨(acc.1.desc vli).size.x, (acc.1.desc vli).size.y⟩ acc.2 acc.1).1 = e.1
  rw [hacc]
  exact launch2_fixed M noThread
    (fun pos rng s => SparseCoder.learn ops pos rng (inputCs.getD vli []) vli s)
    (fun _ _ _ _ => rfl) _ _ e.1
    (fun pos hpos r => SparseCoder.learn_of_match ops pos r _ vli e.1 (h vli hlt pos hpos))

/-! ### Claim on learning without a mismatch -/

/-- Counterexample to C12: a sparse coder with one visible column of two depth
slots whose reconstructions are -2000000 and -1000000, both below the start
value -999999 of the winner loop, and the target input code 1.  Slot 1 has the
maximum activation and is the target, yet the winner loop keeps slot 0 and the
learn invocation of the column, like `SparseCoder::step` with learning, changes
the weights. -/
theorem learn_updates_below_sentinel :
    SparseCoder.reconstruct intOps
        ((⟨⟨1, 1, 1⟩, [0], [0],
          [⟨⟨1, 2, [-2000000, -1000000], [0, 1], [0, 2], [0, 1], [0, 1, 2], [0, 0]⟩, [0]⟩],
          [⟨⟨1, 1, 2⟩, 0⟩], 1, 1⟩ : SparseCoder Int).layer 0).weights [0] ⟨1, 1, 1⟩
        (address3 ⟨0, 0, 0⟩ ⟨1, 1, 2⟩) = -2000000
    ∧ SparseCoder.reconstruct intOps
        ((⟨⟨1, 1, 1⟩, [0], [0],
          [⟨⟨1, 2, [-2000000, -1000000], [0, 1], [0, 2], [0, 1], [0, 1, 2], [0, 0]⟩, [0]⟩],
          [⟨⟨1, 1, 2⟩, 0⟩], 1, 1⟩ : SparseCoder Int).layer 0).weights [0] ⟨1, 1, 1⟩
        (address3 ⟨0, 0, 1⟩ ⟨1, 1, 2⟩) = -1000000
    ∧ getI [1] (address2 ⟨0, 0⟩ ⟨1, 1⟩) 0 = 1
    ∧ ((SparseCoder.learn intOps ⟨0, 0⟩ () [1] 0
          (⟨⟨1, 1, 1⟩, [0], [0],
            [⟨⟨1, 2, [-2000000, -1000000], [0, 1], [0, 2], [0, 1], [0, 1, 2], [0, 0]⟩, [0]⟩],
            [⟨⟨1, 1, 2⟩, 0⟩], 1, 1⟩ : SparseCoder Int)).layer 0).weights.nonZeroValues
        = [-1, 1]
    ∧ ((SparseCoder.step counterRng intOps true ⟨0, 1, ⟨1, 1⟩⟩ [[1]] true
          (⟨⟨1, 1, 1⟩, [0], [0],
            [⟨⟨1, 2, [-2000000, -1000000], [0, 1], [0, 2], [0, 1], [0, 1, 2], [0, 0]⟩, [0]⟩],
            [⟨⟨1, 1, 2⟩, 0⟩], 1, 1⟩ : SparseCoder Int)).1.layer 0).weights.nonZeroValues
        = [-1, 1] := by
  refine ⟨by decide, by decide, by decide, by decide, by decide⟩

/-- C12 as amended: an invocation of `SparseCoder::learn` whose winner loop
keeps the target input code leaves the coder, hence every weight, as it is.
The slot kept by the winner loop is the lowest of the slots of maximum
reconstruction when some slot reconstructs above -999999, and slot 0 otherwise.
When the kept slot is the target in every visible column of every visible
layer, on the coder as the explain iterations leave it, `SparseCoder::step` with
`learnEnabled = true` ends in the state of the explain iterations and every
weight matrix is as before the step. -/
theorem learn_keeps_weights_on_match {F R : Type} [LinearOrder F] (M : RngOps R)
    (ops : FloatOps F) (noThread : Bool) (cs : ComputeSystem R) (inputCs : List IntBuffer)
    (s : SparseCoder F) :
    (∀ (pos : Int2) (rng : R) (input : IntBuffer) (vli : Nat),
      (SparseCoder.learnLoop ops pos (s.desc vli).size (s.layer vli).weights s.hiddenCs
          s.hiddenSize).2.1
        = getI input (address2 pos ⟨(s.desc vli).size.x, (s.desc vli).size.y⟩) 0 →
      SparseCoder.learn ops pos rng input vli s = s)
    ∧ (∀ (pos : Int2) (vli : Nat),
      ((∃ vc, 0 ≤ vc ∧ vc < (s.desc vli).size.z
          ∧ ops.ofInt (-999999) < SparseCoder.reconstruct ops (s.layer vli).weights s.hiddenCs
              s.hiddenSize (address3 ⟨pos.x, pos.y, vc⟩ (s.desc vli).size)) →
        0 ≤ (SparseCoder.learnLoop ops pos (s.desc vli).size (s.layer vli).weights s.hiddenCs
            s.hiddenSize).2.1
        ∧ (SparseCoder.learnLoop ops pos (s.desc vli).size (s.layer vli).weights s.hiddenCs
            s.hiddenSize).2.1 < (s.desc vli).size.z
        ∧ (∀ vc, 0 ≤ vc → vc < (s.desc vli).size.z →
            SparseCoder.reconstruct ops (s.layer vli).weights s.hiddenCs s.hiddenSize
                (address3 ⟨pos.x, pos.y, vc⟩ (s.desc vli).size)
              ≤ SparseCoder.reconstruct ops (s.layer vli).weights s.hiddenCs s.hiddenSize
                (address3 ⟨pos.x, pos.y,
                  (SparseCoder.learnLoop ops pos (s.desc vli).size (s.layer vli).weights
                    s.hiddenCs s.hiddenSize).2.1⟩ (s.desc vli).size))
        ∧ (∀ vc, 0 ≤ vc →
            vc < (SparseCoder.learnLoop ops pos (s.desc vli).size (s.layer vli).weights
              s.hiddenCs s.hiddenSize).2.1 →
            SparseCoder.reconstruct ops (s.layer vli).weights s.hiddenCs s.hiddenSize
                (address3 ⟨pos.x, pos.y, vc⟩ (s.desc vli).size)
              < SparseCoder.reconstruct ops (s.layer vli).weights s.hiddenCs s.hiddenSize
                (address3 ⟨pos.x, pos.y,
                  (SparseCoder.learnLoop ops pos (s.desc vli).size (s.layer vli).weights
                    s.hiddenCs s.hiddenSize).2.1⟩ (s.desc vli).size)))
      ∧ ((∀ vc, 0 ≤ vc → vc < (s.desc vli).size.z →
            SparseCoder.reconstruct ops (s.layer vli).weights s.hiddenCs s.hiddenSize
              (address3 ⟨pos.x, pos.y, vc⟩ (s.desc vli).size) ≤ ops.ofInt (-999999)) →
        (SparseCoder.learnLoop ops pos (s.desc vli).size (s.layer vli).weights s.hiddenCs
          s.hiddenSize).2.1 = 0))
    ∧ ((∀ vli,
        vli < (SparseCoder.step M ops noThread cs inputCs false s).1.visibleLayers.length →
        ∀ pos ∈ domain2
          ⟨((SparseCoder.step M ops noThread cs inputCs false s).1.desc vli).size.x,
            ((SparseCoder.step M ops noThread cs inputCs false s).1.desc vli).size.y⟩,
          (SparseCoder.learnLoop ops pos
              ((SparseCoder.step M ops noThread cs inputCs false s).1.desc vli).size
              ((SparseCoder.step M ops noThread cs inputCs false s).1.layer vli).weights
              (SparseCoder.step M ops noThread cs inputCs false s).1.hiddenCs
              (SparseCoder.step M ops noThread cs inputCs false s).1.hiddenSize).2.1
            = getI (inputCs.getD vli [])
                (address2 pos
                  ⟨((SparseCoder.step M ops noThread cs inputCs false s).1.desc vli).size.x,
                    ((SparseCoder.step M ops noThread cs inputCs false s).1.desc vli).size.y⟩)
                0) →
      (SparseCoder.step M ops noThread cs inputCs true s).1
          = (SparseCoder.step M ops noThread cs inputCs false s).1
        ∧ (SparseCoder.step M ops noThread cs inputCs true s).1.visibleLayers.map
            (fun vl => vl.weights)
          = s.visibleLayers.map (fun vl => vl.weights)) := by
  refine ⟨fun pos rng input vli h => SparseCoder.learn_of_match ops pos rng input vli s h, ?_, ?_⟩
  · intro pos vli
    rw [SparseCoder.learnLoop_max]
    exact maxStep_foldl_spec
      (fun vc => SparseCoder.reconstruct ops (s.layer vli).weights s.hiddenCs s.hiddenSize
        (address3 ⟨pos.x, pos.y, vc⟩ (s.desc vli).size))
      (ops.ofInt (-999999)) (s.desc vli).size.z
  · intro h
    have e := SparseCoder.step_of_match M ops noThread cs inputCs s h
    refine ⟨e, ?_⟩
    rw [e]
    exact SparseCoder.step_false_weights M ops noThread cs inputCs s

theorem learn_keeps_weights_on_match_witness :
    (SparseCoder.step counterRng intOps false ⟨0, 1, ⟨1, 1⟩⟩ [[1]] true
        (⟨⟨1, 1, 1⟩, [0], [0],
          [⟨⟨1, 2, [2, 5], [0, 1], [0, 2], [0, 1], [0, 1, 2], [0, 0]⟩, [0]⟩],
          [⟨⟨1, 1, 2⟩, 0⟩], 1, 1⟩ : SparseCoder Int)).1.visibleLayers.map
        (fun vl => vl.weights)
      = (⟨⟨1, 1, 1⟩, [0], [0],
          [⟨⟨1, 2, [2, 5], [0, 1], [0, 2], [0, 1], [0, 1, 2], [0, 0]⟩, [0]⟩],
          [⟨⟨1, 1, 2⟩, 0⟩], 1, 1⟩ : SparseCoder Int).visibleLayers.map
        (fun vl => vl.weights) :=
  ((learn_keeps_weights_on_match counterRng intOps false ⟨0, 1, ⟨1, 1⟩⟩ [[1]]
    (⟨⟨1, 1, 1⟩, [0], [0],
      [⟨⟨1, 2, [2, 5], [0, 1], [0, 2], [0, 1], [0, 1, 2], [0, 0]⟩, [0]⟩],
      [⟨⟨1, 1, 2⟩, 0⟩], 1, 1⟩ : SparseCoder Int)).2.2 (by decide)).2

/-! ### Buffers that agree outside pending indices -/

theorem agreeOff_refl {α : Type} (d : α) (pending : List Int) (a : List α) :
    AgreeOff d pending a a := ⟨rfl, fun _ _ => rfl⟩

theorem agreeOff_mono {α : Type} (d : α) {pending pending' : List Int} {a b : List α}
    (hsub : ∀ k ∈ pending, k ∈ pending') (h : AgreeOff d pending a b) :
    AgreeOff d pending' a b :=
  ⟨h.1, fun k hk => h.2 k (fun hk' => hk (hsub k hk'))⟩

theorem agreeOff_trans {α : Type} (d : α) {pending : List Int} {a b c : List α}
    (h1 : AgreeOff d pending a b) (h2 : AgreeOff d pending b c) : AgreeOff d pending a c :=
  ⟨h1.1.trans h2.1, fun k hk => (h1.2 k hk).trans (h2.2 k hk)⟩

theorem agreeOff_symm {α : Type} (d : α) {pending : List Int} {a b : List α}
    (h : AgreeOff d pending a b) : AgreeOff d pending b a :=
  ⟨h.1.symm, fun k hk => (h.2 k hk).symm⟩

/-- Buffers that agree everywhere are equal. -/
theorem agreeOff_nil_eq {α : Type} (d : α) {a b : List α} (h : AgreeOff d [] a b) : a = b := by
  apply List.ext_getElem h.1
  intro n h1 h2
  have e := h.2 (n : Int) (List.not_mem_nil _)
  obtain ⟨_, ea⟩ := getI_of_lt a (n : Int) d (by omega) (by omega)
  obtain ⟨_, eb⟩ := getI_of_lt b (n : Int) d (by omega) (by omega)
  rw [ea, eb] at e
  simpa using e

theorem getI_setI_self_congr {α : Type} (v v' : List α) (i : Int) (a d : α)
    (hl : v.length = v'.length) : getI (setI v i a) i d = getI (setI v' i a) i d := by
  by_cases h0 : 0 ≤ i
  · by_cases h1 : i < (v.length : Int)
    · rw [getI_setI_self v i a d h0 h1, getI_setI_self v' i a d h0 (by omega)]
    · rw [getI_of_ge _ i d (by rw [length_setI]; omega),
        getI_of_ge _ i d (by rw [length_setI]; omega)]
  · unfold getI
    simp only [h0, if_false]

/-- The same write into both buffers settles its index. -/
theorem agreeOff_setI {α : Type} (d : α) {pending : List Int} {a b : List α} (i : Int) (v : α)
    (h : AgreeOff d (i :: pending) a b) : AgreeOff d pending (setI a i v) (setI b i v) := by
  refine ⟨by rw [length_setI, length_setI]; exact h.1, ?_⟩
  intro k hk
  by_cases hik : i = k
  · subst hik
    exact getI_setI_self_congr a b i v d h.1
  · rw [getI_setI_ne _ _ _ _ _ hik, getI_setI_ne _ _ _ _ _ hik]
    apply h.2 k
    intro hk'
    rcases List.mem_cons.mp hk' with e | e
    · exact hik e.symm
    · exact hk e

/-- A write at a pending index keeps the agreement outside the pending indices. -/
theorem agreeOff_setI_right {α : Type} (d : α) {pending : List Int} {a b : List α} (i : Int)
    (v : α) (hi : i ∈ pending) (h : AgreeOff d pending a b) :
    AgreeOff d pending a (setI b i v) := by
  refine ⟨by rw [length_setI]; exact h.1, ?_⟩
  intro k hk
  have hik : i ≠ k := fun e => hk (e ▸ hi)
  rw [getI_setI_ne _ _ _ _ _ hik]
  exact h.2 k hk

/-- The same run of writes into both buffers settles the indices it writes. -/
theorem agreeOff_writes {α ι : Type} (d : α) (idx : ι → Int) (val : ι → α) (l : List ι)
    {pending : List Int} {a b : List α} (h : AgreeOff d (l.map idx ++ pending) a b) :
    AgreeOff d pending (l.foldl (fun acc i => setI acc (idx i) (val i)) a)
      (l.foldl (fun acc i => setI acc (idx i) (val i)) b) := by
  induction l generalizing a b with
  | nil => exact h
  | cons i l ih =>
    rw [List.foldl_cons, List.foldl_cons]
    exact ih (agreeOff_setI d (idx i) (val i) h)

/-- A run of writes at pending indices keeps the agreement outside them. -/
theorem agreeOff_writes_right {α ι : Type} (d : α) (idx : ι → Int) (val : ι → List α → α)
    (l : List ι) {pending : List Int} {a : List α} (hl : ∀ i ∈ l, idx i ∈ pending) :
    ∀ b, AgreeOff d pending a b →
      AgreeOff d pending a (l.foldl (fun acc i => setI acc (idx i) (val i acc)) b) := by
  induction l with
  | nil => intro b h; exact h
  | cons i l ih =>
    intro b h
    rw [List.foldl_cons]
    exact ih (fun i' hi' => hl i' (List.mem_cons_of_mem _ hi')) _
      (agreeOff_setI_right d (idx i) _ (hl i (List.mem_cons_self _ _)) h)

/-! ### Replaying the encoding of the sparse coder -/

/-- At iteration 0 the sum of a hidden cell reads the weights and the inputs
only. -/
theorem SparseCoder.forwardSum_zero_congr {F : Type} (ops : FloatOps F) {s t : SparseCoder F}
    (hf : SparseCoder.SameFrame s t)
    (hw : ∀ vli, (t.layer vli).weights = (s.layer vli).weights) (inputCs : List IntBuffer)
    (hiddenIndex : Int) :
    t.forwardSum ops inputCs 0 hiddenIndex = s.forwardSum ops inputCs 0 hiddenIndex := by
  unfold SparseCoder.forwardSum
  rw [hf.2.2.2.2, hf.2.1]
  apply List.foldl_ext
  intro sum vli _
  simp only [if_true]
  have e := hw vli
  unfold SparseCoder.layer at e
  rw [e]

/-- At iteration 0 the winner of a column depends on the activations it starts
from through their number only. -/
theorem SparseCoder.forwardLoop_zero_snd {F : Type} [LinearOrder F] (ops : FloatOps F)
    (pos : Int2) (inputCs : List IntBuffer) {s t : SparseCoder F}
    (hf : SparseCoder.SameFrame s t)
    (hw : ∀ vli, (t.layer vli).weights = (s.layer vli).weights)
    (hl : s.hiddenActivations.length = t.hiddenActivations.length) :
    (SparseCoder.forwardLoop ops pos inputCs 0 t).2
      = (SparseCoder.forwardLoop ops pos inputCs 0 s).2 := by
  unfold SparseCoder.forwardLoop
  rw [hf.1]
  refine (foldl_rel
    (fun (a b : FloatBuffer F × (Int × F)) => a.2 = b.2 ∧ a.1.length = b.1.length)
    _ _ _ ?_ (t.hiddenActivations, (0, ops.ofInt (-999999)))
    (s.hiddenActivations, (0, ops.ofInt (-999999))) ⟨rfl, hl.symm⟩).1
  rintro ⟨a1, a2⟩ ⟨b1, b2⟩ hc _ ⟨h1, h2⟩
  simp only at h1 h2
  subst h1
  simp only [if_true, SparseCoder.forwardSum_zero_congr ops hf hw, hf.1]
  exact ⟨by rw [getI_setI_self_congr a1 b1 _ _ _ h2], by rw [length_setI, length_setI, h2]⟩

/-- At iteration 0 the activations after the loop of a column are the
activations before it with the sums of the cells of the column written in. -/
theorem SparseCoder.forwardLoop_zero_fst {F : Type} [LinearOrder F] (ops : FloatOps F)
    (pos : Int2) (inputCs : List IntBuffer) (s : SparseCoder F) :
    (SparseCoder.forwardLoop ops pos inputCs 0 s).1
      = (intRange 0 s.hiddenSize.z).foldl
          (fun (acts : FloatBuffer F) hc =>
            setI acts (address3 ⟨pos.x, pos.y, hc⟩ s.hiddenSize)
              (s.forwardSum ops inputCs 0 (address3 ⟨pos.x, pos.y, hc⟩ s.hiddenSize)))
          s.hiddenActivations := by
  have h := SparseCoder.forwardLoop_fst ops pos inputCs 0 s s.hiddenActivations
  simp only [if_true] at h
  exact h

/-- The forward kernel of iteration 0, run on two coders that agree outside
pending indices, settles the indices of its column. -/
theorem SparseCoder.forward_zero_replays {F R : Type} [LinearOrder F] (ops : FloatOps F)
    (rng rng' : R) (inputCs : List IntBuffer) (a : Int2) (pc pa : List Int)
    (pe : Nat → List Int) (s t : SparseCoder F)
    (h : SparseCoder.Replays ops (address2 a ⟨s.hiddenSize.x, s.hiddenSize.y⟩ :: pc)
      ((intRange 0 s.hiddenSize.z).map (fun hc => address3 ⟨a.x, a.y, hc⟩ s.hiddenSize) ++ pa)
      pe s t) :
    SparseCoder.Replays ops pc pa pe (SparseCoder.forward ops a rng inputCs 0 s)
      (SparseCoder.forward ops a rng' inputCs 0 t) := by
  obtain ⟨hf, hc, ha, hl⟩ := h
  have hw : ∀ vli, (t.layer vli).weights = (s.layer vli).weights := fun vli => (hl vli).1
  refine ⟨hf, ?_, ?_, hl⟩
  · show AgreeOff 0 pc
      (setI s.hiddenCs (address2 a ⟨s.hiddenSize.x, s.hiddenSize.y⟩)
        (SparseCoder.forwardLoop ops a inputCs 0 s).2.1)
      (setI t.hiddenCs (address2 a ⟨t.hiddenSize.x, t.hiddenSize.y⟩)
        (SparseCoder.forwardLoop ops a inputCs 0 t).2.1)
    rw [hf.1, SparseCoder.forwardLoop_zero_snd ops a inputCs hf hw ha.1]
    exact agreeOff_setI 0 _ _ hc
  · show AgreeOff (ops.ofInt 0) pa (SparseCoder.forwardLoop ops a inputCs 0 s).1
      (SparseCoder.forwardLoop ops a inputCs 0 t).1
    rw [SparseCoder.forwardLoop_zero_fst, SparseCoder.forwardLoop_zero_fst, hf.1]
    simp only [SparseCoder.forwardSum_zero_congr ops hf hw]
    exact agreeOff_writes (ops.ofInt 0)
      (fun hc => address3 ⟨a.x, a.y, hc⟩ s.hiddenSize)
      (fun hc => s.forwardSum ops inputCs 0 (address3 ⟨a.x, a.y, hc⟩ s.hiddenSize))
      (intRange 0 s.hiddenSize.z) ha

/-- A forward kernel writes at the indices of its column only. -/
theorem SparseCoder.forward_replays_right {F R : Type} [LinearOrder F] (ops : FloatOps F)
    (rng : R) (inputCs : List IntBuffer) (it : Int) (a : Int2) (pc pa : List Int)
    (pe : Nat → List Int) (s t : SparseCoder F)
    (hac : address2 a ⟨s.hiddenSize.x, s.hiddenSize.y⟩ ∈ pc)
    (haa : ∀ hc ∈ intRange 0 s.hiddenSize.z, address3 ⟨a.x, a.y, hc⟩ s.hiddenSize ∈ pa)
    (h : SparseCoder.Replays ops pc pa pe s t) :
    SparseCoder.Replays ops pc pa pe s (SparseCoder.forward ops a rng inputCs it t) := by
  obtain ⟨hf, hc, ha, hl⟩ := h
  refine ⟨hf, ?_, ?_, hl⟩
  · show AgreeOff 0 pc s.hiddenCs
      (setI t.hiddenCs (address2 a ⟨t.hiddenSize.x, t.hiddenSize.y⟩)
        (SparseCoder.forwardLoop ops a inputCs it t).2.1)
    rw [hf.1]
    exact agreeOff_setI_right 0 _ _ hac hc
  · show AgreeOff (ops.ofInt 0) pa s.hiddenActivations
      (SparseCoder.forwardLoop ops a inputCs it t).1
    have e := SparseCoder.forwardLoop_fst ops a inputCs it t t.hiddenActivations
    have e' : (fun (acts : FloatBuffer F) hc =>
          if it = 0 then
            setI acts (address3 ⟨a.x, a.y, hc⟩ t.hiddenSize)
              (t.forwardSum ops inputCs it (address3 ⟨a.x, a.y, hc⟩ t.hiddenSize))
          else
            setI acts (address3 ⟨a.x, a.y, hc⟩ t.hiddenSize)
              (ops.add (getI acts (address3 ⟨a.x, a.y, hc⟩ t.hiddenSize) (ops.ofInt 0))
                (t.forwardSum ops inputCs it (address3 ⟨a.x, a.y, hc⟩ t.hiddenSize))))
        = (fun (acts : FloatBuffer F) hc =>
          setI acts ((fun hc => address3 ⟨a.x, a.y, hc⟩ t.hiddenSize) hc)
            ((fun hc (acts : FloatBuffer F) =>
              if it = 0 then
                t.forwardSum ops inputCs it (address3 ⟨a.x, a.y, hc⟩ t.hiddenSize)
              else
                ops.add (getI acts (address3 ⟨a.x, a.y, hc⟩ t.hiddenSize) (ops.ofInt 0))
                  (t.forwardSum ops inputCs it (address3 ⟨a.x, a.y, hc⟩ t.hiddenSize)))
              hc acts)) := by
      funext acts hc
      by_cases hit : it = 0
      · simp only [hit, if_true]
      · simp only [hit, if_false]
    rw [e'] at e
    have e2 : SparseCoder.forwardLoop ops a inputCs it t
        = SparseCoder.forwardLoop ops a inputCs it
          { t with hiddenActivations := t.hiddenActivations } := rfl
    rw [e2, e]
    apply agreeOff_writes_right (ops.ofInt 0)
      (fun hc => address3 ⟨a.x, a.y, hc⟩ t.hiddenSize) _ (intRange 0 t.hiddenSize.z) _ _ ha
    intro hc hhc
    rw [hf.1] at hhc ⊢
    exact haa hc hhc

theorem SparseCoder.backward_eq {F R : Type} [LinearOrder F] (ops : FloatOps F) (pos : Int2)
    (rng : R) (inputCs : IntBuffer) (vli : Nat) (s : SparseCoder F) :
    SparseCoder.backward ops pos rng inputCs vli s
      = { s with
          visibleLayers := s.visibleLayers.set vli
            { s.layer vli with
              inputErrors := setI (s.layer vli).inputErrors
                (address2 pos ⟨(s.desc vli).size.x, (s.desc vli).size.y⟩)
                (SparseCoder.backwardError ops pos inputCs vli s) } } := rfl

/-- The layers after `SparseCoder::backward`: layer `vli` has its error at the
column rewritten, the other layers are as they were. -/
theorem SparseCoder.backward_layer {F R : Type} [LinearOrder F] (ops : FloatOps F) (pos : Int2)
    (rng : R) (inputCs : IntBuffer) (vli : Nat) (s : SparseCoder F)
    (hvli : vli < s.visibleLayers.length) (v : Nat) :
    (SparseCoder.backward ops pos rng inputCs vli s).layer v
      = if v = vli then
          { s.layer vli with
            inputErrors := setI (s.layer vli).inputErrors
              (address2 pos ⟨(s.desc vli).size.x, (s.desc vli).size.y⟩)
              (SparseCoder.backwardError ops pos inputCs vli s) }
        else s.layer v := by
  rw [SparseCoder.backward_eq]
  unfold SparseCoder.layer
  by_cases hv : v = vli
  · subst hv
    simp only [if_true]
    exact getD_set_self _ _ _ _ hvli
  · simp only [hv, if_false]
    exact getD_set_ne _ _ _ _ _ (fun e => hv e.symm)

/-- The error that `SparseCoder::backward` writes reads the weights of the
layer, the hidden codes and the inputs only. -/
theorem SparseCoder.backwardError_congr {F : Type} [LinearOrder F] (ops : FloatOps F)
    (pos : Int2) (inputCs : IntBuffer) (vli : Nat) {s t : SparseCoder F}
    (hf : SparseCoder.SameFrame s t) (hc : t.hiddenCs = s.hiddenCs)
    (hw : (t.layer vli).weights = (s.layer vli).weights) :
    SparseCoder.backwardError ops pos inputCs vli t
      = SparseCoder.backwardError ops pos inputCs vli s := by
  unfold SparseCoder.backwardError
  have hd : t.desc vli = s.desc vli := by
    unfold SparseCoder.desc
    rw [hf.2.1]
  rw [hd, hc, hw, hf.1]

theorem SparseCoder.desc_of_frame {F : Type} {s t : SparseCoder F}
    (hf : SparseCoder.SameFrame s t) (vli : Nat) : t.desc vli = s.desc vli := by
  unfold SparseCoder.desc
  rw [hf.2.1]

theorem sameFrame_square {F : Type} {s s' t t' : SparseCoder F}
    (hs : SparseCoder.SameFrame s s') (ht : SparseCoder.SameFrame t t')
    (h : SparseCoder.SameFrame s t) : SparseCoder.SameFrame s' t' :=
  ⟨ht.1.trans (h.1.trans hs.1.symm), ht.2.1.trans (h.2.1.trans hs.2.1.symm),
    ht.2.2.1.trans (h.2.2.1.trans hs.2.2.1.symm),
    ht.2.2.2.1.trans (h.2.2.2.1.trans hs.2.2.2.1.symm),
    ht.2.2.2.2.trans (h.2.2.2.2.trans hs.2.2.2.2.symm)⟩

/-- The backward kernel, run on two coders with the same hidden codes that agree
outside pending indices of the errors, settles the index of its column. -/
theorem SparseCoder.backward_replays {F R : Type} [LinearOrder F] (ops : FloatOps F)
    (rng rng' : R) (inputCs : IntBuffer) (vli : Nat) (a : Int2) (pe : Nat → List Int)
    (s t : SparseCoder F) (hvli : vli < s.visibleLayers.length)
    (h : SparseCoder.Replays ops [] []
      (fun v => if v = vli then
          address2 a ⟨(s.desc vli).size.x, (s.desc vli).size.y⟩ :: pe v
        else pe v) s t) :
    SparseCoder.Replays ops [] [] pe (SparseCoder.backward ops a rng inputCs vli s)
      (SparseCoder.backward ops a rng' inputCs vli t) := by
  obtain ⟨hf, hc, ha, hl⟩ := h
  have hcs : t.hiddenCs = s.hiddenCs := (agreeOff_nil_eq 0 hc).symm
  refine ⟨sameFrame_square (SparseCoder.backward_frame ops a rng inputCs vli s)
    (SparseCoder.backward_frame ops a rng' inputCs vli t) hf, hc, ha, ?_⟩
  intro v
  rw [SparseCoder.backward_layer ops a rng inputCs vli s hvli v,
    SparseCoder.backward_layer ops a rng' inputCs vli t (by rw [hf.2.2.2.2]; exact hvli) v]
  by_cases hv : v = vli
  · subst hv
    simp only [if_true]
    have h1 := hl v
    simp only [if_true] at h1
    refine ⟨h1.1, ?_⟩
    show AgreeOff (ops.ofInt 0) (pe v)
      (setI (s.layer v).inputErrors (address2 a ⟨(s.desc v).size.x, (s.desc v).size.y⟩)
        (SparseCoder.backwardError ops a inputCs v s))
      (setI (t.layer v).inputErrors (address2 a ⟨(t.desc v).size.x, (t.desc v).size.y⟩)
        (SparseCoder.backwardError ops a inputCs v t))
    rw [SparseCoder.backwardError_congr ops a inputCs v hf hcs h1.1,
      SparseCoder.desc_of_frame hf v]
    exact agreeOff_setI _ _ _ h1.2
  · simp only [hv, if_false]
    have h1 := hl v
    simp only [hv, if_false] at h1
    exact h1

/-- A backward kernel writes at the index of its column only. -/
theorem SparseCoder.backward_replays_right {F R : Type} [LinearOrder F] (ops : FloatOps F)
    (rng : R) (inputCs : IntBuffer) (vli : Nat) (a : Int2) (pc pa : List Int)
    (pe : Nat → List Int) (s t : SparseCoder F) (hvli : vli < s.visibleLayers.length)
    (hae : address2 a ⟨(s.desc vli).size.x, (s.desc vli).size.y⟩ ∈ pe vli)
    (h : SparseCoder.Replays ops pc pa pe s t) :
    SparseCoder.Replays ops pc pa pe s (SparseCoder.backward ops a rng inputCs vli t) := by
  obtain ⟨hf, hc, ha, hl⟩ := h
  refine ⟨sparseCoder_sameFrame_trans hf (SparseCoder.backward_frame ops a rng inputCs vli t),
    hc, ha, ?_⟩
  intro v
  rw [SparseCoder.backward_layer ops a rng inputCs vli t (by rw [hf.2.2.2.2]; exact hvli) v]
  by_cases hv : v = vli
  · subst hv
    simp only [if_true]
    refine ⟨(hl v).1, ?_⟩
    show AgreeOff (ops.ofInt 0) (pe v) (s.layer v).inputErrors
      (setI (t.layer v).inputErrors (address2 a ⟨(t.desc v).size.x, (t.desc v).size.y⟩)
        (SparseCoder.backwardError ops a inputCs v t))
    rw [SparseCoder.desc_of_frame hf v]
    exact agreeOff_setI_right _ _ _ hae (hl v).2
  · simp only [hv, if_false]
    exact hl v

/-- The state after a launch: the fold of the kernel over the launch order. -/
theorem launch2_order {R σ : Type} (M : RngOps R) (noThread : Bool) (k : Int2 → R → σ → σ)
    (hk : ∀ p r r' s, k p r s = k p r' s) (size : Int2) (cs : ComputeSystem R) (s : σ) :
    (launch2 M noThread k size cs s).1
      = (launchOrder2 noThread size cs.batchSize2).foldl (fun s p => k p cs.rng s) s :=
  launch2_fst M noThread k hk size cs s

/-- The state after `SparseCoder::step` without learning is the state after the
explain iterations in the launch order of the mode. -/
theorem SparseCoder.step_false_fst {F R : Type} [LinearOrder F] (M : RngOps R)
    (ops : FloatOps F) (noThread : Bool) (cs : ComputeSystem R) (inputCs : List IntBuffer)
    (s : SparseCoder F) :
    (SparseCoder.step M ops noThread cs inputCs false s).1
      = SparseCoder.encodeOn ops (fun size => launchOrder2 noThread size cs.batchSize2)
          inputCs s := by
  unfold SparseCoder.step SparseCoder.encodeOn SparseCoder.encodeIter
  simp only [Bool.false_eq_true, if_false]
  refine (foldl_rel
    (fun (acc : SparseCoder F × ComputeSystem R) (q : SparseCoder F) =>
      acc.1 = q ∧ acc.2.batchSize2 = cs.batchSize2)
    _ _ _ ?_ (s, cs) s ⟨rfl, rfl⟩).1
  rintro ⟨a, c⟩ q it _ ⟨h1, h2⟩
  simp only at h1 h2
  subst h1
  have hf : (launch2 M noThread (fun pos rng s => SparseCoder.forward ops pos rng inputCs it s)
        ⟨a.hiddenSize.x, a.hiddenSize.y⟩ c a).1
      = (launchOrder2 noThread ⟨a.hiddenSize.x, a.hiddenSize.y⟩ cs.batchSize2).foldl
          (fun s pos => SparseCoder.forward ops pos () inputCs it s) a := by
    rw [launch2_order M noThread
      (fun pos rng s => SparseCoder.forward ops pos rng inputCs it s) (fun _ _ _ _ => rfl), h2]
    rfl
  have hf2 : (launch2 M noThread (fun pos rng s => SparseCoder.forward ops pos rng inputCs it s)
        ⟨a.hiddenSize.x, a.hiddenSize.y⟩ c a).2.batchSize2 = cs.batchSize2 := by
    rw [launch2_snd]
    exact h2
  simp only []
  rw [hf]
  split
  · refine foldl_rel
      (fun (acc : SparseCoder F × ComputeSystem R) (q : SparseCoder F) =>
        acc.1 = q ∧ acc.2.batchSize2 = cs.batchSize2)
      _ _ _ ?_ _ _ ⟨hf, hf2⟩
    rintro ⟨a', c'⟩ q' vli _ ⟨h1', h2'⟩
    simp only at h1' h2'
    subst h1'
    constructor
    · simp only []
      rw [launch2_order M noThread
        (fun pos rng s => SparseCoder.backward ops pos rng (inputCs.getD vli []) vli s)
        (fun _ _ _ _ => rfl), h2']
      rfl
    · simp only []
      rw [launch2_snd]
      exact h2'
  · exact ⟨hf, hf2⟩

/-- A run of forward kernels of iteration 0 over the columns `l`, on two coders
that agree outside the indices of these columns, ends with the same codes and
activations. -/
theorem SparseCoder.forward_run_zero_replays {F : Type} [LinearOrder F] (ops : FloatOps F)
    (inputCs : List IntBuffer) (pe : Nat → List Int) (l : List Int2) :
    ∀ s t : SparseCoder F, SparseCoder.Replays ops (s.pendingCs l) (s.pendingActs l) pe s t →
      SparseCoder.Replays ops [] [] pe
        (l.foldl (fun s pos => SparseCoder.forward ops pos () inputCs 0 s) s)
        (l.foldl (fun s pos => SparseCoder.forward ops pos () inputCs 0 s) t) := by
  induction l with
  | nil => intro s t h; exact h
  | cons a l ih =>
    intro s t h
    rw [List.foldl_cons, List.foldl_cons]
    exact ih _ _ (SparseCoder.forward_zero_replays ops () () inputCs a (s.pendingCs l)
      (s.pendingActs l) pe s t h)

/-- A run of forward kernels over the columns `l` writes at the indices of these
columns only. -/
theorem SparseCoder.forward_run_replays_right {F : Type} [LinearOrder F] (ops : FloatOps F)
    (inputCs : List IntBuffer) (it : Int) (l l' : List Int2) (hl : ∀ pos ∈ l, pos ∈ l')
    (pe : Nat → List Int) (s t : SparseCoder F)
    (h : SparseCoder.Replays ops (s.pendingCs l') (s.pendingActs l') pe s t) :
    SparseCoder.Replays ops (s.pendingCs l') (s.pendingActs l') pe s
      (l.foldl (fun s pos => SparseCoder.forward ops pos () inputCs it s) t) := by
  refine foldl_preserves
    (fun q => SparseCoder.Replays ops (s.pendingCs l') (s.pendingActs l') pe s q) _ l ?_ t h
  intro q a ha hq
  apply SparseCoder.forward_replays_right ops () inputCs it a _ _ pe s q _ _ hq
  · exact List.mem_map_of_mem _ (hl a ha)
  · intro hc hhc
    unfold SparseCoder.pendingActs
    rw [List.mem_flatMap]
    exact ⟨a, hl a ha, List.mem_map_of_mem _ hhc⟩

theorem SparseCoder.backward_replays_of {F R : Type} [LinearOrder F] (ops : FloatOps F)
    (rng rng' : R) (inputCs : IntBuffer) (vli : Nat) (a : Int2) (pe1 pe2 : Nat → List Int)
    (s t : SparseCoder F) (hvli : vli < s.visibleLayers.length)
    (h1 : pe1 vli = address2 a ⟨(s.desc vli).size.x, (s.desc vli).size.y⟩ :: pe2 vli)
    (h2 : ∀ v, v ≠ vli → pe1 v = pe2 v) (h : SparseCoder.Replays ops [] [] pe1 s t) :
    SparseCoder.Replays ops [] [] pe2 (SparseCoder.backward ops a rng inputCs vli s)
      (SparseCoder.backward ops a rng' inputCs vli t) := by
  apply SparseCoder.backward_replays ops rng rng' inputCs vli a pe2 s t hvli
  have e : pe1 = fun v => if v = vli then
      address2 a ⟨(s.desc vli).size.x, (s.desc vli).size.y⟩ :: pe2 v else pe2 v := by
    funext v
    by_cases hv : v = vli
    · subst hv
      simp only [if_true]
      exact h1
    · simp only [hv, if_false]
      exact h2 v hv
  rw [← e]
  exact h

/-- A run of backward kernels of layer `vli` over the visible columns `l`, on
two coders with the same hidden codes that agree outside the indices of these
columns, ends with the same errors in layer `vli`. -/
theorem SparseCoder.backward_run_replays {F : Type} [LinearOrder F] (ops : FloatOps F)
    (inputCs : IntBuffer) (vli : Nat) (pe : Nat → List Int) (l : List Int2) :
    ∀ s t : SparseCoder F, vli < s.visibleLayers.length →
      SparseCoder.Replays ops [] []
        (fun v => if v = vli then s.pendingErrors vli l ++ pe v else pe v) s t →
      SparseCoder.Replays ops [] [] pe
        (l.foldl (fun s pos => SparseCoder.backward ops pos () inputCs vli s) s)
        (l.foldl (fun s pos => SparseCoder.backward ops pos () inputCs vli s) t) := by
  induction l with
  | nil =>
    intro s t _ h
    have e : (fun v => if v = vli then s.pendingErrors vli [] ++ pe v else pe v) = pe := by
      funext v
      by_cases hv : v = vli
      · simp only [hv, if_true]
        rfl
      · simp only [hv, if_false]
    rw [e] at h
    exact h
  | cons a l ih =>
    intro s t hvli h
    rw [List.foldl_cons, List.foldl_cons]
    refine ih _ _ ?_ ?_
    · rw [(SparseCoder.backward_frame ops a () inputCs vli s).2.2.2.2]
      exact hvli
    · refine SparseCoder.backward_replays_of ops () () inputCs vli a _ _ s t hvli ?_ ?_ h
      · simp only [if_true]
        rfl
      · intro v hv
        simp only [hv, if_false]

/-- A run of backward kernels of layer `vli` over the visible columns `l` writes
at the indices of these columns in the errors of layer `vli` only. -/
theorem SparseCoder.backward_run_replays_right {F : Type} [LinearOrder F] (ops : FloatOps F)
    (inputCs : IntBuffer) (vli : Nat) (l : List Int2) (pc pa : List Int) (pe : Nat → List Int)
    (s t : SparseCoder F) (hvli : vli < s.visibleLayers.length)
    (hl : ∀ pos ∈ l, address2 pos ⟨(s.desc vli).size.x, (s.desc vli).size.y⟩ ∈ pe vli)
    (h : SparseCoder.Replays ops pc pa pe s t) :
    SparseCoder.Replays ops pc pa pe s
      (l.foldl (fun s pos => SparseCoder.backward ops pos () inputCs vli s) t) :=
  foldl_preserves (fun q => SparseCoder.Replays ops pc pa pe s q) _ l
    (fun q a ha hq =>
      SparseCoder.backward_replays_right ops () inputCs vli a pc pa pe s q hvli (hl a ha) hq)
    t h

theorem SparseCoder.Replays.frame {F : Type} {ops : FloatOps F} {pc pa : List Int}
    {pe : Nat → List Int} {s t : SparseCoder F} (h : SparseCoder.Replays ops pc pa pe s t) :
    SparseCoder.SameFrame s t := h.1

theorem SparseCoder.replays_refl {F : Type} (ops : FloatOps F) (pc pa : List Int)
    (pe : Nat → List Int) (s : SparseCoder F) : SparseCoder.Replays ops pc pa pe s s :=
  ⟨sparseCoder_sameFrame_refl s, agreeOff_refl _ _ _, agreeOff_refl _ _ _,
    fun _ => ⟨rfl, agreeOff_refl _ _ _⟩⟩

theorem SparseCoder.pendingCs_of_frame {F : Type} {s t : SparseCoder F}
    (hf : SparseCoder.SameFrame s t) (l : List Int2) : t.pendingCs l = s.pendingCs l := by
  unfold SparseCoder.pendingCs
  rw [hf.1]

theorem SparseCoder.pendingActs_of_frame {F : Type} {s t : SparseCoder F}
    (hf : SparseCoder.SameFrame s t) (l : List Int2) : t.pendingActs l = s.pendingActs l := by
  unfold SparseCoder.pendingActs
  rw [hf.1]

theorem SparseCoder.pendingErrors_of_frame {F : Type} {s t : SparseCoder F}
    (hf : SparseCoder.SameFrame s t) (vli : Nat) (l : List Int2) :
    t.pendingErrors vli l = s.pendingErrors vli l := by
  unfold SparseCoder.pendingErrors
  rw [SparseCoder.desc_of_frame hf]

/-- The explain iterations write at the indices of the columns of their launches
only: the hidden columns for the codes and the activations, the visible columns
of each layer for its errors. -/
theorem SparseCoder.encodeOn_replays {F : Type} [LinearOrder F] (ops : FloatOps F)
    (order : Int2 → List Int2) (inputCs : List IntBuffer) (s : SparseCoder F) :
    SparseCoder.Replays ops
      (s.pendingCs (order ⟨s.hiddenSize.x, s.hiddenSize.y⟩))
      (s.pendingActs (order ⟨s.hiddenSize.x, s.hiddenSize.y⟩))
      (fun v => s.pendingErrors v (order ⟨(s.desc v).size.x, (s.desc v).size.y⟩))
      s (SparseCoder.encodeOn ops order inputCs s) := by
  unfold SparseCoder.encodeOn SparseCoder.encodeIter
  refine foldl_preserves
    (fun q => SparseCoder.Replays ops
      (s.pendingCs (order ⟨s.hiddenSize.x, s.hiddenSize.y⟩))
      (s.pendingActs (order ⟨s.hiddenSize.x, s.hiddenSize.y⟩))
      (fun v => s.pendingErrors v (order ⟨(s.desc v).size.x, (s.desc v).size.y⟩)) s q)
    _ _ ?_ s (SparseCoder.replays_refl ops _ _ _ s)
  intro q it _ hq
  have hfwd := SparseCoder.forward_run_replays_right ops inputCs it
    (order ⟨q.hiddenSize.x, q.hiddenSize.y⟩) (order ⟨s.hiddenSize.x, s.hiddenSize.y⟩)
    (by rw [hq.frame.1]; exact fun _ h => h) _ s q hq
  simp only []
  split
  · refine foldl_preserves
      (fun q' => SparseCoder.Replays ops
        (s.pendingCs (order ⟨s.hiddenSize.x, s.hiddenSize.y⟩))
        (s.pendingActs (order ⟨s.hiddenSize.x, s.hiddenSize.y⟩))
        (fun v => s.pendingErrors v (order ⟨(s.desc v).size.x, (s.desc v).size.y⟩)) s q')
      _ _ ?_ _ hfwd
    intro q' vli hvli hq'
    have hlt : vli < s.visibleLayers.length := by
      have := List.mem_range.mp hvli
      rw [hfwd.frame.2.2.2.2] at this
      exact this
    apply SparseCoder.backward_run_replays_right ops (inputCs.getD vli []) vli _ _ _ _ s q' hlt
      _ hq'
    intro pos hpos
    rw [SparseCoder.desc_of_frame hq'.frame] at hpos
    exact List.mem_map_of_mem _ hpos
  · exact hfwd

theorem SparseCoder.backward_runs_frame {F : Type} [LinearOrder F] (ops : FloatOps F)
    (order : Int2 → List Int2) (inputCs : List IntBuffer) (l : List Nat) (s : SparseCoder F) :
    SparseCoder.SameFrame s
      (l.foldl
        (fun (s : SparseCoder F) vli =>
          (order ⟨(s.desc vli).size.x, (s.desc vli).size.y⟩).foldl
            (fun s pos => SparseCoder.backward ops pos () (inputCs.getD vli []) vli s) s) s) :=
  foldl_preserves (fun q => SparseCoder.SameFrame s q) _ l
    (fun q vli _ hq => foldl_preserves (fun q' => SparseCoder.SameFrame s q') _ _
      (fun q' pos _ hq' => sparseCoder_sameFrame_trans hq'
        (SparseCoder.backward_frame ops pos () (inputCs.getD vli []) vli q')) q hq)
    s (sparseCoder_sameFrame_refl s)

/-- The backward launches of the first `n` layers, on two coders with the same
hidden codes that agree outside the indices of the visible columns of these
layers, end with the same errors in these layers. -/
theorem SparseCoder.backward_layers_replays {F : Type} [LinearOrder F] (ops : FloatOps F)
    (order : Int2 → List Int2) (inputCs : List IntBuffer) (n : Nat) :
    ∀ (pe : Nat → List Int) (s t : SparseCoder F), n ≤ s.visibleLayers.length →
      SparseCoder.Replays ops [] []
        (fun v => if v < n then
            s.pendingErrors v (order ⟨(s.desc v).size.x, (s.desc v).size.y⟩) ++ pe v
          else pe v) s t →
      SparseCoder.Replays ops [] [] pe
        ((List.range n).foldl
          (fun (s : SparseCoder F) vli =>
            (order ⟨(s.desc vli).size.x, (s.desc vli).size.y⟩).foldl
              (fun s pos => SparseCoder.backward ops pos () (inputCs.getD vli []) vli s) s) s)
        ((List.range n).foldl
          (fun (s : SparseCoder F) vli =>
            (order ⟨(s.desc vli).size.x, (s.desc vli).size.y⟩).foldl
              (fun s pos => SparseCoder.backward ops pos () (inputCs.getD vli []) vli s) s)
          t) := by
  induction n with
  | zero =>
    intro pe s t _ h
    simp only [Nat.not_lt_zero, if_false] at h
    exact h
  | succ n ih =>
    intro pe s t hn h
    rw [List.range_succ, List.foldl_append, List.foldl_append, List.foldl_cons,
      List.foldl_cons, List.foldl_nil, List.foldl_nil]
    have hfr := SparseCoder.backward_runs_frame ops order inputCs (List.range n) s
    have h1 := ih
      (fun v => if v = n then
          s.pendingErrors n (order ⟨(s.desc n).size.x, (s.desc n).size.y⟩) ++ pe v
        else pe v) s t (by omega)
      (by
        have e : (fun v => if v < n then
              s.pendingErrors v (order ⟨(s.desc v).size.x, (s.desc v).size.y⟩)
                ++ (if v = n then
                    s.pendingErrors n (order ⟨(s.desc n).size.x, (s.desc n).size.y⟩) ++ pe v
                  else pe v)
            else if v = n then
              s.pendingErrors n (order ⟨(s.desc n).size.x, (s.desc n).size.y⟩) ++ pe v
            else pe v)
            = (fun v => if v < n + 1 then
                s.pendingErrors v (order ⟨(s.desc v).size.x, (s.desc v).size.y⟩) ++ pe v
              else pe v) := by
          funext v
          rcases Nat.lt_trichotomy v n with hv | hv | hv
          · have h2 : v ≠ n := by omega
            have h3 : v < n + 1 := by omega
            simp only [hv, h2, h3, if_true, if_false]
          · subst hv
            simp only [Nat.lt_irrefl, Nat.lt_succ_self, if_true, if_false]
          · have h2 : v ≠ n := by omega
            have h3 : ¬ v < n + 1 := by omega
            have h4 : ¬ v < n := by omega
            simp only [h2, h3, h4, if_false]
        rw [e]
        exact h)
    generalize (List.range n).foldl
      (fun (s : SparseCoder F) vli =>
        (order ⟨(s.desc vli).size.x, (s.desc vli).size.y⟩).foldl
          (fun s pos => SparseCoder.backward ops pos () (inputCs.getD vli []) vli s) s) s
      = sn at hfr h1
    generalize (List.range n).foldl
      (fun (s : SparseCoder F) vli =>
        (order ⟨(s.desc vli).size.x, (s.desc vli).size.y⟩).foldl
          (fun s pos => SparseCoder.backward ops pos () (inputCs.getD vli []) vli s) s) t
      = tn at h1
    rw [SparseCoder.desc_of_frame h1.frame n]
    apply SparseCoder.backward_run_replays ops (inputCs.getD n []) n pe _ sn tn
      (by rw [hfr.2.2.2.2]; omega)
    rw [SparseCoder.pendingErrors_of_frame hfr, SparseCoder.desc_of_frame hfr]
    exact h1

theorem SparseCoder.layer_of_length_le {F : Type} (s : SparseCoder F) (v : Nat)
    (h : s.visibleLayers.length ≤ v) : s.layer v = SparseCoder.VisibleLayer.none F := by
  unfold SparseCoder.layer
  exact List.getD_eq_default _ _ h

/-- Coders that agree on every entry of every buffer are equal. -/
theorem SparseCoder.replays_eq {F : Type} (ops : FloatOps F) {s t : SparseCoder F}
    (h : SparseCoder.Replays ops [] [] (fun _ => []) s t) : t = s := by
  obtain ⟨hf, hc, ha, hl⟩ := h
  have e1 := (agreeOff_nil_eq 0 hc).symm
  have e2 := (agreeOff_nil_eq _ ha).symm
  have e3 : t.visibleLayers = s.visibleLayers := by
    apply List.ext_getElem hf.2.2.2.2
    intro n h1 h2
    have hw := (hl n).1
    have he := (agreeOff_nil_eq _ (hl n).2).symm
    unfold SparseCoder.layer at hw he
    rw [List.getD_eq_getElem _ _ h1, List.getD_eq_getElem _ _ h2] at hw he
    cases hx : t.visibleLayers[n]
    cases hy : s.visibleLayers[n]
    rw [hx, hy] at hw he
    simp only at hw he
    rw [hw, he]
  obtain ⟨g1, g2, g3, g4, _⟩ := hf
  cases s
  cases t
  simp only at e1 e2 e3 g1 g2 g3 g4
  simp only [SparseCoder.mk.injEq]
  exact ⟨g1, e1, e2, e3, g2, g3, g4⟩

theorem SparseCoder.forward_run_frame {F : Type} [LinearOrder F] (ops : FloatOps F)
    (inputCs : List IntBuffer) (it : Int) (l : List Int2) (s : SparseCoder F) :
    SparseCoder.SameFrame s
      (l.foldl (fun s pos => SparseCoder.forward ops pos () inputCs it s) s) :=
  foldl_preserves (fun q => SparseCoder.SameFrame s q) _ l
    (fun q pos _ hq => sparseCoder_sameFrame_trans hq
      (sparseCoder_forward_frame ops pos () inputCs it q)) s (sparseCoder_sameFrame_refl s)

/-- Iteration 0 of the explain loop, on two coders that agree outside the
indices that the iterations write: the codes end the same, and the coders end
equal when a backward pass follows. -/
theorem SparseCoder.encodeIter_zero_replays {F : Type} [LinearOrder F] (ops : FloatOps F)
    (order : Int2 → List Int2) (inputCs : List IntBuffer) (s t : SparseCoder F)
    (h : SparseCoder.Replays ops
      (s.pendingCs (order ⟨s.hiddenSize.x, s.hiddenSize.y⟩))
      (s.pendingActs (order ⟨s.hiddenSize.x, s.hiddenSize.y⟩))
      (fun v => s.pendingErrors v (order ⟨(s.desc v).size.x, (s.desc v).size.y⟩)) s t) :
    (SparseCoder.encodeIter ops order inputCs 0 t).hiddenCs
        = (SparseCoder.encodeIter ops order inputCs 0 s).hiddenCs
      ∧ (0 < s.explainIters - 1 →
        SparseCoder.encodeIter ops order inputCs 0 t
          = SparseCoder.encodeIter ops order inputCs 0 s) := by
  have hfwd := SparseCoder.forward_run_zero_replays ops inputCs _
    (order ⟨s.hiddenSize.x, s.hiddenSize.y⟩) s t h
  have hfs := SparseCoder.forward_run_frame ops inputCs 0
    (order ⟨s.hiddenSize.x, s.hiddenSize.y⟩) s
  unfold SparseCoder.encodeIter
  simp only []
  rw [h.frame.1, h.frame.2.2.1]
  generalize (order ⟨s.hiddenSize.x, s.hiddenSize.y⟩).foldl
    (fun s pos => SparseCoder.forward ops pos () inputCs 0 s) s = fs at hfwd hfs
  generalize (order ⟨s.hiddenSize.x, s.hiddenSize.y⟩).foldl
    (fun s pos => SparseCoder.forward ops pos () inputCs 0 s) t = ft at hfwd
  by_cases h2 : 0 < s.explainIters - 1
  · simp only [h2, if_true]
    have hlen : ft.visibleLayers.length = fs.visibleLayers.length := hfwd.frame.2.2.2.2
    have hb := SparseCoder.backward_layers_replays ops order inputCs fs.visibleLayers.length
      (fun _ => []) fs ft (le_refl _)
      (by
        obtain ⟨g1, g2, g3, g4⟩ := hfwd
        refine ⟨g1, g2, g3, ?_⟩
        intro v
        refine ⟨(g4 v).1, ?_⟩
        by_cases hv : v < fs.visibleLayers.length
        · simp only [hv, if_true, List.append_nil]
          rw [SparseCoder.pendingErrors_of_frame hfs, SparseCoder.desc_of_frame hfs]
          exact (g4 v).2
        · simp only [hv, if_false]
          rw [SparseCoder.layer_of_length_le fs v (by omega),
            SparseCoder.layer_of_length_le ft v (by omega)]
          exact agreeOff_refl _ _ _)
    have e := SparseCoder.replays_eq ops hb
    rw [hlen]
    exact ⟨by rw [e], fun _ => e⟩
  · simp only [h2, if_false]
    exact ⟨(agreeOff_nil_eq 0 hfwd.2.1).symm, fun h' => h'.elim⟩

/-- Running the explain iterations a second time, on the same inputs, ends with
the hidden codes of the first run. -/
theorem SparseCoder.encodeOn_twice {F : Type} [LinearOrder F] (ops : FloatOps F)
    (order : Int2 → List Int2) (inputCs : List IntBuffer) (s : SparseCoder F) :
    (SparseCoder.encodeOn ops order inputCs (SparseCoder.encodeOn ops order inputCs s)).hiddenCs
      = (SparseCoder.encodeOn ops order inputCs s).hiddenCs := by
  have hr := SparseCoder.encodeOn_replays ops order inputCs s
  have hz := SparseCoder.encodeIter_zero_replays ops order inputCs s _ hr
  have hn : (SparseCoder.encodeOn ops order inputCs s).explainIters = s.explainIters :=
    hr.frame.2.2.1
  have hs : ∀ q : SparseCoder F, SparseCoder.encodeOn ops order inputCs q
      = (intRange 0 q.explainIters).foldl
          (fun (s : SparseCoder F) it => SparseCoder.encodeIter ops order inputCs it s) q :=
    fun _ => rfl
  rcases le_or_lt s.explainIters 0 with h0 | h0
  · rw [hs (SparseCoder.encodeOn ops order inputCs s), hn, intRange_eq_nil h0]
    rfl
  · rcases le_or_lt s.explainIters 1 with h1 | h1
    · have e1 : s.explainIters = 1 := by omega
      have hs1 : SparseCoder.encodeOn ops order inputCs s
          = SparseCoder.encodeIter ops order inputCs 0 s := by
        rw [hs s, e1]
        rfl
      have hs2 : SparseCoder.encodeOn ops order inputCs
            (SparseCoder.encodeOn ops order inputCs s)
          = SparseCoder.encodeIter ops order inputCs 0
            (SparseCoder.encodeOn ops order inputCs s) := by
        rw [hs (SparseCoder.encodeOn ops order inputCs s), hn, e1]
        rfl
      rw [hs2, hz.1, ← hs1]
    · have e := hz.2 (by omega)
      have hs2 : SparseCoder.encodeOn ops order inputCs
            (SparseCoder.encodeOn ops order inputCs s)
          = SparseCoder.encodeOn ops order inputCs s := by
        rw [hs (SparseCoder.encodeOn ops order inputCs s), hn, intRange_cons h0,
          List.foldl_cons, e, hs s, intRange_cons h0, List.foldl_cons]
      rw [hs2]

/-! ### Claim on the replay of an encoding -/

/-- C13: for every sparse coder, input and compute system, in either execution
mode, a second `SparseCoder::step` with `learnEnabled = false` on the same
inputs, run right after the first (with the generator as the first call left it,
or with any other state of the generator), ends with the `hiddenCs` of the first
call. -/
theorem step_twice_same_codes {F R : Type} [LinearOrder F] (M : RngOps R) (ops : FloatOps F)
    (noThread : Bool) (cs : ComputeSystem R) (inputCs : List IntBuffer) (s : SparseCoder F) :
    (SparseCoder.step M ops noThread (SparseCoder.step M ops noThread cs inputCs false s).2
        inputCs false (SparseCoder.step M ops noThread cs inputCs false s).1).1.hiddenCs
      = (SparseCoder.step M ops noThread cs inputCs false s).1.hiddenCs
    ∧ ∀ rng : R,
      (SparseCoder.step M ops noThread { cs with rng := rng } inputCs false
          (SparseCoder.step M ops noThread cs inputCs false s).1).1.hiddenCs
        = (SparseCoder.step M ops noThread cs inputCs false s).1.hiddenCs := by
  have key : ∀ rng : R,
      (SparseCoder.step M ops noThread { cs with rng := rng } inputCs false
          (SparseCoder.step M ops noThread cs inputCs false s).1).1.hiddenCs
        = (SparseCoder.step M ops noThread cs inputCs false s).1.hiddenCs := by
    intro rng
    rw [SparseCoder.step_false_fst M ops noThread { cs with rng := rng },
      SparseCoder.step_false_fst M ops noThread cs]
    exact SparseCoder.encodeOn_twice ops _ inputCs s
  refine ⟨?_, key⟩
  rw [SparseCoder.step_snd]
  exact key _

/-! ### The records that the writers emit -/

theorem foldl_writeInt {F : Type} (buffer : IntBuffer) (os : RecordStream F) :
    buffer.foldl writeInt os = os ++ buffer.map Record.int := by
  induction buffer generalizing os with
  | nil => simp
  | cons v t ih =>
    rw [List.foldl_cons, ih]
    simp [writeInt]

theorem foldl_writeFloat {F : Type} (buffer : FloatBuffer F) (os : RecordStream F) :
    buffer.foldl writeFloat os = os ++ buffer.map Record.float := by
  induction buffer generalizing os with
  | nil => simp
  | cons v t ih =>
    rw [List.foldl_cons, ih]
    simp [writeFloat]

theorem writeIntBuffer_eq {F : Type} (os : RecordStream F) (buffer : IntBuffer) :
    writeIntBuffer os buffer = os ++ intBufferRecords buffer := by
  unfold writeIntBuffer intBufferRecords
  rw [foldl_writeInt]
  simp [writeInt]

theorem writeFloatBuffer_eq {F : Type} (os : RecordStream F) (buffer : FloatBuffer F) :
    writeFloatBuffer os buffer = os ++ floatBufferRecords buffer := by
  unfold writeFloatBuffer floatBufferRecords
  rw [foldl_writeFloat]
  simp [writeInt]

theorem writeInt3_eq {F : Type} (os : RecordStream F) (v : Int3) :
    writeInt3 os v = os ++ int3Records v := by
  simp [writeInt3, writeInt, int3Records]

theorem writeDesc_eq {F : Type} (os : RecordStream F) (vld : VisibleLayerDesc) :
    writeDesc os vld = os ++ descRecords vld := by
  unfold writeDesc descRecords
  rw [writeInt3_eq]
  simp [writeInt]

theorem writeSMToStream_eq {F : Type} (os : RecordStream F) (mat : SparseMatrix F) :
    writeSMToStream os mat = os ++ smRecords mat := by
  unfold writeSMToStream smRecords
  simp only [writeIntBuffer_eq, writeFloatBuffer_eq, writeInt, List.append_assoc,
    List.singleton_append, List.cons_append, List.nil_append]

theorem foldl_append_flatMap {α β : Type} (g : α → List β) (l : List α) (os : List β) :
    l.foldl (fun os a => os ++ g a) os = os ++ l.flatMap g := by
  induction l generalizing os with
  | nil => simp
  | cons a t ih =>
    rw [List.foldl_cons, ih, List.flatMap_cons, List.append_assoc]

theorem predictor_writeToStream_eq {F : Type} (os : RecordStream F) (p : Predictor F) :
    Predictor.writeToStream os p = os ++ predictorRecords p := by
  unfold Predictor.writeToStream predictorRecords
  simp only [writeIntBuffer_eq, writeSMToStream_eq, writeDesc_eq, writeInt3_eq, writeInt,
    writeFloat, List.append_assoc]
  rw [foldl_append_flatMap]
  simp only [List.append_assoc]

theorem sparseCoder_writeToStream_eq {F : Type} (os : RecordStream F) (s : SparseCoder F) :
    SparseCoder.writeToStream os s = os ++ sparseCoderRecords s := by
  unfold SparseCoder.writeToStream sparseCoderRecords
  simp only [writeIntBuffer_eq, writeSMToStream_eq, writeDesc_eq, writeInt3_eq, writeInt,
    writeFloat, List.append_assoc]
  rw [foldl_append_flatMap]
  simp only [List.append_assoc]

/-! ### Reading back what was written -/

theorem readInt_cons {F : Type} (v : Int) (rest : RecordStream F) :
    readInt (Record.int v :: rest) = some (v, rest) := rfl

theorem readFloat_cons {F : Type} (v : F) (rest : RecordStream F) :
    readFloat (Record.float v :: rest) = some (v, rest) := rfl

theorem readInts_map {F : Type} (vs : List Int) (rest : RecordStream F) :
    readInts vs.length (vs.map Record.int ++ rest) = some (vs, rest) := by
  induction vs with
  | nil => rfl
  | cons v t ih =>
    simp only [List.length_cons, List.map_cons, List.cons_append, readInts, readInt_cons,
      Option.some_bind, ih]

theorem readFloats_map {F : Type} (vs : List F) (rest : RecordStream F) :
    readFloats vs.length (vs.map Record.float ++ rest) = some (vs, rest) := by
  induction vs with
  | nil => rfl
  | cons v t ih =>
    simp only [List.length_cons, List.map_cons, List.cons_append, readFloats, readFloat_cons,
      Option.some_bind, ih]

/-- Reading an array of `int` after it was written gives the array back and
leaves what follows it. -/
theorem readIntBuffer_records {F : Type} (buffer : IntBuffer) (rest : RecordStream F) :
    readIntBuffer (intBufferRecords buffer ++ rest) = some (buffer, rest) := by
  unfold readIntBuffer intBufferRecords
  simp only [List.cons_append, readInt_cons, Option.some_bind, Int.toNat_ofNat]
  exact readInts_map buffer rest

theorem readFloatBuffer_records {F : Type} (buffer : FloatBuffer F) (rest : RecordStream F) :
    readFloatBuffer (floatBufferRecords buffer ++ rest) = some (buffer, rest) := by
  unfold readFloatBuffer floatBufferRecords
  simp only [List.cons_append, readInt_cons, Option.some_bind, Int.toNat_ofNat]
  exact readFloats_map buffer rest

theorem readInt3_records {F : Type} (v : Int3) (rest : RecordStream F) :
    readInt3 (int3Records v ++ rest) = some (v, rest) := by
  simp only [readInt3, int3Records, List.cons_append, List.nil_append, readInt_cons,
    Option.some_bind]

theorem readDesc_records {F : Type} (vld : VisibleLayerDesc) (rest : RecordStream F) :
    readDesc (descRecords vld ++ rest) = some (vld, rest) := by
  simp only [readDesc, descRecords, List.append_assoc, readInt3_records, Option.some_bind,
    List.cons_append, List.nil_append, readInt_cons]

/-- Reading a sparse matrix after it was written gives the matrix back, whatever
the matrix read into, and leaves what follows it. -/
theorem readSMFromStream_records {F : Type} (m mat : SparseMatrix F) (rest : RecordStream F) :
    readSMFromStream (smRecords m ++ rest) mat = some (m, rest) := by
  unfold readSMFromStream smRecords
  simp only [List.append_assoc, List.cons_append, List.nil_append, readInt_cons,
    Option.some_bind, readFloatBuffer_records, readIntBuffer_records]

/-! ### Claims on the persistence of a sparse matrix -/

/-- C14: for every sparse matrix `m`, `readSMFromStream` on the records that
`writeSMToStream` emitted for `m`, followed by any further records, gives a
matrix equal to `m` in all eight members, whatever the matrix read into, and
leaves exactly the further records. -/
theorem readSM_after_writeSM {F : Type} (m mat : SparseMatrix F) (rest : RecordStream F) :
    readSMFromStream (writeSMToStream [] m ++ rest) mat = some (m, rest) := by
  rw [writeSMToStream_eq, List.nil_append]
  exact readSMFromStream_records m mat rest

/-! ### Reading back a predictor and a sparse coder -/

theorem length_resizeWith {α : Type} (v : List α) (n : Nat) (d : α) :
    (resizeWith v n d).length = n := by
  unfold resizeWith
  rw [List.length_append, List.length_take, List.length_replicate]
  omega

theorem resizeWith_length {α : Type} (v : List α) (d : α) : resizeWith v v.length d = v := by
  unfold resizeWith
  simp

theorem getD_resizeWith {α : Type} (v : List α) (n : Nat) (d : α) (i : Nat) (h : i < n) :
    (resizeWith v n d).getD i d = v.getD i d := by
  unfold resizeWith
  rw [List.getD_eq_getElem?_getD, List.getD_eq_getElem?_getD]
  by_cases hi : i < v.length
  · rw [List.getElem?_append_left (by rw [List.length_take]; omega), List.getElem?_take_of_lt h]
  · rw [List.getElem?_append_right (by rw [List.length_take]; omega),
      List.getElem?_eq_none (show v.length ≤ i by omega)]
    by_cases hr : i - (List.take n v).length < n - v.length
    · rw [List.getElem?_replicate_of_lt hr]
      rfl
    · rw [List.getElem?_eq_none (by rw [List.length_replicate]; omega)]

/-- Writing every index below `m` of a list leaves the written values below `m`
and the old elements from `m` on. -/
theorem getD_foldl_set_range {α : Type} (f : Nat → α) (d : α) (m : Nat) (l : List α)
    (hm : m ≤ l.length) (i : Nat) :
    ((List.range m).foldl (fun l j => l.set j (f j)) l).getD i d
      = if i < m then f i else l.getD i d := by
  induction m with
  | zero => simp
  | succ m ih =>
    rw [List.range_succ, List.foldl_append, List.foldl_cons, List.foldl_nil]
    have hlen : ((List.range m).foldl (fun l j => l.set j (f j)) l).length = l.length :=
      foldl_preserves (fun l' => l'.length = l.length) _ _
        (fun b a _ hb => by show (b.set a (f a)).length = l.length; rw [List.length_set]; exact hb) l rfl
    by_cases hi : i = m
    · subst hi
      rw [getD_set_self _ _ _ _ (by rw [hlen]; omega)]
      simp
    · rw [getD_set_ne _ _ _ _ _ (fun e => hi e.symm), ih (by omega)]
      by_cases h1 : i < m
      · have h2 : i < m + 1 := by omega
        simp only [h1, h2, if_true]
      · have h2 : ¬ i < m + 1 := by omega
        simp only [h1, h2, if_false]

/-- Writing every index of a list leaves the written values. -/
theorem foldl_set_range {α : Type} (f : Nat → α) (l : List α) :
    (List.range l.length).foldl (fun l j => l.set j (f j)) l = (List.range l.length).map f := by
  have hlen : ((List.range l.length).foldl (fun l j => l.set j (f j)) l).length = l.length :=
    foldl_preserves (fun l' => l'.length = l.length) _ _
      (fun b a _ hb => by show (b.set a (f a)).length = l.length; rw [List.length_set]; exact hb) l rfl
  apply List.ext_getElem
  · rw [hlen, List.length_map, List.length_range]
  · intro n h1 h2
    have e := getD_foldl_set_range f (f 0) l.length l (le_refl _) n
    rw [List.getD_eq_getElem _ _ h1] at e
    rw [e, List.getElem_map, List.getElem_range]
    simp only [hlen ▸ h1, if_true]

theorem map_range_getD {α : Type} (l : List α) (d : α) :
    (List.range l.length).map (fun i => l.getD i d) = l := by
  apply List.ext_getElem
  · simp
  · intro n h1 h2
    rw [List.getElem_map, List.getElem_range, List.getD_eq_getElem _ _ h2]

theorem map_range_getD_resize {α : Type} (l : List α) (n : Nat) (d : α) :
    (List.range n).map (fun i => l.getD i d) = resizeWith l n d := by
  apply List.ext_getElem
  · rw [List.length_map, List.length_range, length_resizeWith]
  · intro i h1 h2
    have hi : i < n := by simpa using h1
    rw [List.getElem_map, List.getElem_range, ← getD_resizeWith l n d i hi,
      List.getD_eq_getElem _ _ h2]

/-- The loop of `Predictor::readFromStream` over the layers `l`, on the records
that the writer emitted for these layers of `p`: every layer read receives the
descriptor, the weights and the previous input code of `p`. -/
theorem predictor_readLayers_records {F : Type} (p : Predictor F) (rest : RecordStream F)
    (l : List Nat) :
    ∀ q : Predictor F,
      l.foldl (fun st vli => st.bind (Predictor.readLayer vli))
          (some (q,
            (l.flatMap fun vli =>
              descRecords (p.desc vli) ++ (smRecords (p.layer vli).weights
                ++ intBufferRecords (p.layer vli).inputCsPrev)) ++ rest))
        = some
          ({ q with
              visibleLayerDescs := l.foldl (fun ds i => ds.set i (p.desc i)) q.visibleLayerDescs
              visibleLayers := l.foldl (fun ls i => ls.set i (p.layer i)) q.visibleLayers },
            rest) := by
  induction l with
  | nil => intro q; rfl
  | cons a l ih =>
    intro q
    rw [List.foldl_cons, List.flatMap_cons, Option.some_bind]
    have e : Predictor.readLayer a
        (q, (descRecords (p.desc a) ++ (smRecords (p.layer a).weights
            ++ intBufferRecords (p.layer a).inputCsPrev)
          ++ (l.flatMap fun vli =>
            descRecords (p.desc vli) ++ (smRecords (p.layer vli).weights
              ++ intBufferRecords (p.layer vli).inputCsPrev))) ++ rest)
        = some
          ({ q with
              visibleLayerDescs := q.visibleLayerDescs.set a (p.desc a)
              visibleLayers := q.visibleLayers.set a (p.layer a) },
            (l.flatMap fun vli =>
              descRecords (p.desc vli) ++ (smRecords (p.layer vli).weights
                ++ intBufferRecords (p.layer vli).inputCsPrev)) ++ rest) := by
      unfold Predictor.readLayer
      simp only [List.append_assoc, readDesc_records, Option.some_bind,
        readSMFromStream_records, readIntBuffer_records]
    rw [e, ih]
    rfl

/-- Reading a predictor after it was written gives the predictor back, with as
many descriptors as layers, whatever the predictor read into, and leaves what
follows it. -/
theorem predictor_readFromStream_records {F : Type} (p q : Predictor F)
    (rest : RecordStream F) :
    Predictor.readFromStream (predictorRecords p ++ rest) q
      = some
        ({ p with
            visibleLayerDescs := resizeWith p.visibleLayerDescs p.visibleLayers.length
              VisibleLayerDesc.none },
          rest) := by
  unfold Predictor.readFromStream predictorRecords
  simp only [List.append_assoc, readInt3_records, Option.some_bind, List.cons_append,
    List.nil_append, readFloat_cons, readIntBuffer_records, readInt_cons, Int.toNat_ofNat]
  rw [predictor_readLayers_records]
  simp only []
  have h1 : (List.range p.visibleLayers.length).foldl (fun ls i => ls.set i (p.layer i))
        (resizeWith q.visibleLayers p.visibleLayers.length (Predictor.VisibleLayer.none F))
      = p.visibleLayers := by
    have e := foldl_set_range (fun i => p.layer i)
      (resizeWith q.visibleLayers p.visibleLayers.length (Predictor.VisibleLayer.none F))
    rw [length_resizeWith] at e
    rw [e]
    exact map_range_getD p.visibleLayers _
  have h2 : (List.range p.visibleLayers.length).foldl (fun ds i => ds.set i (p.desc i))
        (resizeWith q.visibleLayerDescs p.visibleLayers.length VisibleLayerDesc.none)
      = resizeWith p.visibleLayerDescs p.visibleLayers.length VisibleLayerDesc.none := by
    have e := foldl_set_range (fun i => p.desc i)
      (resizeWith q.visibleLayerDescs p.visibleLayers.length VisibleLayerDesc.none)
    rw [length_resizeWith] at e
    rw [e]
    exact map_range_getD_resize p.visibleLayerDescs _ _
  rw [h1, h2]

/-- The loop of `SparseCoder::readFromStream` over the layers `l`, on the
records that the writer emitted for these layers of `s`: every layer read
receives the descriptor and the weights of `s`, and errors reset to zero. -/
theorem sparseCoder_readLayers_records {F : Type} (ops : FloatOps F) (s : SparseCoder F)
    (rest : RecordStream F) (l : List Nat) :
    ∀ q : SparseCoder F,
      l.foldl (fun st vli => st.bind (SparseCoder.readLayer ops vli))
          (some (q,
            (l.flatMap fun vli =>
              descRecords (s.desc vli) ++ smRecords (s.layer vli).weights) ++ rest))
        = some
          ({ q with
              visibleLayerDescs := l.foldl (fun ds i => ds.set i (s.desc i)) q.visibleLayerDescs
              visibleLayers := l.foldl
                (fun ls i => ls.set i
                  ⟨(s.layer i).weights,
                    List.replicate ((s.desc i).size.x * (s.desc i).size.y).toNat (ops.ofInt 0)⟩)
                q.visibleLayers },
            rest) := by
  induction l with
  | nil => intro q; rfl
  | cons a l ih =>
    intro q
    rw [List.foldl_cons, List.flatMap_cons, Option.some_bind]
    have e : SparseCoder.readLayer ops a
        (q, (descRecords (s.desc a) ++ smRecords (s.layer a).weights
          ++ (l.flatMap fun vli =>
            descRecords (s.desc vli) ++ smRecords (s.layer vli).weights)) ++ rest)
        = some
          ({ q with
              visibleLayerDescs := q.visibleLayerDescs.set a (s.desc a)
              visibleLayers := q.visibleLayers.set a
                ⟨(s.layer a).weights,
                  List.replicate ((s.desc a).size.x * (s.desc a).size.y).toNat (ops.ofInt 0)⟩ },
            (l.flatMap fun vli =>
              descRecords (s.desc vli) ++ smRecords (s.layer vli).weights) ++ rest) := by
      unfold SparseCoder.readLayer
      simp only [List.append_assoc, readDesc_records, Option.some_bind,
        readSMFromStream_records]
    rw [e, ih]
    rfl

/-- Reading a sparse coder after it was written gives a coder with the sizes,
parameters, codes and weights of the one written, as many descriptors as layers,
and activations and errors reset to zero, whatever the coder read into, and
leaves what follows it. -/
theorem sparseCoder_readFromStream_records {F : Type} (ops : FloatOps F) (s q : SparseCoder F)
    (rest : RecordStream F) :
    SparseCoder.readFromStream ops (sparseCoderRecords s ++ rest) q
      = some
        ({ s with
            hiddenActivations :=
              List.replicate (s.hiddenSize.x * s.hiddenSize.y * s.hiddenSize.z).toNat
                (ops.ofInt 0)
            visibleLayers := (List.range s.visibleLayers.length).map fun vli =>
              ⟨(s.layer vli).weights,
                List.replicate ((s.desc vli).size.x * (s.desc vli).size.y).toNat (ops.ofInt 0)⟩
            visibleLayerDescs := resizeWith s.visibleLayerDescs s.visibleLayers.length
              VisibleLayerDesc.none },
          rest) := by
  unfold SparseCoder.readFromStream sparseCoderRecords
  simp only [List.append_assoc, readInt3_records, Option.some_bind, List.cons_append,
    List.nil_append, readFloat_cons, readIntBuffer_records, readInt_cons, Int.toNat_ofNat]
  rw [sparseCoder_readLayers_records]
  simp only []
  have h1 := foldl_set_range
    (fun i => (⟨(s.layer i).weights,
      List.replicate ((s.desc i).size.x * (s.desc i).size.y).toNat (ops.ofInt 0)⟩ :
        SparseCoder.VisibleLayer F))
    (resizeWith q.visibleLayers s.visibleLayers.length (SparseCoder.VisibleLayer.none F))
  rw [length_resizeWith] at h1
  have h2 : (List.range s.visibleLayers.length).foldl (fun ds i => ds.set i (s.desc i))
        (resizeWith q.visibleLayerDescs s.visibleLayers.length VisibleLayerDesc.none)
      = resizeWith s.visibleLayerDescs s.visibleLayers.length VisibleLayerDesc.none := by
    have e := foldl_set_range (fun i => s.desc i)
      (resizeWith q.visibleLayerDescs s.visibleLayers.length VisibleLayerDesc.none)
    rw [length_resizeWith] at e
    rw [e]
    exact map_range_getD_resize s.visibleLayerDescs _ _
  rw [h1, h2]

/-! ### Claims on the persistence of a sparse coder and of a predictor -/

/-- C15: `SparseCoder::readFromStream` on the records that
`SparseCoder::writeToStream` emitted for `s`, followed by any further records,
gives a coder with the `hiddenSize`, `explainIters`, `alpha`, `hiddenCs`, number
of visible layers and weight matrices of `s`, and one descriptor per layer, the
descriptor that `s` has for that layer (so the list of `s` itself when `s` has
one descriptor per layer);
`Predictor::readFromStream` on the records that `Predictor::writeToStream`
emitted for `p` gives a predictor with the `hiddenSize`, `alpha`, `hiddenCs`,
weight matrices and `inputCsPrev` buffers of `p` and its descriptors likewise;
both leave exactly the further records, whatever the object read into. -/
theorem read_after_write {F : Type} (ops : FloatOps F) (p q : Predictor F)
    (s t : SparseCoder F) (rest rest' : RecordStream F) :
    (∃ s', SparseCoder.readFromStream ops (SparseCoder.writeToStream [] s ++ rest) t
          = some (s', rest)
        ∧ s'.hiddenSize = s.hiddenSize ∧ s'.explainIters = s.explainIters ∧ s'.alpha = s.alpha
        ∧ s'.hiddenCs = s.hiddenCs ∧ s'.visibleLayers.length = s.visibleLayers.length
        ∧ s'.visibleLayers.map (fun vl => vl.weights) = s.visibleLayers.map (fun vl => vl.weights)
        ∧ s'.visibleLayerDescs.length = s.visibleLayers.length
        ∧ (∀ vli, vli < s.visibleLayers.length → s'.desc vli = s.desc vli)
        ∧ (s.visibleLayerDescs.length = s.visibleLayers.length →
          s'.visibleLayerDescs = s.visibleLayerDescs))
    ∧ (∃ p', Predictor.readFromStream (Predictor.writeToStream [] p ++ rest') q
          = some (p', rest')
        ∧ p'.hiddenSize = p.hiddenSize ∧ p'.alpha = p.alpha ∧ p'.hiddenCs = p.hiddenCs
        ∧ p'.visibleLayers = p.visibleLayers
        ∧ p'.visibleLayerDescs.length = p.visibleLayers.length
        ∧ (∀ vli, vli < p.visibleLayers.length → p'.desc vli = p.desc vli)
        ∧ (p.visibleLayerDescs.length = p.visibleLayers.length → p' = p)) := by
  constructor
  · refine ⟨{ s with
        hiddenActivations :=
          List.replicate (s.hiddenSize.x * s.hiddenSize.y * s.hiddenSize.z).toNat (ops.ofInt 0)
        visibleLayers := (List.range s.visibleLayers.length).map fun vli =>
          ⟨(s.layer vli).weights,
            List.replicate ((s.desc vli).size.x * (s.desc vli).size.y).toNat (ops.ofInt 0)⟩
        visibleLayerDescs :=
          resizeWith s.visibleLayerDescs s.visibleLayers.length VisibleLayerDesc.none },
      ?_, rfl, rfl, rfl, rfl, ?_, ?_, length_resizeWith _ _ _,
      fun vli h => getD_resizeWith _ _ _ vli h, ?_⟩
    · rw [sparseCoder_writeToStream_eq, List.nil_append]
      exact sparseCoder_readFromStream_records ops s t rest
    · simp
    · simp only [List.map_map]
      have e : ((fun (vl : SparseCoder.VisibleLayer F) => vl.weights) ∘ fun vli =>
            (⟨(s.layer vli).weights,
              List.replicate ((s.desc vli).size.x * (s.desc vli).size.y).toNat (ops.ofInt 0)⟩ :
                SparseCoder.VisibleLayer F))
          = (fun (vl : SparseCoder.VisibleLayer F) => vl.weights)
            ∘ (fun i => s.visibleLayers.getD i (SparseCoder.VisibleLayer.none F)) := rfl
      rw [e, ← List.map_map, map_range_getD]
    · intro h
      show resizeWith s.visibleLayerDescs s.visibleLayers.length VisibleLayerDesc.none
        = s.visibleLayerDescs
      rw [← h]
      exact resizeWith_length _ _
  · refine ⟨{ p with
        visibleLayerDescs :=
          resizeWith p.visibleLayerDescs p.visibleLayers.length VisibleLayerDesc.none },
      ?_, rfl, rfl, rfl, rfl, length_resizeWith _ _ _,
      fun vli h => getD_resizeWith _ _ _ vli h, ?_⟩
    · rw [predictor_writeToStream_eq, List.nil_append]
      exact predictor_readFromStream_records p q rest'
    · intro h
      have e : resizeWith p.visibleLayerDescs p.visibleLayers.length VisibleLayerDesc.none
          = p.visibleLayerDescs := by
        rw [← h]
        exact resizeWith_length _ _
      rw [e]

theorem read_after_write_witness :
    Predictor.readFromStream (Predictor.writeToStream [] examplePredictor ++ [Record.int 7])
        (⟨⟨0, 0, 0⟩, [], [], [], 0⟩ : Predictor Int)
      = some (examplePredictor, [Record.int 7]) := by
  obtain ⟨p', h1, _, _, _, _, _, _, h7⟩ :=
    (read_after_write intOps examplePredictor ⟨⟨0, 0, 0⟩, [], [], [], 0⟩ exampleSparseCoder
      exampleSparseCoder [] [Record.int 7]).2
  rw [h1, h7 rfl]

/-- C16: `writeSMToStream` appends to the stream the records `rows`, `columns`,
`nonZeroValues`, `nonZeroValueIndices`, `rowRanges`, `columnIndices`,
`columnRanges`, `rowIndices`, in that order; `Predictor::writeToStream` appends
`hiddenSize`, `alpha`, `hiddenCs`, the number of visible layers and then, layer
by layer, the descriptor, the sparse matrix and `inputCsPrev`;
`SparseCoder::writeToStream` appends `hiddenSize`, `explainIters`, `alpha`,
`hiddenCs`, the number of visible layers and then, layer by layer, the
descriptor and the sparse matrix only. -/
theorem writers_emit_records_in_order {F : Type} (os : RecordStream F) (mat : SparseMatrix F)
    (p : Predictor F) (s : SparseCoder F) :
    writeSMToStream os mat
        = os ++ ([Record.int mat.rows, Record.int mat.columns]
          ++ floatBufferRecords mat.nonZeroValues ++ intBufferRecords mat.nonZeroValueIndices
          ++ intBufferRecords mat.rowRanges ++ intBufferRecords mat.columnIndices
          ++ intBufferRecords mat.columnRanges ++ intBufferRecords mat.rowIndices)
    ∧ Predictor.writeToStream os p
        = os ++ (int3Records p.hiddenSize ++ [Record.float p.alpha]
          ++ intBufferRecords p.hiddenCs ++ [Record.int p.visibleLayers.length]
          ++ (List.range p.visibleLayers.length).flatMap fun vli =>
            descRecords (p.desc vli)
              ++ writeSMToStream [] (p.layer vli).weights
              ++ intBufferRecords (p.layer vli).inputCsPrev)
    ∧ SparseCoder.writeToStream os s
        = os ++ (int3Records s.hiddenSize ++ [Record.int s.explainIters]
          ++ [Record.float s.alpha] ++ intBufferRecords s.hiddenCs
          ++ [Record.int s.visibleLayers.length]
          ++ (List.range s.visibleLayers.length).flatMap fun vli =>
            descRecords (s.desc vli) ++ writeSMToStream [] (s.layer vli).weights) := by
  refine ⟨writeSMToStream_eq os mat, ?_, ?_⟩
  · rw [predictor_writeToStream_eq]
    simp only [writeSMToStream_eq, List.nil_append]
    rfl
  · rw [sparseCoder_writeToStream_eq]
    simp only [writeSMToStream_eq, List.nil_append]
    rfl

/-! ### Construction: the buffers after `initRandom` -/

/-- An invariant indexed by the number of passes holds after a loop over
`0 .. n - 1`. -/
theorem foldl_range_inv {σ : Type} (f : σ → Nat → σ) (P : Nat → σ → Prop) (n : Nat) (s0 : σ)
    (h0 : P 0 s0) (hstep : ∀ k s, k < n → P k s → P (k + 1) (f s k)) :
    P n ((List.range n).foldl f s0) := by
  have key : ∀ m, m ≤ n → P m ((List.range m).foldl f s0) := by
    intro m
    induction m with
    | zero => intro _; exact h0
    | succ m ih =>
      intro hm
      rw [List.range_succ, List.foldl_append]
      exact hstep m _ (by omega) (ih (by omega))
  exact key n (le_refl n)

/-- The layers and descriptors after `Predictor::initRandom`: one layer per
descriptor, the descriptors as given, and every `inputCsPrev` made of zeros. -/
theorem predictor_initRandom_layers {F R : Type} (ops : FloatOps F)
    (project : Int2 → Float2 F → Int2) (weightDist : R → F × R) (cs : ComputeSystem R)
    (hiddenSize : Int3) (descs : List VisibleLayerDesc) (p : Predictor F) :
    (Predictor.initRandom ops project weightDist cs hiddenSize descs p).1.visibleLayers.length
        = descs.length
    ∧ (Predictor.initRandom ops project weightDist cs hiddenSize descs p).1.visibleLayerDescs
        = descs
    ∧ ∀ vli, vli < descs.length →
        ((Predictor.initRandom ops project weightDist cs hiddenSize descs p).1.layer vli).inputCsPrev
          = List.replicate
              ((descs.getD vli VisibleLayerDesc.none).size.x
                * (descs.getD vli VisibleLayerDesc.none).size.y).toNat 0 := by
  unfold Predictor.initRandom
  simp only [length_resizeWith]
  refine foldl_range_inv _
    (fun k (acc : Predictor F × ComputeSystem R) =>
      acc.1.visibleLayers.length = descs.length ∧ acc.1.visibleLayerDescs = descs
      ∧ ∀ vli, vli < k → (acc.1.layer vli).inputCsPrev
          = List.replicate
              ((descs.getD vli VisibleLayerDesc.none).size.x
                * (descs.getD vli VisibleLayerDesc.none).size.y).toNat 0)
    descs.length _ ⟨length_resizeWith _ _ _, rfl, fun vli h => absurd h (Nat.not_lt_zero _)⟩ ?_
  rintro k ⟨q, c⟩ hk ⟨h1, h2, h3⟩
  simp only [] at h1 h2 h3
  refine ⟨by simp only [List.length_set]; exact h1, h2, ?_⟩
  intro vli hv
  show (List.getD (q.visibleLayers.set k _) vli _).inputCsPrev = _
  by_cases e : vli = k
  · subst e
    rw [getD_set_self _ _ _ _ (by omega)]
    show List.replicate ((q.desc vli).size.x * (q.desc vli).size.y).toNat 0 = _
    unfold Predictor.desc
    rw [h2]
  · rw [getD_set_ne _ _ _ _ _ (Ne.symm e)]
    exact h3 vli (by omega)

/-- The layers and descriptors after `SparseCoder::initRandom`: one layer per
descriptor, the descriptors as given, and every `inputErrors` made of zeros. -/
theorem sparseCoder_initRandom_layers {F R : Type} (ops : FloatOps F)
    (project : Int2 → Float2 F → Int2) (weightDist : R → F × R) (cs : ComputeSystem R)
    (hiddenSize : Int3) (descs : List VisibleLayerDesc) (s : SparseCoder F) :
    (SparseCoder.initRandom ops project weightDist cs hiddenSize descs s).1.visibleLayers.length
        = descs.length
    ∧ (SparseCoder.initRandom ops project weightDist cs hiddenSize descs s).1.visibleLayerDescs
        = descs
    ∧ ∀ vli, vli < descs.length →
        ((SparseCoder.initRandom ops project weightDist cs hiddenSize descs s).1.layer vli).inputErrors
          = List.replicate
              ((descs.getD vli VisibleLayerDesc.none).size.x
                * (descs.getD vli VisibleLayerDesc.none).size.y).toNat (ops.ofInt 0) := by
  unfold SparseCoder.initRandom
  simp only [length_resizeWith]
  refine foldl_range_inv _
    (fun k (acc : SparseCoder F × ComputeSystem R) =>
      acc.1.visibleLayers.length = descs.length ∧ acc.1.visibleLayerDescs = descs
      ∧ ∀ vli, vli < k → (acc.1.layer vli).inputErrors
          = List.replicate
              ((descs.getD vli VisibleLayerDesc.none).size.x
                * (descs.getD vli VisibleLayerDesc.none).size.y).toNat (ops.ofInt 0))
    descs.length _ ⟨length_resizeWith _ _ _, rfl, fun vli h => absurd h (Nat.not_lt_zero _)⟩ ?_
  rintro k ⟨q, c⟩ hk ⟨h1, h2, h3⟩
  simp only [] at h1 h2 h3
  refine ⟨by simp only [List.length_set]; exact h1, h2, ?_⟩
  intro vli hv
  show (List.getD (q.visibleLayers.set k _) vli _).inputErrors = _
  by_cases e : vli = k
  · subst e
    rw [getD_set_self _ _ _ _ (by omega)]
    show List.replicate ((q.desc vli).size.x * (q.desc vli).size.y).toNat (ops.ofInt 0) = _
    unfold SparseCoder.desc
    rw [h2]
  · rw [getD_set_ne _ _ _ _ _ (Ne.symm e)]
    exact h3 vli (by omega)

theorem mem_replicate_eq {α : Type} {n : Nat} {a x : α} (h : x ∈ List.replicate n a) : x = a :=
  (List.mem_replicate.mp h).2

/-- C17: after `Predictor::initRandom` and after `SparseCoder::initRandom` with
hidden size `(w, h, d)` and the given descriptors (the counts `w * h`,
`w * h * d` and `size.x * size.y` not negative), `hiddenCs` has `w * h`
entries, all 0; there is one visible layer per descriptor; the `inputCsPrev` of
every visible layer of the predictor has `size.x * size.y` entries, all 0; the
`hiddenActivations` of the sparse coder has `w * h * d` entries and the
`inputErrors` of every visible layer has `size.x * size.y` entries, all 0. -/
theorem initRandom_buffers_zero {F R : Type} (ops : FloatOps F)
    (project : Int2 → Float2 F → Int2) (weightDistP weightDistS : R → F × R)
    (cs : ComputeSystem R) (hiddenSize : Int3) (descs : List VisibleLayerDesc)
    (p : Predictor F) (s : SparseCoder F)
    (hc : 0 ≤ hiddenSize.x * hiddenSize.y)
    (hn : 0 ≤ hiddenSize.x * hiddenSize.y * hiddenSize.z)
    (hv : ∀ vld ∈ descs, 0 ≤ vld.size.x * vld.size.y) :
    (((Predictor.initRandom ops project weightDistP cs hiddenSize descs p).1.hiddenCs.length : Int)
        = hiddenSize.x * hiddenSize.y
      ∧ ∀ x ∈ (Predictor.initRandom ops project weightDistP cs hiddenSize descs p).1.hiddenCs,
          x = 0)
    ∧ (((SparseCoder.initRandom ops project weightDistS cs hiddenSize descs s).1.hiddenCs.length
          : Int) = hiddenSize.x * hiddenSize.y
      ∧ ∀ x ∈ (SparseCoder.initRandom ops project weightDistS cs hiddenSize descs s).1.hiddenCs,
          x = 0)
    ∧ (((SparseCoder.initRandom ops project weightDistS cs hiddenSize descs
          s).1.hiddenActivations.length : Int) = hiddenSize.x * hiddenSize.y * hiddenSize.z
      ∧ ∀ x ∈ (SparseCoder.initRandom ops project weightDistS cs hiddenSize descs
          s).1.hiddenActivations, x = ops.ofInt 0)
    ∧ (Predictor.initRandom ops project weightDistP cs hiddenSize descs p).1.visibleLayers.length
        = descs.length
    ∧ (SparseCoder.initRandom ops project weightDistS cs hiddenSize descs s).1.visibleLayers.length
        = descs.length
    ∧ ∀ vli, vli < descs.length →
        ((((Predictor.initRandom ops project weightDistP cs hiddenSize descs p).1.layer
              vli).inputCsPrev.length : Int)
            = (descs.getD vli VisibleLayerDesc.none).size.x
              * (descs.getD vli VisibleLayerDesc.none).size.y
          ∧ ∀ x ∈ ((Predictor.initRandom ops project weightDistP cs hiddenSize descs p).1.layer
              vli).inputCsPrev, x = 0)
        ∧ ((((SparseCoder.initRandom ops project weightDistS cs hiddenSize descs s).1.layer
              vli).inputErrors.length : Int)
            = (descs.getD vli VisibleLayerDesc.none).size.x
              * (descs.getD vli VisibleLayerDesc.none).size.y
          ∧ ∀ x ∈ ((SparseCoder.initRandom ops project weightDistS cs hiddenSize descs s).1.layer
              vli).inputErrors, x = ops.ofInt 0) := by
  have hP := predictor_initRandom_layers ops project weightDistP cs hiddenSize descs p
  have hS := sparseCoder_initRandom_layers ops project weightDistS cs hiddenSize descs s
  refine ⟨⟨?_, ?_⟩, ⟨?_, ?_⟩, ⟨?_, ?_⟩, hP.1, hS.1, ?_⟩
  · show ((List.replicate (hiddenSize.x * hiddenSize.y).toNat (0 : Int)).length : Int) = _
    rw [List.length_replicate, Int.toNat_of_nonneg hc]
  · intro x hx
    exact mem_replicate_eq hx
  · show ((List.replicate (hiddenSize.x * hiddenSize.y).toNat (0 : Int)).length : Int) = _
    rw [List.length_replicate, Int.toNat_of_nonneg hc]
  · intro x hx
    exact mem_replicate_eq hx
  · show ((List.replicate (hiddenSize.x * hiddenSize.y * hiddenSize.z).toNat
      (ops.ofInt 0)).length : Int) = _
    rw [List.length_replicate, Int.toNat_of_nonneg hn]
  · intro x hx
    exact mem_replicate_eq hx
  · intro vli hvli
    have hd : descs.getD vli VisibleLayerDesc.none ∈ descs := by
      rw [List.getD_eq_getElem _ _ hvli]
      exact List.getElem_mem hvli
    rw [hP.2.2 vli hvli, hS.2.2 vli hvli]
    refine ⟨⟨?_, fun x hx => mem_replicate_eq hx⟩, ?_, fun x hx => mem_replicate_eq hx⟩
    · rw [List.length_replicate, Int.toNat_of_nonneg (hv _ hd)]
    · rw [List.length_replicate, Int.toNat_of_nonneg (hv _ hd)]

theorem initRandom_buffers_zero_witness :
    ((0 : Int) ≤ 2 * 2 ∧ (0 : Int) ≤ 2 * 2 * 3
      ∧ ∀ vld ∈ [(⟨⟨3, 2, 2⟩, 1⟩ : VisibleLayerDesc)], 0 ≤ vld.size.x * vld.size.y)
    ∧ (((SparseCoder.initRandom intOps scaleProject (fun (r : Nat) => ((r : Int), r + 1))
          ⟨0, 1, ⟨1, 1⟩⟩ ⟨2, 2, 3⟩ [⟨⟨3, 2, 2⟩, 1⟩]
          exampleSparseCoder).1.hiddenActivations.length : Int) = 2 * 2 * 3) := by
  have hv : ∀ vld ∈ [(⟨⟨3, 2, 2⟩, 1⟩ : VisibleLayerDesc)], 0 ≤ vld.size.x * vld.size.y := by
    intro vld h
    rw [List.mem_singleton.mp h]
    decide
  exact ⟨⟨by decide, by decide, hv⟩,
    (initRandom_buffers_zero intOps scaleProject (fun (r : Nat) => ((r : Int), r + 1))
      (fun (r : Nat) => ((r : Int), r + 1)) ⟨0, 1, ⟨1, 1⟩⟩ ⟨2, 2, 3⟩ [⟨⟨3, 2, 2⟩, 1⟩]
      examplePredictor exampleSparseCoder (by decide) (by decide) hv).2.2.1.1⟩

/-! ### Divisors -/

theorem checkedDiv_of_ne {a b : Int} (h : b ≠ 0) : checkedDiv a b = some (a.tdiv b) := by
  unfold checkedDiv
  rw [if_neg h]

theorem checkedDivFloat_of_ne {F : Type} (ops : FloatOps F) (a : F) {b : Int} (h : b ≠ 0) :
    checkedDivFloat ops a b = some (ops.div a (ops.ofInt b)) := by
  unfold checkedDivFloat
  rw [if_neg h]

/-- A loop whose checked body has a value at every element has the value of the
unchecked loop. -/
theorem foldl_checked {α σ : Type} (f : σ → α → σ) (g : Option σ → α → Option σ) (l : List α)
    (h : ∀ a ∈ l, ∀ s, g (some s) a = some (f s a)) (s : σ) :
    l.foldl g (some s) = some (l.foldl f s) := by
  induction l generalizing s with
  | nil => rfl
  | cons a l ih =>
    rw [List.foldl_cons, List.foldl_cons, h a (List.mem_cons_self a l)]
    exact ih (fun b hb => h b (List.mem_cons_of_mem a hb)) _

theorem Predictor.learnSumChecked_eq {F : Type} (ops : FloatOps F) (p : Predictor F)
    (hp : ∀ vli, vli < p.visibleLayers.length → 1 ≤ (p.desc vli).size.z) (hiddenIndex : Int) :
    p.learnSumChecked ops hiddenIndex = some (p.learnSum ops hiddenIndex) := by
  unfold Predictor.learnSumChecked Predictor.learnSum
  apply foldl_checked
  intro vli hvli acc
  have hz : (p.visibleLayerDescs.getD vli VisibleLayerDesc.none).size.z ≠ 0 := by
    have := hp vli (List.mem_range.mp hvli)
    unfold Predictor.desc at this
    omega
  simp only [Option.some_bind, checkedDiv_of_ne hz, Option.map_some']

/-- C18: when the depth `size.z` of every visible layer of a predictor is at
least 1, no division of `Predictor::learn` has a zero divisor: the computation
of `delta` with the divisors `vld.size.z` and `max(1, count)` checked has a
value, the value of the unchecked one; when the hidden depth `hiddenSize.z` is
at least 1, no division of `SparseCoder::backward` and `SparseCoder::learn` has
a zero divisor: the normalised sum with the divisors `hiddenSize.z` and
`max(1, countT / hiddenSize.z)` checked has a value, the value of the unchecked
one; both normalising divisors are at least 1 for every matrix and every row or
column, and are 1 for a row or column without entries. -/
theorem divisors_not_zero {F : Type} (ops : FloatOps F) (p : Predictor F) (hiddenSize : Int3)
    (hp : ∀ vli, vli < p.visibleLayers.length → 1 ≤ (p.desc vli).size.z)
    (hz : 1 ≤ hiddenSize.z) :
    (∀ targetC hc hiddenIndex,
      p.learnDeltaChecked ops targetC hc hiddenIndex
        = some (p.learnDelta ops targetC hc hiddenIndex))
    ∧ (∀ (weights : SparseMatrix F) hiddenCs visibleIndex,
      SparseCoder.reconstructChecked ops weights hiddenCs hiddenSize visibleIndex
        = some (SparseCoder.reconstruct ops weights hiddenCs hiddenSize visibleIndex))
    ∧ (∀ hiddenIndex, 1 ≤ max 1 (p.learnSum ops hiddenIndex).2)
    ∧ (∀ (weights : SparseMatrix F) visibleIndex,
      1 ≤ max 1 ((weights.countT visibleIndex).tdiv hiddenSize.z)
      ∧ (weights.countT visibleIndex = 0 →
        max 1 ((weights.countT visibleIndex).tdiv hiddenSize.z) = 1)) := by
  refine ⟨?_, ?_, fun _ => le_max_left _ _, fun weights visibleIndex => ⟨le_max_left _ _, ?_⟩⟩
  · intro targetC hc hiddenIndex
    unfold Predictor.learnDeltaChecked Predictor.learnDelta
    rw [Predictor.learnSumChecked_eq ops p hp hiddenIndex]
    have h1 : max 1 (p.learnSum ops hiddenIndex).2 ≠ 0 := by
      have := le_max_left 1 (p.learnSum ops hiddenIndex).2
      omega
    simp only [Option.some_bind, checkedDivFloat_of_ne ops _ h1, Option.map_some']
  · intro weights hiddenCs visibleIndex
    unfold SparseCoder.reconstructChecked SparseCoder.reconstruct
    have h0 : hiddenSize.z ≠ 0 := by omega
    have h1 : max 1 ((weights.countT visibleIndex).tdiv hiddenSize.z) ≠ 0 := by
      have := le_max_left 1 ((weights.countT visibleIndex).tdiv hiddenSize.z)
      omega
    simp only [checkedDiv_of_ne h0, Option.some_bind, checkedDivFloat_of_ne ops _ h1]
  · intro h
    rw [h, Int.zero_tdiv]
    rfl

theorem divisors_not_zero_witness :
    ((∀ vli, vli < examplePredictor.visibleLayers.length → 1 ≤ (examplePredictor.desc vli).size.z)
      ∧ (1 : Int) ≤ 3)
    ∧ examplePredictor.learnDeltaChecked intOps 1 0 2
        = some (examplePredictor.learnDelta intOps 1 0 2)
    ∧ SparseCoder.reconstructChecked intOps exampleMatrix [0, 0, 0, 0] ⟨2, 2, 3⟩ 1
        = some (SparseCoder.reconstruct intOps exampleMatrix [0, 0, 0, 0] ⟨2, 2, 3⟩ 1) := by
  have hp : ∀ vli, vli < examplePredictor.visibleLayers.length →
      1 ≤ (examplePredictor.desc vli).size.z := by
    intro vli h
    have e : vli = 0 := by
      have : examplePredictor.visibleLayers.length = 1 := rfl
      omega
    rw [e]
    decide
  have h := divisors_not_zero intOps examplePredictor ⟨2, 2, 3⟩ hp (by decide)
  exact ⟨⟨hp, by decide⟩, h.1 1 0 2, h.2.1 exampleMatrix [0, 0, 0, 0] 1⟩

/-! ### The one-hot product against the dense sum -/

theorem pairwise_lt_intRange (lo hi : Int) : (intRange lo hi).Pairwise (· < ·) := by
  unfold intRange
  rw [List.pairwise_map]
  refine (List.pairwise_lt_range _).imp ?_
  intro a b h
  omega

/-- Terms that are zero can be left out of a sum taken in list order. -/
theorem foldl_add_filter {F α : Type} (ops : FloatOps F) (hadd : ∀ x, ops.add x (ops.ofInt 0) = x)
    (t : α → F) (P : α → Bool) (l : List α) (h : ∀ c ∈ l, P c = false → t c = ops.ofInt 0)
    (s : F) :
    l.foldl (fun sum c => ops.add sum (t c)) s
      = (l.filter P).foldl (fun sum c => ops.add sum (t c)) s := by
  induction l generalizing s with
  | nil => rfl
  | cons a l ih =>
    have ih' := ih (fun c hc => h c (List.mem_cons_of_mem a hc))
    cases hP : P a with
    | true =>
      rw [List.filter_cons_of_pos (by rw [hP]), List.foldl_cons, List.foldl_cons]
      exact ih' _
    | false =>
      rw [List.filter_cons_of_neg (by rw [hP]; exact Bool.false_ne_true), List.foldl_cons,
        h a (List.mem_cons_self a l) hP, hadd]
      exact ih' _

/-- Two strictly increasing lists of integers with the same members are equal. -/
theorem eq_of_pairwise_lt {l l' : List Int} (h : l.Pairwise (· < ·)) (h' : l'.Pairwise (· < ·))
    (hm : ∀ x, x ∈ l ↔ x ∈ l') : l = l' := by
  have n : l.Nodup := h.imp (fun hab => ne_of_lt hab)
  have n' : l'.Nodup := h'.imp (fun hab => ne_of_lt hab)
  exact List.eq_of_perm_of_sorted ((List.perm_ext_iff_of_nodup n n').mpr hm)
    (h.imp (fun hab => le_of_lt hab)) (h'.imp (fun hab => le_of_lt hab))

theorem tdiv_key {c r z : Int} (hc : 0 ≤ c) (hr : 0 ≤ r) (hrz : r < z) :
    (c * z + r).tdiv z = c := by
  have hz : 0 < z := by omega
  have h0 : 0 ≤ c * z + r := by
    have := Int.mul_nonneg hc (le_of_lt hz)
    omega
  rw [Int.tdiv_eq_ediv h0 (le_of_lt hz)]
  rw [Int.add_comm, Int.add_mul_ediv_right _ _ (ne_of_gt hz), Int.ediv_eq_zero_of_lt hr hrz]
  omega

theorem inActiveSlot_iff {x z : Int} {code : IntBuffer} :
    inActiveSlot x code z = true ↔ x = x.tdiv z * z + getI code (x.tdiv z) 0 := by
  unfold inActiveSlot
  exact beq_iff_eq

/-- The input columns whose active cell is stored in a strictly increasing row
are the columns of the stored cells that are active, in the same order. -/
theorem filter_hit_eq (cols : List Int) (code : IntBuffer) (z N : Int)
    (hs : cols.Pairwise (· < ·)) (hr : ∀ x ∈ cols, 0 < z ∧ 0 ≤ x ∧ x < N * z)
    (hcode : ∀ c, 0 ≤ c → c < N → 0 ≤ getI code c 0 ∧ getI code c 0 < z) :
    (intRange 0 N).filter (fun c => decide (c * z + getI code c 0 ∈ cols))
      = (cols.filter (fun x => inActiveSlot x code z)).map (fun x => x.tdiv z) := by
  apply eq_of_pairwise_lt
  · exact (pairwise_lt_intRange 0 N).filter _
  · rw [List.pairwise_map]
    refine List.Pairwise.imp_of_mem ?_ (hs.filter _)
    intro a b ha hb hab
    obtain ⟨ha1, ha2⟩ := List.mem_filter.mp ha
    obtain ⟨hb1, hb2⟩ := List.mem_filter.mp hb
    obtain ⟨hz, ha0, _⟩ := hr a ha1
    obtain ⟨_, hb0, _⟩ := hr b hb1
    have hle : a.tdiv z ≤ b.tdiv z := by
      rw [Int.tdiv_eq_ediv ha0 (le_of_lt hz), Int.tdiv_eq_ediv hb0 (le_of_lt hz)]
      exact Int.ediv_le_ediv hz (le_of_lt hab)
    rcases lt_or_eq_of_le hle with h | h
    · exact h
    · exfalso
      have ea := inActiveSlot_iff.mp ha2
      have eb := inActiveSlot_iff.mp hb2
      rw [h] at ea
      omega
  · intro c
    simp only [List.mem_filter, mem_intRange, decide_eq_true_eq, List.mem_map]
    constructor
    · rintro ⟨⟨h0, h1⟩, hmem⟩
      obtain ⟨hc0, hc1⟩ := hcode c h0 h1
      have hk := tdiv_key h0 hc0 hc1
      refine ⟨c * z + getI code c 0, ⟨hmem, ?_⟩, hk⟩
      rw [inActiveSlot_iff, hk]
    · rintro ⟨x, ⟨hx, hact⟩, rfl⟩
      obtain ⟨hz, hx0, hxN⟩ := hr x hx
      have e := inActiveSlot_iff.mp hact
      refine ⟨⟨?_, ?_⟩, ?_⟩
      · rw [Int.tdiv_eq_ediv hx0 (le_of_lt hz)]
        exact Int.ediv_nonneg hx0 (le_of_lt hz)
      · rw [Int.tdiv_eq_ediv hx0 (le_of_lt hz)]
        exact Int.ediv_lt_of_lt_mul hz hxN
      · rw [← e]
        exact hx

theorem denseWeight_of_not_mem {F : Type} (ops : FloatOps F) (m : SparseMatrix F)
    (row column : Int) (h : column ∉ rowSegment m row) :
    m.denseWeight ops row column = ops.ofInt 0 := by
  unfold SparseMatrix.denseWeight
  have e : (intRange (getI m.rowRanges row 0) (getI m.rowRanges (row + 1) 0)).find?
      (fun j => getI m.columnIndices j 0 == column) = none := by
    rw [List.find?_eq_none]
    intro j hj hc
    apply h
    unfold rowSegment
    exact List.mem_map.mpr ⟨j, hj, beq_iff_eq.mp hc⟩
  rw [e]

theorem denseWeight_of_mem {F : Type} (ops : FloatOps F) (m : SparseMatrix F)
    (row j : Int) (hn : (rowSegment m row).Nodup)
    (hj : j ∈ intRange (getI m.rowRanges row 0) (getI m.rowRanges (row + 1) 0)) :
    m.denseWeight ops row (getI m.columnIndices j 0) = getI m.nonZeroValues j (ops.ofInt 0) := by
  unfold SparseMatrix.denseWeight
  cases e : (intRange (getI m.rowRanges row 0) (getI m.rowRanges (row + 1) 0)).find?
      (fun j' => getI m.columnIndices j' 0 == getI m.columnIndices j 0) with
  | none =>
    rw [List.find?_eq_none] at e
    exact absurd (beq_iff_eq.mpr rfl) (e j hj)
  | some j' =>
    have h1 := List.find?_some e
    have h2 := List.mem_of_find?_eq_some e
    have h3 : j' = j := List.inj_on_of_nodup_map hn h2 hj (beq_iff_eq.mp h1)
    rw [h3]

theorem foldl_congr_mem {α β : Type} (f g : β → α → β) (l : List α)
    (h : ∀ b, ∀ a ∈ l, f b a = g b a) (b : β) : l.foldl f b = l.foldl g b :=
  foldl_congr_inv f g (fun _ => True) (fun _ _ _ => trivial) l (fun b _ a ha => h b a ha) b
    trivial

/-- The refinement for any matrix: on a row whose stored column
indices increase strictly and lie in `[0, N * z)`, the one-hot product is the
dense sum over the `N` input columns. -/
theorem multiplyOHVs_eq_dense {F : Type} (ops : FloatOps F)
    (hadd : ∀ x, ops.add x (ops.ofInt 0) = x) (m : SparseMatrix F) (code : IntBuffer)
    (row z N : Int) (hs : (rowSegment m row).Pairwise (· < ·))
    (hr : ∀ x ∈ rowSegment m row, 0 < z ∧ 0 ≤ x ∧ x < N * z)
    (hcode : ∀ c, 0 ≤ c → c < N → 0 ≤ getI code c 0 ∧ getI code c 0 < z) :
    m.multiplyOHVs ops code row z = m.denseMultiplyOHVs ops code row z N := by
  have hn : (rowSegment m row).Nodup := hs.imp (fun hab => ne_of_lt hab)
  unfold SparseMatrix.denseMultiplyOHVs
  rw [foldl_add_filter ops hadd _ (fun c => decide (c * z + getI code c 0 ∈ rowSegment m row)) _
    (fun c _ hc => denseWeight_of_not_mem ops m row _ (of_decide_eq_false hc)),
    filter_hit_eq _ code z N hs hr hcode, List.foldl_map]
  unfold rowSegment
  rw [List.filter_map, List.foldl_map]
  unfold SparseMatrix.multiplyOHVs sumAt SparseMatrix.selected
  apply foldl_congr_mem
  intro sum j hj
  show ops.add sum (getI m.nonZeroValues j (ops.ofInt 0)) = _
  obtain ⟨hj1, hj2⟩ := List.mem_filter.mp hj
  have e := inActiveSlot_iff.mp hj2
  show _ = ops.add sum (m.denseWeight ops row
    ((getI m.columnIndices j 0).tdiv z * z + getI code ((getI m.columnIndices j 0).tdiv z) 0))
  rw [← e, denseWeight_of_mem ops m row j hn hj1]

/-- On cells with `0 ≤ y < dims.y` and `0 ≤ z < dims.z`, `address3` increases
with the cell in the order x, y, z. -/
theorem address3_lt {dims : Int3} {x y z x' y' z' : Int} (hy : 0 ≤ y ∧ y < dims.y)
    (hz : 0 ≤ z ∧ z < dims.z) (hy' : 0 ≤ y' ∧ y' < dims.y) (hz' : 0 ≤ z' ∧ z' < dims.z)
    (h : x < x' ∨ (x = x' ∧ (y < y' ∨ (y = y' ∧ z < z')))) :
    address3 ⟨x, y, z⟩ dims < address3 ⟨x', y', z'⟩ dims := by
  unfold address3
  simp only []
  have hu : z + y * dims.z < dims.y * dims.z := by
    have h1 : (y + 1) * dims.z ≤ dims.y * dims.z :=
      Int.mul_le_mul_of_nonneg_right (by omega) (by omega)
    have h2 : (y + 1) * dims.z = y * dims.z + dims.z := by ring
    omega
  have hu' : 0 ≤ y' * dims.z := Int.mul_nonneg hy'.1 (by omega)
  rcases h with h | ⟨rfl, h | ⟨rfl, h⟩⟩
  · have h1 : (x + 1) * (dims.y * dims.z) ≤ x' * (dims.y * dims.z) :=
      Int.mul_le_mul_of_nonneg_right (by omega) (Int.mul_nonneg (by omega) (by omega))
    have h2 : (x + 1) * (dims.y * dims.z) = x * dims.z * dims.y + dims.y * dims.z := by ring
    have h3 : x' * (dims.y * dims.z) = x' * dims.z * dims.y := by ring
    omega
  · have h1 : (y + 1) * dims.z ≤ y' * dims.z :=
      Int.mul_le_mul_of_nonneg_right (by omega) (by omega)
    have h2 : (y + 1) * dims.z = y * dims.z + dims.z := by ring
    omega
  · omega

theorem pairwise_lt_windowCells {inSize : Int3} {lo hi : Int2} (hlo : 0 ≤ lo.y)
    (hhi : hi.y ≤ inSize.y - 1) : (windowCells inSize lo hi).Pairwise (· < ·) := by
  unfold windowCells
  rw [List.pairwise_flatMap]
  constructor
  · intro ix _
    rw [List.pairwise_flatMap]
    constructor
    · intro iy hiy
      rw [List.pairwise_map]
      refine List.Pairwise.imp_of_mem ?_ (pairwise_lt_intRange 0 inSize.z)
      intro a b ha hb hab
      have hiy' := mem_intRange.mp hiy
      exact address3_lt ⟨by omega, by omega⟩ (mem_intRange.mp ha) ⟨by omega, by omega⟩
        (mem_intRange.mp hb) (Or.inr ⟨rfl, Or.inr ⟨rfl, hab⟩⟩)
    · refine List.Pairwise.imp_of_mem ?_ (pairwise_lt_intRange lo.y (hi.y + 1))
      intro a b ha hb hab c hc d hd
      obtain ⟨iz, hiz, rfl⟩ := List.mem_map.mp hc
      obtain ⟨iz', hiz', rfl⟩ := List.mem_map.mp hd
      have ha' := mem_intRange.mp ha
      have hb' := mem_intRange.mp hb
      exact address3_lt ⟨by omega, by omega⟩ (mem_intRange.mp hiz) ⟨by omega, by omega⟩
        (mem_intRange.mp hiz') (Or.inr ⟨rfl, Or.inl hab⟩)
  · refine List.Pairwise.imp ?_ (pairwise_lt_intRange lo.x (hi.x + 1))
    intro a b hab c hc d hd
    obtain ⟨iy, hiy, hc⟩ := List.mem_flatMap.mp hc
    obtain ⟨iz, hiz, rfl⟩ := List.mem_map.mp hc
    obtain ⟨iy', hiy', hd⟩ := List.mem_flatMap.mp hd
    obtain ⟨iz', hiz', rfl⟩ := List.mem_map.mp hd
    have ha' := mem_intRange.mp hiy
    have hb' := mem_intRange.mp hiy'
    exact address3_lt ⟨by omega, by omega⟩ (mem_intRange.mp hiz) ⟨by omega, by omega⟩
      (mem_intRange.mp hiz') (Or.inl hab)

theorem windowCells_bounds {inSize : Int3} {lo hi : Int2} (hlx : 0 ≤ lo.x)
    (hhx : hi.x ≤ inSize.x - 1) (hly : 0 ≤ lo.y) (hhy : hi.y ≤ inSize.y - 1) {idx : Int}
    (h : idx ∈ windowCells inSize lo hi) :
    0 < inSize.z ∧ 0 ≤ idx ∧ idx < inSize.x * inSize.y * inSize.z := by
  obtain ⟨ix, iy, iz, rfl, hix, hiy, hiz⟩ := mem_windowCells.mp h
  have h0 : address3 ⟨0, 0, 0⟩ inSize ≤ address3 ⟨ix, iy, iz⟩ inSize := by
    by_cases e : (0 : Int) < ix ∨ ((0 : Int) = ix ∧ ((0 : Int) < iy ∨ ((0 : Int) = iy ∧ (0 : Int) < iz)))
    · exact le_of_lt (address3_lt ⟨le_refl 0, by omega⟩ ⟨le_refl 0, by omega⟩
        ⟨by omega, by omega⟩ hiz e)
    · have e1 : ix = 0 := by omega
      have e2 : iy = 0 := by omega
      have e3 : iz = 0 := by omega
      rw [e1, e2, e3]
  have h1 : address3 ⟨ix, iy, iz⟩ inSize < address3 ⟨inSize.x, 0, 0⟩ inSize :=
    address3_lt ⟨by omega, by omega⟩ hiz ⟨le_refl 0, by omega⟩ ⟨le_refl 0, by omega⟩
      (Or.inl (by omega))
  have e0 : address3 ⟨0, 0, 0⟩ inSize = 0 := by
    unfold address3
    simp
  have e1 : address3 ⟨inSize.x, 0, 0⟩ inSize = inSize.x * inSize.y * inSize.z := by
    unfold address3
    simp only []
    ring
  rw [e0] at h0
  rw [e1] at h1
  exact ⟨by omega, h0, h1⟩

/-- Counterexample to C19, on two matrices built by `initSMLocalRF` from a
matrix argument that already holds entries.  First: one input column, one output
cell, and an argument holding the value 7 with the column index 3; the row of
the output cell then covers the entry that the argument held, `multiplyOHVs`
with a code buffer of four entries 0 gives 7, and the dense sum over the one
input column gives 0.  Second: two input columns, one output cell, radius 1,
and an argument holding the values 7 and 5 with the column index 0 twice; the
row covers these two entries, `multiplyOHVs` with the code buffer `[0, 0]` adds
both and gives 12, and the dense sum takes one weight for the position
`(row, 0)` and gives 7. -/
theorem multiplyOHVs_on_used_matrix :
    (initSMLocalRF intOps scaleProject ⟨1, 1, 1⟩ ⟨1, 1, 1⟩ 0
        ⟨0, 0, [7], [], [], [3], [], []⟩).columnIndices = [3, 0]
    ∧ (initSMLocalRF intOps scaleProject ⟨1, 1, 1⟩ ⟨1, 1, 1⟩ 0
        ⟨0, 0, [7], [], [], [3], [], []⟩).nonZeroValues = [7, 0]
    ∧ (initSMLocalRF intOps scaleProject ⟨1, 1, 1⟩ ⟨1, 1, 1⟩ 0
        ⟨0, 0, [7], [], [], [3], [], []⟩).rowRanges = [0, 1]
    ∧ SparseMatrix.multiplyOHVs intOps
        (initSMLocalRF intOps scaleProject ⟨1, 1, 1⟩ ⟨1, 1, 1⟩ 0
          ⟨0, 0, [7], [], [], [3], [], []⟩)
        [0, 0, 0, 0] (address3 ⟨0, 0, 0⟩ ⟨1, 1, 1⟩) 1 = 7
    ∧ SparseMatrix.denseMultiplyOHVs intOps
        (initSMLocalRF intOps scaleProject ⟨1, 1, 1⟩ ⟨1, 1, 1⟩ 0
          ⟨0, 0, [7], [], [], [3], [], []⟩)
        [0, 0, 0, 0] (address3 ⟨0, 0, 0⟩ ⟨1, 1, 1⟩) 1 (1 * 1) = 0
    ∧ (initSMLocalRF intOps scaleProject ⟨2, 1, 1⟩ ⟨1, 1, 1⟩ 1
        ⟨0, 0, [7, 5], [], [], [0, 0], [], []⟩).columnIndices = [0, 0, 0, 1]
    ∧ (initSMLocalRF intOps scaleProject ⟨2, 1, 1⟩ ⟨1, 1, 1⟩ 1
        ⟨0, 0, [7, 5], [], [], [0, 0], [], []⟩).nonZeroValues = [7, 5, 0, 0]
    ∧ (initSMLocalRF intOps scaleProject ⟨2, 1, 1⟩ ⟨1, 1, 1⟩ 1
        ⟨0, 0, [7, 5], [], [], [0, 0], [], []⟩).rowRanges = [0, 2]
    ∧ SparseMatrix.multiplyOHVs intOps
        (initSMLocalRF intOps scaleProject ⟨2, 1, 1⟩ ⟨1, 1, 1⟩ 1
          ⟨0, 0, [7, 5], [], [], [0, 0], [], []⟩)
        [0, 0] (address3 ⟨0, 0, 0⟩ ⟨1, 1, 1⟩) 1 = 12
    ∧ SparseMatrix.denseMultiplyOHVs intOps
        (initSMLocalRF intOps scaleProject ⟨2, 1, 1⟩ ⟨1, 1, 1⟩ 1
          ⟨0, 0, [7, 5], [], [], [0, 0], [], []⟩)
        [0, 0] (address3 ⟨0, 0, 0⟩ ⟨1, 1, 1⟩) 1 (2 * 1) = 7 := by
  refine ⟨by decide, by decide, by decide, by decide, by decide, by decide, by decide,
    by decide, by decide, by decide⟩

/-- C19 as amended: for a matrix built by `initSMLocalRF(inSize, outSize, radius)`
from a matrix argument without column indices, with any weights in the place of
the zeros, for every row of an output cell and every code buffer whose entries
for the `inSize.x * inSize.y` input columns are in `[0, inSize.z)`,
`multiplyOHVs(code, row, inSize.z)` equals the dense sum over all input columns
`c` of the weight at `(row, c * inSize.z + code[c])` when the row stores that
position and of 0 otherwise (adding `0.0f` leaves a sum as it is). -/
theorem multiplyOHVs_eq_dense_sum {F : Type} (ops : FloatOps F)
    (project : Int2 → Float2 F → Int2) (inSize outSize : Int3) (radius : Int)
    (mat : SparseMatrix F) (values : List F) (code : IntBuffer) (p : Int3)
    (hadd : ∀ x, ops.add x (ops.ofInt 0) = x) (hci : mat.columnIndices = [])
    (hp : p ∈ domain3 outSize)
    (hcode : ∀ c, 0 ≤ c → c < inSize.x * inSize.y →
      0 ≤ getI code c 0 ∧ getI code c 0 < inSize.z) :
    SparseMatrix.multiplyOHVs ops
        { initSMLocalRF ops project inSize outSize radius mat with nonZeroValues := values }
        code (address3 p outSize) inSize.z
      = SparseMatrix.denseMultiplyOHVs ops
        { initSMLocalRF ops project inSize outSize radius mat with nonZeroValues := values }
        code (address3 p outSize) inSize.z (inSize.x * inSize.y) := by
  have hseg : rowSegment
      { initSMLocalRF ops project inSize outSize radius mat with nonZeroValues := values }
      (address3 p outSize) = rowCells ops project inSize outSize radius p :=
    rowSegment_initSMLocalRF ops project inSize outSize radius mat hci p hp
  apply multiplyOHVs_eq_dense ops hadd _ code _ _ _ _ _ hcode
  · rw [hseg]
    exact pairwise_lt_windowCells (le_max_left _ _) (min_le_left _ _)
  · intro x hx
    rw [hseg] at hx
    exact windowCells_bounds (le_max_left _ _) (min_le_left _ _) (le_max_left _ _)
      (min_le_left _ _) hx

theorem multiplyOHVs_eq_dense_sum_witness :
    SparseMatrix.multiplyOHVs intOps
        { initSMLocalRF intOps scaleProject ⟨2, 2, 2⟩ ⟨2, 1, 2⟩ 1 (SparseMatrix.empty Int) with
            nonZeroValues := [3, 1, 4, 1, 5, 9, 2, 6, 5, 3, 5, 8, 9, 7, 9, 3, 2, 3, 8, 4, 6, 2,
              6, 4, 3, 3, 8, 3, 2, 7, 9, 5] }
        [1, 0, 0, 1] (address3 ⟨1, 0, 1⟩ ⟨2, 1, 2⟩) 2
      = SparseMatrix.denseMultiplyOHVs intOps
        { initSMLocalRF intOps scaleProject ⟨2, 2, 2⟩ ⟨2, 1, 2⟩ 1 (SparseMatrix.empty Int) with
            nonZeroValues := [3, 1, 4, 1, 5, 9, 2, 6, 5, 3, 5, 8, 9, 7, 9, 3, 2, 3, 8, 4, 6, 2,
              6, 4, 3, 3, 8, 3, 2, 7, 9, 5] }
        [1, 0, 0, 1] (address3 ⟨1, 0, 1⟩ ⟨2, 1, 2⟩) 2 (2 * 2) := by
  have hcode : ∀ c : Int, 0 ≤ c → c < 2 * 2 →
      (0 : Int) ≤ getI [1, 0, 0, 1] c 0 ∧ getI [1, 0, 0, 1] c 0 < (2 : Int) := by
    intro c h0 h1
    have h : c = 0 ∨ c = 1 ∨ c = 2 ∨ c = 3 := by omega
    rcases h with rfl | rfl | rfl | rfl <;> decide
  exact multiplyOHVs_eq_dense_sum intOps scaleProject ⟨2, 2, 2⟩ ⟨2, 1, 2⟩ 1
    (SparseMatrix.empty Int) _ [1, 0, 0, 1] ⟨1, 0, 1⟩ (fun x => Int.add_zero x) rfl
    (by decide) hcode

/-! ### The transpose view built by `initT` -/

theorem zip_map_fst_snd {α β : Type} (l : List (α × β)) :
    (l.map Prod.fst).zip (l.map Prod.snd) = l := by
  induction l with
  | nil => rfl
  | cons a t ih => simp [ih]

/-- Reading two arrays of components over the positions of a segment gives back
the pairs of the segment. -/
theorem map_getI_pair_segment (A E T : List (Int × Int)) :
    (intRange A.length ((A.length : Int) + (E.length : Int))).map
        (fun k => (getI ((A ++ E ++ T).map Prod.fst) k 0, getI ((A ++ E ++ T).map Prod.snd) k 0))
      = E := by
  have h1 := map_getI_segment (A.map Prod.fst) (E.map Prod.fst) (T.map Prod.fst) 0
  have h2 := map_getI_segment (A.map Prod.snd) (E.map Prod.snd) (T.map Prod.snd) 0
  simp only [List.length_map, ← List.map_append] at h1 h2
  rw [← List.zip_map', h1, h2, zip_map_fst_snd]

/-- In the transpose view built by `initT`, the row indices and value positions
stored for a column are those of the entries of the column. -/
theorem initT_columnSegment {F : Type} (m : SparseMatrix F) (c : Int) (hc : 0 ≤ c ∧ c < m.columns) :
    (intRange (getI m.initT.columnRanges c 0) (getI m.initT.columnRanges (c + 1) 0)).map
        (fun k => (getI m.initT.rowIndices k 0, getI m.initT.nonZeroValueIndices k 0))
      = m.columnEntries c := by
  have hsplit : intRange 0 m.columns = intRange 0 c ++ c :: intRange (c + 1) m.columns := by
    rw [← intRange_cons hc.2]
    exact (intRange_append hc.1 (le_of_lt hc.2)).symm
  have hlen : (intRange 0 c).length = c.toNat := by
    rw [length_intRange]
    simp
  have hri : m.initT.rowIndices
      = (((intRange 0 c).flatMap m.columnEntries) ++ m.columnEntries c
          ++ (intRange (c + 1) m.columns).flatMap m.columnEntries).map Prod.fst := by
    show (intRange 0 m.columns).flatMap (fun c => (m.columnEntries c).map Prod.fst) = _
    rw [hsplit]
    simp [List.map_flatMap, List.flatMap_append]
  have hvi : m.initT.nonZeroValueIndices
      = (((intRange 0 c).flatMap m.columnEntries) ++ m.columnEntries c
          ++ (intRange (c + 1) m.columns).flatMap m.columnEntries).map Prod.snd := by
    show (intRange 0 m.columns).flatMap (fun c => (m.columnEntries c).map Prod.snd) = _
    rw [hsplit]
    simp [List.map_flatMap, List.flatMap_append]
  have hcr : m.initT.columnRanges
      = prefixSums 0 ((intRange 0 c ++ c :: intRange (c + 1) m.columns).map
          fun c => ((m.columnEntries c).length : Int)) := by
    show prefixSums 0 ((intRange 0 m.columns).map fun c => ((m.columnEntries c).length : Int)) = _
    rw [← hsplit]
  have ec : c = ((c.toNat : Nat) : Int) := (Int.toNat_of_nonneg hc.1).symm
  have ec1 : c + 1 = ((c.toNat + 1 : Nat) : Int) := by
    push_cast
    omega
  have g0 : getI m.initT.columnRanges c 0
      = (((intRange 0 c).flatMap m.columnEntries).length : Int) := by
    rw [hcr]
    have h := getI_natCast (prefixSums 0 ((intRange 0 c ++ c :: intRange (c + 1) m.columns).map
      fun c => ((m.columnEntries c).length : Int))) c.toNat 0
    rw [← ec] at h
    rw [h, getD_prefixSums _ _ _ (by simp; omega)]
    rw [List.map_append, List.take_left' (by simp [hlen]), sum_map_length_flatMap]
    simp
  have g1 : getI m.initT.columnRanges (c + 1) 0
      = (((intRange 0 c).flatMap m.columnEntries).length : Int)
        + ((m.columnEntries c).length : Int) := by
    rw [hcr]
    have h := getI_natCast (prefixSums 0 ((intRange 0 c ++ c :: intRange (c + 1) m.columns).map
      fun c => ((m.columnEntries c).length : Int))) (c.toNat + 1) 0
    rw [← ec1] at h
    rw [h, getD_prefixSums _ _ _ (by simp; omega)]
    have e : intRange 0 c ++ c :: intRange (c + 1) m.columns
        = (intRange 0 c ++ [c]) ++ intRange (c + 1) m.columns := by simp
    rw [e, List.map_append, List.take_left' (by simp [hlen]), sum_map_length_flatMap]
    simp [List.flatMap_append]
  rw [g0, g1, hri, hvi]
  exact map_getI_pair_segment _ _ _

theorem find?_append_only {α : Type} (p : α → Bool) (A B C : List α)
    (hA : ∀ a ∈ A, p a = false) (hC : ∀ a ∈ C, p a = false) :
    (A ++ B ++ C).find? p = B.find? p := by
  have eA : A.find? p = none := by
    rw [List.find?_eq_none]
    intro a ha h
    rw [hA a ha] at h
    exact Bool.false_ne_true h
  have eC : C.find? p = none := by
    rw [List.find?_eq_none]
    intro a ha h
    rw [hC a ha] at h
    exact Bool.false_ne_true h
  rw [List.find?_append, List.find?_append, eA, eC]
  cases B.find? p <;> rfl

/-- The entries of the forward view split at a row. -/
theorem entries_split {F : Type} (m : SparseMatrix F) (r : Int) (hr : 0 ≤ r ∧ r < m.rows) :
    m.entries
      = ((intRange 0 r).flatMap fun i =>
          (intRange (getI m.rowRanges i 0) (getI m.rowRanges (i + 1) 0)).map fun j => (i, j))
        ++ (intRange (getI m.rowRanges r 0) (getI m.rowRanges (r + 1) 0)).map (fun j => (r, j))
        ++ ((intRange (r + 1) m.rows).flatMap fun i =>
          (intRange (getI m.rowRanges i 0) (getI m.rowRanges (i + 1) 0)).map fun j => (i, j)) := by
  have hsplit : intRange 0 m.rows = intRange 0 r ++ r :: intRange (r + 1) m.rows := by
    rw [← intRange_cons hr.2]
    exact (intRange_append hr.1 (le_of_lt hr.2)).symm
  unfold SparseMatrix.entries
  rw [hsplit, List.flatMap_append, List.flatMap_cons, List.append_assoc]

/-- The two views of a matrix whose transpose view was built by `initT` hold the
weight of a position at the same place of the value array. -/
theorem slotT_initT {F : Type} (m : SparseMatrix F) (r c : Int) (hr : 0 ≤ r ∧ r < m.rows)
    (hc : 0 ≤ c ∧ c < m.columns) : m.initT.slotT c r = m.slot r c := by
  unfold SparseMatrix.slotT
  have e1 : ((intRange (getI m.initT.columnRanges c 0) (getI m.initT.columnRanges (c + 1) 0)).find?
        (fun k => getI m.initT.rowIndices k 0 == r)).map
          (fun k => getI m.initT.nonZeroValueIndices k 0)
      = (((intRange (getI m.initT.columnRanges c 0) (getI m.initT.columnRanges (c + 1) 0)).map
          (fun k => (getI m.initT.rowIndices k 0, getI m.initT.nonZeroValueIndices k 0))).find?
            (fun e => e.1 == r)).map Prod.snd := by
    rw [List.find?_map, Option.map_map]
    rfl
  rw [e1, initT_columnSegment m c hc]
  unfold SparseMatrix.columnEntries
  rw [List.find?_filter, entries_split m r hr, find?_append_only, List.find?_map, Option.map_map]
  · unfold SparseMatrix.slot
    have ef : ((fun (a : Int × Int) =>
            decide ((getI m.columnIndices a.2 0 == c) = true ∧ (a.1 == r) = true))
          ∘ fun j => (r, j))
        = fun j => getI m.columnIndices j 0 == c := by
      funext j
      by_cases h : getI m.columnIndices j 0 = c <;> simp [h]
    rw [ef]
    have eg : (Prod.snd ∘ fun (j : Int) => (r, j)) = id := rfl
    rw [eg, Option.map_id]
    rfl
  · intro a ha
    obtain ⟨i, hi, ha⟩ := List.mem_flatMap.mp ha
    obtain ⟨j, _, rfl⟩ := List.mem_map.mp ha
    have := mem_intRange.mp hi
    have hne : ¬ (i = r) := by omega
    simp [hne]
  · intro a ha
    obtain ⟨i, hi, ha⟩ := List.mem_flatMap.mp ha
    obtain ⟨j, _, rfl⟩ := List.mem_map.mp ha
    have := mem_intRange.mp hi
    have hne : ¬ (i = r) := by omega
    simp [hne]

/-- The positions of the value array that the transpose operations on one-hot
vectors select in a column, after `initT`: those of the entries of the column,
through the forward view, in the rows that are active. -/
theorem mem_selectedT_initT {F : Type} (m : SparseMatrix F) (codes : IntBuffer) (c z : Int)
    (hc : 0 ≤ c ∧ c < m.columns) (i : Int) :
    i ∈ m.initT.selectedT codes c z
      ↔ ∃ r, (0 ≤ r ∧ r < m.rows) ∧ inActiveSlot r codes z = true
          ∧ i ∈ intRange (getI m.rowRanges r 0) (getI m.rowRanges (r + 1) 0)
          ∧ getI m.columnIndices i 0 = c := by
  unfold SparseMatrix.selectedT
  have e1 : ((intRange (getI m.initT.columnRanges c 0) (getI m.initT.columnRanges (c + 1) 0)).filter
        (fun jj => inActiveSlot (getI m.initT.rowIndices jj 0) codes z)).map
          (fun jj => getI m.initT.nonZeroValueIndices jj 0)
      = (((intRange (getI m.initT.columnRanges c 0) (getI m.initT.columnRanges (c + 1) 0)).map
          (fun k => (getI m.initT.rowIndices k 0, getI m.initT.nonZeroValueIndices k 0))).filter
            (fun e => inActiveSlot e.1 codes z)).map Prod.snd := by
    rw [List.filter_map, List.map_map]
    rfl
  rw [e1, initT_columnSegment m c hc]
  unfold SparseMatrix.columnEntries SparseMatrix.entries
  simp only [List.mem_map, List.mem_filter, List.mem_flatMap, mem_intRange, beq_iff_eq]
  constructor
  · rintro ⟨⟨r, j⟩, ⟨⟨⟨r', hr', j', hj', he⟩, hcol⟩, hact⟩, rfl⟩
    simp only [Prod.mk.injEq] at he
    obtain ⟨rfl, rfl⟩ := he
    exact ⟨r', hr', hact, hj', hcol⟩
  · rintro ⟨r, hr, hact, hj, hcol⟩
    exact ⟨(r, i), ⟨⟨⟨r, hr, i, hj, rfl⟩, hcol⟩, hact⟩, rfl⟩

theorem slot_some {F : Type} {m : SparseMatrix F} {r c j : Int} (h : m.slot r c = some j) :
    (getI m.rowRanges r 0 ≤ j ∧ j < getI m.rowRanges (r + 1) 0) ∧ getI m.columnIndices j 0 = c := by
  have h' : (intRange (getI m.rowRanges r 0) (getI m.rowRanges (r + 1) 0)).find?
      (fun j => getI m.columnIndices j 0 == c) = some j := h
  have h2 := List.find?_some h'
  exact ⟨mem_intRange.mp (List.mem_of_find?_eq_some h'), beq_iff_eq.mp h2⟩

/-- In a matrix with ordered row ranges, two positions of the forward view held
at the same place of the value array are the same position. -/
theorem slot_injective {F : Type} {m : SparseMatrix F} (hm : m.RowsOrdered) {r c r' c' j : Int}
    (hr : 0 ≤ r) (hr' : 0 ≤ r') (h : m.slot r c = some j) (h' : m.slot r' c' = some j) :
    r = r' ∧ c = c' := by
  obtain ⟨h1, h2⟩ := slot_some h
  obtain ⟨h1', h2'⟩ := slot_some h'
  have e : r = r' := by
    by_contra hne
    exact ranges_disjoint hm.1 hm.2 hr hr' hne h1 h1'
  exact ⟨e, by rw [← h2, ← h2']⟩

/-- Adding to a weight through the forward view adds to the weight read at that
position and leaves the weight read at every other position. -/
theorem weight_addWeight {F : Type} (ops : FloatOps F) (m : SparseMatrix F) (r c j : Int)
    (delta : F) (hm : m.RowsOrdered) (hr : 0 ≤ r) (hj : m.slot r c = some j)
    (hv : j < (m.nonZeroValues.length : Int)) :
    (m.addWeight ops r c delta).weight ops r c = ops.add (m.weight ops r c) delta
    ∧ ∀ r' c', 0 ≤ r' → (r', c') ≠ (r, c) →
        (m.addWeight ops r c delta).weight ops r' c' = m.weight ops r' c' := by
  have hj0 : 0 ≤ j := by
    have h1 := (slot_some hj).1.1
    rcases getI_mem_or_default m.rowRanges r 0 with h | h
    · have := hm.2 _ h
      omega
    · omega
  have hadd : m.addWeight ops r c delta
      = { m with nonZeroValues := bumpAt ops m.nonZeroValues [j] delta } := by
    unfold SparseMatrix.addWeight
    rw [hj]
    rfl
  rw [hadd]
  constructor
  · show SparseMatrix.valueAt ops { m with nonZeroValues := bumpAt ops m.nonZeroValues [j] delta }
        (m.slot r c) = ops.add (m.valueAt ops (m.slot r c)) delta
    rw [hj]
    exact getI_bumpAt_of_mem ops _ [j] delta j (List.nodup_singleton j)
      (List.mem_singleton.mpr rfl) hj0 hv
  · intro r' c' hr' hne
    show SparseMatrix.valueAt ops { m with nonZeroValues := bumpAt ops m.nonZeroValues [j] delta }
        (m.slot r' c') = m.valueAt ops (m.slot r' c')
    cases h' : m.slot r' c' with
    | none => rfl
    | some j' =>
      have hjj : j' ∉ [j] := by
        intro hmem
        have e : j' = j := List.mem_singleton.mp hmem
        rw [e] at h'
        obtain ⟨e1, e2⟩ := slot_injective hm hr' hr h' hj
        exact hne (by rw [e1, e2])
      exact getI_bumpAt_of_not_mem ops _ [j] delta j' (ops.ofInt 0) hjj

/-- C20: for a matrix with ordered row ranges whose transpose view has been
built by `initT`, and a position `(row r, column c)` that the matrix stores,
both views hold the weight of the position at the same place of the value
array; adding `delta` to the weight through the forward view changes the value
read at `(column c, row r)` through the transpose view to that value plus
`delta` and leaves the value read at every other position; adding `delta`
through the transpose view changes the value read at `(row r, column c)`
through the forward view to that value plus `delta` and leaves the value read
at every other position; the places of the value array that the transpose
operations on one-hot vectors (`multiplyOHVsT`, `deltaOHVsT`) select in column
`c` are those of the entries with that column index in the rows that are
active. -/
theorem transpose_aliasing {F : Type} (ops : FloatOps F) (m : SparseMatrix F) (r c j : Int)
    (delta : F) (hm : m.RowsOrdered) (hr : 0 ≤ r ∧ r < m.rows) (hc : 0 ≤ c ∧ c < m.columns)
    (hj : m.slot r c = some j) (hv : j < (m.nonZeroValues.length : Int)) :
    m.initT.slotT c r = m.initT.slot r c
    ∧ (m.initT.addWeight ops r c delta).weightT ops c r
        = ops.add (m.initT.weightT ops c r) delta
    ∧ (∀ r' c', (0 ≤ r' ∧ r' < m.rows) → (0 ≤ c' ∧ c' < m.columns) → (r', c') ≠ (r, c) →
        (m.initT.addWeight ops r c delta).weightT ops c' r' = m.initT.weightT ops c' r')
    ∧ (m.initT.addWeightT ops c r delta).weight ops r c
        = ops.add (m.initT.weight ops r c) delta
    ∧ (∀ r' c', (0 ≤ r' ∧ r' < m.rows) → (0 ≤ c' ∧ c' < m.columns) → (r', c') ≠ (r, c) →
        (m.initT.addWeightT ops c r delta).weight ops r' c' = m.initT.weight ops r' c')
    ∧ ∀ codes z i, i ∈ m.initT.selectedT codes c z
        ↔ ∃ r', (0 ≤ r' ∧ r' < m.rows) ∧ inActiveSlot r' codes z = true
            ∧ i ∈ intRange (getI m.rowRanges r' 0) (getI m.rowRanges (r' + 1) 0)
            ∧ getI m.columnIndices i 0 = c := by
  have hs : ∀ r' c', (0 ≤ r' ∧ r' < m.rows) → (0 ≤ c' ∧ c' < m.columns) →
      m.initT.slotT c' r' = m.initT.slot r' c' := fun r' c' hr' hc' => slotT_initT m r' c' hr' hc'
  have hT : ∀ r' c', (0 ≤ r' ∧ r' < m.rows) → (0 ≤ c' ∧ c' < m.columns) →
      (m.initT.addWeight ops r c delta).weightT ops c' r'
        = (m.initT.addWeight ops r c delta).weight ops r' c' := by
    intro r' c' hr' hc'
    have e : (m.initT.addWeight ops r c delta).slotT c' r' = m.initT.slotT c' r' := by
      unfold SparseMatrix.addWeight SparseMatrix.addAt
      cases m.initT.slot r c <;> rfl
    have e' : (m.initT.addWeight ops r c delta).slot r' c' = m.initT.slot r' c' := by
      unfold SparseMatrix.addWeight SparseMatrix.addAt
      cases m.initT.slot r c <;> rfl
    unfold SparseMatrix.weightT SparseMatrix.weight
    rw [e, e', hs r' c' hr' hc']
  have hT0 : ∀ r' c', (0 ≤ r' ∧ r' < m.rows) → (0 ≤ c' ∧ c' < m.columns) →
      m.initT.weightT ops c' r' = m.initT.weight ops r' c' := by
    intro r' c' hr' hc'
    unfold SparseMatrix.weightT SparseMatrix.weight
    rw [hs r' c' hr' hc']
  have hA : m.initT.addWeightT ops c r delta = m.initT.addWeight ops r c delta := by
    unfold SparseMatrix.addWeightT SparseMatrix.addWeight
    rw [hs r c hr hc]
  have hF := weight_addWeight ops m.initT r c j delta hm hr.1 hj hv
  refine ⟨hs r c hr hc, ?_, ?_, ?_, ?_, fun codes z i => mem_selectedT_initT m codes c z hc i⟩
  · rw [hT r c hr hc, hT0 r c hr hc]
    exact hF.1
  · intro r' c' hr' hc' hne
    rw [hT r' c' hr' hc', hT0 r' c' hr' hc']
    exact hF.2 r' c' hr'.1 hne
  · rw [hA]
    exact hF.1
  · intro r' c' hr' _ hne
    rw [hA]
    exact hF.2 r' c' hr'.1 hne

theorem transpose_aliasing_witness :
    (exampleMatrix.RowsOrdered ∧ ((0 : Int) ≤ 1 ∧ 1 < exampleMatrix.rows)
      ∧ ((0 : Int) ≤ 2 ∧ 2 < exampleMatrix.columns) ∧ exampleMatrix.slot 1 2 = some 6
      ∧ (6 : Int) < (exampleMatrix.nonZeroValues.length : Int))
    ∧ (exampleMatrix.initT.addWeight intOps 1 2 5).weightT intOps 2 1
        = intOps.add (exampleMatrix.initT.weightT intOps 2 1) 5 := by
  have hm : exampleMatrix.RowsOrdered := ⟨by decide, by decide⟩
  exact ⟨⟨hm, by decide, by decide, by decide, by decide⟩,
    (transpose_aliasing intOps exampleMatrix 1 2 6 5 hm (by decide) (by decide) (by decide)
      (by decide)).2.1⟩

/-! ### Claim on the weights during encoding -/

/-- C22: for every state, input, compute system and execution mode,
`SparseCoder::step` with `learnEnabled = false` leaves the weight matrix of
every visible layer of the sparse coder as it was, and `Predictor::activate`
leaves the weight matrix of every visible layer of the predictor as it was. -/
theorem encode_keeps_weights {F R : Type} [LinearOrder F] (M : RngOps R) (ops : FloatOps F)
    (noThread : Bool) (cs : ComputeSystem R) (inputCs : List IntBuffer) (s : SparseCoder F)
    (p : Predictor F) :
    (SparseCoder.step M ops noThread cs inputCs false s).1.visibleLayers.map
        (fun vl => vl.weights) = s.visibleLayers.map (fun vl => vl.weights)
    ∧ (Predictor.activate M ops noThread cs inputCs p).1.visibleLayers.map
        (fun vl => vl.weights) = p.visibleLayers.map (fun vl => vl.weights) := by
  refine ⟨SparseCoder.step_false_weights M ops noThread cs inputCs s, ?_⟩
  unfold Predictor.activate
  refine foldl_preserves
    (fun (acc : Predictor F × ComputeSystem R) =>
      acc.1.visibleLayers.map (fun vl => vl.weights) = p.visibleLayers.map (fun vl => vl.weights))
    _ _ ?_ _ ?_
  · intro acc vli _ hacc
    show (acc.1.visibleLayers.set vli _).map (fun vl => vl.weights) = _
    rw [map_weights_set]
    exact hacc
  · exact launch2_preserves M noThread (fun pos rng p => Predictor.forward ops pos rng inputCs p)
      (fun _ _ _ _ => rfl) _ cs
      (fun q => q.visibleLayers.map (fun vl => vl.weights)
        = p.visibleLayers.map (fun vl => vl.weights))
      (fun _ _ _ hq => hq) p rfl

/-! ### What a kernel invocation writes -/

theorem mem_selectedT {F : Type} (m : SparseMatrix F) (code : IntBuffer) (column z i : Int)
    (h : i ∈ m.selectedT code column z) :
    ∃ k, (getI m.columnRanges column 0 ≤ k ∧ k < getI m.columnRanges (column + 1) 0)
      ∧ getI m.nonZeroValueIndices k 0 = i := by
  unfold SparseMatrix.selectedT at h
  obtain ⟨k, hk, rfl⟩ := List.mem_map.mp h
  exact ⟨k, mem_intRange.mp (List.mem_filter.mp hk).1, rfl⟩

/-- A run of bumps leaves the value at a position that none of them selects. -/
theorem getI_foldl_bumpAt_of_not_mem {F α : Type} (ops : FloatOps F) (sel : α → List Int)
    (delta : α → F) (l : List α) (j : Int) (d : F) (h : ∀ a ∈ l, j ∉ sel a) (v : List F) :
    getI (l.foldl (fun v a => bumpAt ops v (sel a) (delta a)) v) j d = getI v j d := by
  induction l generalizing v with
  | nil => rfl
  | cons a l ih =>
    rw [List.foldl_cons, ih (fun a' ha' => h a' (List.mem_cons_of_mem _ ha')),
      getI_bumpAt_of_not_mem ops v (sel a) (delta a) j d (h a (List.mem_cons_self _ _))]

theorem length_foldl_bumpAt {F α : Type} (ops : FloatOps F) (sel : α → List Int)
    (delta : α → F) (l : List α) (v : List F) :
    (l.foldl (fun v a => bumpAt ops v (sel a) (delta a)) v).length = v.length := by
  induction l generalizing v with
  | nil => rfl
  | cons a l ih => rw [List.foldl_cons, ih, length_bumpAt]

/-- A run of bumps in which exactly one selects a position adds the increment of
that one to the value at the position. -/
theorem getI_foldl_bumpAt_of_mem {F α : Type} (ops : FloatOps F) (sel : α → List Int)
    (delta : α → F) (l : List α) (a0 : α) (j : Int) (hl : l.Nodup) (ha0 : a0 ∈ l)
    (hj : j ∈ sel a0) (hn : (sel a0).Nodup) (ho : ∀ a ∈ l, a ≠ a0 → j ∉ sel a) (v : List F)
    (h0 : 0 ≤ j) (h1 : j < (v.length : Int)) :
    getI (l.foldl (fun v a => bumpAt ops v (sel a) (delta a)) v) j (ops.ofInt 0)
      = ops.add (getI v j (ops.ofInt 0)) (delta a0) := by
  obtain ⟨L, T, rfl⟩ := List.append_of_mem ha0
  have hnd := List.nodup_append.mp hl
  have hT : a0 ∉ T := (List.nodup_cons.mp hnd.2.1).1
  have hL : a0 ∉ L := fun h => hnd.2.2 h (List.mem_cons_self _ _)
  rw [List.foldl_append, List.foldl_cons,
    getI_foldl_bumpAt_of_not_mem ops sel delta T j _
      (fun a ha => ho a (List.mem_append_right _ (List.mem_cons_of_mem _ ha))
        (fun e => hT (e ▸ ha))),
    getI_bumpAt_of_mem ops _ (sel a0) (delta a0) j hn hj h0
      (by rw [length_foldl_bumpAt]; exact h1),
    getI_foldl_bumpAt_of_not_mem ops sel delta L j _
      (fun a ha => ho a (List.mem_append_left _ ha) (fun e => hL (e ▸ ha)))]

/-- The second loop of `SparseCoder::learn` changes values only: each pass bumps
the values at the positions that the transpose view selects for its cell. -/
theorem SparseCoder.learnUpdate_eq {F : Type} (ops : FloatOps F) (pos : Int2) (size : Int3)
    (alpha : F) (targetC : Int) (activations : List F) (hiddenCs : IntBuffer) (hiddenSize : Int3)
    (w : SparseMatrix F) :
    SparseCoder.learnUpdate ops pos size alpha targetC activations hiddenCs hiddenSize w
      = { w with
          nonZeroValues := (intRange 0 size.z).foldl
            (fun v vc =>
              bumpAt ops v (w.selectedT hiddenCs (address3 ⟨pos.x, pos.y, vc⟩ size) hiddenSize.z)
                (ops.mul alpha
                  (ops.sub (if vc = targetC then ops.ofInt 1 else ops.ofInt (-1))
                    (ops.tanh (getI activations vc (ops.ofInt 0))))))
            w.nonZeroValues } := by
  unfold SparseCoder.learnUpdate
  simp only []
  exact deltaOHVsT_foldl ops hiddenCs hiddenSize.z
    (fun vc => address3 ⟨pos.x, pos.y, vc⟩ size)
    (fun vc => ops.mul alpha
      (ops.sub (if vc = targetC then ops.ofInt 1 else ops.ofInt (-1))
        (ops.tanh (getI activations vc (ops.ofInt 0))))) _ w

/-- The weights after `SparseCoder::learn` at a column: the pattern is kept, and
so is every value that the transpose view does not hold for a cell of the
column. -/
theorem SparseCoder.learnWeights_other {F : Type} [LinearOrder F] (ops : FloatOps F)
    (pos : Int2) (size : Int3) (alpha : F) (targetC : Int) (hiddenCs : IntBuffer)
    (hiddenSize : Int3) (w : SparseMatrix F) :
    (SparseCoder.learnWeights ops pos size alpha targetC hiddenCs hiddenSize w).pattern
        = w.pattern
    ∧ ∀ j, (∀ vc, 0 ≤ vc → vc < size.z → ∀ k,
          getI w.columnRanges (address3 ⟨pos.x, pos.y, vc⟩ size) 0 ≤ k →
          k < getI w.columnRanges (address3 ⟨pos.x, pos.y, vc⟩ size + 1) 0 →
          getI w.nonZeroValueIndices k 0 ≠ j) →
        getI (SparseCoder.learnWeights ops pos size alpha targetC hiddenCs hiddenSize
            w).nonZeroValues j (ops.ofInt 0)
          = getI w.nonZeroValues j (ops.ofInt 0) := by
  unfold SparseCoder.learnWeights
  simp only []
  split
  · rw [SparseCoder.learnUpdate_eq]
    refine ⟨rfl, ?_⟩
    intro j hj
    apply getI_foldl_bumpAt_of_not_mem
    intro vc hvc hmem
    obtain ⟨k, hk, e⟩ := mem_selectedT w hiddenCs _ _ j hmem
    have hvc' := mem_intRange.mp hvc
    exact hj vc hvc'.1 hvc'.2 k hk.1 hk.2 e
  · exact ⟨rfl, fun _ _ => rfl⟩

/-- The predictor after the kernel `Predictor::learn` at a column: all but the
values of the weights is kept, and so is every value outside the rows of the
cells of the column. -/
theorem Predictor.learnKernel_other {F R : Type} (ops : FloatOps F) (pos : Int2) (rng : R)
    (tgt : IntBuffer) (p : Predictor F) :
    Predictor.SameButValues p (Predictor.learnKernel ops pos rng tgt p)
    ∧ ∀ vli j, (∀ hc, 0 ≤ hc → hc < p.hiddenSize.z →
          ¬ (getI (p.layer vli).weights.rowRanges (address3 ⟨pos.x, pos.y, hc⟩ p.hiddenSize) 0 ≤ j
            ∧ j < getI (p.layer vli).weights.rowRanges
                (address3 ⟨pos.x, pos.y, hc⟩ p.hiddenSize + 1) 0)) →
        getI ((Predictor.learnKernel ops pos rng tgt p).layer vli).weights.nonZeroValues j
            (ops.ofInt 0)
          = getI (p.layer vli).weights.nonZeroValues j (ops.ofInt 0) := by
  have e := Predictor.learnKernel_fold_cells ops rng tgt p [pos]
  rw [List.foldl_cons, List.foldl_nil] at e
  rw [e]
  refine ⟨Predictor.cells_fold_sameButValues ops tgt p (p.cells [pos]) p (sameButValues_refl p),
    ?_⟩
  · intro vli j hj
    refine (Predictor.cells_fold_other ops tgt p vli j (p.cells [pos]) ?_ p
      (sameButValues_refl p)).2
    intro c hc hmem
    obtain ⟨hc1, hc2⟩ := (Predictor.mem_cells p [pos] c).mp hc
    have e1 : c.1 = pos := List.mem_singleton.mp hc1
    have hc2' := mem_intRange.mp hc2
    rw [e1] at hmem
    exact hj c.2 hc2'.1 hc2'.2 (mem_selected _ _ _ _ j hmem)

/-! ### Claim on the state that a kernel invocation writes -/

/-- C24: each kernel invocation writes only the state addressed by its own
column.  `Predictor::forward` at the hidden column `pos` changes `hiddenCs` at
the index of `pos` only; `SparseCoder::forward` changes `hiddenCs` at the index
of `pos` and `hiddenActivations` at the indices of the cells of `pos` only;
`SparseCoder::backward` at the visible column `pos` of layer `vli` changes
`inputErrors` of that layer at the index of `pos` only; `Predictor::learn` at
the hidden column `pos` changes only weight values in the rows of the cells of
`pos`; `SparseCoder::learn` at the visible column `pos` of layer `vli` changes
only weight values that the transpose view of that layer holds for the cells of
`pos`.  Two invocations of the same kernel at distinct columns of its domain
commute (for the learn kernels, on matrices whose row ranges, respectively
transpose views, are in order). -/
theorem kernels_write_own_column {F R : Type} [LinearOrder F] (ops : FloatOps F) (rng : R)
    (inputCs : List IntBuffer) (inputC tgt : IntBuffer) (it : Int) (vli : Nat)
    (p : Predictor F) (s : SparseCoder F) (pos : Int2) :
    (Predictor.forward ops pos rng inputCs p
        = { p with
            hiddenCs := setI p.hiddenCs (address2 pos ⟨p.hiddenSize.x, p.hiddenSize.y⟩)
              (Predictor.forwardMax ops pos inputCs p).1 })
    ∧ (SparseCoder.forward ops pos rng inputCs it s
        = { s with
            hiddenCs := setI s.hiddenCs (address2 pos ⟨s.hiddenSize.x, s.hiddenSize.y⟩)
              (SparseCoder.forwardLoop ops pos inputCs it s).2.1
            hiddenActivations := (SparseCoder.forward ops pos rng inputCs it s).hiddenActivations }
      ∧ (SparseCoder.forward ops pos rng inputCs it s).hiddenActivations.length
          = s.hiddenActivations.length
      ∧ ∀ k, (∀ hc, 0 ≤ hc → hc < s.hiddenSize.z →
            k ≠ address3 ⟨pos.x, pos.y, hc⟩ s.hiddenSize) →
          getI (SparseCoder.forward ops pos rng inputCs it s).hiddenActivations k (ops.ofInt 0)
            = getI s.hiddenActivations k (ops.ofInt 0))
    ∧ (SparseCoder.backward ops pos rng inputC vli s
        = { s with
            visibleLayers := s.visibleLayers.set vli
              { s.layer vli with
                inputErrors := setI (s.layer vli).inputErrors
                  (address2 pos ⟨(s.desc vli).size.x, (s.desc vli).size.y⟩)
                  (SparseCoder.backwardError ops pos inputC vli s) } })
    ∧ (Predictor.SameButValues p (Predictor.learnKernel ops pos rng tgt p)
      ∧ ∀ v j, (∀ hc, 0 ≤ hc → hc < p.hiddenSize.z →
            ¬ (getI (p.layer v).weights.rowRanges (address3 ⟨pos.x, pos.y, hc⟩ p.hiddenSize) 0 ≤ j
              ∧ j < getI (p.layer v).weights.rowRanges
                  (address3 ⟨pos.x, pos.y, hc⟩ p.hiddenSize + 1) 0)) →
          getI ((Predictor.learnKernel ops pos rng tgt p).layer v).weights.nonZeroValues j
              (ops.ofInt 0)
            = getI (p.layer v).weights.nonZeroValues j (ops.ofInt 0))
    ∧ (∃ w : SparseMatrix F,
        SparseCoder.learn ops pos rng inputC vli s
          = { s with visibleLayers := s.visibleLayers.set vli { s.layer vli with weights := w } }
        ∧ w.pattern = (s.layer vli).weights.pattern
        ∧ ∀ j, (∀ vc, 0 ≤ vc → vc < (s.desc vli).size.z → ∀ k,
              getI (s.layer vli).weights.columnRanges
                  (address3 ⟨pos.x, pos.y, vc⟩ (s.desc vli).size) 0 ≤ k →
              k < getI (s.layer vli).weights.columnRanges
                  (address3 ⟨pos.x, pos.y, vc⟩ (s.desc vli).size + 1) 0 →
              getI (s.layer vli).weights.nonZeroValueIndices k 0 ≠ j) →
            getI w.nonZeroValues j (ops.ofInt 0)
              = getI (s.layer vli).weights.nonZeroValues j (ops.ofInt 0))
    ∧ ∀ pos', pos ≠ pos' →
        (pos ∈ domain2 ⟨p.hiddenSize.x, p.hiddenSize.y⟩ →
          pos' ∈ domain2 ⟨p.hiddenSize.x, p.hiddenSize.y⟩ →
          Predictor.forward ops pos' rng inputCs (Predictor.forward ops pos rng inputCs p)
              = Predictor.forward ops pos rng inputCs (Predictor.forward ops pos' rng inputCs p)
          ∧ ((∀ vl ∈ p.visibleLayers, vl.weights.RowsOrdered) →
            Predictor.learnKernel ops pos' rng tgt (Predictor.learnKernel ops pos rng tgt p)
              = Predictor.learnKernel ops pos rng tgt (Predictor.learnKernel ops pos' rng tgt p)))
        ∧ (pos ∈ domain2 ⟨s.hiddenSize.x, s.hiddenSize.y⟩ →
          pos' ∈ domain2 ⟨s.hiddenSize.x, s.hiddenSize.y⟩ →
          SparseCoder.forward ops pos' rng inputCs it (SparseCoder.forward ops pos rng inputCs it s)
            = SparseCoder.forward ops pos rng inputCs it
                (SparseCoder.forward ops pos' rng inputCs it s))
        ∧ (pos ∈ domain2 ⟨(s.desc vli).size.x, (s.desc vli).size.y⟩ →
          pos' ∈ domain2 ⟨(s.desc vli).size.x, (s.desc vli).size.y⟩ →
          SparseCoder.backward ops pos' rng inputC vli (SparseCoder.backward ops pos rng inputC vli s)
              = SparseCoder.backward ops pos rng inputC vli
                  (SparseCoder.backward ops pos' rng inputC vli s)
          ∧ ((∀ vl ∈ s.visibleLayers, vl.weights.ColumnsOrdered) →
            SparseCoder.learn ops pos' rng inputC vli (SparseCoder.learn ops pos rng inputC vli s)
              = SparseCoder.learn ops pos rng inputC vli
                  (SparseCoder.learn ops pos' rng inputC vli s))) := by
  refine ⟨rfl, ⟨rfl, ?_, ?_⟩, rfl, Predictor.learnKernel_other ops pos rng tgt p, ?_, ?_⟩
  · obtain ⟨val, hval⟩ := SparseCoder.forwardLoop_writes ops pos inputCs it s
    show (SparseCoder.forwardLoop ops pos inputCs it s).1.length = _
    rw [hval s.hiddenActivations]
    exact writes_length (fun hc => address3 ⟨pos.x, pos.y, hc⟩ s.hiddenSize) val _ _ _
  · intro k hk
    obtain ⟨val, hval⟩ := SparseCoder.forwardLoop_writes ops pos inputCs it s
    show getI (SparseCoder.forwardLoop ops pos inputCs it s).1 k (ops.ofInt 0) = _
    rw [hval s.hiddenActivations]
    exact writes_getI_other (fun hc => address3 ⟨pos.x, pos.y, hc⟩ s.hiddenSize) val _ _ _ _
      (fun hc hhc e => hk hc (mem_intRange.mp hhc).1 (mem_intRange.mp hhc).2 e.symm) _
  · refine ⟨_, SparseCoder.learn_eq ops pos rng inputC vli s, ?_⟩
    exact SparseCoder.learnWeights_other ops pos _ _ _ _ _ _
  · intro pos' hne
    refine ⟨fun h h' => ⟨predictor_forward_comm ops rng inputCs p h h' hne,
        fun hp => Predictor.learnKernel_comm ops rng tgt p hp h h' hne⟩,
      fun h h' => sparseCoder_forward_comm ops rng inputCs it s h h' hne,
      fun h h' => ⟨SparseCoder.backward_comm ops rng inputC vli s h h' hne,
        fun hs => SparseCoder.learn_comm ops rng inputC vli s hs h h' hne⟩⟩

theorem kernels_write_own_column_witness :
    ((⟨0, 1⟩ : Int2) ≠ ⟨1, 0⟩
      ∧ (⟨0, 1⟩ : Int2) ∈ domain2 ⟨(exampleSparseCoder.desc 0).size.x,
          (exampleSparseCoder.desc 0).size.y⟩
      ∧ (⟨1, 0⟩ : Int2) ∈ domain2 ⟨(exampleSparseCoder.desc 0).size.x,
          (exampleSparseCoder.desc 0).size.y⟩
      ∧ ∀ vl ∈ exampleSparseCoder.visibleLayers, vl.weights.ColumnsOrdered)
    ∧ SparseCoder.learn intOps ⟨1, 0⟩ () [0, 0, 0, 0] 0
          (SparseCoder.learn intOps ⟨0, 1⟩ () [0, 0, 0, 0] 0 exampleSparseCoder)
        = SparseCoder.learn intOps ⟨0, 1⟩ () [0, 0, 0, 0] 0
          (SparseCoder.learn intOps ⟨1, 0⟩ () [0, 0, 0, 0] 0 exampleSparseCoder) := by
  have hs : ∀ vl ∈ exampleSparseCoder.visibleLayers, vl.weights.ColumnsOrdered := by
    intro vl hvl
    have e : vl = ⟨exampleMatrix, [0, 0, 0, 0]⟩ := List.mem_singleton.mp hvl
    rw [e]
    exact ⟨by decide, by decide, by decide⟩
  exact ⟨⟨by decide, by decide, by decide, hs⟩,
    (((kernels_write_own_column intOps () [[0, 0, 0, 0]] [0, 0, 0, 0] [0, 0, 0, 0] 0 0
      examplePredictor exampleSparseCoder ⟨0, 1⟩).2.2.2.2.2 ⟨1, 0⟩ (by decide)).2.2
        (by decide) (by decide)).2 hs⟩

/-! ### Independence of the generator -/

/-- A launch of a kernel that ignores its generator, from two compute systems
with the same batch sizes and any generators: the same state, and again the
same batch sizes. -/
theorem launch2_indep {R σ : Type} (M M' : RngOps R) (noThread : Bool) (k : Int2 → R → σ → σ)
    (hk : ∀ p r r' s, k p r s = k p r' s) (size : Int2) (c c' : ComputeSystem R) (s : σ)
    (h1 : c.batchSize1 = c'.batchSize1) (h2 : c.batchSize2 = c'.batchSize2) :
    (launch2 M noThread k size c s).1 = (launch2 M' noThread k size c' s).1
    ∧ (launch2 M noThread k size c s).2.batchSize1
        = (launch2 M' noThread k size c' s).2.batchSize1
    ∧ (launch2 M noThread k size c s).2.batchSize2
        = (launch2 M' noThread k size c' s).2.batchSize2 := by
  refine ⟨?_, ?_, ?_⟩
  · rw [launch2_fst M noThread k hk, launch2_fst M' noThread k hk, h2]
    have e : (fun s p => k p c.rng s) = (fun s p => k p c'.rng s) := by
      funext s p
      exact hk p c.rng c'.rng s
    rw [e]
  · rw [launch2_snd, launch2_snd]
    exact h1
  · rw [launch2_snd, launch2_snd]
    exact h2

theorem launch1_indep {R σ : Type} (M M' : RngOps R) (noThread : Bool) (k : Int → R → σ → σ)
    (hk : ∀ p r r' s, k p r s = k p r' s) (size : Int) (c c' : ComputeSystem R) (s : σ)
    (h1 : c.batchSize1 = c'.batchSize1) (h2 : c.batchSize2 = c'.batchSize2) :
    (launch1 M noThread k size c s).1 = (launch1 M' noThread k size c' s).1
    ∧ (launch1 M noThread k size c s).2.batchSize1
        = (launch1 M' noThread k size c' s).2.batchSize1
    ∧ (launch1 M noThread k size c s).2.batchSize2
        = (launch1 M' noThread k size c' s).2.batchSize2 := by
  refine ⟨?_, ?_, ?_⟩
  · rw [launch1_fst M noThread k hk, launch1_fst M' noThread k hk, h1]
    have e : (fun s p => k p c.rng s) = (fun s p => k p c'.rng s) := by
      funext s p
      exact hk p c.rng c'.rng s
    rw [e]
  · rw [launch1_snd, launch1_snd]
    exact h1
  · rw [launch1_snd, launch1_snd]
    exact h2

/-- The state after `SparseCoder::step` is the same from any two generators, for
the same batch sizes. -/
theorem SparseCoder.step_indep {F R : Type} [LinearOrder F] (M M' : RngOps R) (ops : FloatOps F)
    (noThread : Bool) (c c' : ComputeSystem R) (inputCs : List IntBuffer) (learnEnabled : Bool)
    (s : SparseCoder F) (h1 : c.batchSize1 = c'.batchSize1) (h2 : c.batchSize2 = c'.batchSize2) :
    (SparseCoder.step M ops noThread c inputCs learnEnabled s).1
      = (SparseCoder.step M' ops noThread c' inputCs learnEnabled s).1 := by
  have hexp := foldl_rel
    (fun (a b : SparseCoder F × ComputeSystem R) =>
      a.1 = b.1 ∧ a.2.batchSize1 = b.2.batchSize1 ∧ a.2.batchSize2 = b.2.batchSize2)
    (fun (acc : SparseCoder F × ComputeSystem R) it =>
        let fwd := launch2 M noThread
          (fun pos rng s => SparseCoder.forward ops pos rng inputCs it s)
          ⟨acc.1.hiddenSize.x, acc.1.hiddenSize.y⟩ acc.2 acc.1
        if it < acc.1.explainIters - 1 then
          (List.range fwd.1.visibleLayers.length).foldl
            (fun (acc : SparseCoder F × ComputeSystem R) vli =>
              let vld := acc.1.visibleLayerDescs.getD vli VisibleLayerDesc.none
              launch2 M noThread
                (fun pos rng s => SparseCoder.backward ops pos rng (inputCs.getD vli []) vli s)
                ⟨vld.size.x, vld.size.y⟩ acc.2 acc.1)
            fwd
        else fwd)
    (fun (acc : SparseCoder F × ComputeSystem R) it =>
        let fwd := launch2 M' noThread
          (fun pos rng s => SparseCoder.forward ops pos rng inputCs it s)
          ⟨acc.1.hiddenSize.x, acc.1.hiddenSize.y⟩ acc.2 acc.1
        if it < acc.1.explainIters - 1 then
          (List.range fwd.1.visibleLayers.length).foldl
            (fun (acc : SparseCoder F × ComputeSystem R) vli =>
              let vld := acc.1.visibleLayerDescs.getD vli VisibleLayerDesc.none
              launch2 M' noThread
                (fun pos rng s => SparseCoder.backward ops pos rng (inputCs.getD vli []) vli s)
                ⟨vld.size.x, vld.size.y⟩ acc.2 acc.1)
            fwd
        else fwd)
    (intRange 0 s.explainIters) ?_ (s, c) (s, c') ⟨rfl, h1, h2⟩
  · unfold SparseCoder.step
    simp only []
    cases learnEnabled
    · simp only [Bool.false_eq_true, if_false]
      exact hexp.1
    · simp only [if_true]
      rw [hexp.1]
      refine (foldl_rel
        (fun (a b : SparseCoder F × ComputeSystem R) =>
          a.1 = b.1 ∧ a.2.batchSize1 = b.2.batchSize1 ∧ a.2.batchSize2 = b.2.batchSize2)
        _ _ _ ?_ _ _ hexp).1
      rintro ⟨a, ca⟩ ⟨b, cb⟩ vli _ ⟨e, e1, e2⟩
      simp only [] at e e1 e2
      subst e
      exact launch2_indep M M' noThread
        (fun pos rng s => SparseCoder.learn ops pos rng (inputCs.getD vli []) vli s)
        (fun _ _ _ _ => rfl) _ ca cb a e1 e2
  · rintro ⟨a, ca⟩ ⟨b, cb⟩ it _ ⟨e, e1, e2⟩
    simp only [] at e e1 e2
    subst e
    have hf := launch2_indep M M' noThread
      (fun pos rng s => SparseCoder.forward ops pos rng inputCs it s) (fun _ _ _ _ => rfl)
      ⟨a.hiddenSize.x, a.hiddenSize.y⟩ ca cb a e1 e2
    simp only []
    split
    · rw [hf.1]
      refine foldl_rel
        (fun (a b : SparseCoder F × ComputeSystem R) =>
          a.1 = b.1 ∧ a.2.batchSize1 = b.2.batchSize1 ∧ a.2.batchSize2 = b.2.batchSize2)
        _ _ _ ?_ _ _ hf
      rintro ⟨a', ca'⟩ ⟨b', cb'⟩ vli _ ⟨e', e1', e2'⟩
      simp only [] at e' e1' e2'
      subst e'
      exact launch2_indep M M' noThread
        (fun pos rng s => SparseCoder.backward ops pos rng (inputCs.getD vli []) vli s)
        (fun _ _ _ _ => rfl) _ ca' cb' a' e1' e2'
    · exact hf

theorem Predictor.learn_indep {F R : Type} (M M' : RngOps R) (ops : FloatOps F)
    (noThread : Bool) (c c' : ComputeSystem R) (tgt : IntBuffer) (p : Predictor F)
    (h1 : c.batchSize1 = c'.batchSize1) (h2 : c.batchSize2 = c'.batchSize2) :
    (Predictor.learn M ops noThread c tgt p).1 = (Predictor.learn M' ops noThread c' tgt p).1 :=
  (launch2_indep M M' noThread (fun pos rng p => Predictor.learnKernel ops pos rng tgt p)
    (fun _ _ _ _ => rfl) _ c c' p h1 h2).1

theorem Predictor.activate_indep {F R : Type} [LinearOrder F] (M M' : RngOps R)
    (ops : FloatOps F) (noThread : Bool) (c c' : ComputeSystem R) (inputCs : List IntBuffer)
    (p : Predictor F) (h1 : c.batchSize1 = c'.batchSize1) (h2 : c.batchSize2 = c'.batchSize2) :
    (Predictor.activate M ops noThread c inputCs p).1
      = (Predictor.activate M' ops noThread c' inputCs p).1 := by
  have hf := launch2_indep M M' noThread
    (fun pos rng p => Predictor.forward ops pos rng inputCs p) (fun _ _ _ _ => rfl)
    ⟨p.hiddenSize.x, p.hiddenSize.y⟩ c c' p h1 h2
  unfold Predictor.activate
  simp only []
  rw [hf.1]
  refine (foldl_rel
    (fun (a b : Predictor F × ComputeSystem R) =>
      a.1 = b.1 ∧ a.2.batchSize1 = b.2.batchSize1 ∧ a.2.batchSize2 = b.2.batchSize2)
    _ _ _ ?_ _ _ hf).1
  rintro ⟨a, ca⟩ ⟨b, cb⟩ vli _ ⟨e, e1, e2⟩
  simp only [] at e e1 e2
  subst e
  have hc := launch1_indep M M' noThread
    (fun pos rng dst => copyInt pos rng (inputCs.getD vli []) dst) (fun _ _ _ _ => rfl)
    ((a.visibleLayerDescs.getD vli VisibleLayerDesc.none).size.x
      * (a.visibleLayerDescs.getD vli VisibleLayerDesc.none).size.y) ca cb
    (a.visibleLayers.getD vli (Predictor.VisibleLayer.none F)).inputCsPrev e1 e2
  refine ⟨?_, hc.2.1, hc.2.2⟩
  simp only []
  rw [hc.1]

/-! ### Claim on the independence of the generator -/

/-- C26: the kernels of the sparse coder and of the predictor return the same
state for any two generators they are passed; `SparseCoder::step`,
`Predictor::activate` and `Predictor::learn` end in the same state (codes,
activations, errors, snapshots and weights) from any two states of the parent
generator and any two ways of drawing seeds from it, for the same batch sizes;
and, for batch sizes of at least one and weight matrices in order (row ranges
for the predictor, transpose views for the sparse coder), also for any two batch
sizes and either execution mode. -/
theorem results_independent_of_generator {F R : Type} [LinearOrder F] (M M' : RngOps R)
    (ops : FloatOps F) (c c' : ComputeSystem R) (inputCs : List IntBuffer) (tgt : IntBuffer)
    (learnEnabled : Bool) (s : SparseCoder F) (p : Predictor F) :
    (∀ (pos : Int2) (rng rng' : R) (it : Int) (vli : Nat) (inputC : IntBuffer),
      SparseCoder.forward ops pos rng inputCs it s = SparseCoder.forward ops pos rng' inputCs it s
      ∧ SparseCoder.backward ops pos rng inputC vli s
          = SparseCoder.backward ops pos rng' inputC vli s
      ∧ SparseCoder.learn ops pos rng inputC vli s = SparseCoder.learn ops pos rng' inputC vli s
      ∧ Predictor.forward ops pos rng inputCs p = Predictor.forward ops pos rng' inputCs p
      ∧ Predictor.learnKernel ops pos rng tgt p = Predictor.learnKernel ops pos rng' tgt p)
    ∧ (c.batchSize1 = c'.batchSize1 → c.batchSize2 = c'.batchSize2 → ∀ noThread,
      (SparseCoder.step M ops noThread c inputCs learnEnabled s).1
          = (SparseCoder.step M' ops noThread c' inputCs learnEnabled s).1
      ∧ (Predictor.activate M ops noThread c inputCs p).1
          = (Predictor.activate M' ops noThread c' inputCs p).1
      ∧ (Predictor.learn M ops noThread c tgt p).1 = (Predictor.learn M' ops noThread c' tgt p).1)
    ∧ ((1 ≤ c.batchSize1 ∧ 1 ≤ c.batchSize2.x ∧ 1 ≤ c.batchSize2.y) →
      (1 ≤ c'.batchSize1 ∧ 1 ≤ c'.batchSize2.x ∧ 1 ≤ c'.batchSize2.y) →
      (∀ vl ∈ s.visibleLayers, vl.weights.ColumnsOrdered) →
      (∀ vl ∈ p.visibleLayers, vl.weights.RowsOrdered) → ∀ noThread noThread',
      (SparseCoder.step M ops noThread c inputCs learnEnabled s).1
          = (SparseCoder.step M' ops noThread' c' inputCs learnEnabled s).1
      ∧ (Predictor.activate M ops noThread c inputCs p).1
          = (Predictor.activate M' ops noThread' c' inputCs p).1
      ∧ (Predictor.learn M ops noThread c tgt p).1
          = (Predictor.learn M' ops noThread' c' tgt p).1) := by
  refine ⟨fun _ _ _ _ _ _ => ⟨rfl, rfl, rfl, rfl, rfl⟩, ?_, ?_⟩
  · intro h1 h2 noThread
    exact ⟨SparseCoder.step_indep M M' ops noThread c c' inputCs learnEnabled s h1 h2,
      Predictor.activate_indep M M' ops noThread c c' inputCs p h1 h2,
      Predictor.learn_indep M M' ops noThread c c' tgt p h1 h2⟩
  · intro hb hb' hs hp noThread noThread'
    have S1 : ∀ (N : RngOps R) (d : ComputeSystem R),
        (1 ≤ d.batchSize1 ∧ 1 ≤ d.batchSize2.x ∧ 1 ≤ d.batchSize2.y) → ∀ nt,
        (SparseCoder.step N ops nt d inputCs learnEnabled s).1
          = (SparseCoder.step N ops false d inputCs learnEnabled s).1 := by
      intro N d hd nt
      cases nt
      · rfl
      · exact SparseCoder.step_modes N ops d d hd.2 inputCs learnEnabled s hs
    have A1 : ∀ (N : RngOps R) (d : ComputeSystem R),
        (1 ≤ d.batchSize1 ∧ 1 ≤ d.batchSize2.x ∧ 1 ≤ d.batchSize2.y) → ∀ nt,
        (Predictor.activate N ops nt d inputCs p).1
          = (Predictor.activate N ops false d inputCs p).1 := by
      intro N d hd nt
      cases nt
      · rfl
      · exact Predictor.activate_modes N ops d d hd.1 hd.2 inputCs p
    have L1 : ∀ (N : RngOps R) (d : ComputeSystem R),
        (1 ≤ d.batchSize1 ∧ 1 ≤ d.batchSize2.x ∧ 1 ≤ d.batchSize2.y) → ∀ nt,
        (Predictor.learn N ops nt d tgt p).1 = (Predictor.learn N ops false d tgt p).1 := by
      intro N d hd nt
      cases nt
      · rfl
      · exact Predictor.learn_modes N ops d d hd.2 tgt p hp
    refine ⟨?_, ?_, ?_⟩
    · rw [S1 M c hb noThread, S1 M' c' hb' noThread',
        ← SparseCoder.step_modes M ops c c hb.2 inputCs learnEnabled s hs,
        SparseCoder.step_modes M ops c c' hb'.2 inputCs learnEnabled s hs]
      exact SparseCoder.step_indep M M' ops false c' c' inputCs learnEnabled s rfl rfl
    · rw [A1 M c hb noThread, A1 M' c' hb' noThread',
        ← Predictor.activate_modes M ops c c hb.1 hb.2 inputCs p,
        Predictor.activate_modes M ops c c' hb'.1 hb'.2 inputCs p]
      exact Predictor.activate_indep M M' ops false c' c' inputCs p rfl rfl
    · rw [L1 M c hb noThread, L1 M' c' hb' noThread',
        ← Predictor.learn_modes M ops c c hb.2 tgt p hp,
        Predictor.learn_modes M ops c c' hb'.2 tgt p hp]
      exact Predictor.learn_indep M M' ops false c' c' tgt p rfl rfl

theorem results_independent_of_generator_witness :
    (((1 : Int) ≤ 1 ∧ (1 : Int) ≤ 2 ∧ (1 : Int) ≤ 1)
      ∧ ((1 : Int) ≤ 3 ∧ (1 : Int) ≤ 1 ∧ (1 : Int) ≤ 2)
      ∧ (∀ vl ∈ exampleSparseCoder.visibleLayers, vl.weights.ColumnsOrdered)
      ∧ (∀ vl ∈ examplePredictor.visibleLayers, vl.weights.RowsOrdered))
    ∧ (SparseCoder.step counterRng intOps false ⟨0, 1, ⟨2, 1⟩⟩ [[0, 0, 0, 0]] true
          exampleSparseCoder).1
        = (SparseCoder.step counterRng intOps false ⟨7, 3, ⟨1, 2⟩⟩ [[0, 0, 0, 0]] true
          exampleSparseCoder).1 := by
  have hp : ∀ vl ∈ examplePredictor.visibleLayers, vl.weights.RowsOrdered := by
    intro vl hvl
    have e : vl = ⟨exampleMatrix, [0, 0, 0, 0]⟩ := List.mem_singleton.mp hvl
    rw [e]
    exact ⟨by decide, by decide⟩
  have hs : ∀ vl ∈ exampleSparseCoder.visibleLayers, vl.weights.ColumnsOrdered := by
    intro vl hvl
    have e : vl = ⟨exampleMatrix, [0, 0, 0, 0]⟩ := List.mem_singleton.mp hvl
    rw [e]
    exact ⟨by decide, by decide, by decide⟩
  exact ⟨⟨by decide, by decide, hs, hp⟩,
    ((results_independent_of_generator counterRng counterRng intOps ⟨0, 1, ⟨2, 1⟩⟩
      ⟨7, 3, ⟨1, 2⟩⟩ [[0, 0, 0, 0]] [0, 0, 0, 0] true exampleSparseCoder examplePredictor).2.2
        (by decide) (by decide) hs hp false false).1⟩

/-! ### The hidden codes are cell indices -/

/-- The index kept by the winner loop over at least one cell is one of the
cells, whatever the activations and the start value. -/
theorem maxStep_foldl_range {F : Type} [LinearOrder F] (a : Int → F) (sent : F) (n : Int)
    (hn : 1 ≤ n) :
    0 ≤ ((intRange 0 n).foldl (fun acc hc => maxStep acc hc (a hc)) (0, sent)).1
    ∧ ((intRange 0 n).foldl (fun acc hc => maxStep acc hc (a hc)) (0, sent)).1 < n := by
  obtain ⟨_, h2⟩ := maxStep_foldl a sent n.toNat
  have e : ((n.toNat : Nat) : Int) = n := by omega
  rw [e] at h2
  rcases h2 with ⟨hr, _⟩ | ⟨_, hw0, hwn, _, _⟩
  · rw [hr]
    exact ⟨le_refl 0, by omega⟩
  · exact ⟨hw0, hwn⟩

theorem mem_setI {α : Type} {v : List α} {i : Int} {a x : α} (h : x ∈ setI v i a) :
    x = a ∨ x ∈ v := by
  unfold setI at h
  split at h
  · rcases List.mem_or_eq_of_mem_set h with h' | h'
    · exact Or.inr h'
    · exact Or.inl h'
  · exact Or.inr h

theorem predictor_forward_codes {F R : Type} [LinearOrder F] (ops : FloatOps F) (pos : Int2)
    (rng : R) (inputCs : List IntBuffer) (p : Predictor F) (hz : 1 ≤ p.hiddenSize.z)
    (hv : ∀ x ∈ p.hiddenCs, 0 ≤ x ∧ x < p.hiddenSize.z) :
    ∀ x ∈ (Predictor.forward ops pos rng inputCs p).hiddenCs, 0 ≤ x ∧ x < p.hiddenSize.z := by
  intro x hx
  rcases mem_setI hx with h | h
  · rw [h]
    exact maxStep_foldl_range
      (fun hc => p.activation ops inputCs (address3 ⟨pos.x, pos.y, hc⟩ p.hiddenSize))
      (ops.ofInt (-999999)) p.hiddenSize.z hz
  · exact hv x h

theorem sparseCoder_forward_codes {F R : Type} [LinearOrder F] (ops : FloatOps F) (pos : Int2)
    (rng : R) (inputCs : List IntBuffer) (it : Int) (s : SparseCoder F)
    (hz : 1 ≤ s.hiddenSize.z) (hv : ∀ x ∈ s.hiddenCs, 0 ≤ x ∧ x < s.hiddenSize.z) :
    ∀ x ∈ (SparseCoder.forward ops pos rng inputCs it s).hiddenCs,
      0 ≤ x ∧ x < s.hiddenSize.z := by
  intro x hx
  rcases mem_setI hx with h | h
  · rw [h, SparseCoder.forwardLoop_max]
    exact maxStep_foldl_range
      (fun hc => getI (SparseCoder.forwardLoop ops pos inputCs it s).1
        (address3 ⟨pos.x, pos.y, hc⟩ s.hiddenSize) (ops.ofInt 0))
      (ops.ofInt (-999999)) s.hiddenSize.z hz
  · exact hv x h

/-- `SparseCoder::step` keeps the hidden size and keeps the hidden codes inside
the hidden depth. -/
theorem SparseCoder.step_codes {F R : Type} [LinearOrder F] (M : RngOps R) (ops : FloatOps F)
    (noThread : Bool) (cs : ComputeSystem R) (inputCs : List IntBuffer) (learnEnabled : Bool)
    (s : SparseCoder F) (hz : 1 ≤ s.hiddenSize.z)
    (hv : ∀ x ∈ s.hiddenCs, 0 ≤ x ∧ x < s.hiddenSize.z) :
    (SparseCoder.step M ops noThread cs inputCs learnEnabled s).1.hiddenSize = s.hiddenSize
    ∧ ∀ x ∈ (SparseCoder.step M ops noThread cs inputCs learnEnabled s).1.hiddenCs,
        0 ≤ x ∧ x < s.hiddenSize.z := by
  have hexp := foldl_preserves
    (fun (acc : SparseCoder F × ComputeSystem R) =>
      acc.1.hiddenSize = s.hiddenSize ∧ ∀ x ∈ acc.1.hiddenCs, 0 ≤ x ∧ x < s.hiddenSize.z)
    (fun (acc : SparseCoder F × ComputeSystem R) it =>
        let fwd := launch2 M noThread
          (fun pos rng s => SparseCoder.forward ops pos rng inputCs it s)
          ⟨acc.1.hiddenSize.x, acc.1.hiddenSize.y⟩ acc.2 acc.1
        if it < acc.1.explainIters - 1 then
          (List.range fwd.1.visibleLayers.length).foldl
            (fun (acc : SparseCoder F × ComputeSystem R) vli =>
              let vld := acc.1.visibleLayerDescs.getD vli VisibleLayerDesc.none
              launch2 M noThread
                (fun pos rng s => SparseCoder.backward ops pos rng (inputCs.getD vli []) vli s)
                ⟨vld.size.x, vld.size.y⟩ acc.2 acc.1)
            fwd
        else fwd)
    (intRange 0 s.explainIters) ?_ (s, cs) ⟨rfl, hv⟩
  · unfold SparseCoder.step
    simp only []
    cases learnEnabled
    · simp only [Bool.false_eq_true, if_false]
      exact hexp
    · simp only [if_true]
      refine foldl_preserves
        (fun (acc : SparseCoder F × ComputeSystem R) =>
          acc.1.hiddenSize = s.hiddenSize ∧ ∀ x ∈ acc.1.hiddenCs, 0 ≤ x ∧ x < s.hiddenSize.z)
        _ _ ?_ _ hexp
      intro acc vli _ hacc
      exact launch2_preserves M noThread
        (fun pos rng s => SparseCoder.learn ops pos rng (inputCs.getD vli []) vli s)
        (fun _ _ _ _ => rfl) _ _
        (fun q => q.hiddenSize = s.hiddenSize ∧ ∀ x ∈ q.hiddenCs, 0 ≤ x ∧ x < s.hiddenSize.z)
        (fun pos r q hq => by
          unfold SparseCoder.learn
          simp only []
          split
          · exact hq
          · exact hq) acc.1 hacc
  · intro acc it _ hacc
    have hf := launch2_preserves M noThread
      (fun pos rng s => SparseCoder.forward ops pos rng inputCs it s) (fun _ _ _ _ => rfl)
      ⟨acc.1.hiddenSize.x, acc.1.hiddenSize.y⟩ acc.2
      (fun q => q.hiddenSize = s.hiddenSize ∧ ∀ x ∈ q.hiddenCs, 0 ≤ x ∧ x < s.hiddenSize.z)
      (fun pos r q hq => ⟨hq.1, by
        have h := sparseCoder_forward_codes ops pos r inputCs it q (by rw [hq.1]; exact hz)
          (by rw [hq.1]; exact hq.2)
        rw [hq.1] at h
        exact h⟩) acc.1 hacc
    simp only []
    split
    · refine foldl_preserves
        (fun (acc : SparseCoder F × ComputeSystem R) =>
          acc.1.hiddenSize = s.hiddenSize ∧ ∀ x ∈ acc.1.hiddenCs, 0 ≤ x ∧ x < s.hiddenSize.z)
        _ _ ?_ _ hf
      intro acc' vli _ hacc'
      exact launch2_preserves M noThread
        (fun pos rng s => SparseCoder.backward ops pos rng (inputCs.getD vli []) vli s)
        (fun _ _ _ _ => rfl) _ _
        (fun q => q.hiddenSize = s.hiddenSize ∧ ∀ x ∈ q.hiddenCs, 0 ≤ x ∧ x < s.hiddenSize.z)
        (fun pos r q hq => hq) acc'.1 hacc'
    · exact hf

/-- `Predictor::activate` keeps the hidden size and keeps the hidden codes
inside the hidden depth. -/
theorem Predictor.activate_codes {F R : Type} [LinearOrder F] (M : RngOps R) (ops : FloatOps F)
    (noThread : Bool) (cs : ComputeSystem R) (inputCs : List IntBuffer) (p : Predictor F)
    (hz : 1 ≤ p.hiddenSize.z) (hv : ∀ x ∈ p.hiddenCs, 0 ≤ x ∧ x < p.hiddenSize.z) :
    (Predictor.activate M ops noThread cs inputCs p).1.hiddenSize = p.hiddenSize
    ∧ ∀ x ∈ (Predictor.activate M ops noThread cs inputCs p).1.hiddenCs,
        0 ≤ x ∧ x < p.hiddenSize.z := by
  unfold Predictor.activate
  refine foldl_preserves
    (fun (acc : Predictor F × ComputeSystem R) =>
      acc.1.hiddenSize = p.hiddenSize ∧ ∀ x ∈ acc.1.hiddenCs, 0 ≤ x ∧ x < p.hiddenSize.z)
    _ _ ?_ _ ?_
  · intro acc vli _ hacc
    exact hacc
  · exact launch2_preserves M noThread (fun pos rng p => Predictor.forward ops pos rng inputCs p)
      (fun _ _ _ _ => rfl) _ cs
      (fun q => q.hiddenSize = p.hiddenSize ∧ ∀ x ∈ q.hiddenCs, 0 ≤ x ∧ x < p.hiddenSize.z)
      (fun pos r q hq => ⟨hq.1, by
        have h := predictor_forward_codes ops pos r inputCs q (by rw [hq.1]; exact hz)
          (by rw [hq.1]; exact hq.2)
        rw [hq.1] at h
        exact h⟩) p ⟨rfl, hv⟩

theorem predictor_initRandom_hiddenSize {F R : Type} (ops : FloatOps F)
    (project : Int2 → Float2 F → Int2) (weightDist : R → F × R) (cs : ComputeSystem R)
    (hiddenSize : Int3) (descs : List VisibleLayerDesc) (p : Predictor F) :
    (Predictor.initRandom ops project weightDist cs hiddenSize descs p).1.hiddenSize
      = hiddenSize := by
  unfold Predictor.initRandom
  simp only []
  refine foldl_preserves
    (fun (acc : Predictor F × ComputeSystem R) => acc.1.hiddenSize = hiddenSize) _ _ ?_ _ ?_
  · intro b a _ hb
    exact hb
  · rfl

theorem sparseCoder_initRandom_hiddenSize {F R : Type} (ops : FloatOps F)
    (project : Int2 → Float2 F → Int2) (weightDist : R → F × R) (cs : ComputeSystem R)
    (hiddenSize : Int3) (descs : List VisibleLayerDesc) (s : SparseCoder F) :
    (SparseCoder.initRandom ops project weightDist cs hiddenSize descs s).1.hiddenSize
      = hiddenSize := by
  unfold SparseCoder.initRandom
  simp only []
  refine foldl_preserves
    (fun (acc : SparseCoder F × ComputeSystem R) => acc.1.hiddenSize = hiddenSize) _ _ ?_ _ ?_
  · intro b a _ hb
    exact hb
  · rfl

/-! ### Claim on the range of the hidden codes -/

/-- C27: provided the hidden depth is at least 1, every entry of `hiddenCs` is a
cell index in `[0, hiddenSize.z)`: after `SparseCoder::initRandom` and
`Predictor::initRandom` with that hidden size; and, from a state whose entries
are such indices, after `SparseCoder::step` (with or without learning) and after
`Predictor::activate`, for any inputs, weights and activations, in either
execution mode, the hidden size being kept. -/
theorem hiddenCs_in_range {F R : Type} [LinearOrder F] (M : RngOps R) (ops : FloatOps F)
    (project : Int2 → Float2 F → Int2) (weightDistP weightDistS : R → F × R) (noThread : Bool)
    (cs : ComputeSystem R) (inputCs : List IntBuffer) (learnEnabled : Bool) (hiddenSize : Int3)
    (descs : List VisibleLayerDesc) (p0 p : Predictor F) (s0 s : SparseCoder F)
    (hz : 1 ≤ hiddenSize.z) (hs : s.hiddenSize = hiddenSize) (hp : p.hiddenSize = hiddenSize)
    (hvs : ∀ x ∈ s.hiddenCs, 0 ≤ x ∧ x < hiddenSize.z)
    (hvp : ∀ x ∈ p.hiddenCs, 0 ≤ x ∧ x < hiddenSize.z) :
    ((SparseCoder.initRandom ops project weightDistS cs hiddenSize descs s0).1.hiddenSize
        = hiddenSize
      ∧ ∀ x ∈ (SparseCoder.initRandom ops project weightDistS cs hiddenSize descs s0).1.hiddenCs,
          0 ≤ x ∧ x < hiddenSize.z)
    ∧ ((Predictor.initRandom ops project weightDistP cs hiddenSize descs p0).1.hiddenSize
        = hiddenSize
      ∧ ∀ x ∈ (Predictor.initRandom ops project weightDistP cs hiddenSize descs p0).1.hiddenCs,
          0 ≤ x ∧ x < hiddenSize.z)
    ∧ ((SparseCoder.step M ops noThread cs inputCs learnEnabled s).1.hiddenSize = hiddenSize
      ∧ ∀ x ∈ (SparseCoder.step M ops noThread cs inputCs learnEnabled s).1.hiddenCs,
          0 ≤ x ∧ x < hiddenSize.z)
    ∧ ((Predictor.activate M ops noThread cs inputCs p).1.hiddenSize = hiddenSize
      ∧ ∀ x ∈ (Predictor.activate M ops noThread cs inputCs p).1.hiddenCs,
          0 ≤ x ∧ x < hiddenSize.z) := by
  have hzero : ∀ (n : Nat) (x : Int), x ∈ List.replicate n (0 : Int) →
      0 ≤ x ∧ x < hiddenSize.z := by
    intro n x hx
    rw [mem_replicate_eq hx]
    exact ⟨le_refl 0, by omega⟩
  refine ⟨⟨sparseCoder_initRandom_hiddenSize ops project weightDistS cs hiddenSize descs s0,
      fun x hx => hzero _ x hx⟩,
    ⟨predictor_initRandom_hiddenSize ops project weightDistP cs hiddenSize descs p0,
      fun x hx => hzero _ x hx⟩, ?_, ?_⟩
  · subst hs
    exact SparseCoder.step_codes M ops noThread cs inputCs learnEnabled s hz hvs
  · rw [← hp] at hz hvp ⊢
    exact Predictor.activate_codes M ops noThread cs inputCs p hz hvp

theorem hiddenCs_in_range_witness :
    ((1 : Int) ≤ 1 ∧ exampleSparseCoder.hiddenSize = ⟨2, 2, 1⟩
      ∧ examplePredictor.hiddenSize = ⟨2, 2, 1⟩
      ∧ (∀ x ∈ exampleSparseCoder.hiddenCs, 0 ≤ x ∧ x < (1 : Int))
      ∧ (∀ x ∈ examplePredictor.hiddenCs, 0 ≤ x ∧ x < (1 : Int)))
    ∧ ∀ x ∈ (SparseCoder.step counterRng intOps false ⟨0, 1, ⟨2, 1⟩⟩ [[0, 0, 0, 0]] true
        exampleSparseCoder).1.hiddenCs, 0 ≤ x ∧ x < (1 : Int) :=
  ⟨⟨by decide, rfl, rfl, by decide, by decide⟩,
    (hiddenCs_in_range counterRng intOps scaleProject (fun (r : Nat) => ((r : Int), r + 1))
      (fun (r : Nat) => ((r : Int), r + 1)) false ⟨0, 1, ⟨2, 1⟩⟩ [[0, 0, 0, 0]] true ⟨2, 2, 1⟩
      [⟨⟨2, 2, 1⟩, 1⟩] examplePredictor examplePredictor exampleSparseCoder exampleSparseCoder
      (by decide) rfl rfl (by decide) (by decide)).2.2.1.2⟩

/-! ### Rows of a receptive-field matrix as blocks -/

/-- The cells of a window are, input column by input column, the `inSize.z`
cells of the column. -/
theorem windowCells_eq_blocks (inSize : Int3) (lo hi : Int2) :
    windowCells inSize lo hi
      = (windowColumns inSize lo hi).flatMap fun c =>
          (intRange 0 inSize.z).map fun k => c * inSize.z + k := by
  unfold windowCells windowColumns
  rw [List.flatMap_assoc]
  congr 1
  funext ix
  rw [List.flatMap_map]
  congr 1
  funext iy
  congr 1
  funext iz
  unfold address3 address2
  simp only []
  ring

theorem length_windowColumns (inSize : Int3) (lo hi : Int2) :
    (windowColumns inSize lo hi).length = (hi.x + 1 - lo.x).toNat * (hi.y + 1 - lo.y).toNat := by
  unfold windowColumns
  rw [length_flatMap_const _ _ (hi.y + 1 - lo.y).toNat, length_intRange]
  intro ix _
  rw [List.length_map, length_intRange]

/-- The number of entries that `count` reports for the row of an output cell of
a matrix built by `initSMLocalRF`: the number of cells pushed for the cell. -/
theorem count_initSMLocalRF {F : Type} (ops : FloatOps F)
    (project : Int2 → Float2 F → Int2) (inSize outSize : Int3) (radius : Int)
    (mat : SparseMatrix F) (p : Int3) (hp : p ∈ domain3 outSize) :
    (initSMLocalRF ops project inSize outSize radius mat).count (address3 p outSize)
      = ((rowCells ops project inSize outSize radius p).length : Int) := by
  have hp' := mem_domain3.mp hp
  have hx : 0 ≤ outSize.x := by omega
  have hy : 0 ≤ outSize.y := by omega
  have hz : 0 ≤ outSize.z := by omega
  rw [initSMLocalRF_eq ops project inSize outSize radius mat hx hy hz]
  obtain ⟨L, T, hsplit⟩ := List.append_of_mem hp
  have haddr := address3_of_split hx hy hz hsplit
  unfold SparseMatrix.count
  simp only []
  rw [haddr, hsplit]
  have e1 : ((L.length : Int) + 1) = ((L.length + 1 : Nat) : Int) := by push_cast; rfl
  rw [e1, getI_natCast, getI_natCast, getD_prefixSums _ _ _ (by simp), getD_prefixSums _ _ _ (by simp)]
  have t1 : (List.map (fun p => ((rowCells ops project inSize outSize radius p).length : Int))
      (L ++ p :: T)).take L.length
        = L.map (fun p => ((rowCells ops project inSize outSize radius p).length : Int)) := by
    rw [List.map_append]
    exact List.take_left' (by simp)
  have t2 : (List.map (fun p => ((rowCells ops project inSize outSize radius p).length : Int))
      (L ++ p :: T)).take (L.length + 1)
        = (L ++ [p]).map (fun p => ((rowCells ops project inSize outSize radius p).length : Int)) := by
    have : L ++ p :: T = (L ++ [p]) ++ T := by simp
    rw [this, List.map_append]
    exact List.take_left' (by simp)
  rw [t1, t2, sum_map_length_flatMap, sum_map_length_flatMap]
  simp only [zero_add, List.flatMap_append, List.flatMap_cons, List.flatMap_nil, List.append_nil,
    List.length_append, Nat.cast_add]
  omega

/-! ### Claim on the block structure of a row -/

/-- Counterexample to C25: `initSMLocalRF` for two input columns of one cell,
one output cell and radius 1 on a matrix argument that already holds one value
and the column index 0.  The call appends the column indices 0 and 1 behind the
one that the argument held and sets `rowRanges = [0, 2]`, so the row of the
output cell holds the column indices 0, 0: not strictly increasing, and not the
blocks 0 and 1 of the two input columns of its window. -/
theorem initSMLocalRF_row_on_used_matrix :
    (initSMLocalRF intOps scaleProject ⟨2, 1, 1⟩ ⟨1, 1, 1⟩ 1
        ⟨0, 0, [4], [], [], [0], [], []⟩).columnIndices = [0, 0, 1]
    ∧ (initSMLocalRF intOps scaleProject ⟨2, 1, 1⟩ ⟨1, 1, 1⟩ 1
        ⟨0, 0, [4], [], [], [0], [], []⟩).rowRanges = [0, 2]
    ∧ rowSegment (initSMLocalRF intOps scaleProject ⟨2, 1, 1⟩ ⟨1, 1, 1⟩ 1
        ⟨0, 0, [4], [], [], [0], [], []⟩) (address3 ⟨0, 0, 0⟩ ⟨1, 1, 1⟩) = [0, 0]
    ∧ ¬ (rowSegment (initSMLocalRF intOps scaleProject ⟨2, 1, 1⟩ ⟨1, 1, 1⟩ 1
        ⟨0, 0, [4], [], [], [0], [], []⟩) (address3 ⟨0, 0, 0⟩ ⟨1, 1, 1⟩)).Pairwise (· < ·)
    ∧ (rowColumns intOps scaleProject ⟨2, 1, 1⟩ ⟨1, 1, 1⟩ 1 ⟨0, 0, 0⟩).flatMap
        (fun c => (intRange 0 1).map (fun k => c * 1 + k)) = [0, 1] := by
  refine ⟨by decide, by decide, by decide, by decide, by decide⟩

/-- C25 as amended: in every matrix built by `initSMLocalRF` with
`inSize.z ≥ 1`, whatever the matrix argument held, `count(row)` of the row of an
output cell is the number of input columns of the clamped window times
`inSize.z`, a multiple of `inSize.z`, and `count(row) / inSize.z` is the number
of input columns of the window, which is the width times the height of the
window; when the matrix argument starts without column indices, the column
indices stored in the row increase strictly and are, for the input columns `c`
of the window in order, the block `c * inSize.z + k` for `k` from `0` to
`inSize.z - 1`. -/
theorem initSMLocalRF_row_blocks {F : Type} (ops : FloatOps F)
    (project : Int2 → Float2 F → Int2) (inSize outSize : Int3) (radius : Int)
    (mat : SparseMatrix F) (p : Int3)
    (hp : p ∈ domain3 outSize) (hz : 1 ≤ inSize.z) :
    (mat.columnIndices = [] →
      (rowSegment (initSMLocalRF ops project inSize outSize radius mat)
          (address3 p outSize)).Pairwise (· < ·)
      ∧ rowSegment (initSMLocalRF ops project inSize outSize radius mat) (address3 p outSize)
          = (rowColumns ops project inSize outSize radius p).flatMap
              (fun c => (intRange 0 inSize.z).map (fun k => c * inSize.z + k)))
    ∧ (initSMLocalRF ops project inSize outSize radius mat).count (address3 p outSize)
        = ((rowColumns ops project inSize outSize radius p).length : Int) * inSize.z
    ∧ (initSMLocalRF ops project inSize outSize radius mat).count (address3 p outSize)
        % inSize.z = 0
    ∧ ((initSMLocalRF ops project inSize outSize radius mat).count (address3 p outSize)).tdiv
        inSize.z = ((rowColumns ops project inSize outSize radius p).length : Int)
    ∧ (rowColumns ops project inSize outSize radius p).length
        = (min (inSize.x - 1) ((project ⟨p.x, p.y⟩ (outToIn ops inSize outSize)).x + radius) + 1
            - max 0 ((project ⟨p.x, p.y⟩ (outToIn ops inSize outSize)).x - radius)).toNat
          * (min (inSize.y - 1) ((project ⟨p.x, p.y⟩ (outToIn ops inSize outSize)).y + radius) + 1
            - max 0 ((project ⟨p.x, p.y⟩ (outToIn ops inSize outSize)).y - radius)).toNat := by
  have hcount : (initSMLocalRF ops project inSize outSize radius mat).count (address3 p outSize)
      = ((rowColumns ops project inSize outSize radius p).length : Int) * inSize.z := by
    rw [count_initSMLocalRF ops project inSize outSize radius mat p hp]
    unfold rowCells rowColumns
    rw [windowCells_eq_blocks, length_flatMap_const _ _ inSize.z.toNat
      (fun c _ => by rw [List.length_map, length_intRange]; simp)]
    push_cast
    rw [Int.toNat_of_nonneg (by omega)]
  refine ⟨?_, hcount, ?_, ?_, ?_⟩
  · intro hci
    have hseg := rowSegment_initSMLocalRF ops project inSize outSize radius mat hci p hp
    constructor
    · rw [hseg]
      exact pairwise_lt_windowCells (le_max_left _ _) (min_le_left _ _)
    · rw [hseg]
      exact windowCells_eq_blocks _ _ _
  · rw [hcount]
    exact Int.mul_emod_left _ _
  · rw [hcount]
    exact Int.mul_tdiv_cancel _ (by omega)
  · exact length_windowColumns _ _ _

theorem initSMLocalRF_row_blocks_witness :
    ((⟨1, 0, 1⟩ : Int3) ∈ domain3 ⟨2, 1, 2⟩ ∧ (1 : Int) ≤ 2)
    ∧ ((initSMLocalRF intOps scaleProject ⟨3, 3, 2⟩ ⟨2, 1, 2⟩ 1 (SparseMatrix.empty Int)).count
        (address3 ⟨1, 0, 1⟩ ⟨2, 1, 2⟩)).tdiv 2
      = ((rowColumns intOps scaleProject ⟨3, 3, 2⟩ ⟨2, 1, 2⟩ 1 ⟨1, 0, 1⟩).length : Int)
    ∧ (rowSegment (initSMLocalRF intOps scaleProject ⟨3, 3, 2⟩ ⟨2, 1, 2⟩ 1
        (SparseMatrix.empty Int)) (address3 ⟨1, 0, 1⟩ ⟨2, 1, 2⟩)).Pairwise (· < ·) :=
  ⟨⟨by decide, by decide⟩,
    (initSMLocalRF_row_blocks intOps scaleProject ⟨3, 3, 2⟩ ⟨2, 1, 2⟩ 1 (SparseMatrix.empty Int)
      ⟨1, 0, 1⟩ (by decide) (by decide)).2.2.2.1,
    ((initSMLocalRF_row_blocks intOps scaleProject ⟨3, 3, 2⟩ ⟨2, 1, 2⟩ 1 (SparseMatrix.empty Int)
      ⟨1, 0, 1⟩ (by decide) (by decide)).1 rfl).1⟩

/-! ### The update rule of the sparse coder -/

/-- The positions that the transpose view selects for a column of a matrix with
an ordered transpose view are pairwise distinct. -/
theorem nodup_selectedT {F : Type} (m : SparseMatrix F) (hm : m.ColumnsOrdered)
    (code : IntBuffer) (column z : Int) :
    (m.selectedT code column z).Nodup := by
  unfold SparseMatrix.selectedT
  refine List.Nodup.map_on ?_ ((nodup_intRange _ _).filter _)
  intro a ha b hb heq
  have h1 := mem_intRange.mp (List.mem_filter.mp ha).1
  have h2 := mem_intRange.mp (List.mem_filter.mp hb).1
  have hbound : ∀ k, 0 ≤ getI m.columnRanges k 0
      ∧ getI m.columnRanges k 0 ≤ (m.nonZeroValueIndices.length : Int) := by
    intro k
    rcases getI_mem_or_default m.columnRanges k 0 with h | h
    · exact hm.2.1 _ h
    · rw [h]
      exact ⟨le_refl _, Int.natCast_nonneg _⟩
  have b1 := hbound column
  have b1' := hbound (column + 1)
  obtain ⟨l1, e1⟩ := getI_of_lt m.nonZeroValueIndices a 0 (by omega) (by omega)
  obtain ⟨l2, e2⟩ := getI_of_lt m.nonZeroValueIndices b 0 (by omega) (by omega)
  rw [e1, e2] at heq
  have := (List.Nodup.getElem_inj_iff hm.2.2).mp heq
  omega

/-- A run of writes at pairwise distinct indices leaves at each index inside the
buffer the value written there. -/
theorem getI_foldl_setI_self {α : Type} (f : Int → α) (l : List Int) (hl : l.Nodup) (k : Int)
    (hk : k ∈ l) (d : α) (v : List α) (h0 : 0 ≤ k) (h1 : k < (v.length : Int)) :
    getI (l.foldl (fun v k => setI v k (f k)) v) k d = f k := by
  obtain ⟨L, T, rfl⟩ := List.append_of_mem hk
  have hnd := List.nodup_append.mp hl
  have hT : k ∉ T := (List.nodup_cons.mp hnd.2.1).1
  rw [List.foldl_append, List.foldl_cons]
  have hother : ∀ (T : List Int) (w : List α), k ∉ T →
      getI (T.foldl (fun v k => setI v k (f k)) w) k d = getI w k d := by
    intro T
    induction T with
    | nil => intro w _; rfl
    | cons a T ih =>
      intro w hw
      rw [List.foldl_cons, ih _ (fun h => hw (List.mem_cons_of_mem _ h)),
        getI_setI_ne _ _ _ _ _ (fun e => hw (by rw [← e]; exact List.mem_cons_self _ _))]
  have hlen : ∀ (L : List Int) (w : List α),
      (L.foldl (fun v k => setI v k (f k)) w).length = w.length := by
    intro L
    induction L with
    | nil => intro w; rfl
    | cons a L ih => intro w; rw [List.foldl_cons, ih, length_setI]
  rw [hother T _ hT, getI_setI_self _ _ _ _ h0 (by rw [hlen]; exact h1)]

/-- The activations that the first loop of `SparseCoder::learn` stores: the
reconstruction of each slot of the column. -/
theorem SparseCoder.learnLoop_fst {F : Type} [LinearOrder F] (ops : FloatOps F) (pos : Int2)
    (size : Int3) (weights : SparseMatrix F) (hiddenCs : IntBuffer) (hiddenSize : Int3)
    (vc : Int) (h0 : 0 ≤ vc) (h1 : vc < size.z) :
    getI (SparseCoder.learnLoop ops pos size weights hiddenCs hiddenSize).1 vc (ops.ofInt 0)
      = SparseCoder.reconstruct ops weights hiddenCs hiddenSize
          (address3 ⟨pos.x, pos.y, vc⟩ size) := by
  unfold SparseCoder.learnLoop
  simp only []
  rw [foldl_pair_fst
    (fun vc (acts : List F) => setI acts vc
      (SparseCoder.reconstruct ops weights hiddenCs hiddenSize
        (address3 ⟨pos.x, pos.y, vc⟩ size)))
    (fun vc (acc : Int × F) => maxStep acc vc
      (SparseCoder.reconstruct ops weights hiddenCs hiddenSize
        (address3 ⟨pos.x, pos.y, vc⟩ size)))]
  exact getI_foldl_setI_self
    (fun vc => SparseCoder.reconstruct ops weights hiddenCs hiddenSize
      (address3 ⟨pos.x, pos.y, vc⟩ size))
    _ (nodup_intRange _ _) vc (mem_intRange.mpr ⟨h0, h1⟩) _ _ h0
    (by rw [List.length_replicate]; omega)

/-- After `SparseCoder::learn` at a column whose kept slot is not the target,
each weight that the transpose view selects for a slot of the column holds its
old value plus the `delta` of the slot, computed from the reconstruction of the
slot on the weights before the invocation. -/
theorem SparseCoder.learn_selected {F R : Type} [LinearOrder F] (ops : FloatOps F) (pos : Int2)
    (rng : R) (inputC : IntBuffer) (vli : Nat) (s : SparseCoder F)
    (hvli : vli < s.visibleLayers.length) (hw : (s.layer vli).weights.ColumnsOrdered)
    (hpos : pos ∈ domain2 ⟨(s.desc vli).size.x, (s.desc vli).size.y⟩)
    (hmis : (SparseCoder.learnLoop ops pos (s.desc vli).size (s.layer vli).weights s.hiddenCs
        s.hiddenSize).2.1
      ≠ getI inputC (address2 pos ⟨(s.desc vli).size.x, (s.desc vli).size.y⟩) 0)
    (vc : Int) (hvc0 : 0 ≤ vc) (hvc1 : vc < (s.desc vli).size.z) (j : Int)
    (hj : j ∈ (s.layer vli).weights.selectedT s.hiddenCs
      (address3 ⟨pos.x, pos.y, vc⟩ (s.desc vli).size) s.hiddenSize.z)
    (h0 : 0 ≤ j) (h1 : j < ((s.layer vli).weights.nonZeroValues.length : Int)) :
    getI ((SparseCoder.learn ops pos rng inputC vli s).layer vli).weights.nonZeroValues j
        (ops.ofInt 0)
      = ops.add (getI (s.layer vli).weights.nonZeroValues j (ops.ofInt 0))
          (ops.mul s.alpha
            (ops.sub
              (if vc = getI inputC (address2 pos ⟨(s.desc vli).size.x, (s.desc vli).size.y⟩) 0
                then ops.ofInt 1 else ops.ofInt (-1))
              (ops.tanh
                (SparseCoder.reconstruct ops (s.layer vli).weights s.hiddenCs s.hiddenSize
                  (address3 ⟨pos.x, pos.y, vc⟩ (s.desc vli).size))))) := by
  have hl : (SparseCoder.learn ops pos rng inputC vli s).layer vli
      = { s.layer vli with
          weights := SparseCoder.learnWeights ops pos (s.desc vli).size s.alpha
            (getI inputC (address2 pos ⟨(s.desc vli).size.x, (s.desc vli).size.y⟩) 0)
            s.hiddenCs s.hiddenSize (s.layer vli).weights } := by
    rw [SparseCoder.learn_eq]
    unfold SparseCoder.layer
    exact getD_set_self _ _ _ _ hvli
  rw [hl]
  unfold SparseCoder.learnWeights
  simp only [hmis, ne_eq, not_false_eq_true, if_true]
  rw [SparseCoder.learnUpdate_eq]
  simp only []
  rw [getI_foldl_bumpAt_of_mem ops
    (fun vc => (s.layer vli).weights.selectedT s.hiddenCs
      (address3 ⟨pos.x, pos.y, vc⟩ (s.desc vli).size) s.hiddenSize.z)
    _ _ vc j (nodup_intRange _ _) (mem_intRange.mpr ⟨hvc0, hvc1⟩) hj
    (nodup_selectedT _ hw _ _ _) ?_ _ h0 h1]
  · rw [SparseCoder.learnLoop_fst ops pos _ _ _ _ vc hvc0 hvc1]
  · intro a ha hne hmem
    refine selectedT_disjoint _ hw _ _ _ _ (address3_nonneg hpos ha)
      (address3_nonneg hpos (mem_intRange.mpr ⟨hvc0, hvc1⟩)) ?_ j hmem hj
    unfold address3
    simp only []
    omega

/-! ### Claim on the update rule of the sparse coder -/

/-- Counterexample to C21: a sparse coder with one visible column of two depth
slots whose reconstructions are -2000000 and -1000000, both below the start
value -999999 of the winner loop, and the target input code 0.  Slot 1 has the
maximum activation and differs from the target, yet the winner loop keeps slot
0, the target, and the learn invocation leaves the weights as they are: the
weight at position 0, selected for slot 0, does not receive the `delta` of the
slot, which is not zero. -/
theorem learn_skips_below_sentinel :
    SparseCoder.reconstruct intOps
        ((⟨⟨1, 1, 1⟩, [0], [0],
          [⟨⟨1, 2, [-2000000, -1000000], [0, 1], [0, 2], [0, 1], [0, 1, 2], [0, 0]⟩, [0]⟩],
          [⟨⟨1, 1, 2⟩, 0⟩], 1, 1⟩ : SparseCoder Int).layer 0).weights [0] ⟨1, 1, 1⟩
        (address3 ⟨0, 0, 0⟩ ⟨1, 1, 2⟩) = -2000000
    ∧ SparseCoder.reconstruct intOps
        ((⟨⟨1, 1, 1⟩, [0], [0],
          [⟨⟨1, 2, [-2000000, -1000000], [0, 1], [0, 2], [0, 1], [0, 1, 2], [0, 0]⟩, [0]⟩],
          [⟨⟨1, 1, 2⟩, 0⟩], 1, 1⟩ : SparseCoder Int).layer 0).weights [0] ⟨1, 1, 1⟩
        (address3 ⟨0, 0, 1⟩ ⟨1, 1, 2⟩) = -1000000
    ∧ getI [0] (address2 ⟨0, 0⟩ ⟨1, 1⟩) 0 = 0
    ∧ (0 : Int) ∈ ((⟨⟨1, 1, 1⟩, [0], [0],
          [⟨⟨1, 2, [-2000000, -1000000], [0, 1], [0, 2], [0, 1], [0, 1, 2], [0, 0]⟩, [0]⟩],
          [⟨⟨1, 1, 2⟩, 0⟩], 1, 1⟩ : SparseCoder Int).layer 0).weights.selectedT [0]
        (address3 ⟨0, 0, 0⟩ ⟨1, 1, 2⟩) 1
    ∧ intOps.mul 1 (intOps.sub (intOps.ofInt 1) (intOps.tanh (-2000000))) = 2000001
    ∧ ((SparseCoder.learn intOps ⟨0, 0⟩ () [0] 0
          (⟨⟨1, 1, 1⟩, [0], [0],
            [⟨⟨1, 2, [-2000000, -1000000], [0, 1], [0, 2], [0, 1], [0, 1, 2], [0, 0]⟩, [0]⟩],
            [⟨⟨1, 1, 2⟩, 0⟩], 1, 1⟩ : SparseCoder Int)).layer 0).weights.nonZeroValues
        = [-2000000, -1000000] := by
  refine ⟨by decide, by decide, by decide, by decide, by decide, by decide⟩

/-- C21 as amended: in `SparseCoder::learn` at a visible column of a layer whose
transpose view is in order, when the slot kept by the winner loop differs from
the target input code, every depth slot `vc` of the column has
`delta = alpha * ((vc == target ? 1 : -1) - tanh(activation[vc]))` added to each
weight that the transpose view selects for it under the current `hiddenCs`,
`activation[vc]` being the normalised transpose sum on the weights before the
invocation.  The kept slot is the lowest slot of maximum activation when some
slot has an activation greater than -999999, and slot 0 otherwise; when the
kept slot is the target, the invocation changes nothing. -/
theorem sparseCoder_learn_adds_delta {F R : Type} [LinearOrder F] (ops : FloatOps F)
    (pos : Int2) (rng : R) (inputC : IntBuffer) (vli : Nat) (s : SparseCoder F)
    (hvli : vli < s.visibleLayers.length) (hw : (s.layer vli).weights.ColumnsOrdered)
    (hpos : pos ∈ domain2 ⟨(s.desc vli).size.x, (s.desc vli).size.y⟩) :
    ((SparseCoder.learnLoop ops pos (s.desc vli).size (s.layer vli).weights s.hiddenCs
          s.hiddenSize).2.1
        ≠ getI inputC (address2 pos ⟨(s.desc vli).size.x, (s.desc vli).size.y⟩) 0 →
      ∀ vc, 0 ≤ vc → vc < (s.desc vli).size.z →
      ∀ j ∈ (s.layer vli).weights.selectedT s.hiddenCs
          (address3 ⟨pos.x, pos.y, vc⟩ (s.desc vli).size) s.hiddenSize.z,
        0 ≤ j → j < ((s.layer vli).weights.nonZeroValues.length : Int) →
        getI ((SparseCoder.learn ops pos rng inputC vli s).layer vli).weights.nonZeroValues j
            (ops.ofInt 0)
          = ops.add (getI (s.layer vli).weights.nonZeroValues j (ops.ofInt 0))
              (ops.mul s.alpha
                (ops.sub
                  (if vc = getI inputC
                      (address2 pos ⟨(s.desc vli).size.x, (s.desc vli).size.y⟩) 0
                    then ops.ofInt 1 else ops.ofInt (-1))
                  (ops.tanh
                    (SparseCoder.reconstruct ops (s.layer vli).weights s.hiddenCs s.hiddenSize
                      (address3 ⟨pos.x, pos.y, vc⟩ (s.desc vli).size))))))
    ∧ ((∃ vc, 0 ≤ vc ∧ vc < (s.desc vli).size.z
          ∧ ops.ofInt (-999999) < SparseCoder.reconstruct ops (s.layer vli).weights s.hiddenCs
              s.hiddenSize (address3 ⟨pos.x, pos.y, vc⟩ (s.desc vli).size)) →
        0 ≤ (SparseCoder.learnLoop ops pos (s.desc vli).size (s.layer vli).weights s.hiddenCs
            s.hiddenSize).2.1
        ∧ (SparseCoder.learnLoop ops pos (s.desc vli).size (s.layer vli).weights s.hiddenCs
            s.hiddenSize).2.1 < (s.desc vli).size.z
        ∧ (∀ vc, 0 ≤ vc → vc < (s.desc vli).size.z →
            SparseCoder.reconstruct ops (s.layer vli).weights s.hiddenCs s.hiddenSize
                (address3 ⟨pos.x, pos.y, vc⟩ (s.desc vli).size)
              ≤ SparseCoder.reconstruct ops (s.layer vli).weights s.hiddenCs s.hiddenSize
                (address3 ⟨pos.x, pos.y,
                  (SparseCoder.learnLoop ops pos (s.desc vli).size (s.layer vli).weights
                    s.hiddenCs s.hiddenSize).2.1⟩ (s.desc vli).size))
        ∧ (∀ vc, 0 ≤ vc →
            vc < (SparseCoder.learnLoop ops pos (s.desc vli).size (s.layer vli).weights
              s.hiddenCs s.hiddenSize).2.1 →
            SparseCoder.reconstruct ops (s.layer vli).weights s.hiddenCs s.hiddenSize
                (address3 ⟨pos.x, pos.y, vc⟩ (s.desc vli).size)
              < SparseCoder.reconstruct ops (s.layer vli).weights s.hiddenCs s.hiddenSize
                (address3 ⟨pos.x, pos.y,
                  (SparseCoder.learnLoop ops pos (s.desc vli).size (s.layer vli).weights
                    s.hiddenCs s.hiddenSize).2.1⟩ (s.desc vli).size)))
    ∧ ((∀ vc, 0 ≤ vc → vc < (s.desc vli).size.z →
          SparseCoder.reconstruct ops (s.layer vli).weights s.hiddenCs s.hiddenSize
            (address3 ⟨pos.x, pos.y, vc⟩ (s.desc vli).size) ≤ ops.ofInt (-999999)) →
        (SparseCoder.learnLoop ops pos (s.desc vli).size (s.layer vli).weights s.hiddenCs
          s.hiddenSize).2.1 = 0)
    ∧ ((SparseCoder.learnLoop ops pos (s.desc vli).size (s.layer vli).weights s.hiddenCs
          s.hiddenSize).2.1
        = getI inputC (address2 pos ⟨(s.desc vli).size.x, (s.desc vli).size.y⟩) 0 →
      SparseCoder.learn ops pos rng inputC vli s = s) := by
  have hspec := maxStep_foldl_spec
    (fun vc => SparseCoder.reconstruct ops (s.layer vli).weights s.hiddenCs s.hiddenSize
      (address3 ⟨pos.x, pos.y, vc⟩ (s.desc vli).size))
    (ops.ofInt (-999999)) (s.desc vli).size.z
  rw [← SparseCoder.learnLoop_max] at hspec
  exact ⟨fun hmis vc hvc0 hvc1 j hj h0 h1 =>
      SparseCoder.learn_selected ops pos rng inputC vli s hvli hw hpos hmis vc hvc0 hvc1 j hj h0 h1,
    hspec.1, hspec.2,
    fun h => SparseCoder.learn_of_match ops pos rng inputC vli s h⟩

theorem sparseCoder_learn_adds_delta_witness :
    ((0 : Nat) < exampleSparseCoder.visibleLayers.length
      ∧ (exampleSparseCoder.layer 0).weights.ColumnsOrdered
      ∧ (⟨0, 1⟩ : Int2) ∈ domain2 ⟨(exampleSparseCoder.desc 0).size.x,
          (exampleSparseCoder.desc 0).size.y⟩)
    ∧ getI ((SparseCoder.learn intOps ⟨0, 1⟩ () [0, 1, 0, 0] 0
          exampleSparseCoder).layer 0).weights.nonZeroValues 1 (intOps.ofInt 0)
      = intOps.add (getI (exampleSparseCoder.layer 0).weights.nonZeroValues 1 (intOps.ofInt 0))
          (intOps.mul exampleSparseCoder.alpha
            (intOps.sub
              (if (0 : Int) = getI [0, 1, 0, 0]
                  (address2 ⟨0, 1⟩ ⟨(exampleSparseCoder.desc 0).size.x,
                    (exampleSparseCoder.desc 0).size.y⟩) 0
                then intOps.ofInt 1 else intOps.ofInt (-1))
              (intOps.tanh
                (SparseCoder.reconstruct intOps (exampleSparseCoder.layer 0).weights
                  exampleSparseCoder.hiddenCs exampleSparseCoder.hiddenSize
                  (address3 ⟨0, 1, 0⟩ (exampleSparseCoder.desc 0).size))))) := by
  have hw : (exampleSparseCoder.layer 0).weights.ColumnsOrdered :=
    ⟨by decide, by decide, by decide⟩
  exact ⟨⟨by decide, hw, by decide⟩,
    (sparseCoder_learn_adds_delta intOps ⟨0, 1⟩ () [0, 1, 0, 0] 0 exampleSparseCoder
      (by decide) hw (by decide)).1 (by decide) 0 (by decide) (by decide) 1 (by decide)
      (by decide) (by decide)⟩

/-! ### The passes of `SparseCoder::step` -/

theorem SparseCoder.runPass_frame {F R : Type} [LinearOrder F] (M : RngOps R)
    (ops : FloatOps F) (noThread : Bool) (inputCs : List IntBuffer)
    (acc : SparseCoder F × ComputeSystem R) (pass : SparseCoder.Pass) :
    SparseCoder.SameFrame acc.1 (SparseCoder.runPass M ops noThread inputCs acc pass).1 := by
  cases pass with
  | forward it =>
    exact launch2_preserves M noThread
      (fun pos rng s => SparseCoder.forward ops pos rng inputCs it s) (fun _ _ _ _ => rfl) _ _
      (fun q => SparseCoder.SameFrame acc.1 q)
      (fun pos r q hq => sparseCoder_sameFrame_trans hq
        (sparseCoder_forward_frame ops pos r inputCs it q)) acc.1
      (sparseCoder_sameFrame_refl acc.1)
  | backward vli =>
    exact launch2_preserves M noThread
      (fun pos rng s => SparseCoder.backward ops pos rng (inputCs.getD vli []) vli s)
      (fun _ _ _ _ => rfl) _ _
      (fun q => SparseCoder.SameFrame acc.1 q)
      (fun pos r q hq => sparseCoder_sameFrame_trans hq
        (SparseCoder.backward_frame ops pos r (inputCs.getD vli []) vli q)) acc.1
      (sparseCoder_sameFrame_refl acc.1)

theorem SparseCoder.runPasses_frame {F R : Type} [LinearOrder F] (M : RngOps R)
    (ops : FloatOps F) (noThread : Bool) (inputCs : List IntBuffer) (l : List SparseCoder.Pass)
    (acc : SparseCoder F × ComputeSystem R) :
    SparseCoder.SameFrame acc.1 (l.foldl (SparseCoder.runPass M ops noThread inputCs) acc).1 :=
  foldl_preserves (fun (b : SparseCoder F × ComputeSystem R) => SparseCoder.SameFrame acc.1 b.1)
    _ l
    (fun b a _ hb => sparseCoder_sameFrame_trans hb
      (SparseCoder.runPass_frame M ops noThread inputCs b a)) acc
    (sparseCoder_sameFrame_refl acc.1)

/-- `SparseCoder::step` without learning runs the passes of the schedule, in
order. -/
theorem SparseCoder.step_false_schedule {F R : Type} [LinearOrder F] (M : RngOps R)
    (ops : FloatOps F) (noThread : Bool) (cs : ComputeSystem R) (inputCs : List IntBuffer)
    (s : SparseCoder F) :
    SparseCoder.step M ops noThread cs inputCs false s
      = (SparseCoder.schedule s.explainIters s.visibleLayers.length).foldl
          (SparseCoder.runPass M ops noThread inputCs) (s, cs) := by
  unfold SparseCoder.step SparseCoder.schedule
  simp only [Bool.false_eq_true, if_false]
  rw [foldl_flatMap_eq]
  refine foldl_congr_inv _ _
    (fun (b : SparseCoder F × ComputeSystem R) => SparseCoder.SameFrame s b.1) ?_ _ ?_ (s, cs)
    (sparseCoder_sameFrame_refl s)
  · intro b it hb
    exact sparseCoder_sameFrame_trans hb
      (SparseCoder.runPasses_frame M ops noThread inputCs _ b)
  · intro b hb it _
    have hfl : (SparseCoder.runPass M ops noThread inputCs b
        (SparseCoder.Pass.forward it)).1.visibleLayers.length = s.visibleLayers.length :=
      (sparseCoder_sameFrame_trans hb
        (SparseCoder.runPass_frame M ops noThread inputCs b (SparseCoder.Pass.forward it))).2.2.2.2
    rw [List.foldl_cons]
    show (if it < b.1.explainIters - 1 then _ else _) = _
    rw [hb.2.2.1]
    split
    · rw [List.foldl_map]
      show (List.range (SparseCoder.runPass M ops noThread inputCs b
        (SparseCoder.Pass.forward it)).1.visibleLayers.length).foldl _ _ = _
      rw [hfl]
      rfl
    · rfl

theorem flatMap_congr_mem {α β : Type} (l : List α) (f g : α → List β)
    (h : ∀ a ∈ l, f a = g a) : l.flatMap f = l.flatMap g := by
  induction l with
  | nil => rfl
  | cons a t ih =>
    rw [List.flatMap_cons, List.flatMap_cons, h a (List.mem_cons_self _ _),
      ih (fun b hb => h b (List.mem_cons_of_mem _ hb))]

/-- The schedule of at least one iteration: every iteration but the last is a
forward pass followed by the backward passes of the layers, and the last is a
forward pass alone. -/
theorem SparseCoder.schedule_eq (n : Int) (layers : Nat) (hn : 1 ≤ n) :
    SparseCoder.schedule n layers
      = ((intRange 0 (n - 1)).flatMap fun it =>
          SparseCoder.Pass.forward it :: (List.range layers).map SparseCoder.Pass.backward)
        ++ [SparseCoder.Pass.forward (n - 1)] := by
  unfold SparseCoder.schedule
  have e : intRange 0 n = intRange 0 (n - 1) ++ [n - 1] := by
    have h := @intRange_succ_right 0 (n - 1) (by omega)
    rw [show n - 1 + 1 = n by omega] at h
    exact h
  rw [e, List.flatMap_append]
  congr 1
  · apply flatMap_congr_mem
    intro it hit
    have := (mem_intRange.mp hit).2
    rw [if_pos this]
  · rw [List.flatMap_cons, List.flatMap_nil, List.append_nil, if_neg (lt_irrefl _)]

theorem count_flatMap_blocks {α β : Type} [DecidableEq β] (l : List α) (f : α → List β) (b : β)
    (c : α → Nat) (h : ∀ a ∈ l, (f a).count b = c a) :
    (l.flatMap f).count b = (l.map c).sum := by
  induction l with
  | nil => rfl
  | cons a t ih =>
    rw [List.flatMap_cons, List.count_append, h a (List.mem_cons_self _ _),
      ih (fun x hx => h x (List.mem_cons_of_mem _ hx)), List.map_cons, List.sum_cons]

theorem sum_indicator (l : List Int) (hl : l.Nodup) (k : Int) :
    (l.map (fun it => if it = k then 1 else 0)).sum = if k ∈ l then 1 else 0 := by
  induction l with
  | nil => rfl
  | cons a t ih =>
    have hnd := List.nodup_cons.mp hl
    rw [List.map_cons, List.sum_cons, ih hnd.2]
    by_cases e : a = k
    · subst e
      simp [hnd.1]
    · have e' : ¬ k = a := fun h => e h.symm
      simp [e, e']

theorem count_backward_forward_block (it : Int) (l : List Nat) (k : Int) :
    (SparseCoder.Pass.forward it :: l.map SparseCoder.Pass.backward).count
        (SparseCoder.Pass.forward k) = if it = k then 1 else 0 := by
  have h0 : (l.map SparseCoder.Pass.backward).count (SparseCoder.Pass.forward k) = 0 := by
    rw [List.count_eq_zero]
    intro h
    obtain ⟨x, _, hx⟩ := List.mem_map.mp h
    exact SparseCoder.Pass.noConfusion hx
  rw [List.count_cons, h0]
  by_cases e : it = k
  · subst e
    simp
  · have e' : ¬ SparseCoder.Pass.forward it = SparseCoder.Pass.forward k := by
      intro h
      exact e (SparseCoder.Pass.forward.inj h)
    simp [e, e']

theorem count_backward_block (it : Int) (layers vli : Nat) (h : vli < layers) :
    (SparseCoder.Pass.forward it :: (List.range layers).map SparseCoder.Pass.backward).count
        (SparseCoder.Pass.backward vli) = 1 := by
  have hinj : Function.Injective SparseCoder.Pass.backward :=
    fun a b hab => SparseCoder.Pass.backward.inj hab
  rw [List.count_cons, List.count_map_of_injective _ _ hinj,
    List.count_eq_one_of_mem (List.nodup_range layers) (List.mem_range.mpr h)]
  simp

/-- The schedule of `n ≥ 1` iterations holds the forward pass of each iteration
`0 ≤ it < n` once, and the backward pass of each visible layer `n - 1` times. -/
theorem SparseCoder.schedule_counts (n : Int) (layers : Nat) (hn : 1 ≤ n) :
    (∀ it, 0 ≤ it → it < n →
      (SparseCoder.schedule n layers).count (SparseCoder.Pass.forward it) = 1)
    ∧ (∀ it, ¬ (0 ≤ it ∧ it < n) →
      (SparseCoder.schedule n layers).count (SparseCoder.Pass.forward it) = 0)
    ∧ (∀ vli, vli < layers →
      (SparseCoder.schedule n layers).count (SparseCoder.Pass.backward vli) = (n - 1).toNat)
    ∧ (SparseCoder.schedule n layers).length = n.toNat + (n - 1).toNat * layers := by
  rw [SparseCoder.schedule_eq n layers hn]
  have hf : ∀ k, (((intRange 0 (n - 1)).flatMap fun it =>
          SparseCoder.Pass.forward it :: (List.range layers).map SparseCoder.Pass.backward)
        ++ [SparseCoder.Pass.forward (n - 1)]).count (SparseCoder.Pass.forward k)
      = (if k ∈ intRange 0 (n - 1) then 1 else 0) + (if n - 1 = k then 1 else 0) := by
    intro k
    rw [List.count_append, count_flatMap_blocks _ _ _ (fun it => if it = k then 1 else 0)
      (fun it _ => count_backward_forward_block it _ k), sum_indicator _ (nodup_intRange _ _)]
    congr 1
    have := count_backward_forward_block (n - 1) [] k
    simpa using this
  refine ⟨?_, ?_, ?_, ?_⟩
  · intro it h0 h1
    rw [hf]
    by_cases e : it < n - 1
    · rw [if_pos (mem_intRange.mpr ⟨h0, e⟩), if_neg (by omega)]
    · rw [if_neg (fun h => e (mem_intRange.mp h).2), if_pos (by omega)]
  · intro it h
    rw [hf, if_neg (fun hm => h ⟨(mem_intRange.mp hm).1, by have := (mem_intRange.mp hm).2; omega⟩),
      if_neg (by omega)]
  · intro vli hvli
    rw [List.count_append, count_flatMap_blocks _ _ _ (fun _ => 1)
      (fun it _ => count_backward_block it layers vli hvli)]
    have h0 : [SparseCoder.Pass.forward (n - 1)].count (SparseCoder.Pass.backward vli) = 0 := by
      rw [List.count_eq_zero]
      intro h
      exact SparseCoder.Pass.noConfusion (List.mem_singleton.mp h)
    rw [h0, List.map_const', List.sum_replicate, length_intRange]
    simp
  · rw [List.length_append, length_flatMap_const _ _ (layers + 1)
      (fun it _ => by rw [List.length_cons, List.length_map, List.length_range]),
      length_intRange]
    simp only [List.length_singleton, sub_zero]
    have e : n.toNat = (n - 1).toNat + 1 := by omega
    rw [e]
    ring

/-- A run of writes at pairwise distinct indices leaves at each of the indices
inside the buffer the value written there. -/
theorem getI_writes_self {α β : Type} (idx : α → Int) (f : α → β) (l : List α) (hl : l.Nodup)
    (hinj : ∀ a ∈ l, ∀ b ∈ l, idx a = idx b → a = b) (a0 : α) (ha0 : a0 ∈ l) (d : β)
    (v : List β) (h0 : 0 ≤ idx a0) (h1 : idx a0 < (v.length : Int)) :
    getI (l.foldl (fun v a => setI v (idx a) (f a)) v) (idx a0) d = f a0 := by
  obtain ⟨L, T, rfl⟩ := List.append_of_mem ha0
  have hnd := List.nodup_append.mp hl
  have hT : a0 ∉ T := (List.nodup_cons.mp hnd.2.1).1
  rw [List.foldl_append, List.foldl_cons]
  have hother : ∀ (T' : List α) (w : List β), (∀ a ∈ T', idx a ≠ idx a0) →
      getI (T'.foldl (fun v a => setI v (idx a) (f a)) w) (idx a0) d = getI w (idx a0) d := by
    intro T'
    induction T' with
    | nil => intro w _; rfl
    | cons a T' ih =>
      intro w hw
      rw [List.foldl_cons, ih _ (fun b hb => hw b (List.mem_cons_of_mem _ hb)),
        getI_setI_ne _ _ _ _ _ (hw a (List.mem_cons_self _ _))]
  have hlen : ∀ (L' : List α) (w : List β),
      (L'.foldl (fun v a => setI v (idx a) (f a)) w).length = w.length := by
    intro L'
    induction L' with
    | nil => intro w; rfl
    | cons a L' ih => intro w; rw [List.foldl_cons, ih, length_setI]
  rw [hother T _ (fun a ha e => hT (by
      have := hinj a (List.mem_append_right _ (List.mem_cons_of_mem _ ha)) a0
        (List.mem_append_right _ (List.mem_cons_self _ _)) e
      rw [← this]
      exact ha)),
    getI_setI_self _ _ _ _ h0 (by rw [hlen]; exact h1)]

/-- The slot that the forward kernel of iteration 0 keeps for a column whose
cells lie inside the activation buffer is the winner of the unweighted sums. -/
theorem SparseCoder.forwardLoop_zero_winner {F : Type} [LinearOrder F] (ops : FloatOps F)
    (pos : Int2) (inputCs : List IntBuffer) (s : SparseCoder F)
    (hin : ∀ hc, 0 ≤ hc → hc < s.hiddenSize.z →
      0 ≤ address3 ⟨pos.x, pos.y, hc⟩ s.hiddenSize
      ∧ address3 ⟨pos.x, pos.y, hc⟩ s.hiddenSize < (s.hiddenActivations.length : Int)) :
    (SparseCoder.forwardLoop ops pos inputCs 0 s).2 = s.winner ops pos inputCs := by
  rw [SparseCoder.forwardLoop_max, SparseCoder.forwardLoop_zero_fst]
  unfold SparseCoder.winner
  apply foldl_congr_mem
  intro acc hc hhc
  have hhc' := mem_intRange.mp hhc
  rw [getI_writes_self (fun hc => address3 ⟨pos.x, pos.y, hc⟩ s.hiddenSize)
    (fun hc => s.forwardSum ops inputCs 0 (address3 ⟨pos.x, pos.y, hc⟩ s.hiddenSize))
    _ (nodup_intRange _ _) ?_ hc hhc _ _ (hin hc hhc'.1 hhc'.2).1 (hin hc hhc'.1 hhc'.2).2]
  intro a _ b _ e
  unfold address3 at e
  simp only [] at e
  omega

/-- A run of forward kernels of iteration 0 over distinct columns of the hidden
grid leaves in `hiddenCs`, at each of the columns inside the buffer, the slot
that the kernel keeps for the column on the coder before the run. -/
theorem SparseCoder.forward_zero_run_codes {F R : Type} [LinearOrder F] (ops : FloatOps F)
    (rng : R) (inputCs : List IntBuffer) (s : SparseCoder F) (l : List Int2) (hl : l.Nodup)
    (hdom : ∀ a ∈ l, a ∈ domain2 ⟨s.hiddenSize.x, s.hiddenSize.y⟩) :
    ∀ q : SparseCoder F, SparseCoder.SameFrame s q → q.visibleLayers = s.visibleLayers →
      s.hiddenActivations.length = q.hiddenActivations.length →
      q.hiddenCs.length = s.hiddenCs.length →
      (l.foldl (fun q a => SparseCoder.forward ops a rng inputCs 0 q) q).visibleLayers
          = s.visibleLayers
      ∧ (∀ k, (∀ a ∈ l, address2 a ⟨s.hiddenSize.x, s.hiddenSize.y⟩ ≠ k) →
          getI (l.foldl (fun q a => SparseCoder.forward ops a rng inputCs 0 q) q).hiddenCs k 0
            = getI q.hiddenCs k 0)
      ∧ ∀ pos ∈ l,
          address2 pos ⟨s.hiddenSize.x, s.hiddenSize.y⟩ < (s.hiddenCs.length : Int) →
          getI (l.foldl (fun q a => SparseCoder.forward ops a rng inputCs 0 q) q).hiddenCs
              (address2 pos ⟨s.hiddenSize.x, s.hiddenSize.y⟩) 0
            = (SparseCoder.forwardLoop ops pos inputCs 0 s).2.1 := by
  induction l with
  | nil =>
    intro q _ hv _ _
    exact ⟨hv, fun _ _ => rfl, fun pos hpos => absurd hpos (List.not_mem_nil _)⟩
  | cons a t ih =>
    intro q hf hv ha hc
    have hnd := List.nodup_cons.mp hl
    have hw : ∀ vli, (q.layer vli).weights = (s.layer vli).weights := by
      intro vli
      unfold SparseCoder.layer
      rw [hv]
    have hsnd := SparseCoder.forwardLoop_zero_snd ops a inputCs hf hw ha
    have hlenA : (SparseCoder.forward ops a rng inputCs 0 q).hiddenActivations.length
        = q.hiddenActivations.length := by
      obtain ⟨val, hval⟩ := SparseCoder.forwardLoop_writes ops a inputCs 0 q
      show (SparseCoder.forwardLoop ops a inputCs 0 q).1.length = _
      rw [hval q.hiddenActivations]
      exact writes_length (fun hc => address3 ⟨a.x, a.y, hc⟩ q.hiddenSize) val _ _ _
    have hcs : (SparseCoder.forward ops a rng inputCs 0 q).hiddenCs
        = setI q.hiddenCs (address2 a ⟨s.hiddenSize.x, s.hiddenSize.y⟩)
            (SparseCoder.forwardLoop ops a inputCs 0 s).2.1 := by
      show setI q.hiddenCs (address2 a ⟨q.hiddenSize.x, q.hiddenSize.y⟩)
        (SparseCoder.forwardLoop ops a inputCs 0 q).2.1 = _
      rw [hf.1, hsnd]
    obtain ⟨i1, i2, i3⟩ := ih hnd.2 (fun b hb => hdom b (List.mem_cons_of_mem _ hb))
      (SparseCoder.forward ops a rng inputCs 0 q)
      (sparseCoder_sameFrame_trans hf (sparseCoder_forward_frame ops a rng inputCs 0 q)) hv
      (by rw [hlenA]; exact ha) (by rw [hcs, length_setI]; exact hc)
    rw [List.foldl_cons]
    refine ⟨i1, ?_, ?_⟩
    · intro k hk
      rw [i2 k (fun b hb => hk b (List.mem_cons_of_mem _ hb)), hcs,
        getI_setI_ne _ _ _ _ _ (hk a (List.mem_cons_self _ _))]
    · intro pos hpos hlt
      rcases List.mem_cons.mp hpos with e | hpt
      · subst e
        have hp := mem_domain2.mp (hdom pos (List.mem_cons_self _ _))
        have h0 : 0 ≤ address2 pos ⟨s.hiddenSize.x, s.hiddenSize.y⟩ := by
          unfold address2
          simp only [] at hp ⊢
          have := Int.mul_nonneg hp.1.1 (show 0 ≤ s.hiddenSize.y by omega)
          omega
        rw [i2 _ (fun b hb => address2_ne (hdom b (List.mem_cons_of_mem _ hb))
            (hdom pos (List.mem_cons_self _ _)) (fun e => hnd.1 (e ▸ hb))),
          hcs, getI_setI_self _ _ _ _ h0 (by rw [hc]; exact hlt)]
      · exact i3 pos hpt hlt


theorem sparseCoder_map_errors_set {F : Type} (l : List (SparseCoder.VisibleLayer F))
    (vli : Nat) (weights : SparseMatrix F) :
    (l.set vli { l.getD vli (SparseCoder.VisibleLayer.none F) with weights := weights }).map
        (fun vl => vl.inputErrors)
      = l.map (fun vl => vl.inputErrors) := by
  apply List.ext_getElem?
  intro n
  rw [List.getElem?_map, List.getElem?_map, List.getElem?_set]
  by_cases hn : vli = n
  · subst hn
    by_cases hlt : vli < l.length
    · simp only [hlt, if_true]
      rw [List.getD_eq_getElem _ _ hlt, List.getElem?_eq_getElem hlt]
      rfl
    · simp only [hlt, if_false, if_true]
      rw [List.getElem?_eq_none (by omega)]
  · simp only [hn, if_false]

/-- `SparseCoder::learn` leaves the codes, the activations and the
reconstruction errors as they are. -/
theorem SparseCoder.learn_keeps_buffers {F R : Type} [LinearOrder F] (ops : FloatOps F)
    (pos : Int2) (rng : R) (inputCs : IntBuffer) (vli : Nat) (s : SparseCoder F) :
    (SparseCoder.learn ops pos rng inputCs vli s).hiddenCs = s.hiddenCs
    ∧ (SparseCoder.learn ops pos rng inputCs vli s).hiddenActivations = s.hiddenActivations
    ∧ (SparseCoder.learn ops pos rng inputCs vli s).visibleLayers.map (fun vl => vl.inputErrors)
        = s.visibleLayers.map (fun vl => vl.inputErrors) := by
  rw [SparseCoder.learn_eq]
  exact ⟨rfl, rfl, sparseCoder_map_errors_set _ _ _⟩

/-- The learn launches of `SparseCoder::step` leave the codes and the
reconstruction errors as the explain iterations left them. -/
theorem SparseCoder.step_true_buffers {F R : Type} [LinearOrder F] (M : RngOps R)
    (ops : FloatOps F) (noThread : Bool) (cs : ComputeSystem R) (inputCs : List IntBuffer)
    (learnEnabled : Bool) (s : SparseCoder F) :
    (SparseCoder.step M ops noThread cs inputCs learnEnabled s).1.hiddenCs
        = (SparseCoder.step M ops noThread cs inputCs false s).1.hiddenCs
    ∧ (SparseCoder.step M ops noThread cs inputCs learnEnabled s).1.visibleLayers.map
          (fun vl => vl.inputErrors)
        = (SparseCoder.step M ops noThread cs inputCs false s).1.visibleLayers.map
          (fun vl => vl.inputErrors) := by
  cases learnEnabled
  · exact ⟨rfl, rfl⟩
  · rw [SparseCoder.step_true_eq]
    refine foldl_preserves
      (fun (acc : SparseCoder F × ComputeSystem R) =>
        acc.1.hiddenCs = (SparseCoder.step M ops noThread cs inputCs false s).1.hiddenCs
        ∧ acc.1.visibleLayers.map (fun vl => vl.inputErrors)
          = (SparseCoder.step M ops noThread cs inputCs false s).1.visibleLayers.map
            (fun vl => vl.inputErrors))
      _ _ ?_ _ ⟨rfl, rfl⟩
    intro acc vli _ hacc
    exact launch2_preserves M noThread
      (fun pos rng s => SparseCoder.learn ops pos rng (inputCs.getD vli []) vli s)
      (fun _ _ _ _ => rfl) _ _
      (fun q => q.hiddenCs = (SparseCoder.step M ops noThread cs inputCs false s).1.hiddenCs
        ∧ q.visibleLayers.map (fun vl => vl.inputErrors)
          = (SparseCoder.step M ops noThread cs inputCs false s).1.visibleLayers.map
            (fun vl => vl.inputErrors))
      (fun pos r q hq => by
        obtain ⟨h1, _, h3⟩ := SparseCoder.learn_keeps_buffers ops pos r (inputCs.getD vli []) vli q
        exact ⟨h1.trans hq.1, h3.trans hq.2⟩) acc.1 hacc

/-- With one explain iteration, `SparseCoder::step` without learning is one
launch of the forward kernel of iteration 0 over the hidden columns. -/
theorem SparseCoder.step_one_fst {F R : Type} [LinearOrder F] (M : RngOps R)
    (ops : FloatOps F) (noThread : Bool) (cs : ComputeSystem R) (inputCs : List IntBuffer)
    (s : SparseCoder F) (h1 : s.explainIters = 1) :
    (SparseCoder.step M ops noThread cs inputCs false s).1
      = (launchOrder2 noThread ⟨s.hiddenSize.x, s.hiddenSize.y⟩ cs.batchSize2).foldl
          (fun q pos => SparseCoder.forward ops pos () inputCs 0 q) s := by
  rw [SparseCoder.step_false_fst]
  unfold SparseCoder.encodeOn
  have e : intRange 0 1 = [0] := by decide
  rw [h1, e, List.foldl_cons, List.foldl_nil]
  unfold SparseCoder.encodeIter
  simp only [h1, sub_self, lt_self_iff_false, if_false]

/-- The launch order of either mode reaches each column of the domain exactly
once, for batch sizes of at least 1 in the threaded mode. -/
theorem launchOrder2_nodup_mem (noThread : Bool) (size batchSize : Int2)
    (hb : noThread = true ∨ (1 ≤ batchSize.x ∧ 1 ≤ batchSize.y)) :
    (launchOrder2 noThread size batchSize).Nodup
    ∧ ∀ p, p ∈ launchOrder2 noThread size batchSize ↔ p ∈ domain2 size := by
  unfold launchOrder2
  cases noThread
  · rcases hb with hb | hb
    · exact absurd hb (by decide)
    · simp only [Bool.false_eq_true, if_false]
      exact ⟨(batchOrder2_perm_all size hb).nodup_iff.mpr (nodup_domain2 size),
        fun p => (batchOrder2_perm_all size hb).mem_iff⟩
  · simp only [if_true]
    exact ⟨nodup_domain2 size, fun _ => trivial⟩

/-- With one explain iteration, after `SparseCoder::step` the reconstruction
errors are those before it and the code of each hidden column inside the
buffers is the slot kept by the winner loop on the unweighted sums. -/
theorem SparseCoder.step_one_codes {F R : Type} [LinearOrder F] (M : RngOps R)
    (ops : FloatOps F) (noThread : Bool) (cs : ComputeSystem R) (inputCs : List IntBuffer)
    (learnEnabled : Bool) (s : SparseCoder F) (h1 : s.explainIters = 1) :
    (SparseCoder.step M ops noThread cs inputCs learnEnabled s).1.visibleLayers.map
        (fun vl => vl.inputErrors)
      = s.visibleLayers.map (fun vl => vl.inputErrors)
    ∧ ((noThread = true ∨ (1 ≤ cs.batchSize2.x ∧ 1 ≤ cs.batchSize2.y)) →
        ∀ pos ∈ domain2 ⟨s.hiddenSize.x, s.hiddenSize.y⟩,
          address2 pos ⟨s.hiddenSize.x, s.hiddenSize.y⟩ < (s.hiddenCs.length : Int) →
          (∀ hc, 0 ≤ hc → hc < s.hiddenSize.z →
            0 ≤ address3 ⟨pos.x, pos.y, hc⟩ s.hiddenSize
            ∧ address3 ⟨pos.x, pos.y, hc⟩ s.hiddenSize < (s.hiddenActivations.length : Int)) →
          getI (SparseCoder.step M ops noThread cs inputCs learnEnabled s).1.hiddenCs
              (address2 pos ⟨s.hiddenSize.x, s.hiddenSize.y⟩) 0
            = (s.winner ops pos inputCs).1) := by
  obtain ⟨e1, e2⟩ := SparseCoder.step_true_buffers M ops noThread cs inputCs learnEnabled s
  rw [e1, e2, SparseCoder.step_one_fst M ops noThread cs inputCs s h1]
  constructor
  · rw [foldl_preserves (fun (q : SparseCoder F) => q.visibleLayers = s.visibleLayers)
      (fun q pos => SparseCoder.forward ops pos () inputCs 0 q) _ (fun q pos _ hq => hq) s rfl]
  · intro hb pos hpos hlt hin
    obtain ⟨hnd, hmem⟩ := launchOrder2_nodup_mem noThread ⟨s.hiddenSize.x, s.hiddenSize.y⟩
      cs.batchSize2 hb
    rw [(SparseCoder.forward_zero_run_codes ops () inputCs s _ hnd
      (fun a ha => (hmem a).mp ha) s (sparseCoder_sameFrame_refl s) rfl rfl rfl).2.2 pos
      ((hmem pos).mpr hpos) hlt, SparseCoder.forwardLoop_zero_winner ops pos inputCs s hin]


/-! ### Claim on the passes of `SparseCoder::step` -/

/-- Counterexample to C23: a sparse coder with `explainIters = 1`, one hidden
column of two cells and one visible column of one cell, with the weights
-2000000 and -1000000 from the visible cell to the hidden cells 0 and 1.  The
unweighted one-hot sums of the cells under the input code 0 are -2000000 and
-1000000, both below the start value -999999 of the winner loop, so their
argmax is cell 1; the step overwrites the code 1 of the column with 0. -/
theorem step_below_sentinel_writes_zero :
    (⟨⟨1, 1, 2⟩, [1], [0, 0],
        [⟨⟨2, 1, [-2000000, -1000000], [0, 1], [0, 1, 2], [0, 0], [0, 2], [0, 1]⟩, [0]⟩],
        [⟨⟨1, 1, 1⟩, 0⟩], 1, 1⟩ : SparseCoder Int).explainIters = 1
    ∧ (⟨⟨1, 1, 2⟩, [1], [0, 0],
        [⟨⟨2, 1, [-2000000, -1000000], [0, 1], [0, 1, 2], [0, 0], [0, 2], [0, 1]⟩, [0]⟩],
        [⟨⟨1, 1, 1⟩, 0⟩], 1, 1⟩ : SparseCoder Int).forwardSum intOps [[0]] 0
          (address3 ⟨0, 0, 0⟩ ⟨1, 1, 2⟩) = -2000000
    ∧ (⟨⟨1, 1, 2⟩, [1], [0, 0],
        [⟨⟨2, 1, [-2000000, -1000000], [0, 1], [0, 1, 2], [0, 0], [0, 2], [0, 1]⟩, [0]⟩],
        [⟨⟨1, 1, 1⟩, 0⟩], 1, 1⟩ : SparseCoder Int).forwardSum intOps [[0]] 0
          (address3 ⟨0, 0, 1⟩ ⟨1, 1, 2⟩) = -1000000
    ∧ (SparseCoder.step counterRng intOps true ⟨0, 1, ⟨1, 1⟩⟩ [[0]] false
        (⟨⟨1, 1, 2⟩, [1], [0, 0],
          [⟨⟨2, 1, [-2000000, -1000000], [0, 1], [0, 1, 2], [0, 0], [0, 2], [0, 1]⟩, [0]⟩],
          [⟨⟨1, 1, 1⟩, 0⟩], 1, 1⟩ : SparseCoder Int)).1.hiddenCs = [0] := by
  refine ⟨rfl, by decide, by decide, by decide⟩

/-- C23 as amended: for `explainIters = N ≥ 1`, `SparseCoder::step` is the run
of the pass schedule from the coder (followed, with learning, by the learn
launches); the schedule is forward(0), the backward passes of the layers,
forward(1), ..., forward(N-1) with no backward pass after the last forward pass,
so that it holds each forward pass `it` with `0 ≤ it < N` exactly once, no
other forward pass, and the backward pass of each visible layer exactly `N - 1`
times.  With `explainIters = 1` the `inputErrors` buffers after the step are
those before it and, for launches that reach every column once, the code of
each hidden column (inside the buffers) is the argmax of the unweighted one-hot
sums of its cells, lowest index on ties, when some sum of the column is greater
than -999999, and 0 when no sum of the column is. -/
theorem step_pass_schedule {F R : Type} [LinearOrder F] (M : RngOps R) (ops : FloatOps F)
    (noThread : Bool) (cs : ComputeSystem R) (inputCs : List IntBuffer) (learnEnabled : Bool)
    (s : SparseCoder F) (hN : 1 ≤ s.explainIters) :
    SparseCoder.step M ops noThread cs inputCs false s
        = (SparseCoder.schedule s.explainIters s.visibleLayers.length).foldl
            (SparseCoder.runPass M ops noThread inputCs) (s, cs)
    ∧ SparseCoder.step M ops noThread cs inputCs true s
        = (List.range
            (SparseCoder.step M ops noThread cs inputCs false s).1.visibleLayers.length).foldl
            (fun (acc : SparseCoder F × ComputeSystem R) vli =>
              launch2 M noThread
                (fun pos rng s => SparseCoder.learn ops pos rng (inputCs.getD vli []) vli s)
                ⟨(acc.1.desc vli).size.x, (acc.1.desc vli).size.y⟩ acc.2 acc.1)
            (SparseCoder.step M ops noThread cs inputCs false s)
    ∧ SparseCoder.schedule s.explainIters s.visibleLayers.length
        = ((intRange 0 (s.explainIters - 1)).flatMap fun it =>
            SparseCoder.Pass.forward it
              :: (List.range s.visibleLayers.length).map SparseCoder.Pass.backward)
          ++ [SparseCoder.Pass.forward (s.explainIters - 1)]
    ∧ (∀ it, 0 ≤ it → it < s.explainIters →
        (SparseCoder.schedule s.explainIters s.visibleLayers.length).count
          (SparseCoder.Pass.forward it) = 1)
    ∧ (∀ it, ¬ (0 ≤ it ∧ it < s.explainIters) →
        (SparseCoder.schedule s.explainIters s.visibleLayers.length).count
          (SparseCoder.Pass.forward it) = 0)
    ∧ (∀ vli, vli < s.visibleLayers.length →
        (SparseCoder.schedule s.explainIters s.visibleLayers.length).count
          (SparseCoder.Pass.backward vli) = (s.explainIters - 1).toNat)
    ∧ (SparseCoder.schedule s.explainIters s.visibleLayers.length).length
        = s.explainIters.toNat + (s.explainIters - 1).toNat * s.visibleLayers.length
    ∧ (s.explainIters = 1 →
        (SparseCoder.step M ops noThread cs inputCs learnEnabled s).1.visibleLayers.map
            (fun vl => vl.inputErrors)
          = s.visibleLayers.map (fun vl => vl.inputErrors)
        ∧ ((noThread = true ∨ (1 ≤ cs.batchSize2.x ∧ 1 ≤ cs.batchSize2.y)) →
          ∀ pos ∈ domain2 ⟨s.hiddenSize.x, s.hiddenSize.y⟩,
            address2 pos ⟨s.hiddenSize.x, s.hiddenSize.y⟩ < (s.hiddenCs.length : Int) →
            (∀ hc, 0 ≤ hc → hc < s.hiddenSize.z →
              0 ≤ address3 ⟨pos.x, pos.y, hc⟩ s.hiddenSize
              ∧ address3 ⟨pos.x, pos.y, hc⟩ s.hiddenSize < (s.hiddenActivations.length : Int)) →
            ((∃ hc, 0 ≤ hc ∧ hc < s.hiddenSize.z
                ∧ ops.ofInt (-999999)
                  < s.forwardSum ops inputCs 0 (address3 ⟨pos.x, pos.y, hc⟩ s.hiddenSize)) →
              0 ≤ getI (SparseCoder.step M ops noThread cs inputCs learnEnabled s).1.hiddenCs
                  (address2 pos ⟨s.hiddenSize.x, s.hiddenSize.y⟩) 0
              ∧ getI (SparseCoder.step M ops noThread cs inputCs learnEnabled s).1.hiddenCs
                  (address2 pos ⟨s.hiddenSize.x, s.hiddenSize.y⟩) 0 < s.hiddenSize.z
              ∧ (∀ hc, 0 ≤ hc → hc < s.hiddenSize.z →
                  s.forwardSum ops inputCs 0 (address3 ⟨pos.x, pos.y, hc⟩ s.hiddenSize)
                    ≤ s.forwardSum ops inputCs 0
                        (address3 ⟨pos.x, pos.y,
                          getI (SparseCoder.step M ops noThread cs inputCs learnEnabled s).1.hiddenCs
                            (address2 pos ⟨s.hiddenSize.x, s.hiddenSize.y⟩) 0⟩ s.hiddenSize))
              ∧ (∀ hc, 0 ≤ hc →
                  hc < getI (SparseCoder.step M ops noThread cs inputCs learnEnabled s).1.hiddenCs
                    (address2 pos ⟨s.hiddenSize.x, s.hiddenSize.y⟩) 0 →
                  s.forwardSum ops inputCs 0 (address3 ⟨pos.x, pos.y, hc⟩ s.hiddenSize)
                    < s.forwardSum ops inputCs 0
                        (address3 ⟨pos.x, pos.y,
                          getI (SparseCoder.step M ops noThread cs inputCs learnEnabled s).1.hiddenCs
                            (address2 pos ⟨s.hiddenSize.x, s.hiddenSize.y⟩) 0⟩ s.hiddenSize)))
            ∧ ((∀ hc, 0 ≤ hc → hc < s.hiddenSize.z →
                  s.forwardSum ops inputCs 0 (address3 ⟨pos.x, pos.y, hc⟩ s.hiddenSize)
                    ≤ ops.ofInt (-999999)) →
              getI (SparseCoder.step M ops noThread cs inputCs learnEnabled s).1.hiddenCs
                  (address2 pos ⟨s.hiddenSize.x, s.hiddenSize.y⟩) 0 = 0))) := by
  obtain ⟨c1, c2, c3, c4⟩ := SparseCoder.schedule_counts s.explainIters s.visibleLayers.length hN
  refine ⟨SparseCoder.step_false_schedule M ops noThread cs inputCs s,
    SparseCoder.step_true_eq M ops noThread cs inputCs s,
    SparseCoder.schedule_eq s.explainIters s.visibleLayers.length hN, c1, c2, c3, c4, ?_⟩
  intro h1
  obtain ⟨e1, e2⟩ := SparseCoder.step_one_codes M ops noThread cs inputCs learnEnabled s h1
  refine ⟨e1, ?_⟩
  intro hb pos hpos hlt hin
  rw [e2 hb pos hpos hlt hin]
  exact maxStep_foldl_spec
    (fun hc => s.forwardSum ops inputCs 0 (address3 ⟨pos.x, pos.y, hc⟩ s.hiddenSize))
    (ops.ofInt (-999999)) s.hiddenSize.z

theorem step_pass_schedule_witness :
    (1 : Int) ≤ (⟨⟨1, 1, 2⟩, [0], [0, 0],
        [⟨⟨2, 1, [3, 5], [0, 1], [0, 1, 2], [0, 0], [0, 2], [0, 1]⟩, [7]⟩],
        [⟨⟨1, 1, 1⟩, 0⟩], 1, 1⟩ : SparseCoder Int).explainIters
    ∧ (SparseCoder.schedule 1 1).count (SparseCoder.Pass.backward 0) = 0
    ∧ (SparseCoder.step counterRng intOps false ⟨0, 1, ⟨1, 1⟩⟩ [[0]] true
        (⟨⟨1, 1, 2⟩, [0], [0, 0],
          [⟨⟨2, 1, [3, 5], [0, 1], [0, 1, 2], [0, 0], [0, 2], [0, 1]⟩, [7]⟩],
          [⟨⟨1, 1, 1⟩, 0⟩], 1, 1⟩ : SparseCoder Int)).1.visibleLayers.map
            (fun vl => vl.inputErrors) = [[7]] :=
  ⟨by decide,
    (step_pass_schedule counterRng intOps false ⟨0, 1, ⟨1, 1⟩⟩ [[0]] true
      (⟨⟨1, 1, 2⟩, [0], [0, 0],
        [⟨⟨2, 1, [3, 5], [0, 1], [0, 1, 2], [0, 0], [0, 2], [0, 1]⟩, [7]⟩],
        [⟨⟨1, 1, 1⟩, 0⟩], 1, 1⟩ : SparseCoder Int) (by decide)).2.2.2.2.2.1 0 (by decide),
    ((step_pass_schedule counterRng intOps false ⟨0, 1, ⟨1, 1⟩⟩ [[0]] true
      (⟨⟨1, 1, 2⟩, [0], [0, 0],
        [⟨⟨2, 1, [3, 5], [0, 1], [0, 1, 2], [0, 0], [0, 2], [0, 1]⟩, [7]⟩],
        [⟨⟨1, 1, 1⟩, 0⟩], 1, 1⟩ : SparseCoder Int) (by decide)).2.2.2.2.2.2.2 rfl).1⟩


/-! ### The one-hot sum of a cell across `Predictor::learn` -/

theorem foldl_add_exact {F α : Type} [Ring F] (ops : FloatOps F) (hx : ops.Exact)
    (f : α → F) (l : List α) (a : F) :
    l.foldl (fun sum x => ops.add sum (f x)) a = a + (l.map f).sum := by
  induction l generalizing a with
  | nil => simp
  | cons x t ih =>
    rw [List.foldl_cons, ih, hx.2.1, List.map_cons, List.sum_cons, add_assoc]

/-- Without rounding, the sum of the values at the positions `js` is the sum of
the list of these values. -/
theorem sumAt_exact {F : Type} [Ring F] (ops : FloatOps F) (hx : ops.Exact) (values : List F)
    (js : List Int) :
    sumAt ops values js = (js.map fun j => getI values j (ops.ofInt 0)).sum := by
  unfold sumAt
  rw [foldl_add_exact ops hx (fun j => getI values j (ops.ofInt 0)), hx.1]
  simp

/-- Without rounding, `sum` at the end of the first loop of the kernel
`Predictor::learn` is the sum over the layers of the one-hot products. -/
theorem Predictor.learnSum_exact {F : Type} [Ring F] (ops : FloatOps F) (hx : ops.Exact)
    (p : Predictor F) (hiddenIndex : Int) :
    (p.learnSum ops hiddenIndex).1
      = ((List.range p.visibleLayers.length).map fun vli =>
          sumAt ops (p.layer vli).weights.nonZeroValues
            ((p.layer vli).weights.selected (p.layer vli).inputCsPrev hiddenIndex
              (p.desc vli).size.z)).sum := by
  unfold Predictor.learnSum
  have h : ∀ (l : List Nat) (acc : F × Int),
      (l.foldl
        (fun (acc : F × Int) vli =>
          (ops.add acc.1
            ((p.visibleLayers.getD vli (Predictor.VisibleLayer.none F)).weights.multiplyOHVs ops
              (p.visibleLayers.getD vli (Predictor.VisibleLayer.none F)).inputCsPrev hiddenIndex
              (p.visibleLayerDescs.getD vli VisibleLayerDesc.none).size.z),
           acc.2 + ((p.visibleLayers.getD vli (Predictor.VisibleLayer.none F)).weights.count
              hiddenIndex).tdiv (p.visibleLayerDescs.getD vli VisibleLayerDesc.none).size.z))
        acc).1
      = acc.1 + (l.map fun vli =>
          sumAt ops (p.layer vli).weights.nonZeroValues
            ((p.layer vli).weights.selected (p.layer vli).inputCsPrev hiddenIndex
              (p.desc vli).size.z)).sum := by
    intro l
    induction l with
    | nil => intro acc; simp
    | cons x t ih =>
      intro acc
      rw [List.foldl_cons, ih, List.map_cons, List.sum_cons, hx.2.1, add_assoc]
      rfl
  rw [h, hx.1]
  simp

/-- A list of values each of which is the old value plus `delta` sums to the old
sum plus the length of the list times `delta`. -/
theorem sum_map_add_const {F α : Type} [Ring F] (l : List α) (f g : α → F) (delta : F)
    (h : ∀ a ∈ l, g a = f a + delta) :
    (l.map g).sum = (l.map f).sum + (l.length : F) * delta := by
  induction l with
  | nil => simp
  | cons a t ih =>
    rw [List.map_cons, List.sum_cons, List.map_cons, List.sum_cons, List.length_cons,
      ih (fun b hb => h b (List.mem_cons_of_mem _ hb)), h a (List.mem_cons_self _ _)]
    push_cast
    noncomm_ring

/-- After `Predictor::learn`, a weight inside the value array that the row of a
hidden cell of the grid selects holds its old value plus the `delta` of the
cell, and the predictor is the old one up to the values of the weights. -/
theorem Predictor.learn_selected_value {F R : Type} (M : RngOps R) (ops : FloatOps F)
    (noThread : Bool) (cs : ComputeSystem R)
    (hb : noThread = true ∨ (1 ≤ cs.batchSize2.x ∧ 1 ≤ cs.batchSize2.y)) (tgt : IntBuffer)
    (p : Predictor F) (hp : ∀ vl ∈ p.visibleLayers, vl.weights.RowsOrdered) :
    Predictor.SameButValues p (Predictor.learn M ops noThread cs tgt p).1
    ∧ ∀ pos ∈ domain2 ⟨p.hiddenSize.x, p.hiddenSize.y⟩, ∀ hc ∈ intRange 0 p.hiddenSize.z,
      ∀ vli, vli < p.visibleLayers.length → ∀ j : Int,
        j ∈ (p.layer vli).weights.selected (p.layer vli).inputCsPrev
          (address3 ⟨pos.x, pos.y, hc⟩ p.hiddenSize) (p.desc vli).size.z →
        j < ((p.layer vli).weights.nonZeroValues.length : Int) →
        getI ((Predictor.learn M ops noThread cs tgt p).1.layer vli).weights.nonZeroValues j
            (ops.ofInt 0)
          = ops.add (getI (p.layer vli).weights.nonZeroValues j (ops.ofInt 0))
              (p.learnDelta ops (getI tgt (address2 pos ⟨p.hiddenSize.x, p.hiddenSize.y⟩) 0) hc
                (address3 ⟨pos.x, pos.y, hc⟩ p.hiddenSize)) := by
  obtain ⟨l, hl, e⟩ := Predictor.learn_eq_cells M ops noThread cs hb tgt p
  rw [e]
  have hnodup : (p.cells l).Nodup := p.nodup_cells l (hl.nodup_iff.mpr (nodup_domain2 _))
  have hdom : ∀ c ∈ p.cells l, c.1 ∈ domain2 ⟨p.hiddenSize.x, p.hiddenSize.y⟩
      ∧ c.2 ∈ intRange 0 p.hiddenSize.z := by
    intro c hc
    have h := (p.mem_cells l c).mp hc
    exact ⟨hl.mem_iff.mp h.1, h.2⟩
  refine ⟨Predictor.cells_fold_sameButValues ops tgt p _ p (sameButValues_refl p), ?_⟩
  intro pos hpos hc hhc vli hvli j hj h1
  exact Predictor.cells_fold_selected ops tgt p hp _ hnodup hdom (pos, hc)
    ((p.mem_cells l (pos, hc)).mpr ⟨hl.mem_iff.mpr hpos, hhc⟩) vli hvli j hj h1

/-- Without rounding, `Predictor::learn` changes the total one-hot sum of a
hidden cell of the grid whose selected weights lie inside the value arrays by
the `delta` of the cell times the number of the selected weights. -/
theorem Predictor.learn_sum_change {F R : Type} [Ring F] (M : RngOps R) (ops : FloatOps F)
    (hx : ops.Exact) (noThread : Bool) (cs : ComputeSystem R)
    (hb : noThread = true ∨ (1 ≤ cs.batchSize2.x ∧ 1 ≤ cs.batchSize2.y)) (tgt : IntBuffer)
    (p : Predictor F) (hp : ∀ vl ∈ p.visibleLayers, vl.weights.RowsOrdered)
    (pos : Int2) (hpos : pos ∈ domain2 ⟨p.hiddenSize.x, p.hiddenSize.y⟩) (hc : Int)
    (hhc : hc ∈ intRange 0 p.hiddenSize.z)
    (hin : ∀ vli, vli < p.visibleLayers.length →
      ∀ j ∈ (p.layer vli).weights.selected (p.layer vli).inputCsPrev
          (address3 ⟨pos.x, pos.y, hc⟩ p.hiddenSize) (p.desc vli).size.z,
        j < ((p.layer vli).weights.nonZeroValues.length : Int)) :
    ((Predictor.learn M ops noThread cs tgt p).1.learnSum ops
        (address3 ⟨pos.x, pos.y, hc⟩ p.hiddenSize)).1
      = (p.learnSum ops (address3 ⟨pos.x, pos.y, hc⟩ p.hiddenSize)).1
        + (p.selectedCount (address3 ⟨pos.x, pos.y, hc⟩ p.hiddenSize) : F)
          * p.learnDelta ops (getI tgt (address2 pos ⟨p.hiddenSize.x, p.hiddenSize.y⟩) 0) hc
              (address3 ⟨pos.x, pos.y, hc⟩ p.hiddenSize) := by
  obtain ⟨hs, hv⟩ := Predictor.learn_selected_value M ops noThread cs hb tgt p hp
  rw [Predictor.learnSum_exact ops hx, Predictor.learnSum_exact ops hx, hs.length_eq]
  unfold Predictor.selectedCount
  have key : ∀ (l : List Nat), (∀ vli ∈ l, vli < p.visibleLayers.length) →
      (l.map fun vli =>
          sumAt ops ((Predictor.learn M ops noThread cs tgt p).1.layer vli).weights.nonZeroValues
            (((Predictor.learn M ops noThread cs tgt p).1.layer vli).weights.selected
              ((Predictor.learn M ops noThread cs tgt p).1.layer vli).inputCsPrev
              (address3 ⟨pos.x, pos.y, hc⟩ p.hiddenSize)
              ((Predictor.learn M ops noThread cs tgt p).1.desc vli).size.z)).sum
        = (l.map fun vli =>
            sumAt ops (p.layer vli).weights.nonZeroValues
              ((p.layer vli).weights.selected (p.layer vli).inputCsPrev
                (address3 ⟨pos.x, pos.y, hc⟩ p.hiddenSize) (p.desc vli).size.z)).sum
          + (((l.map fun vli =>
              ((p.layer vli).weights.selected (p.layer vli).inputCsPrev
                (address3 ⟨pos.x, pos.y, hc⟩ p.hiddenSize) (p.desc vli).size.z).length).sum
              : Nat) : F)
            * p.learnDelta ops (getI tgt (address2 pos ⟨p.hiddenSize.x, p.hiddenSize.y⟩) 0) hc
                (address3 ⟨pos.x, pos.y, hc⟩ p.hiddenSize) := by
    intro l
    induction l with
    | nil => intro _; simp
    | cons vli t ih =>
      intro hl
      have hvli := hl vli (List.mem_cons_self _ _)
      have hsel := hs.selected_eq vli ⟨pos.x, pos.y, hc⟩
      rw [hs.1] at hsel
      rw [List.map_cons, List.sum_cons, List.map_cons, List.sum_cons, List.map_cons,
        List.sum_cons, ih (fun v hv' => hl v (List.mem_cons_of_mem _ hv')), hsel,
        sumAt_exact ops hx, sumAt_exact ops hx,
        sum_map_add_const _ (fun j => getI (p.layer vli).weights.nonZeroValues j (ops.ofInt 0))
          _ (p.learnDelta ops (getI tgt (address2 pos ⟨p.hiddenSize.x, p.hiddenSize.y⟩) 0) hc
            (address3 ⟨pos.x, pos.y, hc⟩ p.hiddenSize))
          (fun j hj => by
            rw [hv pos hpos hc hhc vli hvli j hj (hin vli hvli j hj), hx.2.1])]
      push_cast
      noncomm_ring
  exact key _ (fun vli hvli => List.mem_range.mp hvli)


/-- Without rounding, the `delta` of a cell is `alpha` times the difference of
the sign of the cell and the computed `tanh`. -/
theorem Predictor.learnDelta_exact {F : Type} [Ring F] (ops : FloatOps F) (hx : ops.Exact)
    (p : Predictor F) (targetC hc hiddenIndex : Int) :
    p.learnDelta ops targetC hc hiddenIndex
      = p.alpha * ((if hc = targetC then 1 else -1)
          - ops.tanh (ops.div (p.learnSum ops hiddenIndex).1
              (ops.ofInt (max 1 (p.learnSum ops hiddenIndex).2)))) := by
  unfold Predictor.learnDelta
  simp only [hx.2.2.2, hx.2.2.1]
  split
  · rw [hx.1]
    simp
  · rw [hx.1]
    simp

/-! ### Claim on the direction of the update of the predictor -/

/-- Counterexample to C28, in two parts.  First, a predictor with `alpha = 1`, one
hidden cell and one weight, of value 100, that the row of the cell selects under
`inputCsPrev`; the cell is the target of its column.  The one-hot sum of the
cell is 100 and the count 1, the `tanh` of the quotient 100 is exactly 1 in
`float`, here with the saturating `tanh`, so `delta = 1 * (1 - 1)` is zero and
`Predictor::learn` leaves the sum of the cell at 100: the change is not strictly
positive.  Second, with the rounding of `float`: a column of two cells with
target 1, where the row of cell 0 selects one weight of value 67108864; the cell
is not the target, the `tanh` of its quotient is 1, greater than -1, and
`delta = 1 * (-1 - 1) = -2` is not zero, but 67108864 - 2 rounds to 67108864, so
the weight and the sum of the cell stay at 67108864: the change is 0 and not
`delta` times the one selected weight. -/
theorem learn_delta_zero_at_saturation :
    (0 : Int) < (⟨⟨1, 1, 1⟩, [0], [⟨⟨1, 1, [100], [0], [0, 1], [0], [0, 1], [0]⟩, [0]⟩],
        [⟨⟨1, 1, 1⟩, 0⟩], 1⟩ : Predictor Int).alpha
    ∧ ((⟨⟨1, 1, 1⟩, [0], [⟨⟨1, 1, [100], [0], [0, 1], [0], [0, 1], [0]⟩, [0]⟩],
        [⟨⟨1, 1, 1⟩, 0⟩], 1⟩ : Predictor Int).layer 0).weights.selected [0]
          (address3 ⟨0, 0, 0⟩ ⟨1, 1, 1⟩) 1 = [0]
    ∧ getI [0] (address2 ⟨0, 0⟩ ⟨1, 1⟩) 0 = 0
    ∧ (⟨⟨1, 1, 1⟩, [0], [⟨⟨1, 1, [100], [0], [0, 1], [0], [0, 1], [0]⟩, [0]⟩],
        [⟨⟨1, 1, 1⟩, 0⟩], 1⟩ : Predictor Int).learnSum clampOps
          (address3 ⟨0, 0, 0⟩ ⟨1, 1, 1⟩) = (100, 1)
    ∧ clampOps.tanh (clampOps.div 100 (clampOps.ofInt (max 1 1))) = 1
    ∧ (⟨⟨1, 1, 1⟩, [0], [⟨⟨1, 1, [100], [0], [0, 1], [0], [0, 1], [0]⟩, [0]⟩],
        [⟨⟨1, 1, 1⟩, 0⟩], 1⟩ : Predictor Int).learnDelta clampOps 0 0
          (address3 ⟨0, 0, 0⟩ ⟨1, 1, 1⟩) = 0
    ∧ ((Predictor.learn counterRng clampOps true ⟨0, 1, ⟨1, 1⟩⟩ [0]
        (⟨⟨1, 1, 1⟩, [0], [⟨⟨1, 1, [100], [0], [0, 1], [0], [0, 1], [0]⟩, [0]⟩],
          [⟨⟨1, 1, 1⟩, 0⟩], 1⟩ : Predictor Int)).1.learnSum clampOps
            (address3 ⟨0, 0, 0⟩ ⟨1, 1, 1⟩)).1 = 100
    ∧ ((⟨⟨1, 1, 2⟩, [0],
        [⟨⟨2, 1, [67108864, 0], [0, 1], [0, 1, 2], [0, 0], [0, 2], [0, 1]⟩, [0]⟩],
        [⟨⟨1, 1, 1⟩, 0⟩], 1⟩ : Predictor Int).layer 0).weights.selected [0]
          (address3 ⟨0, 0, 0⟩ ⟨1, 1, 2⟩) 1 = [0]
    ∧ getI [1] (address2 ⟨0, 0⟩ ⟨1, 1⟩) 0 = 1
    ∧ (⟨⟨1, 1, 2⟩, [0],
        [⟨⟨2, 1, [67108864, 0], [0, 1], [0, 1, 2], [0, 0], [0, 2], [0, 1]⟩, [0]⟩],
        [⟨⟨1, 1, 1⟩, 0⟩], 1⟩ : Predictor Int).learnSum roundOps
          (address3 ⟨0, 0, 0⟩ ⟨1, 1, 2⟩) = (67108864, 1)
    ∧ roundOps.tanh (roundOps.div 67108864 (roundOps.ofInt (max 1 1))) = 1
    ∧ (⟨⟨1, 1, 2⟩, [0],
        [⟨⟨2, 1, [67108864, 0], [0, 1], [0, 1, 2], [0, 0], [0, 2], [0, 1]⟩, [0]⟩],
        [⟨⟨1, 1, 1⟩, 0⟩], 1⟩ : Predictor Int).learnDelta roundOps 1 0
          (address3 ⟨0, 0, 0⟩ ⟨1, 1, 2⟩) = -2
    ∧ roundOps.add 67108864 (-2) = 67108864
    ∧ ((Predictor.learn counterRng roundOps true ⟨0, 1, ⟨1, 1⟩⟩ [1]
        (⟨⟨1, 1, 2⟩, [0],
          [⟨⟨2, 1, [67108864, 0], [0, 1], [0, 1, 2], [0, 0], [0, 2], [0, 1]⟩, [0]⟩],
          [⟨⟨1, 1, 1⟩, 0⟩], 1⟩ : Predictor Int)).1.learnSum roundOps
            (address3 ⟨0, 0, 0⟩ ⟨1, 1, 2⟩)).1 = 67108864 := by
  refine ⟨by decide, by decide, by decide, by decide, by decide, by decide, by decide,
    by decide, by decide, by decide, by decide, by decide, by decide, by decide⟩

/-- C28 as amended: for `alpha > 0` and weight matrices with ordered rows, one
`Predictor::learn` call adds the `delta` of a hidden cell of the grid whose rows
select at least one weight (all selected weights inside the value arrays) to
each of the selected weights; in arithmetic without rounding it changes the
total one-hot sum of the cell over `inputCsPrev` by exactly `delta` times the
number of the selected weights, and `delta` and the change are strictly positive
when the cell is the target of its column and the computed `tanh` is less than
1, and strictly negative when the cell is not the target and the computed `tanh`
is greater than -1; when the computed `tanh` is exactly 1 at the target cell, or
exactly -1 at another cell, `delta` is zero and the sum is left as it is. -/
theorem learn_sum_moves_toward_target {F R : Type} [LinearOrderedRing F] (M : RngOps R)
    (ops : FloatOps F) (noThread : Bool) (cs : ComputeSystem R)
    (hb : noThread = true ∨ (1 ≤ cs.batchSize2.x ∧ 1 ≤ cs.batchSize2.y)) (tgt : IntBuffer)
    (p : Predictor F) (hp : ∀ vl ∈ p.visibleLayers, vl.weights.RowsOrdered)
    (halpha : 0 < p.alpha)
    (pos : Int2) (hpos : pos ∈ domain2 ⟨p.hiddenSize.x, p.hiddenSize.y⟩) (hc : Int)
    (hhc : hc ∈ intRange 0 p.hiddenSize.z)
    (hin : ∀ vli, vli < p.visibleLayers.length →
      ∀ j ∈ (p.layer vli).weights.selected (p.layer vli).inputCsPrev
          (address3 ⟨pos.x, pos.y, hc⟩ p.hiddenSize) (p.desc vli).size.z,
        j < ((p.layer vli).weights.nonZeroValues.length : Int))
    (hsel : 1 ≤ p.selectedCount (address3 ⟨pos.x, pos.y, hc⟩ p.hiddenSize)) :
    (∀ vli, vli < p.visibleLayers.length →
      ∀ j ∈ (p.layer vli).weights.selected (p.layer vli).inputCsPrev
          (address3 ⟨pos.x, pos.y, hc⟩ p.hiddenSize) (p.desc vli).size.z,
        getI ((Predictor.learn M ops noThread cs tgt p).1.layer vli).weights.nonZeroValues j
            (ops.ofInt 0)
          = ops.add (getI (p.layer vli).weights.nonZeroValues j (ops.ofInt 0))
              (p.learnDelta ops (getI tgt (address2 pos ⟨p.hiddenSize.x, p.hiddenSize.y⟩) 0) hc
                (address3 ⟨pos.x, pos.y, hc⟩ p.hiddenSize)))
    ∧ (ops.Exact →
    (((Predictor.learn M ops noThread cs tgt p).1.learnSum ops
            (address3 ⟨pos.x, pos.y, hc⟩ p.hiddenSize)).1
          = (p.learnSum ops (address3 ⟨pos.x, pos.y, hc⟩ p.hiddenSize)).1
            + (p.selectedCount (address3 ⟨pos.x, pos.y, hc⟩ p.hiddenSize) : F)
              * p.learnDelta ops (getI tgt (address2 pos ⟨p.hiddenSize.x, p.hiddenSize.y⟩) 0) hc
                  (address3 ⟨pos.x, pos.y, hc⟩ p.hiddenSize)
        ∧ (hc = getI tgt (address2 pos ⟨p.hiddenSize.x, p.hiddenSize.y⟩) 0 →
            ops.tanh (ops.div (p.learnSum ops (address3 ⟨pos.x, pos.y, hc⟩ p.hiddenSize)).1
              (ops.ofInt (max 1 (p.learnSum ops (address3 ⟨pos.x, pos.y, hc⟩ p.hiddenSize)).2))) < 1 →
            0 < p.learnDelta ops (getI tgt (address2 pos ⟨p.hiddenSize.x, p.hiddenSize.y⟩) 0) hc
                  (address3 ⟨pos.x, pos.y, hc⟩ p.hiddenSize)
            ∧ 0 < (p.selectedCount (address3 ⟨pos.x, pos.y, hc⟩ p.hiddenSize) : F)
                * p.learnDelta ops (getI tgt (address2 pos ⟨p.hiddenSize.x, p.hiddenSize.y⟩) 0) hc
                    (address3 ⟨pos.x, pos.y, hc⟩ p.hiddenSize))
        ∧ (hc ≠ getI tgt (address2 pos ⟨p.hiddenSize.x, p.hiddenSize.y⟩) 0 →
            -1 < ops.tanh (ops.div (p.learnSum ops (address3 ⟨pos.x, pos.y, hc⟩ p.hiddenSize)).1
              (ops.ofInt (max 1 (p.learnSum ops (address3 ⟨pos.x, pos.y, hc⟩ p.hiddenSize)).2))) →
            p.learnDelta ops (getI tgt (address2 pos ⟨p.hiddenSize.x, p.hiddenSize.y⟩) 0) hc
                  (address3 ⟨pos.x, pos.y, hc⟩ p.hiddenSize) < 0
            ∧ (p.selectedCount (address3 ⟨pos.x, pos.y, hc⟩ p.hiddenSize) : F)
                * p.learnDelta ops (getI tgt (address2 pos ⟨p.hiddenSize.x, p.hiddenSize.y⟩) 0) hc
                    (address3 ⟨pos.x, pos.y, hc⟩ p.hiddenSize) < 0)
        ∧ ((hc = getI tgt (address2 pos ⟨p.hiddenSize.x, p.hiddenSize.y⟩) 0
              ∧ ops.tanh (ops.div (p.learnSum ops (address3 ⟨pos.x, pos.y, hc⟩ p.hiddenSize)).1
                  (ops.ofInt (max 1 (p.learnSum ops (address3 ⟨pos.x, pos.y, hc⟩ p.hiddenSize)).2)))
                = 1)
            ∨ (hc ≠ getI tgt (address2 pos ⟨p.hiddenSize.x, p.hiddenSize.y⟩) 0
              ∧ ops.tanh (ops.div (p.learnSum ops (address3 ⟨pos.x, pos.y, hc⟩ p.hiddenSize)).1
                  (ops.ofInt (max 1 (p.learnSum ops (address3 ⟨pos.x, pos.y, hc⟩ p.hiddenSize)).2)))
                = -1) →
            p.learnDelta ops (getI tgt (address2 pos ⟨p.hiddenSize.x, p.hiddenSize.y⟩) 0) hc
                  (address3 ⟨pos.x, pos.y, hc⟩ p.hiddenSize) = 0
            ∧ ((Predictor.learn M ops noThread cs tgt p).1.learnSum ops
                  (address3 ⟨pos.x, pos.y, hc⟩ p.hiddenSize)).1
                = (p.learnSum ops (address3 ⟨pos.x, pos.y, hc⟩ p.hiddenSize)).1))) := by
  refine ⟨fun vli hvli j hj =>
    (Predictor.learn_selected_value M ops noThread cs hb tgt p hp).2 pos hpos hc hhc vli hvli j
      hj (hin vli hvli j hj), ?_⟩
  intro hx
  have hsum := Predictor.learn_sum_change M ops hx noThread cs hb tgt p hp pos hpos hc hhc hin
  have hd := Predictor.learnDelta_exact ops hx p
    (getI tgt (address2 pos ⟨p.hiddenSize.x, p.hiddenSize.y⟩) 0) hc
    (address3 ⟨pos.x, pos.y, hc⟩ p.hiddenSize)
  have hn : (0 : F) < (p.selectedCount (address3 ⟨pos.x, pos.y, hc⟩ p.hiddenSize) : F) :=
    Nat.cast_pos.mpr hsel
  refine ⟨hsum, ?_, ?_, ?_⟩
  · intro ht hlt
    have h0 : 0 < p.learnDelta ops (getI tgt (address2 pos ⟨p.hiddenSize.x, p.hiddenSize.y⟩) 0)
        hc (address3 ⟨pos.x, pos.y, hc⟩ p.hiddenSize) := by
      rw [hd, if_pos ht]
      exact mul_pos halpha (sub_pos.mpr hlt)
    exact ⟨h0, mul_pos hn h0⟩
  · intro ht hlt
    have h0 : p.learnDelta ops (getI tgt (address2 pos ⟨p.hiddenSize.x, p.hiddenSize.y⟩) 0)
        hc (address3 ⟨pos.x, pos.y, hc⟩ p.hiddenSize) < 0 := by
      rw [hd, if_neg ht]
      exact mul_neg_of_pos_of_neg halpha (sub_neg.mpr hlt)
    exact ⟨h0, mul_neg_of_pos_of_neg hn h0⟩
  · intro h
    have h0 : p.learnDelta ops (getI tgt (address2 pos ⟨p.hiddenSize.x, p.hiddenSize.y⟩) 0)
        hc (address3 ⟨pos.x, pos.y, hc⟩ p.hiddenSize) = 0 := by
      rw [hd]
      rcases h with ⟨ht, he⟩ | ⟨ht, he⟩
      · rw [if_pos ht, he, sub_self, mul_zero]
      · rw [if_neg ht, he, sub_self, mul_zero]
    refine ⟨h0, ?_⟩
    rw [hsum, h0, mul_zero, add_zero]

theorem learn_sum_moves_toward_target_witness :
    (intOps.Exact
      ∧ (true = true ∨ ((1 : Int) ≤ 2 ∧ (1 : Int) ≤ 1))
      ∧ (∀ vl ∈ examplePredictor.visibleLayers, vl.weights.RowsOrdered)
      ∧ 0 < examplePredictor.alpha
      ∧ (⟨0, 1⟩ : Int2) ∈ domain2 ⟨examplePredictor.hiddenSize.x, examplePredictor.hiddenSize.y⟩
      ∧ (0 : Int) ∈ intRange 0 examplePredictor.hiddenSize.z
      ∧ (∀ vli, vli < examplePredictor.visibleLayers.length →
          ∀ j ∈ (examplePredictor.layer vli).weights.selected
              (examplePredictor.layer vli).inputCsPrev
              (address3 ⟨0, 1, 0⟩ examplePredictor.hiddenSize) (examplePredictor.desc vli).size.z,
            j < ((examplePredictor.layer vli).weights.nonZeroValues.length : Int))
      ∧ 1 ≤ examplePredictor.selectedCount (address3 ⟨0, 1, 0⟩ examplePredictor.hiddenSize))
    ∧ ((Predictor.learn counterRng intOps true ⟨0, 1, ⟨2, 1⟩⟩ [1, 1, 1, 1]
          examplePredictor).1.learnSum intOps (address3 ⟨0, 1, 0⟩ examplePredictor.hiddenSize)).1
        = (examplePredictor.learnSum intOps (address3 ⟨0, 1, 0⟩ examplePredictor.hiddenSize)).1
          + ((examplePredictor.selectedCount (address3 ⟨0, 1, 0⟩ examplePredictor.hiddenSize)
              : Nat) : Int)
            * examplePredictor.learnDelta intOps
                (getI [1, 1, 1, 1]
                  (address2 ⟨0, 1⟩ ⟨examplePredictor.hiddenSize.x, examplePredictor.hiddenSize.y⟩)
                  0) 0
                (address3 ⟨0, 1, 0⟩ examplePredictor.hiddenSize)
    ∧ examplePredictor.learnDelta intOps
        (getI [1, 1, 1, 1]
          (address2 ⟨0, 1⟩ ⟨examplePredictor.hiddenSize.x, examplePredictor.hiddenSize.y⟩) 0) 0
        (address3 ⟨0, 1, 0⟩ examplePredictor.hiddenSize) < 0 := by
  have hx : intOps.Exact := ⟨fun _ => rfl, fun _ _ => rfl, fun _ _ => rfl, fun _ _ => rfl⟩
  have hp : ∀ vl ∈ examplePredictor.visibleLayers, vl.weights.RowsOrdered := by
    intro vl hvl
    have e : vl = ⟨exampleMatrix, [0, 0, 0, 0]⟩ := List.mem_singleton.mp hvl
    rw [e]
    exact ⟨by decide, by decide⟩
  have hin : ∀ vli, vli < examplePredictor.visibleLayers.length →
      ∀ j ∈ (examplePredictor.layer vli).weights.selected
          (examplePredictor.layer vli).inputCsPrev
          (address3 ⟨0, 1, 0⟩ examplePredictor.hiddenSize) (examplePredictor.desc vli).size.z,
        j < ((examplePredictor.layer vli).weights.nonZeroValues.length : Int) := by
    decide
  have h := (learn_sum_moves_toward_target counterRng intOps true ⟨0, 1, ⟨2, 1⟩⟩ (Or.inl rfl)
    [1, 1, 1, 1] examplePredictor hp (by decide) ⟨0, 1⟩ (by decide) 0 (by decide) hin
    (by decide)).2 hx
  exact ⟨⟨hx, Or.inl rfl, hp, by decide, by decide, by decide, hin, by decide⟩,
    h.1, (h.2.2.1 (by decide) (by decide)).1⟩


/-! ### A step from a restored coder -/

theorem getI_replicate {α : Type} (n : Nat) (k : Int) (d : α) :
    getI (List.replicate n d) k d = d := by
  unfold getI
  split
  · rw [List.getD_eq_getElem?_getD, List.getElem?_replicate]
    split <;> rfl
  · rfl

/-- The cells of the columns of a list that holds every column of the grid
have all the indices below the number of cells. -/
theorem mem_address3_cover {size : Int3} (hx : 0 ≤ size.x) (hy : 0 ≤ size.y) (hz : 0 ≤ size.z)
    (l : List Int2) (hl : ∀ p ∈ domain2 ⟨size.x, size.y⟩, p ∈ l) (k : Int) (h0 : 0 ≤ k)
    (h1 : k < size.x * size.y * size.z) :
    k ∈ l.flatMap fun pos => (intRange 0 size.z).map fun hc => address3 ⟨pos.x, pos.y, hc⟩ size := by
  have hk : k ∈ intRange 0 (size.x * size.y * size.z) := mem_intRange.mpr ⟨h0, h1⟩
  rw [← map_address3_domain3 hx hy hz] at hk
  obtain ⟨p, hp, e⟩ := List.mem_map.mp hk
  have hb := mem_domain3.mp hp
  refine List.mem_flatMap.mpr ⟨⟨p.x, p.y⟩, hl _ (mem_domain2.mpr ⟨hb.1, hb.2.1⟩), ?_⟩
  exact List.mem_map.mpr ⟨p.z, mem_intRange.mpr hb.2.2, e⟩

/-- The columns of a list that holds every column of the grid have all the
indices below the number of columns. -/
theorem mem_address2_cover {size : Int2} (hx : 0 ≤ size.x) (hy : 0 ≤ size.y)
    (l : List Int2) (hl : ∀ p ∈ domain2 size, p ∈ l) (k : Int) (h0 : 0 ≤ k)
    (h1 : k < size.x * size.y) :
    k ∈ l.map fun pos => address2 pos size := by
  have hk : k ∈ intRange 0 (size.x * size.y * 1) := mem_intRange.mpr ⟨h0, by omega⟩
  rw [← @map_address3_domain3 ⟨size.x, size.y, 1⟩ hx hy (Int.zero_le_ofNat 1)] at hk
  obtain ⟨p, hp, e⟩ := List.mem_map.mp hk
  have hb := mem_domain3.mp hp
  simp only [] at hb
  refine List.mem_map.mpr ⟨⟨p.x, p.y⟩, hl _ (mem_domain2.mpr ⟨hb.1, hb.2.1⟩), ?_⟩
  rw [← e]
  unfold address2 address3
  simp only []
  have : p.z = 0 := by omega
  rw [this]
  ring

/-- Buffers of the same length agree outside a list of indices that holds
every index of the buffers. -/
theorem agreeOff_of_cover {α : Type} (d : α) (pending : List Int) (a b : List α)
    (hlen : a.length = b.length)
    (hc : ∀ k : Int, 0 ≤ k → k < (a.length : Int) → k ∈ pending) :
    AgreeOff d pending a b := by
  refine ⟨hlen, ?_⟩
  intro k hk
  by_cases h0 : 0 ≤ k
  · by_cases h1 : k < (a.length : Int)
    · exact absurd (hc k h0 h1) hk
    · rw [getI_of_ge a k d (by omega), getI_of_ge b k d (by omega)]
  · unfold getI
    simp only [h0, if_false]


/-- Two coders with the same frame, codes and weights and with buffers of the
sizes of their grids agree outside the indices that launches reaching every
column of the grids write. -/
theorem SparseCoder.replays_of_cover {F : Type} (ops : FloatOps F) (order : Int2 → List Int2)
    (horder : ∀ size, ∀ p ∈ domain2 size, p ∈ order size) (s t : SparseCoder F)
    (h : SparseCoder.SameButBuffers s t)
    (hsize : 0 ≤ s.hiddenSize.x ∧ 0 ≤ s.hiddenSize.y ∧ 0 ≤ s.hiddenSize.z)
    (hvsize : ∀ vli, vli < s.visibleLayers.length →
      0 ≤ (s.desc vli).size.x ∧ 0 ≤ (s.desc vli).size.y)
    (ha : s.hiddenActivations.length
      = (s.hiddenSize.x * s.hiddenSize.y * s.hiddenSize.z).toNat)
    (ha' : t.hiddenActivations.length
      = (s.hiddenSize.x * s.hiddenSize.y * s.hiddenSize.z).toNat)
    (he : ∀ vli, vli < s.visibleLayers.length →
      (s.layer vli).inputErrors.length = ((s.desc vli).size.x * (s.desc vli).size.y).toNat)
    (he' : ∀ vli, vli < s.visibleLayers.length →
      (t.layer vli).inputErrors.length = ((s.desc vli).size.x * (s.desc vli).size.y).toNat) :
    SparseCoder.Replays ops
      (s.pendingCs (order ⟨s.hiddenSize.x, s.hiddenSize.y⟩))
      (s.pendingActs (order ⟨s.hiddenSize.x, s.hiddenSize.y⟩))
      (fun v => s.pendingErrors v (order ⟨(s.desc v).size.x, (s.desc v).size.y⟩)) s t := by
  obtain ⟨hf, hcs, hw⟩ := h
  refine ⟨hf, ?_, ?_, ?_⟩
  · rw [hcs]
    exact agreeOff_refl _ _ _
  · refine agreeOff_of_cover _ _ _ _ (by rw [ha, ha']) ?_
    intro k h0 h1
    unfold SparseCoder.pendingActs
    exact mem_address3_cover hsize.1 hsize.2.1 hsize.2.2 _ (horder _) k h0 (by omega)
  · intro vli
    have hwl : (t.layer vli).weights = (s.layer vli).weights :=
      getD_of_map_eq (fun (vl : SparseCoder.VisibleLayer F) => vl.weights) _ _ hw vli
        (SparseCoder.VisibleLayer.none F)
    refine ⟨hwl, ?_⟩
    by_cases hv : vli < s.visibleLayers.length
    · refine agreeOff_of_cover _ _ _ _ (by rw [he vli hv, he' vli hv]) ?_
      intro k h0 h1
      unfold SparseCoder.pendingErrors
      have hk := he vli hv
      exact @mem_address2_cover ⟨(s.desc vli).size.x, (s.desc vli).size.y⟩ (hvsize vli hv).1
        (hvsize vli hv).2 _ (horder _) k h0
        (show k < (s.desc vli).size.x * (s.desc vli).size.y by omega)
    · rw [SparseCoder.layer_of_length_le s vli (by omega),
        SparseCoder.layer_of_length_le t vli (by rw [hf.2.2.2.2]; omega)]
      exact agreeOff_refl _ _ _

/-- The explain iterations on two coders with the same codes that agree outside
the indices that the iterations write end with the same codes. -/
theorem SparseCoder.encodeOn_of_replays {F : Type} [LinearOrder F] (ops : FloatOps F)
    (order : Int2 → List Int2) (inputCs : List IntBuffer) (s t : SparseCoder F)
    (hcs : t.hiddenCs = s.hiddenCs)
    (h : SparseCoder.Replays ops
      (s.pendingCs (order ⟨s.hiddenSize.x, s.hiddenSize.y⟩))
      (s.pendingActs (order ⟨s.hiddenSize.x, s.hiddenSize.y⟩))
      (fun v => s.pendingErrors v (order ⟨(s.desc v).size.x, (s.desc v).size.y⟩)) s t) :
    (SparseCoder.encodeOn ops order inputCs t).hiddenCs
      = (SparseCoder.encodeOn ops order inputCs s).hiddenCs := by
  have hz := SparseCoder.encodeIter_zero_replays ops order inputCs s t h
  have hn : t.explainIters = s.explainIters := h.frame.2.2.1
  have hs : ∀ q : SparseCoder F, SparseCoder.encodeOn ops order inputCs q
      = (intRange 0 q.explainIters).foldl
          (fun (s : SparseCoder F) it => SparseCoder.encodeIter ops order inputCs it s) q :=
    fun _ => rfl
  rcases le_or_lt s.explainIters 0 with h0 | h0
  · rw [hs t, hs s, hn, intRange_eq_nil h0]
    exact hcs
  · rcases le_or_lt s.explainIters 1 with h1 | h1
    · have e1 : s.explainIters = 1 := by omega
      have hs1 : SparseCoder.encodeOn ops order inputCs s
          = SparseCoder.encodeIter ops order inputCs 0 s := by
        rw [hs s, e1]
        rfl
      have hs2 : SparseCoder.encodeOn ops order inputCs t
          = SparseCoder.encodeIter ops order inputCs 0 t := by
        rw [hs t, hn, e1]
        rfl
      rw [hs1, hs2, hz.1]
    · have e := hz.2 (by omega)
      rw [hs t, hn, intRange_cons h0, List.foldl_cons, e, hs s, intRange_cons h0,
        List.foldl_cons]

/-- `SparseCoder::learn` on two coders with the same frame, codes and weights
gives coders with the same frame, codes and weights. -/
theorem SparseCoder.learn_sameButBuffers {F R : Type} [LinearOrder F] (ops : FloatOps F)
    (pos : Int2) (rng rng' : R) (inputCs : IntBuffer) (vli : Nat) (s t : SparseCoder F)
    (h : SparseCoder.SameButBuffers s t) :
    SparseCoder.SameButBuffers (SparseCoder.learn ops pos rng inputCs vli s)
      (SparseCoder.learn ops pos rng' inputCs vli t) := by
  obtain ⟨hf, hcs, hw⟩ := h
  have hwl : (t.visibleLayers.getD vli (SparseCoder.VisibleLayer.none F)).weights
      = (s.visibleLayers.getD vli (SparseCoder.VisibleLayer.none F)).weights :=
    getD_of_map_eq (fun (vl : SparseCoder.VisibleLayer F) => vl.weights) _ _ hw vli
      (SparseCoder.VisibleLayer.none F)
  rw [SparseCoder.learn_eq, SparseCoder.learn_eq]
  refine ⟨⟨hf.1, hf.2.1, hf.2.2.1, hf.2.2.2.1, ?_⟩, hcs, ?_⟩
  · show (t.visibleLayers.set vli _).length = (s.visibleLayers.set vli _).length
    rw [List.length_set, List.length_set]
    exact hf.2.2.2.2
  · show (t.visibleLayers.set vli _).map (fun vl => vl.weights)
      = (s.visibleLayers.set vli _).map (fun vl => vl.weights)
    rw [List.map_set, List.map_set, hw]
    simp only []
    rw [hf.1, hf.2.1, hf.2.2.2.1, hcs, hwl]

/-- The learn launches of `SparseCoder::step` from two coders with the same
frame, codes and weights, with the same batch sizes, end with the same frame,
codes and weights. -/
theorem SparseCoder.learnPhase_sameButBuffers {F R : Type} [LinearOrder F] (M : RngOps R)
    (ops : FloatOps F) (noThread : Bool) (inputCs : List IntBuffer) (n : Nat)
    (a b : SparseCoder F × ComputeSystem R) (hb : a.2.batchSize2 = b.2.batchSize2)
    (h : SparseCoder.SameButBuffers a.1 b.1) :
    SparseCoder.SameButBuffers
      ((List.range n).foldl
        (fun (acc : SparseCoder F × ComputeSystem R) vli =>
          launch2 M noThread
            (fun pos rng s => SparseCoder.learn ops pos rng (inputCs.getD vli []) vli s)
            ⟨(acc.1.desc vli).size.x, (acc.1.desc vli).size.y⟩ acc.2 acc.1) a).1
      ((List.range n).foldl
        (fun (acc : SparseCoder F × ComputeSystem R) vli =>
          launch2 M noThread
            (fun pos rng s => SparseCoder.learn ops pos rng (inputCs.getD vli []) vli s)
            ⟨(acc.1.desc vli).size.x, (acc.1.desc vli).size.y⟩ acc.2 acc.1) b).1 := by
  refine (foldl_rel
    (fun (x y : SparseCoder F × ComputeSystem R) =>
      SparseCoder.SameButBuffers x.1 y.1 ∧ x.2.batchSize2 = y.2.batchSize2)
    _ _ _ ?_ a b ⟨h, hb⟩).1
  rintro ⟨x, cx⟩ ⟨y, cy⟩ vli _ ⟨hxy, hc⟩
  simp only [] at hxy hc
  constructor
  · simp only []
    rw [launch2_order M noThread
        (fun pos rng s => SparseCoder.learn ops pos rng (inputCs.getD vli []) vli s)
        (fun _ _ _ _ => rfl),
      launch2_order M noThread
        (fun pos rng s => SparseCoder.learn ops pos rng (inputCs.getD vli []) vli s)
        (fun _ _ _ _ => rfl)]
    have hd : y.desc vli = x.desc vli := by
      unfold SparseCoder.desc
      rw [hxy.1.2.1]
    rw [hd, hc]
    exact foldl_rel SparseCoder.SameButBuffers _ _ _
      (fun q q' p _ hq =>
        SparseCoder.learn_sameButBuffers ops p cx.rng cy.rng (inputCs.getD vli []) vli q q' hq)
      x y hxy
  · simp only []
    rw [launch2_snd, launch2_snd]
    exact hc


/-- The batch sizes after `SparseCoder::step` without learning are those before
it. -/
theorem SparseCoder.step_false_batchSize2 {F R : Type} [LinearOrder F] (M : RngOps R)
    (ops : FloatOps F) (noThread : Bool) (cs : ComputeSystem R) (inputCs : List IntBuffer)
    (s : SparseCoder F) :
    (SparseCoder.step M ops noThread cs inputCs false s).2.batchSize2 = cs.batchSize2 := by
  rw [SparseCoder.step_false_schedule]
  refine foldl_preserves
    (fun (acc : SparseCoder F × ComputeSystem R) => acc.2.batchSize2 = cs.batchSize2)
    _ _ ?_ (s, cs) rfl
  intro acc pass _ hacc
  cases pass with
  | forward it =>
    show (launch2 M noThread _ _ acc.2 acc.1).2.batchSize2 = _
    rw [launch2_snd]
    exact hacc
  | backward vli =>
    show (launch2 M noThread _ _ acc.2 acc.1).2.batchSize2 = _
    rw [launch2_snd]
    exact hacc

/-- `SparseCoder::step`, with launches that reach every column, from two coders
with the same frame, codes and weights and with buffers of the sizes of their
grids: the same codes and the same weights afterwards, whatever the buffers
hold. -/
theorem SparseCoder.step_sameButBuffers {F R : Type} [LinearOrder F] (M : RngOps R)
    (ops : FloatOps F) (noThread : Bool) (cs : ComputeSystem R)
    (hb : noThread = true ∨ (1 ≤ cs.batchSize2.x ∧ 1 ≤ cs.batchSize2.y))
    (inputCs : List IntBuffer) (learnEnabled : Bool) (s t : SparseCoder F)
    (h : SparseCoder.SameButBuffers s t)
    (hsize : 0 ≤ s.hiddenSize.x ∧ 0 ≤ s.hiddenSize.y ∧ 0 ≤ s.hiddenSize.z)
    (hvsize : ∀ vli, vli < s.visibleLayers.length →
      0 ≤ (s.desc vli).size.x ∧ 0 ≤ (s.desc vli).size.y)
    (ha : s.hiddenActivations.length
      = (s.hiddenSize.x * s.hiddenSize.y * s.hiddenSize.z).toNat)
    (ha' : t.hiddenActivations.length
      = (s.hiddenSize.x * s.hiddenSize.y * s.hiddenSize.z).toNat)
    (he : ∀ vli, vli < s.visibleLayers.length →
      (s.layer vli).inputErrors.length = ((s.desc vli).size.x * (s.desc vli).size.y).toNat)
    (he' : ∀ vli, vli < s.visibleLayers.length →
      (t.layer vli).inputErrors.length = ((s.desc vli).size.x * (s.desc vli).size.y).toNat) :
    (SparseCoder.step M ops noThread cs inputCs learnEnabled t).1.hiddenCs
        = (SparseCoder.step M ops noThread cs inputCs learnEnabled s).1.hiddenCs
    ∧ (SparseCoder.step M ops noThread cs inputCs learnEnabled t).1.visibleLayers.map
          (fun vl => vl.weights)
        = (SparseCoder.step M ops noThread cs inputCs learnEnabled s).1.visibleLayers.map
          (fun vl => vl.weights) := by
  have hrep := SparseCoder.replays_of_cover ops
    (fun size => launchOrder2 noThread size cs.batchSize2)
    (fun size p hp => ((launchOrder2_nodup_mem noThread size cs.batchSize2 hb).2 p).mpr hp)
    s t h hsize hvsize ha ha' he he'
  have hcodes : (SparseCoder.step M ops noThread cs inputCs false t).1.hiddenCs
      = (SparseCoder.step M ops noThread cs inputCs false s).1.hiddenCs := by
    rw [SparseCoder.step_false_fst, SparseCoder.step_false_fst]
    exact SparseCoder.encodeOn_of_replays ops _ inputCs s t h.2.1 hrep
  have hws := SparseCoder.step_false_weights M ops noThread cs inputCs s
  have hwt := SparseCoder.step_false_weights M ops noThread cs inputCs t
  have hfs : SparseCoder.SameFrame s (SparseCoder.step M ops noThread cs inputCs false s).1 := by
    rw [SparseCoder.step_false_fst]
    exact (SparseCoder.encodeOn_replays ops _ inputCs s).frame
  have hft : SparseCoder.SameFrame t (SparseCoder.step M ops noThread cs inputCs false t).1 := by
    rw [SparseCoder.step_false_fst]
    exact (SparseCoder.encodeOn_replays ops _ inputCs t).frame
  have hSB : SparseCoder.SameButBuffers (SparseCoder.step M ops noThread cs inputCs false s).1
      (SparseCoder.step M ops noThread cs inputCs false t).1 := by
    refine ⟨⟨?_, ?_, ?_, ?_, ?_⟩, hcodes, by rw [hwt, hws, h.2.2]⟩
    · rw [hft.1, hfs.1, h.1.1]
    · rw [hft.2.1, hfs.2.1, h.1.2.1]
    · rw [hft.2.2.1, hfs.2.2.1, h.1.2.2.1]
    · rw [hft.2.2.2.1, hfs.2.2.2.1, h.1.2.2.2.1]
    · rw [hft.2.2.2.2, hfs.2.2.2.2, h.1.2.2.2.2]
  cases learnEnabled
  · exact ⟨hcodes, hSB.2.2⟩
  · rw [SparseCoder.step_true_eq M ops noThread cs inputCs t,
      SparseCoder.step_true_eq M ops noThread cs inputCs s, hSB.1.2.2.2.2]
    have hl := SparseCoder.learnPhase_sameButBuffers M ops noThread inputCs
      (SparseCoder.step M ops noThread cs inputCs false s).1.visibleLayers.length
      (SparseCoder.step M ops noThread cs inputCs false s)
      (SparseCoder.step M ops noThread cs inputCs false t)
      (by rw [SparseCoder.step_false_batchSize2, SparseCoder.step_false_batchSize2]) hSB
    exact ⟨hl.2.1, hl.2.2⟩

/-! ### Claim on the step of a restored sparse coder -/

/-- C29: for a sparse coder `s` with one descriptor per visible layer,
non-negative sizes and buffers `hiddenActivations` and `inputErrors` of the
sizes of its grids, `SparseCoder::readFromStream` on the records that
`SparseCoder::writeToStream` emitted for `s` gives a coder whose
`hiddenActivations` and `inputErrors` are zero, and, for every input and
`learnEnabled` flag, in either execution mode (batch sizes of at least 1 in the
threaded one), the next `SparseCoder::step` on the restored coder ends with the
`hiddenCs` and the weights of the same step on `s`. -/
theorem restored_coder_steps_alike {F R : Type} [LinearOrder F] (M : RngOps R)
    (ops : FloatOps F) (noThread : Bool) (cs : ComputeSystem R)
    (hb : noThread = true ∨ (1 ≤ cs.batchSize2.x ∧ 1 ≤ cs.batchSize2.y))
    (inputCs : List IntBuffer) (learnEnabled : Bool) (s t : SparseCoder F)
    (rest : RecordStream F)
    (hd : s.visibleLayerDescs.length = s.visibleLayers.length)
    (hsize : 0 ≤ s.hiddenSize.x ∧ 0 ≤ s.hiddenSize.y ∧ 0 ≤ s.hiddenSize.z)
    (hvsize : ∀ vli, vli < s.visibleLayers.length →
      0 ≤ (s.desc vli).size.x ∧ 0 ≤ (s.desc vli).size.y)
    (ha : s.hiddenActivations.length
      = (s.hiddenSize.x * s.hiddenSize.y * s.hiddenSize.z).toNat)
    (he : ∀ vli, vli < s.visibleLayers.length →
      (s.layer vli).inputErrors.length = ((s.desc vli).size.x * (s.desc vli).size.y).toNat) :
    ∃ r, SparseCoder.readFromStream ops (SparseCoder.writeToStream [] s ++ rest) t
        = some (r, rest)
      ∧ r.hiddenActivations
        = List.replicate (s.hiddenSize.x * s.hiddenSize.y * s.hiddenSize.z).toNat (ops.ofInt 0)
      ∧ (∀ vli, vli < s.visibleLayers.length →
        (r.layer vli).inputErrors
          = List.replicate ((s.desc vli).size.x * (s.desc vli).size.y).toNat (ops.ofInt 0))
      ∧ (SparseCoder.step M ops noThread cs inputCs learnEnabled r).1.hiddenCs
        = (SparseCoder.step M ops noThread cs inputCs learnEnabled s).1.hiddenCs
      ∧ (SparseCoder.step M ops noThread cs inputCs learnEnabled r).1.visibleLayers.map
          (fun vl => vl.weights)
        = (SparseCoder.step M ops noThread cs inputCs learnEnabled s).1.visibleLayers.map
          (fun vl => vl.weights) := by
  have hlayer : ∀ vli, vli < s.visibleLayers.length →
      ((List.range s.visibleLayers.length).map fun vli =>
          (⟨(s.layer vli).weights,
            List.replicate ((s.desc vli).size.x * (s.desc vli).size.y).toNat (ops.ofInt 0)⟩ :
              SparseCoder.VisibleLayer F)).getD vli (SparseCoder.VisibleLayer.none F)
        = ⟨(s.layer vli).weights,
            List.replicate ((s.desc vli).size.x * (s.desc vli).size.y).toNat (ops.ofInt 0)⟩ := by
    intro vli hv
    rw [List.getD_eq_getElem _ _ (by simpa using hv), List.getElem_map, List.getElem_range]
  have hdescs : resizeWith s.visibleLayerDescs s.visibleLayers.length VisibleLayerDesc.none
      = s.visibleLayerDescs := by
    rw [← hd]
    exact resizeWith_length _ _
  have hSB : SparseCoder.SameButBuffers s
      { s with
        hiddenActivations :=
          List.replicate (s.hiddenSize.x * s.hiddenSize.y * s.hiddenSize.z).toNat (ops.ofInt 0)
        visibleLayers := (List.range s.visibleLayers.length).map fun vli =>
          ⟨(s.layer vli).weights,
            List.replicate ((s.desc vli).size.x * (s.desc vli).size.y).toNat (ops.ofInt 0)⟩
        visibleLayerDescs :=
          resizeWith s.visibleLayerDescs s.visibleLayers.length VisibleLayerDesc.none } := by
    refine ⟨⟨rfl, hdescs, rfl, rfl, by simp⟩, rfl, ?_⟩
    simp only [List.map_map]
    have e : ((fun (vl : SparseCoder.VisibleLayer F) => vl.weights) ∘ fun vli =>
          (⟨(s.layer vli).weights,
            List.replicate ((s.desc vli).size.x * (s.desc vli).size.y).toNat (ops.ofInt 0)⟩ :
              SparseCoder.VisibleLayer F))
        = (fun (vl : SparseCoder.VisibleLayer F) => vl.weights)
          ∘ (fun i => s.visibleLayers.getD i (SparseCoder.VisibleLayer.none F)) := rfl
    rw [e, ← List.map_map, map_range_getD]
  refine ⟨{ s with
      hiddenActivations :=
        List.replicate (s.hiddenSize.x * s.hiddenSize.y * s.hiddenSize.z).toNat (ops.ofInt 0)
      visibleLayers := (List.range s.visibleLayers.length).map fun vli =>
        ⟨(s.layer vli).weights,
          List.replicate ((s.desc vli).size.x * (s.desc vli).size.y).toNat (ops.ofInt 0)⟩
      visibleLayerDescs :=
        resizeWith s.visibleLayerDescs s.visibleLayers.length VisibleLayerDesc.none },
    ?_, rfl, ?_, ?_⟩
  · rw [sparseCoder_writeToStream_eq, List.nil_append]
    exact sparseCoder_readFromStream_records ops s t rest
  · intro vli hv
    show (List.getD _ vli (SparseCoder.VisibleLayer.none F)).inputErrors = _
    rw [hlayer vli hv]
  · exact SparseCoder.step_sameButBuffers M ops noThread cs hb inputCs learnEnabled s _ hSB
      hsize hvsize ha (List.length_replicate _ _) he
      (fun vli hv => by
        show (List.getD _ vli (SparseCoder.VisibleLayer.none F)).inputErrors.length = _
        rw [hlayer vli hv]
        exact List.length_replicate _ _)

theorem restored_coder_steps_alike_witness :
    ((true = true ∨ ((1 : Int) ≤ 1 ∧ (1 : Int) ≤ 1))
      ∧ (⟨⟨1, 1, 2⟩, [0], [5, 6],
          [⟨⟨2, 2, [3, 5, 2, 4], [0, 2, 1, 3], [0, 2, 4], [0, 1, 0, 1], [0, 2, 4], [0, 1, 0, 1]⟩,
            [9]⟩],
          [⟨⟨1, 1, 2⟩, 0⟩], 2, 1⟩ : SparseCoder Int).visibleLayerDescs.length = 1
      ∧ (⟨⟨1, 1, 2⟩, [0], [5, 6],
          [⟨⟨2, 2, [3, 5, 2, 4], [0, 2, 1, 3], [0, 2, 4], [0, 1, 0, 1], [0, 2, 4], [0, 1, 0, 1]⟩,
            [9]⟩],
          [⟨⟨1, 1, 2⟩, 0⟩], 2, 1⟩ : SparseCoder Int).hiddenActivations.length
        = ((1 : Int) * 1 * 2).toNat)
    ∧ ∃ r, SparseCoder.readFromStream intOps
        (SparseCoder.writeToStream []
          (⟨⟨1, 1, 2⟩, [0], [5, 6],
            [⟨⟨2, 2, [3, 5, 2, 4], [0, 2, 1, 3], [0, 2, 4], [0, 1, 0, 1], [0, 2, 4],
              [0, 1, 0, 1]⟩, [9]⟩],
            [⟨⟨1, 1, 2⟩, 0⟩], 2, 1⟩ : SparseCoder Int) ++ [])
        (⟨⟨0, 0, 0⟩, [], [], [], [], 0, 0⟩ : SparseCoder Int) = some (r, [])
      ∧ r.hiddenActivations = [0, 0]
      ∧ (SparseCoder.step counterRng intOps true ⟨0, 1, ⟨1, 1⟩⟩ [[1]] true r).1.hiddenCs
        = (SparseCoder.step counterRng intOps true ⟨0, 1, ⟨1, 1⟩⟩ [[1]] true
            (⟨⟨1, 1, 2⟩, [0], [5, 6],
              [⟨⟨2, 2, [3, 5, 2, 4], [0, 2, 1, 3], [0, 2, 4], [0, 1, 0, 1], [0, 2, 4],
                [0, 1, 0, 1]⟩, [9]⟩],
              [⟨⟨1, 1, 2⟩, 0⟩], 2, 1⟩ : SparseCoder Int)).1.hiddenCs := by
  obtain ⟨r, h1, h2, _, h4, _⟩ :=
    restored_coder_steps_alike counterRng intOps true ⟨0, 1, ⟨1, 1⟩⟩ (Or.inl rfl) [[1]] true
      (⟨⟨1, 1, 2⟩, [0], [5, 6],
        [⟨⟨2, 2, [3, 5, 2, 4], [0, 2, 1, 3], [0, 2, 4], [0, 1, 0, 1], [0, 2, 4], [0, 1, 0, 1]⟩,
          [9]⟩],
        [⟨⟨1, 1, 2⟩, 0⟩], 2, 1⟩ : SparseCoder Int)
      (⟨⟨0, 0, 0⟩, [], [], [], [], 0, 0⟩ : SparseCoder Int) [] rfl (by decide) (by decide) rfl
      (by decide)
  exact ⟨⟨Or.inl rfl, rfl, rfl⟩, r, h1, h2, h4⟩

end ogmaneo
